import Mathlib

/-!
Verification development for `src/mcmc/mcmc-mvgp.cpp`.

A shallow embedding of the multivariate Gaussian-process sampler: the Cholesky
Gaussian density `dMVNChol`, the two elliptical slice samplers `ess_eta_star`
and `ess_X`, and the three-phase driver `mcmcRcpp`.

Conventions of the embedding.

* `double` values are elements of a linearly ordered field `α` (exact
  arithmetic); `int` counters are natural numbers. The one sum whose rounding
  decides a comparison of equal operands, `log(U) + current_log_like` of lines
  70 and 154, goes through the parameter `fadd`, the sum as the processor
  returns it.
* Functions of the C, R and Armadillo libraries and of the header
  `myFunctionsHeader.h` are not part of the source file; they are taken as
  parameters (`Prims`, `Lib`).
* Every random draw is an explicit argument: the value that the generator
  hands back at that place of the program.
* A `while` loop that need not terminate takes a fuel argument, the number of
  passes it may make, and returns `none` when the fuel is used up.
-/

namespace MVGP

/-- Scalar functions and constants of the C and R math libraries, and the sum
of doubles of the processor. -/
structure Prims (α : Type) where
  /-- The function `exp`. -/
  exp : α → α
  /-- The function `log`. -/
  log : α → α
  /-- The function `sqrt`. -/
  sqrt : α → α
  /-- The function `cos`. -/
  cos : α → α
  /-- The function `sin`. -/
  sin : α → α
  /-- The function `pow`. -/
  pow : α → α → α
  /-- The constant `arma::datum::pi`. -/
  pi : α
  /-- The constant `log2pi` of the header. -/
  log2pi : α
  /-- The call `R::dnorm(x, mean, sd, true)`. -/
  dnorm : α → α → α → α
  /-- The sum `x + y` of two `double` values as the processor returns it. -/
  fadd : α → α → α

section Ess

variable {α : Type} [LinearOrderedField α]

/-- The variables of a slice-sampling loop (lines 74-76 and 158-160), together
with the number of diagnostic lines the loop has appended to `file_name`. -/
structure SliceState (α : Type) where
  /-- The angle tried by the next pass. -/
  phi_angle : α
  /-- Lower end of the bracket. -/
  phi_angle_min : α
  /-- Upper end of the bracket. -/
  phi_angle_max : α
  /-- Lines written by the last `else` branch (lines 106-114, 201-209). -/
  bug_lines : Nat

/-- Bracket set-up, lines 74-76 and 158-160: `u` is the value of
`R::runif(0.0, 1.0)` at line 74 (158). -/
def ess_init (P : Prims α) (u : α) : SliceState α :=
  { phi_angle := u * 2 * P.pi
    phi_angle_min := u * 2 * P.pi - 2 * P.pi
    phi_angle_max := u * 2 * P.pi
    bug_lines := 0 }

/-- What a pass does once its candidate is not on the slice: the `else if`
chain of lines 102-114 (197-209) followed by the new angle of line 116 (211),
where `u` is the value of that line's `R::runif(0.0, 1.0)`. -/
def slice_shrink (u : α) (s : SliceState α) : SliceState α :=
  let s1 : SliceState α :=
    if s.phi_angle > 0 then { s with phi_angle_max := s.phi_angle }
    else if s.phi_angle < 0 then { s with phi_angle_min := s.phi_angle }
    else { s with bug_lines := s.bug_lines + 1 }
  { s1 with phi_angle := u * (s1.phi_angle_max - s1.phi_angle_min) + s1.phi_angle_min }

/-- One pass of the loop body, lines 85-117 (171-212). `propose` builds the
candidate and its dependents from the angle, `loglik` is the candidate's
log-likelihood. The result is the accepted candidate (the loop ends: `test`
becomes false) or the state with which the next pass starts. -/
def slice_pass {β : Type} (propose : α → β) (loglik : β → α) (hh u : α)
    (s : SliceState α) : β ⊕ SliceState α :=
  if loglik (propose s.phi_angle) > hh then Sum.inl (propose s.phi_angle)
  else Sum.inr (slice_shrink u s)

/-- The loop `while (test)` of lines 85-117 (171-212), run for at most `fuel`
passes. Pass number `n` uses the draw `u n`. The result is the accepted
candidate and the number of diagnostic lines written, or `none` when `fuel`
passes went by without acceptance. -/
def slice_loop {β : Type} (propose : α → β) (loglik : β → α) (hh : α) (u : Nat → α) :
    Nat → Nat → SliceState α → Option (β × Nat)
  | 0, _, _ => none
  | fuel + 1, n, s =>
    match slice_pass propose loglik hh (u n) s with
    | Sum.inl out => some (out, s.bug_lines)
    | Sum.inr s1 => slice_loop propose loglik hh u fuel (n + 1) s1

/-- The expression `- 0.5 * as_scalar(accu(pow(y - mu_mat - zeta, 2.0)) / sigma2)`
of lines 68-69 and 94-95, which the driver's blocks use as well. -/
def gauss_loglik {N d : Nat} (y mu_mat zeta : Matrix (Fin N) (Fin d) α) (sigma2 : α) : α :=
  -(1 / 2) * ((∑ i, ∑ j, (y i j - mu_mat i j - zeta i j) ^ 2) / sigma2)

/-- Result list of `ess_eta_star` (lines 118-120). -/
structure EssEtaStarOut (α : Type) (N K d : Nat) where
  /-- Entry `eta_star`. -/
  eta_star : Matrix (Fin K) (Fin d) α
  /-- Entry `zeta`. -/
  zeta : Matrix (Fin N) (Fin d) α

/-- Candidate of `ess_eta_star` at an angle, lines 87-90. -/
def ess_eta_star_proposal {N K d : Nat} (P : Prims α)
    (eta_star_current : Matrix (Fin K) (Fin d) α) (eta_star_prior : Fin K → α)
    (R_tau_current : Matrix (Fin d) (Fin d) α) (Z_current : Matrix (Fin N) (Fin K) α)
    (j : Fin d) (phi_angle : α) : EssEtaStarOut α N K d :=
  let eta_star_proposal_col : Fin K → α := fun k =>
    eta_star_current k j * P.cos phi_angle + eta_star_prior k * P.sin phi_angle
  let eta_star_proposal := Matrix.updateColumn eta_star_current j eta_star_proposal_col
  { eta_star := eta_star_proposal
    zeta := Z_current * eta_star_proposal * R_tau_current }

/-- Slice level `hh` of `ess_eta_star`, lines 66-70; `u0` is the uniform draw
of line 70, and the sum of line 70 is the sum of doubles `fadd`. -/
def ess_eta_star_hh {N d : Nat} (P : Prims α)
    (y_current mu_mat_current zeta_current : Matrix (Fin N) (Fin d) α)
    (sigma2_current u0 : α) : α :=
  P.fadd (P.log u0) (gauss_loglik y_current mu_mat_current zeta_current sigma2_current)

/-- The function `ess_eta_star`, lines 50-121. The stream `u` holds the
uniform draws in program order: `u 0` at line 70, `u 1` at line 74 and
`u (n + 2)` at line 116 of pass `n`. The second component of the result counts
the diagnostic lines appended to `file_name`. -/
def ess_eta_star {N K d : Nat} (P : Prims α) (fuel : Nat) (u : Nat → α)
    (eta_star_current : Matrix (Fin K) (Fin d) α) (eta_star_prior : Fin K → α)
    (y_current mu_mat_current zeta_current : Matrix (Fin N) (Fin d) α)
    (R_tau_current : Matrix (Fin d) (Fin d) α) (Z_current : Matrix (Fin N) (Fin K) α)
    (sigma2_current : α) (j : Fin d) : Option (EssEtaStarOut α N K d × Nat) :=
  slice_loop
    (ess_eta_star_proposal P eta_star_current eta_star_prior R_tau_current Z_current j)
    (fun out => gauss_loglik y_current mu_mat_current out.zeta sigma2_current)
    (ess_eta_star_hh P y_current mu_mat_current zeta_current sigma2_current (u 0))
    (fun n => u (n + 2)) fuel 0 (ess_init P (u 1))

/-- Result list of `ess_X` (lines 213-218). -/
structure EssXOut (α : Type) (K d : Nat) where
  /-- Entry `X`. -/
  X : α
  /-- Entry `D`. -/
  D : Fin K → α
  /-- Entry `c`. -/
  c : Fin K → α
  /-- Entry `Z`. -/
  Z : Fin K → α
  /-- Entry `zeta`. -/
  zeta : Fin d → α

/-- One row of distances to the knots, as lines 175-178 of `ess_X` and
lines 903-906 of the driver build it from a re-centred position. -/
def dist_row {K : Nat} (P : Prims α) (corr_function : String) (X_knots : Fin K → α)
    (X_tilde : α) : Fin K → α :=
  let D_proposal : Fin K → α := fun k => P.sqrt ((X_tilde - X_knots k) ^ 2)
  if corr_function = "gaussian" then fun k => D_proposal k ^ 2 else D_proposal

/-- Row log-likelihood of lines 149-152 and 184-188. -/
def row_loglik {d : Nat} (P : Prims α) (y mu zeta : Fin d → α) (sigma : α) : α :=
  ∑ j, P.dnorm (y j) (mu j + zeta j) sigma

/-- Candidate of `ess_X` at an angle, lines 173-181. -/
def ess_X_proposal {K d : Nat} (P : Prims α) (corr_function : String)
    (X_current X_prior mu_X : α) (X_knots : Fin K → α)
    (eta_star_current : Matrix (Fin K) (Fin d) α)
    (R_tau_current : Matrix (Fin d) (Fin d) α) (phi_current : α)
    (C_inv_current : Matrix (Fin K) (Fin K) α) (phi_angle : α) : EssXOut α K d :=
  let X_proposal := X_current * P.cos phi_angle + X_prior * P.sin phi_angle
  let X_tilde := X_proposal + mu_X
  let D_proposal := dist_row P corr_function X_knots X_tilde
  let c_proposal : Fin K → α := fun k => P.exp (-(D_proposal k) / phi_current)
  let Z_proposal := Matrix.vecMul c_proposal C_inv_current
  let zeta_proposal := Matrix.vecMul (Matrix.vecMul Z_proposal eta_star_current) R_tau_current
  { X := X_proposal, D := D_proposal, c := c_proposal, Z := Z_proposal, zeta := zeta_proposal }

/-- The function `ess_X`, lines 128-219. The stream `u` holds the uniform
draws in program order: `u 0` at line 154, `u 1` at line 158 and `u (n + 2)` at
line 211 of pass `n`. The sum of line 154 is the sum of doubles `fadd`. The
inputs `D_current`, `c_current` and `Z_current` only initialise the save
variables of lines 164-166, which every return overwrites. -/
def ess_X {K d : Nat} (P : Prims α) (fuel : Nat) (u : Nat → α) (corr_function : String)
    (X_current X_prior mu_X : α) (X_knots : Fin K → α) (y_current mu_current : Fin d → α)
    (eta_star_current : Matrix (Fin K) (Fin d) α) (zeta_current : Fin d → α)
    (R_tau_current : Matrix (Fin d) (Fin d) α) (phi_current sigma_current : α)
    (C_inv_current : Matrix (Fin K) (Fin K) α) : Option (EssXOut α K d × Nat) :=
  slice_loop
    (ess_X_proposal P corr_function X_current X_prior mu_X X_knots eta_star_current
      R_tau_current phi_current C_inv_current)
    (fun out => row_loglik P y_current mu_current out.zeta sigma_current)
    (P.fadd (P.log (u 0)) (row_loglik P y_current mu_current zeta_current sigma_current))
    (fun n => u (n + 2)) fuel 0 (ess_init P (u 1))

/-- Loop state on entry to pass `n` when every earlier pass rejected its
candidate: `n` applications of `slice_shrink` with the draws `u 0 .. u (n-1)`. -/
def slice_entry (u : Nat → α) (s0 : SliceState α) : Nat → SliceState α
  | 0 => s0
  | n + 1 => slice_shrink (u n) (slice_entry u s0 n)

end Ess

section Density

variable {α : Type} [LinearOrderedField α]

/-- The Armadillo view `trimatu`: the entries on and above the diagonal, zero below. -/
def trimatu {k : Nat} (M : Matrix (Fin k) (Fin k) α) : Matrix (Fin k) (Fin k) α :=
  fun i j => if i ≤ j then M i j else 0

/-- The function `dMVNChol`, lines 31-43. The Armadillo function `inv` is the
parameter `inv`. -/
def dMVNChol {k : Nat} (P : Prims α)
    (inv : Matrix (Fin k) (Fin k) α → Matrix (Fin k) (Fin k) α)
    (y mu : Fin k → α) (Sigma_chol : Matrix (Fin k) (Fin k) α) (logd : Bool) : α :=
  let rooti := (inv (trimatu Sigma_chol)).transpose
  let rootisum := ∑ i, P.log (rooti i i)
  let constants := -((k : α) / 2) * P.log2pi
  let z := rooti.mulVec (y - mu)
  let out := constants - (1 / 2) * (∑ i, z i * z i) + rootisum
  if logd then out else P.exp out

end Density

section Driver

/-- Output of `updateTuningMV`, which receives its arguments after `k` by reference. -/
structure TuneMV (α : Type) (n : Nat) where
  /-- Batch acceptance rate. -/
  accept_batch : α
  /-- Proposal scale. -/
  lambda : α
  /-- Batch of draws. -/
  batch : Matrix (Fin 50) (Fin n) α
  /-- Proposal covariance. -/
  Sigma : Matrix (Fin n) (Fin n) α
  /-- Cholesky factor of the proposal covariance. -/
  Sigma_chol : Matrix (Fin n) (Fin n) α

/-- Output of `updateTuningMVMat`, which receives its arguments after `k` by reference. -/
structure TuneMVMat (α : Type) (K d : Nat) where
  /-- Batch acceptance rates, one per column. -/
  accept_batch : Fin d → α
  /-- Proposal scales, one per column. -/
  lambda : Fin d → α
  /-- Batch of draws (a cube with 50 rows). -/
  batch : Fin 50 → Matrix (Fin K) (Fin d) α
  /-- Proposal covariances, one slice per column. -/
  Sigma : Fin d → Matrix (Fin K) (Fin K) α
  /-- Cholesky factors of the proposal covariances. -/
  Sigma_chol : Fin d → Matrix (Fin K) (Fin K) α

/-- Functions of Armadillo, of R and of `myFunctionsHeader.h` that `mcmcRcpp`
calls. A sampling function receives, as its last argument, the random input
that the generator supplies to it. -/
structure Lib (α : Type) (K d B : Nat) where
  /-- Armadillo `chol`. -/
  chol : {n : Nat} → Matrix (Fin n) (Fin n) α → Matrix (Fin n) (Fin n) α
  /-- Armadillo `inv_sympd`. -/
  inv_sympd : {n : Nat} → Matrix (Fin n) (Fin n) α → Matrix (Fin n) (Fin n) α
  /-- Armadillo `inv`. -/
  inv : {n : Nat} → Matrix (Fin n) (Fin n) α → Matrix (Fin n) (Fin n) α
  /-- Header function `makeDistARMA`. -/
  makeDistARMA : {m n : Nat} → (Fin m → α) → (Fin n → α) → Matrix (Fin m) (Fin n) α
  /-- The call `makeRLKJ(xi, d, true, true)`: the pair `R`, `log_jacobian`, or
  `none` when the factory fails. -/
  makeRLKJ : (Fin B → α) → Option (Matrix (Fin d) (Fin d) α × α)
  /-- Header function `logit` on a vector. -/
  logit : (Fin B → α) → (Fin B → α)
  /-- Header function `expit` on a vector. -/
  expit : (Fin B → α) → (Fin B → α)
  /-- The call `d_half_cauchy(x, scale, true)`. -/
  d_half_cauchy : α → α → α
  /-- The call `R::dgamma(x, shape, scale, true)`. -/
  dgamma : α → α → α → α
  /-- The call `R::dbeta(x, a, b, true)`. -/
  dbeta : α → α → α → α
  /-- The call `R::rnorm(mean, sd)`. -/
  rnorm : α → α → α → α
  /-- The call `R::rgamma(shape, scale)`. -/
  rgamma : α → α → α → α
  /-- The call `R::rbeta(a, b)`. -/
  rbeta : α → α → α → α
  /-- The call `R::runif(a, b)`. -/
  runif : α → α → α → α
  /-- Header function `mvrnormArmaVecChol(mean, chol)`. -/
  mvrnormArmaVecChol : {n : Nat} → (Fin n → α) → Matrix (Fin n) (Fin n) α → (Fin n → α) →
    (Fin n → α)
  /-- The call `mvrnormArmaChol(d, zero_knots, C_chol).t()` of line 468. -/
  mvrnormArmaChol : Matrix (Fin K) (Fin K) α → Matrix (Fin K) (Fin d) α →
    Matrix (Fin K) (Fin d) α
  /-- Header function `rMVNArma(A, b)`. -/
  rMVNArma : Matrix (Fin d) (Fin d) α → (Fin d → α) → (Fin d → α) → (Fin d → α)
  /-- Header function `updateTuning(k, accept_batch, tune)`; the result is the
  pair of the two arguments passed by reference. -/
  updateTuning : Nat → α → α → α × α
  /-- Header function `updateTuningVec(k, accept_batch, tune)`. -/
  updateTuningVec : {n : Nat} → Nat → (Fin n → α) → (Fin n → α) → (Fin n → α) × (Fin n → α)
  /-- Header function `updateTuningMV`. -/
  updateTuningMV : {n : Nat} → Nat → TuneMV α n → TuneMV α n
  /-- Header function `updateTuningMVMat`. -/
  updateTuningMVMat : Nat → TuneMVMat α K d → TuneMVMat α K d

/-- The three loops of `mcmcRcpp`: lines 599-951, 966-1318 and 1330-1670. -/
inductive Phase where
  | warmup : Phase
  | adapt : Phase
  | sample : Phase
  deriving DecidableEq, Repr

/-- The variables of `mcmcRcpp` that never change once the set-up is over. -/
structure Cfg (α : Type) (N_obs N_lat K d B : Nat) where
  /-- Observation matrix. -/
  Y : Matrix (Fin (N_obs + N_lat)) (Fin d) α
  /-- Knot positions. -/
  X_knots : Fin K → α
  /-- Kernel name. -/
  corr_function : String
  /-- Flag of the pooled hyper-scale update. -/
  pool_s2_tau2 : Bool
  /-- Length of the production phase. -/
  n_mcmc : Nat
  /-- Thinning interval. -/
  n_thin : Nat
  /-- Mean of the observed covariates (line 339). -/
  mu_X : α
  /-- Standard deviation of the observed covariates (line 342). -/
  s_X : α
  /-- Prior mean of `mu`. -/
  mu_mu : α
  /-- Prior variance of `mu`. -/
  s2_mu : α
  /-- Prior standard deviation of `mu` (line 258). -/
  s_mu : α
  /-- Lower bound of `phi`. -/
  phi_L : α
  /-- Upper bound of `phi`. -/
  phi_U : α
  /-- Half-Cauchy scale of `sigma2`. -/
  s2_sigma2 : α
  /-- Upper bound of `s2_tau2`. -/
  A_s2 : α
  /-- Beta parameters of the partial correlations (lines 485-492). -/
  eta_vec : Fin B → α
  /-- Knot distances (lines 364-367). -/
  D_knots : Matrix (Fin K) (Fin K) α
  /-- Switch `sample_mu`. -/
  sample_mu : Bool
  /-- Switch `sample_mu_mh`. -/
  sample_mu_mh : Bool
  /-- Switch `sample_phi`. -/
  sample_phi : Bool
  /-- Switch `sample_eta_star`. -/
  sample_eta_star : Bool
  /-- Switch `sample_eta_star_mh`. -/
  sample_eta_star_mh : Bool
  /-- Switch `sample_sigma2`. -/
  sample_sigma2 : Bool
  /-- Switch `sample_tau2`. -/
  sample_tau2 : Bool
  /-- Switch `sample_xi`. -/
  sample_xi : Bool
  /-- Switch `sample_X`. -/
  sample_X : Bool
  /-- Switch `sample_X_mh`. -/
  sample_X_mh : Bool

/-- The variables of `mcmcRcpp` that the loops assign: parameters, derived
quantities, tuning state, and the number of diagnostic lines the slice
samplers have appended to `file_name`. -/
structure State (α : Type) (N_obs N_lat K d B : Nat) where
  mu : Fin d → α
  mu_mat : Matrix (Fin (N_obs + N_lat)) (Fin d) α
  phi : α
  lambda_sigma2 : α
  sigma2 : α
  sigma : α
  lambda_tau2 : Fin d → α
  tau2 : Fin d → α
  tau : Fin d → α
  s2_tau2 : α
  C : Matrix (Fin K) (Fin K) α
  C_chol : Matrix (Fin K) (Fin K) α
  C_inv : Matrix (Fin K) (Fin K) α
  c : Matrix (Fin (N_obs + N_lat)) (Fin K) α
  Z : Matrix (Fin (N_obs + N_lat)) (Fin K) α
  D : Matrix (Fin (N_obs + N_lat)) (Fin K) α
  eta_star : Matrix (Fin K) (Fin d) α
  xi : Fin B → α
  xi_tilde : Fin B → α
  log_jacobian : α
  R : Matrix (Fin d) (Fin d) α
  R_tau : Matrix (Fin d) (Fin d) α
  zeta : Matrix (Fin (N_obs + N_lat)) (Fin d) α
  X : Fin (N_obs + N_lat) → α
  phi_tune : α
  sigma2_tune : α
  lambda_mu_tune : α
  lambda_eta_star_tune : Fin d → α
  lambda_tau2_tune : α
  lambda_xi_tune : α
  s2_tau2_tune : α
  X_tune : Fin N_lat → α
  phi_accept : α
  phi_accept_batch : α
  sigma2_accept : α
  sigma2_accept_batch : α
  s2_tau2_accept : α
  s2_tau2_accept_batch : α
  X_accept : Fin N_lat → α
  X_accept_batch : Fin N_lat → α
  mu_accept : α
  mu_accept_batch : α
  mu_batch : Matrix (Fin 50) (Fin d) α
  Sigma_mu_tune : Matrix (Fin d) (Fin d) α
  Sigma_mu_tune_chol : Matrix (Fin d) (Fin d) α
  tau2_accept : α
  tau2_accept_batch : α
  tau2_batch : Matrix (Fin 50) (Fin d) α
  Sigma_tau2_tune : Matrix (Fin d) (Fin d) α
  Sigma_tau2_tune_chol : Matrix (Fin d) (Fin d) α
  xi_accept : α
  xi_accept_batch : α
  xi_batch : Matrix (Fin 50) (Fin B) α
  Sigma_xi_tune : Matrix (Fin B) (Fin B) α
  Sigma_xi_tune_chol : Matrix (Fin B) (Fin B) α
  eta_star_accept : Fin d → α
  eta_star_accept_batch : Fin d → α
  eta_star_batch : Fin 50 → Matrix (Fin K) (Fin d) α
  Sigma_eta_star_tune : Fin d → Matrix (Fin K) (Fin K) α
  Sigma_eta_star_tune_chol : Fin d → Matrix (Fin K) (Fin K) α
  bug_lines : Nat

/-- The random inputs of one iteration, named after the block that consumes them. -/
structure Draws (α : Type) (N_lat K d B : Nat) where
  /-- Input of the proposal or of the Gibbs draw of `mu`. -/
  mu_z : Fin d → α
  /-- Acceptance uniform of `mu`. -/
  mu_u : α
  /-- Input of the `phi` proposal. -/
  phi_z : α
  /-- Acceptance uniform of `phi`. -/
  phi_u : α
  /-- Inputs of the `eta_star` proposals, one per column. -/
  eta_z : Fin d → Fin K → α
  /-- Acceptance uniforms of `eta_star`, one per column. -/
  eta_u : Fin d → α
  /-- Inputs of the prior draws handed to `ess_eta_star`. -/
  eta_prior_z : Fin d → Fin K → α
  /-- Uniform streams of the calls of `ess_eta_star`. -/
  eta_ess_u : Fin d → Nat → α
  /-- Input of the `sigma2` proposal. -/
  sigma2_z : α
  /-- Acceptance uniform of `sigma2`. -/
  sigma2_u : α
  /-- Input of the draw of `lambda_sigma2`. -/
  lambda_sigma2_g : α
  /-- Input of the `tau2` proposal. -/
  tau2_z : Fin d → α
  /-- Acceptance uniform of `tau2`. -/
  tau2_u : α
  /-- Inputs of the draws of `lambda_tau2`. -/
  lambda_tau2_g : Fin d → α
  /-- Input of the `s2_tau2` proposal. -/
  s2_tau2_z : α
  /-- Acceptance uniform of `s2_tau2`. -/
  s2_tau2_u : α
  /-- Input of the `xi` proposal. -/
  xi_z : Fin B → α
  /-- Acceptance uniform of `xi`. -/
  xi_u : α
  /-- Inputs of the covariate proposals, one per latent entry. -/
  X_z : Fin N_lat → α
  /-- Acceptance uniforms of the covariate, one per latent entry. -/
  X_u : Fin N_lat → α
  /-- Inputs of the prior draws handed to `ess_X`. -/
  X_prior_z : Fin N_lat → α
  /-- Uniform streams of the calls of `ess_X`. -/
  X_ess_u : Fin N_lat → Nat → α

/-- How a computation of the driver ends: with a value, with the error of a
call of `stop`, or not at all (a slice-sampling loop used up its fuel). -/
inductive Run (β : Type) where
  | done : β → Run β
  | stop : String → Run β
  | hang : Run β

/-- Sequencing of two computations. -/
def Run.bind {β γ : Type} (r : Run β) (f : β → Run γ) : Run γ :=
  match r with
  | Run.done b => f b
  | Run.stop msg => Run.stop msg
  | Run.hang => Run.hang

variable {α : Type} [LinearOrderedField α] {N_obs N_lat K d B : Nat}

/-- Row `k % 50` of a batch buffer. -/
def batch_row (k : Nat) : Fin 50 := ⟨k % 50, Nat.mod_lt k (by decide)⟩

/-- Modelled from the spec: the header function `colSums`, the vector of the
column sums of a matrix. -/
def colSums {m n : Nat} (M : Matrix (Fin m) (Fin n) α) : Fin n → α := fun j => ∑ i, M i j

/-- The matrix whose rows all equal `mu` (lines 395-398, 621-624, 648-650). -/
def rows_of (mu : Fin d → α) : Matrix (Fin (N_obs + N_lat)) (Fin d) α := fun _ j => mu j

/-- Elementwise `exp(- D / phi)` (lines 453, 456, 661, 664). -/
def exp_corr {m n : Nat} (P : Prims α) (D : Matrix (Fin m) (Fin n) α) (phi : α) :
    Matrix (Fin m) (Fin n) α :=
  fun i j => P.exp (-(D i j) / phi)

/-- Proposal `mu_star` of lines 620, 987 and 1351. -/
def mu_star (L : Lib α K d B) (dr : Draws α N_lat K d B) (s : State α N_obs N_lat K d B) :
    Fin d → α :=
  L.mvrnormArmaVecChol s.mu (s.lambda_mu_tune • s.Sigma_mu_tune_chol) dr.mu_z

/-- Ratio `mh` of the update of `mu`, lines 621-631, 988-998 and 1352-1362. -/
def mu_mh (L : Lib α K d B) (P : Prims α) (C : Cfg α N_obs N_lat K d B)
    (dr : Draws α N_lat K d B) (s : State α N_obs N_lat K d B) : α :=
  let mu_mat_star : Matrix (Fin (N_obs + N_lat)) (Fin d) α := rows_of (mu_star L dr s)
  let mh1 := gauss_loglik C.Y mu_mat_star s.zeta s.sigma2 +
    ∑ j, P.dnorm (mu_star L dr s j) C.mu_mu C.s_mu
  let mh2 := gauss_loglik C.Y s.mu_mat s.zeta s.sigma2 +
    ∑ j, P.dnorm (s.mu j) C.mu_mu C.s_mu
  P.exp (mh1 - mh2)

/-- Assignments of an accepted proposal of `mu`: lines 633-635 and 1000-1002,
and lines 1364-1366 in the production loop. -/
def mu_assign (L : Lib α K d B) (C : Cfg α N_obs N_lat K d B) (ph : Phase)
    (dr : Draws α N_lat K d B) (s : State α N_obs N_lat K d B) : State α N_obs N_lat K d B :=
  match ph with
  | Phase.sample =>
    { s with mu := mu_star L dr s, mu_mat := rows_of (mu_star L dr s),
             mu_accept := s.mu_accept + 1 / (C.n_mcmc : α) }
  | _ =>
    { s with mu := mu_star L dr s, mu_mat := rows_of (mu_star L dr s),
             mu_accept_batch := s.mu_accept_batch + 1 / 50 }

/-- Batch row and tuning call of the update of `mu`: lines 637-642, 1004-1009
and 1368-1373. The three copies are the same. -/
def mu_tuning (L : Lib α K d B) (k : Nat) (s : State α N_obs N_lat K d B) :
    State α N_obs N_lat K d B :=
  if (k + 1) % 50 = 0 then
    let t := L.updateTuningMV k
      { accept_batch := s.mu_accept_batch, lambda := s.lambda_mu_tune,
        batch := Matrix.updateRow s.mu_batch (batch_row k) s.mu, Sigma := s.Sigma_mu_tune,
        Sigma_chol := s.Sigma_mu_tune_chol }
    { s with mu_accept_batch := t.accept_batch, lambda_mu_tune := t.lambda,
             mu_batch := t.batch, Sigma_mu_tune := t.Sigma,
             Sigma_mu_tune_chol := t.Sigma_chol }
  else { s with mu_batch := Matrix.updateRow s.mu_batch (batch_row k) s.mu }

/-- Gibbs draw of `mu`: lines 645-650, 1012-1017 and 1376-1381. -/
def mu_gibbs (L : Lib α K d B) (C : Cfg α N_obs N_lat K d B) (dr : Draws α N_lat K d B)
    (s : State α N_obs N_lat K d B) : State α N_obs N_lat K d B :=
  let A : Matrix (Fin d) (Fin d) α := fun i j =>
    ((N_obs + N_lat : Nat) : α) * (1 : Matrix (Fin d) (Fin d) α) i j / s.sigma2 +
      (1 : Matrix (Fin d) (Fin d) α) i j / C.s2_mu
  let b : Fin d → α := fun j =>
    colSums (C.Y - s.zeta) j / s.sigma2 + C.mu_mu * 1 / C.s2_mu
  { s with mu := L.rMVNArma A b dr.mu_z, mu_mat := rows_of (L.rMVNArma A b dr.mu_z) }

/-- Update of `mu`: lines 617-652 (warmup), 984-1019 (adaptation) and
1348-1383 (production). The three copies differ in the acceptance counter only. -/
def mu_block (L : Lib α K d B) (P : Prims α) (C : Cfg α N_obs N_lat K d B) (ph : Phase)
    (k : Nat) (dr : Draws α N_lat K d B) (s : State α N_obs N_lat K d B) :
    State α N_obs N_lat K d B :=
  if C.sample_mu then
    if C.sample_mu_mh then
      mu_tuning L k (if mu_mh L P C dr s > dr.mu_u then mu_assign L C ph dr s else s)
    else mu_gibbs L C dr s
  else s

/-- Proposal `phi_star` of lines 659, 1026 and 1390. -/
def phi_star (L : Lib α K d B) (dr : Draws α N_lat K d B) (s : State α N_obs N_lat K d B) : α :=
  s.phi + L.rnorm 0 s.phi_tune dr.phi_z

/-- Proposed fitted effect `zeta_star` of lines 661-666, 1028-1033 and 1392-1397. -/
def phi_zeta_star (L : Lib α K d B) (P : Prims α) (C : Cfg α N_obs N_lat K d B)
    (dr : Draws α N_lat K d B) (s : State α N_obs N_lat K d B) :
    Matrix (Fin (N_obs + N_lat)) (Fin d) α :=
  let C_star := exp_corr P C.D_knots (phi_star L dr s)
  let C_inv_star := L.inv_sympd C_star
  let c_star := exp_corr P s.D (phi_star L dr s)
  let Z_star := c_star * C_inv_star
  Z_star * s.eta_star * s.R_tau

/-- Ratio `mh` of the update of `phi`, lines 667-675, 1034-1042 and 1398-1406. -/
def phi_mh (L : Lib α K d B) (P : Prims α) (C : Cfg α N_obs N_lat K d B)
    (dr : Draws α N_lat K d B) (s : State α N_obs N_lat K d B) : α :=
  let C_chol_star := L.chol (exp_corr P C.D_knots (phi_star L dr s))
  let mh1 := 0 + gauss_loglik C.Y s.mu_mat (phi_zeta_star L P C dr s) s.sigma2 +
    ∑ j, dMVNChol P L.inv (fun i => s.eta_star i j) 0 C_chol_star true
  let mh2 := 0 + gauss_loglik C.Y s.mu_mat s.zeta s.sigma2 +
    ∑ j, dMVNChol P L.inv (fun i => s.eta_star i j) 0 s.C_chol true
  P.exp (mh1 - mh2)

/-- Assignments of an accepted proposal of `phi`: lines 677-684 and 1044-1051,
and lines 1408-1415 in the production loop. -/
def phi_assign (L : Lib α K d B) (P : Prims α) (C : Cfg α N_obs N_lat K d B) (ph : Phase)
    (dr : Draws α N_lat K d B) (s : State α N_obs N_lat K d B) : State α N_obs N_lat K d B :=
  match ph with
  | Phase.sample =>
    { s with phi := phi_star L dr s, C := exp_corr P C.D_knots (phi_star L dr s),
             C_chol := L.chol (exp_corr P C.D_knots (phi_star L dr s)),
             C_inv := L.inv_sympd (exp_corr P C.D_knots (phi_star L dr s)),
             c := exp_corr P s.D (phi_star L dr s),
             Z := exp_corr P s.D (phi_star L dr s) *
               L.inv_sympd (exp_corr P C.D_knots (phi_star L dr s)),
             zeta := phi_zeta_star L P C dr s,
             phi_accept := s.phi_accept + 1 / (C.n_mcmc : α) }
  | _ =>
    { s with phi := phi_star L dr s, C := exp_corr P C.D_knots (phi_star L dr s),
             C_chol := L.chol (exp_corr P C.D_knots (phi_star L dr s)),
             C_inv := L.inv_sympd (exp_corr P C.D_knots (phi_star L dr s)),
             c := exp_corr P s.D (phi_star L dr s),
             Z := exp_corr P s.D (phi_star L dr s) *
               L.inv_sympd (exp_corr P C.D_knots (phi_star L dr s)),
             zeta := phi_zeta_star L P C dr s,
             phi_accept_batch := s.phi_accept_batch + 1 / 50 }

/-- Tuning call of the update of `phi`: lines 687-690 and 1054-1057. The
production loop has none. -/
def phi_tuning (L : Lib α K d B) (ph : Phase) (k : Nat) (s : State α N_obs N_lat K d B) :
    State α N_obs N_lat K d B :=
  match ph with
  | Phase.sample => s
  | _ =>
    if (k + 1) % 50 = 0 then
      { s with phi_accept_batch := (L.updateTuning k s.phi_accept_batch s.phi_tune).1,
               phi_tune := (L.updateTuning k s.phi_accept_batch s.phi_tune).2 }
    else s

/-- Update of `phi`: lines 658-691, 1025-1058 and 1389-1418. -/
def phi_block (L : Lib α K d B) (P : Prims α) (C : Cfg α N_obs N_lat K d B) (ph : Phase)
    (k : Nat) (dr : Draws α N_lat K d B) (s : State α N_obs N_lat K d B) :
    State α N_obs N_lat K d B :=
  if C.sample_phi then
    phi_tuning L ph k
      (if phi_star L dr s > C.phi_L ∧ phi_star L dr s < C.phi_U then
        if phi_mh L P C dr s > dr.phi_u then phi_assign L P C ph dr s else s
      else s)
  else s

/-- Proposal `eta_star_star` of lines 700-703, 1067-1070 and 1428-1430. -/
def eta_star_star (L : Lib α K d B) (dr : Draws α N_lat K d B)
    (s : State α N_obs N_lat K d B) (j : Fin d) : Matrix (Fin K) (Fin d) α :=
  let step := L.mvrnormArmaVecChol 0
    (s.lambda_eta_star_tune j • s.Sigma_eta_star_tune_chol j) (dr.eta_z j)
  Matrix.updateColumn s.eta_star j (fun i => s.eta_star i j + step i)

/-- Ratio `mh` of the update of column `j` of `eta_star`, lines 704-709,
1071-1076 and 1431-1436. -/
def eta_star_mh (L : Lib α K d B) (P : Prims α) (C : Cfg α N_obs N_lat K d B)
    (dr : Draws α N_lat K d B) (s : State α N_obs N_lat K d B) (j : Fin d) : α :=
  let zeta_star := s.Z * eta_star_star L dr s j * s.R_tau
  let mh1 := dMVNChol P L.inv (fun i => eta_star_star L dr s j i j) 0 s.C_chol true +
    gauss_loglik C.Y s.mu_mat zeta_star s.sigma2
  let mh2 := dMVNChol P L.inv (fun i => s.eta_star i j) 0 s.C_chol true +
    gauss_loglik C.Y s.mu_mat s.zeta s.sigma2
  P.exp (mh1 - mh2)

/-- Assignments of an accepted proposal of column `j` of `eta_star`: lines
711-713 and 1078-1080, and lines 1438-1440 in the production loop. -/
def eta_star_assign (L : Lib α K d B) (C : Cfg α N_obs N_lat K d B) (ph : Phase)
    (dr : Draws α N_lat K d B) (s : State α N_obs N_lat K d B) (j : Fin d) :
    State α N_obs N_lat K d B :=
  match ph with
  | Phase.sample =>
    { s with eta_star := eta_star_star L dr s j,
             zeta := s.Z * eta_star_star L dr s j * s.R_tau,
             eta_star_accept := Function.update s.eta_star_accept j
               (s.eta_star_accept j + 1 / (C.n_mcmc : α)) }
  | _ =>
    { s with eta_star := eta_star_star L dr s j,
             zeta := s.Z * eta_star_star L dr s j * s.R_tau,
             eta_star_accept_batch := Function.update s.eta_star_accept_batch j
               (s.eta_star_accept_batch j + 1 / 50) }

/-- One pass of the loop over the columns of `eta_star` in the
Metropolis-Hastings update: lines 699-715, 1066-1082 and 1427-1442. -/
def eta_star_mh_col (L : Lib α K d B) (P : Prims α) (C : Cfg α N_obs N_lat K d B)
    (ph : Phase) (dr : Draws α N_lat K d B) (s : State α N_obs N_lat K d B) (j : Fin d) :
    State α N_obs N_lat K d B :=
  if eta_star_mh L P C dr s j > dr.eta_u j then eta_star_assign L C ph dr s j else s

/-- Batch row and tuning call of the update of `eta_star`: lines 717-723 and
1084-1090. The production loop has none. -/
def eta_star_tuning (L : Lib α K d B) (ph : Phase) (k : Nat) (s : State α N_obs N_lat K d B) :
    State α N_obs N_lat K d B :=
  match ph with
  | Phase.sample => s
  | _ =>
    if (k + 1) % 50 = 0 then
      let t := L.updateTuningMVMat k
        { accept_batch := s.eta_star_accept_batch, lambda := s.lambda_eta_star_tune,
          batch := Function.update s.eta_star_batch (batch_row k) s.eta_star,
          Sigma := s.Sigma_eta_star_tune, Sigma_chol := s.Sigma_eta_star_tune_chol }
      { s with eta_star_accept_batch := t.accept_batch, lambda_eta_star_tune := t.lambda,
               eta_star_batch := t.batch, Sigma_eta_star_tune := t.Sigma,
               Sigma_eta_star_tune_chol := t.Sigma_chol }
    else { s with eta_star_batch := Function.update s.eta_star_batch (batch_row k) s.eta_star }

/-- Metropolis-Hastings update of `eta_star`: lines 699-723, 1066-1090 and
1427-1442. -/
def eta_star_mh_block (L : Lib α K d B) (P : Prims α) (C : Cfg α N_obs N_lat K d B)
    (ph : Phase) (k : Nat) (dr : Draws α N_lat K d B) (s : State α N_obs N_lat K d B) :
    State α N_obs N_lat K d B :=
  eta_star_tuning L ph k ((List.finRange d).foldl (eta_star_mh_col L P C ph dr) s)

/-- Assignments of lines 1099-1100 and 1451-1452 after a call of
`ess_eta_star`, and the diagnostic lines the call appended. -/
def eta_star_ess_assign (out : EssEtaStarOut α (N_obs + N_lat) K d × Nat)
    (s : State α N_obs N_lat K d B) : State α N_obs N_lat K d B :=
  { s with eta_star := out.1.eta_star, zeta := out.1.zeta, bug_lines := s.bug_lines + out.2 }

/-- One pass of the loop over the columns of `eta_star` in the slice-sampling
update: lines 1093-1101 and 1445-1453. -/
def eta_star_ess_col (L : Lib α K d B) (P : Prims α) (C : Cfg α N_obs N_lat K d B)
    (fuel : Nat) (dr : Draws α N_lat K d B) (s : State α N_obs N_lat K d B) (j : Fin d) :
    Run (State α N_obs N_lat K d B) :=
  let eta_star_prior := L.mvrnormArmaVecChol 0 s.C_chol (dr.eta_prior_z j)
  match ess_eta_star P fuel (dr.eta_ess_u j) s.eta_star eta_star_prior C.Y s.mu_mat s.zeta
      s.R_tau s.Z s.sigma2 j with
  | none => Run.hang
  | some out => Run.done (eta_star_ess_assign out s)

/-- Update of `eta_star`: lines 697-736, 1064-1103 and 1424-1455. The warmup
copy has the slice-sampling branch commented out. -/
def eta_star_block (L : Lib α K d B) (P : Prims α) (C : Cfg α N_obs N_lat K d B)
    (ph : Phase) (fuel k : Nat) (dr : Draws α N_lat K d B) (s : State α N_obs N_lat K d B) :
    Run (State α N_obs N_lat K d B) :=
  if C.sample_eta_star then
    match ph with
    | Phase.warmup => Run.done (eta_star_mh_block L P C ph k dr s)
    | _ =>
      if C.sample_eta_star_mh then Run.done (eta_star_mh_block L P C ph k dr s)
      else (List.finRange d).foldl
        (fun r j => r.bind (fun s1 => eta_star_ess_col L P C fuel dr s1 j)) (Run.done s)
  else Run.done s

/-- Proposal `sigma2_star` of lines 743, 1110 and 1462. -/
def sigma2_star (L : Lib α K d B) (dr : Draws α N_lat K d B)
    (s : State α N_obs N_lat K d B) : α :=
  s.sigma2 + L.rnorm 0 s.sigma2_tune dr.sigma2_z

/-- Ratio `mh` of the update of `sigma2`, lines 745-752, 1112-1119 and 1464-1471. -/
def sigma2_mh (L : Lib α K d B) (P : Prims α) (C : Cfg α N_obs N_lat K d B)
    (dr : Draws α N_lat K d B) (s : State α N_obs N_lat K d B) : α :=
  let sigma_star := P.sqrt (sigma2_star L dr s)
  let mh1 := L.dgamma (sigma2_star L dr s) (1 / 2) (1 / s.lambda_sigma2) +
    (-((N_obs + N_lat : Nat) : α) * (d : α) * P.log sigma_star +
      gauss_loglik C.Y s.mu_mat s.zeta (sigma2_star L dr s))
  let mh2 := L.dgamma s.sigma2 (1 / 2) (1 / s.lambda_sigma2) +
    (-((N_obs + N_lat : Nat) : α) * (d : α) * P.log s.sigma +
      gauss_loglik C.Y s.mu_mat s.zeta s.sigma2)
  P.exp (mh1 - mh2)

/-- Assignments of an accepted proposal of `sigma2`: lines 754-756 and
1121-1123, and lines 1473-1475 in the production loop. -/
def sigma2_assign (L : Lib α K d B) (P : Prims α) (C : Cfg α N_obs N_lat K d B) (ph : Phase)
    (dr : Draws α N_lat K d B) (s : State α N_obs N_lat K d B) : State α N_obs N_lat K d B :=
  match ph with
  | Phase.sample =>
    { s with sigma2 := sigma2_star L dr s, sigma := P.sqrt (sigma2_star L dr s),
             sigma2_accept := s.sigma2_accept + 1 / (C.n_mcmc : α) }
  | _ =>
    { s with sigma2 := sigma2_star L dr s, sigma := P.sqrt (sigma2_star L dr s),
             sigma2_accept_batch := s.sigma2_accept_batch + 1 / 50 }

/-- Tuning call of the update of `sigma2`: lines 760-762 and 1127-1129. The
production loop has none. -/
def sigma2_tuning (L : Lib α K d B) (ph : Phase) (k : Nat) (s : State α N_obs N_lat K d B) :
    State α N_obs N_lat K d B :=
  match ph with
  | Phase.sample => s
  | _ =>
    if (k + 1) % 50 = 0 then
      { s with sigma2_accept_batch := (L.updateTuning k s.sigma2_accept_batch s.sigma2_tune).1,
               sigma2_tune := (L.updateTuning k s.sigma2_accept_batch s.sigma2_tune).2 }
    else s

/-- Update of `sigma2`: lines 742-763, 1109-1130 and 1461-1478. -/
def sigma2_block (L : Lib α K d B) (P : Prims α) (C : Cfg α N_obs N_lat K d B) (ph : Phase)
    (k : Nat) (dr : Draws α N_lat K d B) (s : State α N_obs N_lat K d B) :
    State α N_obs N_lat K d B :=
  if C.sample_sigma2 then
    sigma2_tuning L ph k
      (if sigma2_star L dr s > 0 then
        if sigma2_mh L P C dr s > dr.sigma2_u then sigma2_assign L P C ph dr s else s
      else s)
  else s

/-- Draw of `lambda_sigma2`: lines 769, 1136 and 1484. -/
def lambda_sigma2_block (L : Lib α K d B) (C : Cfg α N_obs N_lat K d B)
    (dr : Draws α N_lat K d B) (s : State α N_obs N_lat K d B) : State α N_obs N_lat K d B :=
  { s with lambda_sigma2 := L.rgamma 1 (1 / (C.s2_sigma2 + s.sigma2)) dr.lambda_sigma2_g }

/-- Proposal `log_tau2_star` of lines 776-777, 1143-1144 and 1491-1492. -/
def log_tau2_star (L : Lib α K d B) (P : Prims α) (dr : Draws α N_lat K d B)
    (s : State α N_obs N_lat K d B) : Fin d → α :=
  L.mvrnormArmaVecChol (fun j => P.log (s.tau2 j))
    (s.lambda_tau2_tune • s.Sigma_tau2_tune_chol) dr.tau2_z

/-- Proposal `tau2_star` of lines 778, 1145 and 1493. -/
def tau2_star (L : Lib α K d B) (P : Prims α) (dr : Draws α N_lat K d B)
    (s : State α N_obs N_lat K d B) : Fin d → α :=
  fun j => P.exp (log_tau2_star L P dr s j)

/-- Proposed scale `R_tau_star` of lines 780-781, 1147-1148 and 1495-1496. -/
def tau2_R_tau_star (L : Lib α K d B) (P : Prims α) (dr : Draws α N_lat K d B)
    (s : State α N_obs N_lat K d B) : Matrix (Fin d) (Fin d) α :=
  s.R * Matrix.diagonal (fun j => P.sqrt (tau2_star L P dr s j))

/-- Ratio `mh` of the update of `tau2`, lines 782-793, 1149-1160 and 1497-1508. -/
def tau2_mh (L : Lib α K d B) (P : Prims α) (C : Cfg α N_obs N_lat K d B)
    (dr : Draws α N_lat K d B) (s : State α N_obs N_lat K d B) : α :=
  let zeta_star := s.Z * s.eta_star * tau2_R_tau_star L P dr s
  let mh1 := gauss_loglik C.Y s.mu_mat zeta_star s.sigma2 +
    (∑ j, log_tau2_star L P dr s j) +
    ∑ j, L.d_half_cauchy (tau2_star L P dr s j) s.s2_tau2
  let mh2 := gauss_loglik C.Y s.mu_mat s.zeta s.sigma2 + (∑ j, P.log (s.tau2 j)) +
    ∑ j, L.d_half_cauchy (s.tau2 j) s.s2_tau2
  P.exp (mh1 - mh2)

/-- Assignments of an accepted proposal of `tau2`: lines 795-799 and
1162-1166, and lines 1510-1514 in the production loop. -/
def tau2_assign (L : Lib α K d B) (P : Prims α) (C : Cfg α N_obs N_lat K d B) (ph : Phase)
    (dr : Draws α N_lat K d B) (s : State α N_obs N_lat K d B) : State α N_obs N_lat K d B :=
  match ph with
  | Phase.sample =>
    { s with tau2 := tau2_star L P dr s, tau := fun j => P.sqrt (tau2_star L P dr s j),
             R_tau := tau2_R_tau_star L P dr s,
             zeta := s.Z * s.eta_star * tau2_R_tau_star L P dr s,
             tau2_accept := s.tau2_accept + 1 / (C.n_mcmc : α) }
  | _ =>
    { s with tau2 := tau2_star L P dr s, tau := fun j => P.sqrt (tau2_star L P dr s j),
             R_tau := tau2_R_tau_star L P dr s,
             zeta := s.Z * s.eta_star * tau2_R_tau_star L P dr s,
             tau2_accept_batch := s.tau2_accept_batch + 1 / 50 }

/-- Batch row and tuning call of the update of `tau2`: lines 803-808 and
1170-1175. The production loop has none. -/
def tau2_tuning (L : Lib α K d B) (P : Prims α) (ph : Phase) (k : Nat)
    (s : State α N_obs N_lat K d B) : State α N_obs N_lat K d B :=
  match ph with
  | Phase.sample => s
  | _ =>
    if (k + 1) % 50 = 0 then
      let t := L.updateTuningMV k
        { accept_batch := s.tau2_accept_batch, lambda := s.lambda_tau2_tune,
          batch := Matrix.updateRow s.tau2_batch (batch_row k) (fun j => P.log (s.tau2 j)),
          Sigma := s.Sigma_tau2_tune, Sigma_chol := s.Sigma_tau2_tune_chol }
      { s with tau2_accept_batch := t.accept_batch, lambda_tau2_tune := t.lambda,
               tau2_batch := t.batch, Sigma_tau2_tune := t.Sigma,
               Sigma_tau2_tune_chol := t.Sigma_chol }
    else
      { s with tau2_batch :=
          Matrix.updateRow s.tau2_batch (batch_row k) (fun j => P.log (s.tau2 j)) }

/-- Update of `tau2`: lines 775-809, 1142-1176 and 1490-1517. -/
def tau2_block (L : Lib α K d B) (P : Prims α) (C : Cfg α N_obs N_lat K d B) (ph : Phase)
    (k : Nat) (dr : Draws α N_lat K d B) (s : State α N_obs N_lat K d B) :
    State α N_obs N_lat K d B :=
  if C.sample_tau2 then
    tau2_tuning L P ph k
      (if ∀ j, tau2_star L P dr s j > 0 then
        if tau2_mh L P C dr s > dr.tau2_u then tau2_assign L P C ph dr s else s
      else s)
  else s

/-- Draw of `lambda_tau2`: lines 815-817, 1182-1184 and 1523-1525. -/
def lambda_tau2_block (L : Lib α K d B) (dr : Draws α N_lat K d B)
    (s : State α N_obs N_lat K d B) : State α N_obs N_lat K d B :=
  { s with lambda_tau2 := fun j => L.rgamma 1 (1 / (s.s2_tau2 + s.tau2 j)) (dr.lambda_tau2_g j) }

/-- Proposal `s2_tau2_star` of lines 824, 1191 and 1532. -/
def s2_tau2_star (L : Lib α K d B) (dr : Draws α N_lat K d B)
    (s : State α N_obs N_lat K d B) : α :=
  s.s2_tau2 + L.rnorm 0 s.s2_tau2_tune dr.s2_tau2_z

/-- Ratio `mh` of the update of `s2_tau2`, lines 826-832, 1193-1199 and 1534-1540. -/
def s2_tau2_mh (L : Lib α K d B) (P : Prims α) (dr : Draws α N_lat K d B)
    (s : State α N_obs N_lat K d B) : α :=
  let mh1 := 0 + ∑ j, L.dgamma (s.lambda_tau2 j) (1 / 2) (1 / s2_tau2_star L dr s)
  let mh2 := 0 + ∑ j, L.dgamma (s.lambda_tau2 j) (1 / 2) (1 / s.s2_tau2)
  P.exp (mh1 - mh2)

/-- Assignments of an accepted proposal of `s2_tau2`: lines 834-835 and
1201-1202, and lines 1542-1543 in the production loop. -/
def s2_tau2_assign (L : Lib α K d B) (C : Cfg α N_obs N_lat K d B) (ph : Phase)
    (dr : Draws α N_lat K d B) (s : State α N_obs N_lat K d B) : State α N_obs N_lat K d B :=
  match ph with
  | Phase.sample =>
    { s with s2_tau2 := s2_tau2_star L dr s,
             s2_tau2_accept := s.s2_tau2_accept + 1 / (C.n_mcmc : α) }
  | _ =>
    { s with s2_tau2 := s2_tau2_star L dr s,
             s2_tau2_accept_batch := s.s2_tau2_accept_batch + 1 / 50 }

/-- Tuning call of the update of `s2_tau2`: lines 840-842 and 1207-1209, which
stand outside the test of `pool_s2_tau2`. The production loop has none. -/
def s2_tau2_tuning (L : Lib α K d B) (ph : Phase) (k : Nat) (s : State α N_obs N_lat K d B) :
    State α N_obs N_lat K d B :=
  match ph with
  | Phase.sample => s
  | _ =>
    if (k + 1) % 50 = 0 then
      { s with s2_tau2_accept_batch :=
                 (L.updateTuning k s.s2_tau2_accept_batch s.s2_tau2_tune).1,
               s2_tau2_tune := (L.updateTuning k s.s2_tau2_accept_batch s.s2_tau2_tune).2 }
    else s

/-- Update of `s2_tau2`: lines 823-842, 1190-1209 and 1531-1546. -/
def s2_tau2_block (L : Lib α K d B) (P : Prims α) (C : Cfg α N_obs N_lat K d B) (ph : Phase)
    (k : Nat) (dr : Draws α N_lat K d B) (s : State α N_obs N_lat K d B) :
    State α N_obs N_lat K d B :=
  s2_tau2_tuning L ph k
    (if C.pool_s2_tau2 then
      if s2_tau2_star L dr s > 0 ∧ s2_tau2_star L dr s < C.A_s2 then
        if s2_tau2_mh L P dr s > dr.s2_tau2_u then s2_tau2_assign L C ph dr s else s
      else s
    else s)

/-- Error raised when the correlation factory `makeRLKJ` fails. -/
def makeRLKJ_error : String := "makeRLKJ: xi outside (-1, 1)"

/-- Proposal `xi_tilde_star` of lines 849-851, 1216-1218 and 1553-1555. -/
def xi_tilde_star (L : Lib α K d B) (dr : Draws α N_lat K d B)
    (s : State α N_obs N_lat K d B) : Fin B → α :=
  L.expit (L.mvrnormArmaVecChol (L.logit s.xi_tilde)
    (s.lambda_xi_tune • s.Sigma_xi_tune_chol) dr.xi_z)

/-- Proposal `xi_star` of lines 852, 1219 and 1556. -/
def xi_star (L : Lib α K d B) (dr : Draws α N_lat K d B)
    (s : State α N_obs N_lat K d B) : Fin B → α :=
  fun b => 2 * xi_tilde_star L dr s b - 1

/-- Ratio `mh` of the update of `xi`, lines 856-870, 1223-1237 and 1560-1574,
given the result `R_out` of the factory call. -/
def xi_mh (L : Lib α K d B) (P : Prims α) (C : Cfg α N_obs N_lat K d B)
    (dr : Draws α N_lat K d B) (s : State α N_obs N_lat K d B)
    (R_out : Matrix (Fin d) (Fin d) α × α) : α :=
  let R_tau_star := R_out.1 * Matrix.diagonal s.tau
  let zeta_star := s.Z * s.eta_star * R_tau_star
  let mh1 := gauss_loglik C.Y s.mu_mat zeta_star s.sigma2 +
    (∑ b, (P.log (xi_tilde_star L dr s b) + P.log (1 - xi_tilde_star L dr s b))) +
    ∑ b, L.dbeta (1 / 2 * (xi_star L dr s b + 1)) (C.eta_vec b) (C.eta_vec b)
  let mh2 := gauss_loglik C.Y s.mu_mat s.zeta s.sigma2 +
    (∑ b, (P.log (s.xi_tilde b) + P.log (1 - s.xi_tilde b))) +
    ∑ b, L.dbeta (1 / 2 * (s.xi b + 1)) (C.eta_vec b) (C.eta_vec b)
  P.exp (mh1 - mh2)

/-- Assignments of an accepted proposal of `xi`: lines 872-878 and 1239-1245,
and lines 1576-1582 in the production loop. -/
def xi_assign (L : Lib α K d B) (C : Cfg α N_obs N_lat K d B) (ph : Phase)
    (dr : Draws α N_lat K d B) (s : State α N_obs N_lat K d B)
    (R_out : Matrix (Fin d) (Fin d) α × α) : State α N_obs N_lat K d B :=
  match ph with
  | Phase.sample =>
    { s with xi_tilde := xi_tilde_star L dr s, xi := xi_star L dr s, R := R_out.1,
             R_tau := R_out.1 * Matrix.diagonal s.tau, log_jacobian := R_out.2,
             zeta := s.Z * s.eta_star * (R_out.1 * Matrix.diagonal s.tau),
             xi_accept := s.xi_accept + 1 / (C.n_mcmc : α) }
  | _ =>
    { s with xi_tilde := xi_tilde_star L dr s, xi := xi_star L dr s, R := R_out.1,
             R_tau := R_out.1 * Matrix.diagonal s.tau, log_jacobian := R_out.2,
             zeta := s.Z * s.eta_star * (R_out.1 * Matrix.diagonal s.tau),
             xi_accept_batch := s.xi_accept_batch + 1 / 50 }

/-- Batch row and tuning call of the update of `xi`: lines 883-889 and
1250-1256. The production loop has none. -/
def xi_tuning (L : Lib α K d B) (ph : Phase) (k : Nat) (s : State α N_obs N_lat K d B) :
    State α N_obs N_lat K d B :=
  match ph with
  | Phase.sample => s
  | _ =>
    if (k + 1) % 50 = 0 then
      let t := L.updateTuningMV k
        { accept_batch := s.xi_accept_batch, lambda := s.lambda_xi_tune,
          batch := Matrix.updateRow s.xi_batch (batch_row k) (L.logit s.xi_tilde),
          Sigma := s.Sigma_xi_tune, Sigma_chol := s.Sigma_xi_tune_chol }
      { s with xi_accept_batch := t.accept_batch, lambda_xi_tune := t.lambda,
               xi_batch := t.batch, Sigma_xi_tune := t.Sigma,
               Sigma_xi_tune_chol := t.Sigma_chol }
    else
      { s with xi_batch := Matrix.updateRow s.xi_batch (batch_row k) (L.logit s.xi_tilde) }

/-- The proposal part of the update of `xi`, lines 849-880, 1216-1247 and
1553-1584: the state after the acceptance test, or the error of the factory. -/
def xi_propose (L : Lib α K d B) (P : Prims α) (C : Cfg α N_obs N_lat K d B) (ph : Phase)
    (dr : Draws α N_lat K d B) (s : State α N_obs N_lat K d B) :
    Run (State α N_obs N_lat K d B) :=
  if (∀ b, xi_star L dr s b > -1) ∧ (∀ b, xi_star L dr s b < 1) then
    match L.makeRLKJ (xi_star L dr s) with
    | none => Run.stop makeRLKJ_error
    | some R_out =>
      Run.done (if xi_mh L P C dr s R_out > dr.xi_u then xi_assign L C ph dr s R_out else s)
  else Run.done s

/-- Update of `xi`: lines 848-890, 1215-1257 and 1552-1585. -/
def xi_block (L : Lib α K d B) (P : Prims α) (C : Cfg α N_obs N_lat K d B) (ph : Phase)
    (k : Nat) (dr : Draws α N_lat K d B) (s : State α N_obs N_lat K d B) :
    Run (State α N_obs N_lat K d B) :=
  if C.sample_xi then
    (xi_propose L P C ph dr s).bind fun s1 => Run.done (xi_tuning L ph k s1)
  else Run.done s

/-- Proposal `X_star(i)` of lines 900-901, 1267-1268 and 1595-1596, for the
latent entry `i = N_obs + l`. -/
def X_star (L : Lib α K d B) (dr : Draws α N_lat K d B) (s : State α N_obs N_lat K d B)
    (l : Fin N_lat) : α :=
  s.X (Fin.natAdd N_obs l) + L.rnorm 0 (s.X_tune l) (dr.X_z l)

/-- The proposed rows of lines 903-910, 1270-1277 and 1598-1605. -/
def X_mh_proposal (L : Lib α K d B) (P : Prims α) (C : Cfg α N_obs N_lat K d B)
    (dr : Draws α N_lat K d B) (s : State α N_obs N_lat K d B) (l : Fin N_lat) :
    EssXOut α K d :=
  let D_proposal := dist_row P C.corr_function C.X_knots (X_star L dr s l + C.mu_X)
  let c_proposal : Fin K → α := fun k => P.exp (-(D_proposal k) / s.phi)
  let Z_proposal := Matrix.vecMul c_proposal s.C_inv
  let zeta_proposal := Matrix.vecMul (Matrix.vecMul Z_proposal s.eta_star) s.R_tau
  { X := X_star L dr s l, D := D_proposal, c := c_proposal, Z := Z_proposal,
    zeta := zeta_proposal }

/-- Ratio `mh` of the update of a latent covariate, lines 911-919, 1278-1286
and 1606-1614. -/
def X_mh (L : Lib α K d B) (P : Prims α) (C : Cfg α N_obs N_lat K d B)
    (dr : Draws α N_lat K d B) (s : State α N_obs N_lat K d B) (l : Fin N_lat) : α :=
  let i : Fin (N_obs + N_lat) := Fin.natAdd N_obs l
  let mh1 := P.dnorm (X_star L dr s l) 0 C.s_X +
    ∑ j, P.dnorm (C.Y i j) (s.mu j + (X_mh_proposal L P C dr s l).zeta j) s.sigma
  let mh2 := P.dnorm (s.X i) 0 C.s_X +
    ∑ j, P.dnorm (C.Y i j) (s.mu j + s.zeta i j) s.sigma
  P.exp (mh1 - mh2)

/-- Assignments of an accepted proposal of a latent covariate: lines 921-926,
1288-1293 and 1616-1621. The three copies are the same. -/
def X_assign (L : Lib α K d B) (P : Prims α) (C : Cfg α N_obs N_lat K d B)
    (dr : Draws α N_lat K d B) (s : State α N_obs N_lat K d B) (l : Fin N_lat) :
    State α N_obs N_lat K d B :=
  { s with X := Function.update s.X (Fin.natAdd N_obs l) (X_star L dr s l),
           D := Matrix.updateRow s.D (Fin.natAdd N_obs l) (X_mh_proposal L P C dr s l).D,
           c := Matrix.updateRow s.c (Fin.natAdd N_obs l) (X_mh_proposal L P C dr s l).c,
           Z := Matrix.updateRow s.Z (Fin.natAdd N_obs l) (X_mh_proposal L P C dr s l).Z,
           zeta := Matrix.updateRow s.zeta (Fin.natAdd N_obs l)
             (X_mh_proposal L P C dr s l).zeta,
           X_accept_batch := Function.update s.X_accept_batch l (s.X_accept_batch l + 1 / 50) }

/-- One pass of the loop over the latent covariates in the
Metropolis-Hastings update: lines 899-928, 1266-1295 and 1594-1623. -/
def X_mh_col (L : Lib α K d B) (P : Prims α) (C : Cfg α N_obs N_lat K d B)
    (dr : Draws α N_lat K d B) (s : State α N_obs N_lat K d B) (l : Fin N_lat) :
    State α N_obs N_lat K d B :=
  if X_mh L P C dr s l > dr.X_u l then X_assign L P C dr s l else s

/-- Tuning call of the update of the latent covariates: lines 930-932,
1297-1299 and 1625-1627. The three copies are the same. -/
def X_tuning (L : Lib α K d B) (k : Nat) (s : State α N_obs N_lat K d B) :
    State α N_obs N_lat K d B :=
  if (k + 1) % 50 = 0 then
    { s with X_accept_batch := (L.updateTuningVec k s.X_accept_batch s.X_tune).1,
             X_tune := (L.updateTuningVec k s.X_accept_batch s.X_tune).2 }
  else s

/-- Metropolis-Hastings update of the latent covariates: lines 899-932,
1266-1299 and 1594-1627. -/
def X_mh_block (L : Lib α K d B) (P : Prims α) (C : Cfg α N_obs N_lat K d B)
    (k : Nat) (dr : Draws α N_lat K d B) (s : State α N_obs N_lat K d B) :
    State α N_obs N_lat K d B :=
  X_tuning L k ((List.finRange N_lat).foldl (X_mh_col L P C dr) s)

/-- Assignments of lines 1309-1313 and 1637-1641 after a call of `ess_X`, and
the diagnostic lines the call appended. -/
def X_ess_assign (l : Fin N_lat) (out : EssXOut α K d × Nat)
    (s : State α N_obs N_lat K d B) : State α N_obs N_lat K d B :=
  { s with X := Function.update s.X (Fin.natAdd N_obs l) out.1.X,
           D := Matrix.updateRow s.D (Fin.natAdd N_obs l) out.1.D,
           c := Matrix.updateRow s.c (Fin.natAdd N_obs l) out.1.c,
           Z := Matrix.updateRow s.Z (Fin.natAdd N_obs l) out.1.Z,
           zeta := Matrix.updateRow s.zeta (Fin.natAdd N_obs l) out.1.zeta,
           bug_lines := s.bug_lines + out.2 }

/-- One pass of the loop over the latent covariates in the slice-sampling
update: lines 1302-1314 and 1630-1642. -/
def X_ess_col (L : Lib α K d B) (P : Prims α) (C : Cfg α N_obs N_lat K d B)
    (fuel : Nat) (dr : Draws α N_lat K d B) (s : State α N_obs N_lat K d B) (l : Fin N_lat) :
    Run (State α N_obs N_lat K d B) :=
  let i : Fin (N_obs + N_lat) := Fin.natAdd N_obs l
  let X_prior := L.rnorm 0 C.s_X (dr.X_prior_z l)
  match ess_X P fuel (dr.X_ess_u l) C.corr_function (s.X i) X_prior C.mu_X C.X_knots
      (fun j => C.Y i j) s.mu s.eta_star (fun j => s.zeta i j) s.R_tau s.phi s.sigma
      s.C_inv with
  | none => Run.hang
  | some out => Run.done (X_ess_assign l out s)

/-- Update of the latent covariates: lines 896-949, 1263-1316 and 1591-1644.
The warmup copy has the slice-sampling branch commented out. -/
def X_block (L : Lib α K d B) (P : Prims α) (C : Cfg α N_obs N_lat K d B)
    (ph : Phase) (fuel k : Nat) (dr : Draws α N_lat K d B) (s : State α N_obs N_lat K d B) :
    Run (State α N_obs N_lat K d B) :=
  if C.sample_X then
    match ph with
    | Phase.warmup => Run.done (X_mh_block L P C k dr s)
    | _ =>
      if C.sample_X_mh then Run.done (X_mh_block L P C k dr s)
      else (List.finRange N_lat).foldl
        (fun r l => r.bind (fun s1 => X_ess_col L P C fuel dr s1 l)) (Run.done s)
  else Run.done s

/-- The body of one iteration of a phase loop, without the recording step:
lines 613-949, 980-1316 and 1344-1644. -/
def iteration (L : Lib α K d B) (P : Prims α) (C : Cfg α N_obs N_lat K d B)
    (ph : Phase) (fuel k : Nat) (dr : Draws α N_lat K d B) (s : State α N_obs N_lat K d B) :
    Run (State α N_obs N_lat K d B) :=
  let s1 := mu_block L P C ph k dr s
  let s2 := phi_block L P C ph k dr s1
  (eta_star_block L P C ph fuel k dr s2).bind fun s3 =>
    let s4 := sigma2_block L P C ph k dr s3
    let s5 := lambda_sigma2_block L C dr s4
    let s6 := tau2_block L P C ph k dr s5
    let s7 := lambda_tau2_block L dr s6
    let s8 := s2_tau2_block L P C ph k dr s7
    (xi_block L P C ph k dr s8).bind fun s9 => X_block L P C ph fuel k dr s9

/-- The loop `for (int k=0; k<n; k++)` around a body `iter k`. -/
def phase_loop {β : Type} (iter : Nat → β → Run β) : Nat → β → Run β
  | 0, b => Run.done b
  | n + 1, b => (phase_loop iter n b).bind (iter n)

/-- One row of the returned list (lines 1702-1715). -/
structure Record (α : Type) (N_obs N_lat K d B : Nat) where
  mu : Fin d → α
  eta_star : Matrix (Fin K) (Fin d) α
  zeta : Matrix (Fin (N_obs + N_lat)) (Fin d) α
  Omega : Matrix (Fin d) (Fin d) α
  phi : α
  sigma2 : α
  tau2 : Fin d → α
  X : Fin N_lat → α
  R : Matrix (Fin d) (Fin d) α
  R_tau : Matrix (Fin d) (Fin d) α
  xi : Fin B → α

/-- The values that lines 1652-1668 store for the returned list. -/
def save_record (C : Cfg α N_obs N_lat K d B) (s : State α N_obs N_lat K d B) :
    Record α N_obs N_lat K d B :=
  { mu := s.mu, eta_star := s.eta_star, zeta := s.zeta, Omega := s.R.transpose * s.R,
    phi := s.phi, sigma2 := s.sigma2, tau2 := s.tau2,
    X := fun l => s.X (Fin.natAdd N_obs l) + C.mu_X,
    R := s.R, R_tau := s.R_tau, xi := s.xi }

/-- The save arrays of lines 516-533: `n_save` rows; `rows m` lists, oldest
first, the records that have been written into row `m` (a row never written
holds its initial zeros and has the empty list). -/
structure Sink (α : Type) (N_obs N_lat K d B : Nat) where
  n_save : Nat
  rows : Nat → List (Record α N_obs N_lat K d B)

/-- Error of an Armadillo access outside the bounds of an array. -/
def bounds_error : String := "index out of bounds"

/-- The recording step of lines 1650-1669. -/
def save_step (C : Cfg α N_obs N_lat K d B) (k : Nat) (s : State α N_obs N_lat K d B)
    (sink : Sink α N_obs N_lat K d B) : Run (Sink α N_obs N_lat K d B) :=
  if (k + 1) % C.n_thin = 0 then
    let save_idx : Int := (((k + 1) / C.n_thin : Nat) : Int) - 1
    if 0 ≤ save_idx ∧ save_idx < (sink.n_save : Int) then
      let row := sink.rows save_idx.toNat ++ [save_record C s]
      Run.done { sink with rows := Function.update sink.rows save_idx.toNat row }
    else Run.stop bounds_error
  else Run.done sink

/-- The body of the production loop, lines 1330-1670: an iteration followed by
the recording step. -/
def sample_step (L : Lib α K d B) (P : Prims α) (C : Cfg α N_obs N_lat K d B) (fuel : Nat)
    (dr : Nat → Draws α N_lat K d B) (k : Nat)
    (x : State α N_obs N_lat K d B × Sink α N_obs N_lat K d B) :
    Run (State α N_obs N_lat K d B × Sink α N_obs N_lat K d B) :=
  (iteration L P C Phase.sample fuel k (dr k) x.1).bind fun s1 =>
    (save_step C k s1 x.2).bind fun sink1 => Run.done (s1, sink1)

/-- The list `params` (lines 230-506). An entry that
`containsElementNamed` may find is optional. -/
structure Params (α : Type) (K d B : Nat) where
  n_adapt : Nat
  n_mcmc : Nat
  n_thin : Nat
  n_warmup : Option Nat
  mu_mu : Option α
  s2_mu : Option α
  phi_L : Option α
  phi_U : Option α
  s2_sigma2 : Option α
  A_s2 : Option α
  s2_tau2 : Option α
  eta : Option α
  phi_tune : Option α
  sigma2_tune : Option α
  lambda_mu_tune : Option α
  lambda_eta_star_tune : Option α
  lambda_tau2_tune : Option α
  lambda_xi_tune : Option α
  X_tune : Option α
  X_knots : Fin K → α
  sample_X : Option Bool
  sample_X_mh : Option Bool
  mu : Option (Fin d → α)
  sample_mu : Option Bool
  sample_mu_mh : Option Bool
  phi : Option α
  sample_phi : Option Bool
  sigma2 : Option α
  sample_sigma2 : Option Bool
  tau2 : Option (Fin d → α)
  sample_tau2 : Option Bool
  eta_star : Option (Matrix (Fin K) (Fin d) α)
  sample_eta_star : Option Bool
  sample_eta_star_mh : Option Bool
  xi : Option (Fin B → α)
  sample_xi : Option Bool

/-- The random inputs of the set-up (lines 357-496). -/
structure InitDraws (α : Type) (N_lat K d B : Nat) where
  /-- Inputs of line 360. -/
  X_z : Fin N_lat → α
  /-- The standard normal vector of line 383. -/
  mu_z : Fin d → α
  /-- Input of line 404. -/
  phi_u : α
  /-- Input of line 417. -/
  lambda_sigma2_g : α
  /-- Input of line 418. -/
  sigma2_g : α
  /-- Inputs of line 435. -/
  lambda_tau2_g : Fin d → α
  /-- Inputs of line 436. -/
  tau2_g : Fin d → α
  /-- Input of line 468. -/
  eta_star_z : Matrix (Fin K) (Fin d) α
  /-- Inputs of line 495. -/
  xi_b : Fin B → α

/-- Mean of the observed prefix, `arma::mean(X_input.subvec(0, N_obs-1))` (line 339). -/
def mean_obs (X_input : Fin (N_obs + N_lat) → α) : α :=
  (∑ i : Fin N_obs, X_input (Fin.castAdd N_lat i)) / (N_obs : α)

/-- Variance of the observed prefix, `arma::var(X_input.subvec(0, N_obs-1))` (line 341). -/
def var_obs (X_input : Fin (N_obs + N_lat) → α) : α :=
  (∑ i : Fin N_obs, (X_input (Fin.castAdd N_lat i) - mean_obs X_input) ^ 2) /
    ((N_obs : α) - 1)

/-- Initial covariate vector, lines 357-362. -/
def init_X (L : Lib α K d B) (sample_X : Bool) (s_X : α) (X_input : Fin (N_obs + N_lat) → α)
    (X_z : Fin N_lat → α) : Fin (N_obs + N_lat) → α :=
  if sample_X then
    (List.finRange N_lat).foldl
      (fun X l => Function.update X (Fin.natAdd N_obs l) (L.rnorm 0 s_X (X_z l))) X_input
  else X_input

/-- Message of the call of `stop` at line 369. -/
def kernel_error : String :=
  "the only valid correlation functions are exponential and gaussian"

/-- The distance matrices and the check of the kernel name, lines 363-370. -/
def init_dist (L : Lib α K d B) (corr_function : String) (X : Fin (N_obs + N_lat) → α)
    (X_knots : Fin K → α) :
    Run (Matrix (Fin (N_obs + N_lat)) (Fin K) α × Matrix (Fin K) (Fin K) α) :=
  let D := L.makeDistARMA X X_knots
  let D_knots := L.makeDistARMA X_knots X_knots
  if corr_function = "gaussian" then Run.done (D.map (fun x => x ^ 2), D_knots.map (fun x => x ^ 2))
  else if corr_function ≠ "exponential" then Run.stop kernel_error
  else Run.done (D, D_knots)

/-- The loops of lines 486-492 after `n` passes of the outer loop: the value
of `idx_eta` and the contents of `eta_vec`. -/
def eta_vec_loop (d : Nat) (eta : α) : Nat → Nat × (Nat → α)
  | 0 => (0, fun _ => 0)
  | n + 1 =>
    let st := eta_vec_loop d eta n
    (st.1 + (d - n - 1),
      (List.range (d - n - 1)).foldl
        (fun a k => Function.update a (st.1 + k) (eta + ((d : α) - 2 - (n : α)) / 2)) st.2)

/-- The vector `eta_vec` once lines 485-492 have run. -/
def eta_vec_of (d : Nat) (eta : α) : Nat → α := (eta_vec_loop d eta (d - 1)).2

/-- The constants of a run, lines 230-370 and 485-492, given the distance
matrix of the knots. -/
def init_cfg (P : Prims α) (Y : Matrix (Fin (N_obs + N_lat)) (Fin d) α)
    (X_input : Fin (N_obs + N_lat) → α) (params : Params α K d B) (pool_s2_tau2 : Bool)
    (corr_function : String) (D_knots : Matrix (Fin K) (Fin K) α) :
    Cfg α N_obs N_lat K d B :=
  { Y := Y
    X_knots := params.X_knots
    corr_function := corr_function
    pool_s2_tau2 := pool_s2_tau2
    n_mcmc := params.n_mcmc
    n_thin := params.n_thin
    mu_X := mean_obs X_input
    s_X := P.sqrt (var_obs X_input)
    mu_mu := params.mu_mu.getD 0
    s2_mu := params.s2_mu.getD 100
    s_mu := P.sqrt (params.s2_mu.getD 100)
    phi_L := params.phi_L.getD (1 / 10000)
    phi_U := params.phi_U.getD 1000
    s2_sigma2 := params.s2_sigma2.getD 5
    A_s2 := params.A_s2.getD 25
    eta_vec := fun b => eta_vec_of d (params.eta.getD 1) b.val
    D_knots := D_knots
    sample_mu := params.sample_mu.getD true
    sample_mu_mh := params.sample_mu_mh.getD false
    sample_phi := params.sample_phi.getD true
    sample_eta_star := params.sample_eta_star.getD true
    sample_eta_star_mh := params.sample_eta_star_mh.getD false
    sample_sigma2 := params.sample_sigma2.getD true
    sample_tau2 := params.sample_tau2.getD true
    sample_xi := params.sample_xi.getD true
    sample_X := params.sample_X.getD true
    sample_X_mh := params.sample_X_mh.getD false }

/-- The initial values of the variables, lines 357-570, given the constants,
the distance matrix `D` and the result `R_out` of the factory call of line 509. -/
def init_state (L : Lib α K d B) (P : Prims α) (C : Cfg α N_obs N_lat K d B)
    (params : Params α K d B) (idr : InitDraws α N_lat K d B)
    (X : Fin (N_obs + N_lat) → α) (D : Matrix (Fin (N_obs + N_lat)) (Fin K) α)
    (xi : Fin B → α) (R_out : Matrix (Fin d) (Fin d) α × α) : State α N_obs N_lat K d B :=
  let mu := params.mu.getD idr.mu_z
  let phi := params.phi.getD (min (L.runif C.phi_L C.phi_U idr.phi_u) 5)
  let lambda_sigma2 := L.rgamma (1 / 2) (1 / C.s2_sigma2) idr.lambda_sigma2_g
  let sigma2 := params.sigma2.getD (min (L.rgamma (1 / 2) (1 / lambda_sigma2) idr.sigma2_g) 5)
  let s2_tau2 := params.s2_tau2.getD 1
  let lambda_tau2 : Fin d → α := fun j =>
    max (min (L.rgamma (1 / 2) (1 / s2_tau2) (idr.lambda_tau2_g j)) 5) 1
  let tau2 : Fin d → α := params.tau2.getD fun j =>
    max (min (L.rgamma (1 / 2) (1 / lambda_tau2 j) (idr.tau2_g j)) 5) 1
  let tau : Fin d → α := fun j => P.sqrt (tau2 j)
  let C_mat := exp_corr P C.D_knots phi
  let C_chol := L.chol C_mat
  let C_inv := L.inv_sympd C_mat
  let c := exp_corr P D phi
  let Z := c * C_inv
  let eta_star := params.eta_star.getD (L.mvrnormArmaChol C_chol idr.eta_star_z)
  let R := R_out.1
  let R_tau := R * Matrix.diagonal tau
  { mu := mu, mu_mat := rows_of mu, phi := phi, lambda_sigma2 := lambda_sigma2,
    sigma2 := sigma2, sigma := P.sqrt sigma2, lambda_tau2 := lambda_tau2, tau2 := tau2,
    tau := tau, s2_tau2 := s2_tau2, C := C_mat, C_chol := C_chol, C_inv := C_inv, c := c,
    Z := Z, D := D, eta_star := eta_star, xi := xi,
    xi_tilde := fun b => 1 / 2 * (xi b + 1), log_jacobian := R_out.2, R := R,
    R_tau := R_tau, zeta := Z * eta_star * R_tau, X := X,
    phi_tune := params.phi_tune.getD (1 / 4),
    sigma2_tune := params.sigma2_tune.getD (1 / 4),
    lambda_mu_tune := params.lambda_mu_tune.getD (1 / P.pow 3 (4 / 5)),
    lambda_eta_star_tune := fun _ => 1 * params.lambda_eta_star_tune.getD (1 / 4),
    lambda_tau2_tune := params.lambda_tau2_tune.getD (1 / 4),
    lambda_xi_tune := params.lambda_xi_tune.getD (1 / P.pow 3 (4 / 5)),
    s2_tau2_tune := 1,
    X_tune := fun _ => 1 * params.X_tune.getD (5 / 2),
    phi_accept := 0, phi_accept_batch := 0, sigma2_accept := 0, sigma2_accept_batch := 0,
    s2_tau2_accept := 0, s2_tau2_accept_batch := 0, X_accept := fun _ => 0,
    X_accept_batch := fun _ => 0, mu_accept := 0, mu_accept_batch := 0, mu_batch := 0,
    Sigma_mu_tune := 1, Sigma_mu_tune_chol := L.chol 1, tau2_accept := 0,
    tau2_accept_batch := 0, tau2_batch := 0, Sigma_tau2_tune := 1,
    Sigma_tau2_tune_chol := L.chol 1, xi_accept := 0, xi_accept_batch := 0, xi_batch := 0,
    Sigma_xi_tune := 1, Sigma_xi_tune_chol := L.chol 1, eta_star_accept := fun _ => 0,
    eta_star_accept_batch := fun _ => 0, eta_star_batch := fun _ => 0,
    Sigma_eta_star_tune := fun _ => 1, Sigma_eta_star_tune_chol := fun _ => L.chol 1,
    bug_lines := 0 }

/-- The initial partial correlations, lines 493-500. -/
def init_xi (L : Lib α K d B) (C : Cfg α N_obs N_lat K d B) (params : Params α K d B)
    (idr : InitDraws α N_lat K d B) : Fin B → α :=
  params.xi.getD fun b => 2 * L.rbeta (C.eta_vec b) (C.eta_vec b) (idr.xi_b b) - 1

/-- The set-up of `mcmcRcpp`, lines 230-570: the constants and the initial
state, or the error of line 369 or of the factory call of line 509. -/
def mcmc_init (L : Lib α K d B) (P : Prims α) (Y : Matrix (Fin (N_obs + N_lat)) (Fin d) α)
    (X_input : Fin (N_obs + N_lat) → α) (params : Params α K d B) (pool_s2_tau2 : Bool)
    (corr_function : String) (idr : InitDraws α N_lat K d B) :
    Run (Cfg α N_obs N_lat K d B × State α N_obs N_lat K d B) :=
  let X := init_X L (params.sample_X.getD true) (P.sqrt (var_obs X_input)) X_input idr.X_z
  (init_dist L corr_function X params.X_knots).bind fun DD =>
    let C := init_cfg P Y X_input params pool_s2_tau2 corr_function DD.2
    let xi := init_xi L C params idr
    match L.makeRLKJ xi with
    | none => Run.stop makeRLKJ_error
    | some R_out => Run.done (C, init_state L P C params idr X DD.1 xi R_out)

/-- The function `mcmcRcpp`, lines 222-1716. The arguments `wdr`, `adr` and
`sdr` give the random inputs of iteration `k` of the warmup, adaptation and
production loops; `fuel` bounds the passes of every slice-sampling loop. The
result is the content of the save arrays. -/
def mcmcRcpp (L : Lib α K d B) (P : Prims α) (Y : Matrix (Fin (N_obs + N_lat)) (Fin d) α)
    (X_input : Fin (N_obs + N_lat) → α) (params : Params α K d B) (pool_s2_tau2 : Bool)
    (corr_function : String) (idr : InitDraws α N_lat K d B)
    (wdr adr sdr : Nat → Draws α N_lat K d B) (fuel : Nat) :
    Run (Sink α N_obs N_lat K d B) :=
  (mcmc_init L P Y X_input params pool_s2_tau2 corr_function idr).bind fun CS =>
    (phase_loop (fun k s => iteration L P CS.1 Phase.warmup fuel k (wdr k) s)
      (params.n_warmup.getD 500) CS.2).bind fun s1 =>
    (phase_loop (fun k s => iteration L P CS.1 Phase.adapt fuel k (adr k) s)
      params.n_adapt s1).bind fun s2 =>
    (phase_loop (sample_step L P CS.1 fuel sdr) params.n_mcmc
      (s2, { n_save := params.n_mcmc / params.n_thin, rows := fun _ => [] })).bind fun x =>
    Run.done x.2

end Driver

section Statements

variable {α : Type} [LinearOrderedField α]

/-- The math library built from the five transcendental functions and `pi`:
`pow(x, y)` is `exp(y * log(x))`, `log2pi` is `log(2 * pi)`,
`R::dnorm(x, mean, sd, true)` is `-(log(2 * pi) / 2 + log(sd) + ((x - mean) / sd)^2 / 2)`,
and the sum of doubles is the exact sum. -/
def stdPrims (exp log sqrt cos sin : α → α) (pi : α) : Prims α :=
  { exp := exp, log := log, sqrt := sqrt, cos := cos, sin := sin
    pow := fun x y => exp (y * log x)
    pi := pi
    log2pi := log (2 * pi)
    dnorm := fun x mean sd => -(log (2 * pi) / 2 + log sd + ((x - mean) / sd) ^ 2 / 2)
    fadd := fun x y => x + y }

/-- Loop state of `ess_eta_star` and `ess_X` on entry to pass `i` (counted
from 0) when the passes before it all rejected their candidates. -/
def ess_entry (P : Prims α) (u : Nat → α) (i : Nat) : SliceState α :=
  slice_entry (fun t => u (t + 2)) (ess_init P (u 1)) i

/-- The test of line 97 at pass `i` of `ess_eta_star`: the candidate of that
pass is on the slice. -/
def ess_eta_star_on_slice {N K d : Nat} (P : Prims α) (u : Nat → α)
    (eta_star_current : Matrix (Fin K) (Fin d) α) (eta_star_prior : Fin K → α)
    (y_current mu_mat_current zeta_current : Matrix (Fin N) (Fin d) α)
    (R_tau_current : Matrix (Fin d) (Fin d) α) (Z_current : Matrix (Fin N) (Fin K) α)
    (sigma2_current : α) (j : Fin d) (i : Nat) : Prop :=
  gauss_loglik y_current mu_mat_current
      (ess_eta_star_proposal P eta_star_current eta_star_prior R_tau_current Z_current j
        (ess_entry P u i).phi_angle).zeta sigma2_current >
    ess_eta_star_hh P y_current mu_mat_current zeta_current sigma2_current (u 0)

/-- The test of line 189 at pass `i` of `ess_X`: the candidate of that pass is
on the slice. -/
def ess_X_on_slice {K d : Nat} (P : Prims α) (u : Nat → α) (corr_function : String)
    (X_current X_prior mu_X : α) (X_knots : Fin K → α) (y_current mu_current : Fin d → α)
    (eta_star_current : Matrix (Fin K) (Fin d) α) (zeta_current : Fin d → α)
    (R_tau_current : Matrix (Fin d) (Fin d) α) (phi_current sigma_current : α)
    (C_inv_current : Matrix (Fin K) (Fin K) α) (i : Nat) : Prop :=
  row_loglik P y_current mu_current
      (ess_X_proposal P corr_function X_current X_prior mu_X X_knots eta_star_current
        R_tau_current phi_current C_inv_current (ess_entry P u i).phi_angle).zeta
      sigma_current >
    P.fadd (P.log (u 0)) (row_loglik P y_current mu_current zeta_current sigma_current)

end Statements


section Projections

variable {α : Type} [LinearOrderedField α] {N_obs N_lat K d B : Nat}

/-- The model parameters and derived quantities held in the state. -/
structure Model (α : Type) (N_obs N_lat K d B : Nat) where
  mu : Fin d → α
  mu_mat : Matrix (Fin (N_obs + N_lat)) (Fin d) α
  phi : α
  C : Matrix (Fin K) (Fin K) α
  C_chol : Matrix (Fin K) (Fin K) α
  C_inv : Matrix (Fin K) (Fin K) α
  D : Matrix (Fin (N_obs + N_lat)) (Fin K) α
  c : Matrix (Fin (N_obs + N_lat)) (Fin K) α
  Z : Matrix (Fin (N_obs + N_lat)) (Fin K) α
  eta_star : Matrix (Fin K) (Fin d) α
  zeta : Matrix (Fin (N_obs + N_lat)) (Fin d) α
  sigma2 : α
  sigma : α
  tau2 : Fin d → α
  tau : Fin d → α
  s2_tau2 : α
  xi : Fin B → α
  xi_tilde : Fin B → α
  R : Matrix (Fin d) (Fin d) α
  R_tau : Matrix (Fin d) (Fin d) α
  X : Fin (N_obs + N_lat) → α

/-- The model part of a state. -/
def State.model (s : State α N_obs N_lat K d B) : Model α N_obs N_lat K d B :=
  { mu := s.mu, mu_mat := s.mu_mat, phi := s.phi, C := s.C, C_chol := s.C_chol,
    C_inv := s.C_inv, D := s.D, c := s.c, Z := s.Z, eta_star := s.eta_star, zeta := s.zeta,
    sigma2 := s.sigma2, sigma := s.sigma, tau2 := s.tau2, tau := s.tau, s2_tau2 := s.s2_tau2,
    xi := s.xi, xi_tilde := s.xi_tilde, R := s.R, R_tau := s.R_tau, X := s.X }

/-- The proposal scales and proposal covariances held in the state. -/
structure Tuning (α : Type) (N_lat K d B : Nat) where
  lambda_mu_tune : α
  Sigma_mu_tune : Matrix (Fin d) (Fin d) α
  Sigma_mu_tune_chol : Matrix (Fin d) (Fin d) α
  phi_tune : α
  sigma2_tune : α
  lambda_eta_star_tune : Fin d → α
  lambda_tau2_tune : α
  s2_tau2_tune : α
  lambda_xi_tune : α
  X_tune : Fin N_lat → α

/-- The tuning part of a state. -/
def State.tuning (s : State α N_obs N_lat K d B) : Tuning α N_lat K d B :=
  { lambda_mu_tune := s.lambda_mu_tune, Sigma_mu_tune := s.Sigma_mu_tune,
    Sigma_mu_tune_chol := s.Sigma_mu_tune_chol, phi_tune := s.phi_tune,
    sigma2_tune := s.sigma2_tune, lambda_eta_star_tune := s.lambda_eta_star_tune,
    lambda_tau2_tune := s.lambda_tau2_tune, s2_tau2_tune := s.s2_tau2_tune,
    lambda_xi_tune := s.lambda_xi_tune, X_tune := s.X_tune }

end Projections

section Invariants

variable {α : Type} [LinearOrderedField α] {N_obs N_lat K d B : Nat}

/-- The invariant of the fitted effect: `zeta = Z * eta_star * R_tau`. -/
def ZetaOk (s : State α N_obs N_lat K d B) : Prop :=
  s.zeta = s.Z * s.eta_star * s.R_tau

/-- The range parameter lies within its bounds. -/
def PhiIn (C : Cfg α N_obs N_lat K d B) (s : State α N_obs N_lat K d B) : Prop :=
  C.phi_L ≤ s.phi ∧ s.phi ≤ C.phi_U

/-- Every partial correlation lies strictly between `-1` and `1`. -/
def XiIn (s : State α N_obs N_lat K d B) : Prop :=
  ∀ b, -1 < s.xi b ∧ s.xi b < 1

/-- The ways in which one update block changes the model part of the state.
Each constructor lists the fields that the block assigns when it accepts, with
the constraints that the code guarantees for the new values: the fitted effect
is rebuilt from the new inputs, an accepted `phi` has passed the test of line
660 and an accepted `xi` the test of line 854. -/
inductive MStep (C : Cfg α N_obs N_lat K d B) :
    Model α N_obs N_lat K d B → Model α N_obs N_lat K d B → Prop where
  | mu (m : Model α N_obs N_lat K d B) (mu : Fin d → α)
      (mu_mat : Matrix (Fin (N_obs + N_lat)) (Fin d) α) :
      MStep C m { m with mu := mu, mu_mat := mu_mat }
  | phi (m : Model α N_obs N_lat K d B) (phi : α) (hL : C.phi_L < phi) (hU : phi < C.phi_U)
      (Cm C_chol C_inv : Matrix (Fin K) (Fin K) α)
      (c Z : Matrix (Fin (N_obs + N_lat)) (Fin K) α) :
      MStep C m { m with phi := phi, C := Cm, C_chol := C_chol, C_inv := C_inv, c := c,
                         Z := Z, zeta := Z * m.eta_star * m.R_tau }
  | eta_star (m : Model α N_obs N_lat K d B) (eta_star : Matrix (Fin K) (Fin d) α) :
      MStep C m { m with eta_star := eta_star, zeta := m.Z * eta_star * m.R_tau }
  | sigma2 (m : Model α N_obs N_lat K d B) (sigma2 sigma : α) :
      MStep C m { m with sigma2 := sigma2, sigma := sigma }
  | tau2 (m : Model α N_obs N_lat K d B) (tau2 tau : Fin d → α)
      (R_tau : Matrix (Fin d) (Fin d) α) :
      MStep C m { m with tau2 := tau2, tau := tau, R_tau := R_tau,
                         zeta := m.Z * m.eta_star * R_tau }
  | s2_tau2 (m : Model α N_obs N_lat K d B) (s2_tau2 : α) :
      MStep C m { m with s2_tau2 := s2_tau2 }
  | xi (m : Model α N_obs N_lat K d B) (xi : Fin B → α) (hxi : ∀ b, -1 < xi b ∧ xi b < 1)
      (xi_tilde : Fin B → α) (R R_tau : Matrix (Fin d) (Fin d) α) :
      MStep C m { m with xi := xi, xi_tilde := xi_tilde, R := R, R_tau := R_tau,
                         zeta := m.Z * m.eta_star * R_tau }
  | X (m : Model α N_obs N_lat K d B) (l : Fin N_lat) (x : α) (D c Z : Fin K → α) :
      MStep C m { m with X := Function.update m.X (Fin.natAdd N_obs l) x,
                         D := Matrix.updateRow m.D (Fin.natAdd N_obs l) D,
                         c := Matrix.updateRow m.c (Fin.natAdd N_obs l) c,
                         Z := Matrix.updateRow m.Z (Fin.natAdd N_obs l) Z,
                         zeta := Matrix.updateRow m.zeta (Fin.natAdd N_obs l)
                           (Matrix.vecMul (Matrix.vecMul Z m.eta_star) m.R_tau) }

/-- A sequence of block changes. -/
def MSteps (C : Cfg α N_obs N_lat K d B) :
    Model α N_obs N_lat K d B → Model α N_obs N_lat K d B → Prop :=
  Relation.ReflTransGen (MStep C)

end Invariants

section Contracts

variable {α : Type} [LinearOrderedField α] {K d B : Nat}

/-- Modelled from the spec: the correlation factory `makeRLKJ` of
`myFunctionsHeader.h`, whose code is not part of the source file, "fails if any
entry of `xi` is outside (-1, 1)": it returns a result only for a vector whose
entries all lie strictly between `-1` and `1`. -/
def FactoryFailsOutside (L : Lib α K d B) : Prop :=
  ∀ xi R_out, L.makeRLKJ xi = some R_out → ∀ b, -1 < xi b ∧ xi b < 1

end Contracts

section Fixtures

/-- A rational stand-in for the math library, used to run the embedding on
concrete inputs: each transcendental function is replaced by a rational one. -/
def ratPrims : Prims ℚ :=
  stdPrims (fun x => 1 + x) (fun x => x - 1) (fun x => x) (fun _ => 1) (fun x => x) 3

/-- A rational stand-in for the library functions, used to run the embedding
on concrete inputs. The factory fails outside `(-1, 1)`, the samplers return
a shifted copy of their random input, and each tuning controller resets the
batch acceptance rate and doubles the proposal scale. -/
def ratLib (K d B : Nat) : Lib ℚ K d B :=
  { chol := fun M => M
    inv_sympd := fun M => M
    inv := fun M => M
    makeDistARMA := fun x y i j => |x i - y j|
    makeRLKJ := fun xi => if ∀ b, -1 < xi b ∧ xi b < 1 then some (1, 0) else none
    logit := fun v => v
    expit := fun v => v
    d_half_cauchy := fun _ _ => 0
    dgamma := fun _ _ _ => 0
    dbeta := fun _ _ _ => 0
    rnorm := fun mean sd z => mean + sd * z
    rgamma := fun _ _ g => g
    rbeta := fun _ _ b => b
    runif := fun a b u => a + (b - a) * u
    mvrnormArmaVecChol := fun mean _ z i => mean i + z i
    mvrnormArmaChol := fun _ z => z
    rMVNArma := fun _ _ z => z
    updateTuning := fun _ _ tune => (0, 2 * tune)
    updateTuningVec := fun _ _ tune => (fun _ => 0, fun i => 2 * tune i)
    updateTuningMV := fun _ t => { t with accept_batch := 0, lambda := 2 * t.lambda }
    updateTuningMVMat := fun _ t =>
      { t with accept_batch := fun _ => 0, lambda := fun j => 2 * t.lambda j } }

/-- A parameter list with every optional entry absent except the switches,
which are all off, and the phase lengths `n_warmup = 0`, `n_adapt = 0`,
`n_mcmc = 2`, `n_thin = 1`. -/
def offParams : Params ℚ 1 2 1 :=
  { n_adapt := 0, n_mcmc := 2, n_thin := 1, n_warmup := some 0, mu_mu := none, s2_mu := none,
    phi_L := none, phi_U := none, s2_sigma2 := none, A_s2 := none, s2_tau2 := none,
    eta := none, phi_tune := none, sigma2_tune := none, lambda_mu_tune := none,
    lambda_eta_star_tune := none, lambda_tau2_tune := none, lambda_xi_tune := none,
    X_tune := none, X_knots := fun _ => 0, sample_X := some false, sample_X_mh := none,
    mu := none, sample_mu := some false, sample_mu_mh := none, phi := none,
    sample_phi := some false, sigma2 := none, sample_sigma2 := some false, tau2 := none,
    sample_tau2 := some false, eta_star := none, sample_eta_star := some false,
    sample_eta_star_mh := none, xi := none, sample_xi := some false }

/-- The parameter list `offParams` with the initial value `phi = 2000` and the
bounds `phi_L = 1/10000`, `phi_U = 1000`. -/
def phiParams : Params ℚ 1 2 1 :=
  { offParams with phi := some 2000, phi_L := some (1 / 10000), phi_U := some 1000 }

/-- The parameter list `offParams` with every switch on and the
Metropolis-Hastings variants selected. -/
def mhParams : Params ℚ 1 2 1 :=
  { offParams with sample_X := some true, sample_X_mh := some true, sample_mu := some true,
                   sample_mu_mh := some true, sample_phi := some true,
                   sample_sigma2 := some true, sample_tau2 := some true,
                   sample_eta_star := some true, sample_eta_star_mh := some true,
                   sample_xi := some true, n_mcmc := 100 }

/-- Random inputs of the set-up that are all zero, except the beta draw `1/2`
of the partial correlation. -/
def zeroInit : InitDraws ℚ 1 1 2 1 :=
  { X_z := fun _ => 0, mu_z := fun _ => 0, phi_u := 0, lambda_sigma2_g := 0, sigma2_g := 0,
    lambda_tau2_g := fun _ => 0, tau2_g := fun _ => 0, eta_star_z := 0, xi_b := fun _ => 1 / 2 }

/-- Random inputs of an iteration that are all zero. -/
def zeroDraws : Draws ℚ 1 1 2 1 :=
  { mu_z := fun _ => 0, mu_u := 0, phi_z := 0, phi_u := 0, eta_z := fun _ _ => 0,
    eta_u := fun _ => 0, eta_prior_z := fun _ _ => 0, eta_ess_u := fun _ _ => 0,
    sigma2_z := 0, sigma2_u := 0, lambda_sigma2_g := 0, tau2_z := fun _ => 0, tau2_u := 0,
    lambda_tau2_g := fun _ => 0, s2_tau2_z := 0, s2_tau2_u := 0, xi_z := fun _ => 0,
    xi_u := 0, X_z := fun _ => 0, X_u := fun _ => 0, X_prior_z := fun _ => 0,
    X_ess_u := fun _ _ => 0 }

/-- Random inputs of an iteration whose acceptance uniforms are all `2`, so
that a ratio `mh` of `1` is rejected. -/
def rejectDraws : Draws ℚ 1 1 2 1 :=
  { zeroDraws with mu_u := 2, phi_u := 2, eta_u := fun _ => 2, sigma2_u := 2, tau2_u := 2,
                   s2_tau2_u := 2, xi_u := 2, X_u := fun _ => 2 }

/-- A response matrix with two observed rows and one latent row. -/
def demoY : Matrix (Fin (2 + 1)) (Fin 2) ℚ := fun _ _ => 1

/-- A covariate vector with two observed entries and one latent entry. -/
def demoX : Fin (2 + 1) → ℚ := fun i => (i.val : ℚ)

/-- The constants of the run with the parameter list `params`. -/
def demoCfg (params : Params ℚ 1 2 1) : Cfg ℚ 2 1 1 2 1 :=
  init_cfg ratPrims demoY demoX params false "exponential" 0

/-- The initial state of the run with the parameter list `params`. -/
def demoState (params : Params ℚ 1 2 1) : State ℚ 2 1 1 2 1 :=
  init_state (ratLib 1 2 1) ratPrims (demoCfg params) params zeroInit demoX 0
    (fun _ => 0) (1, 0)

end Fixtures

section Switches

variable {α : Type} {N_obs N_lat K d B : Nat}

/-- Every sampling switch of the configuration is off. -/
def FlagsOff (C : Cfg α N_obs N_lat K d B) : Prop :=
  C.sample_mu = false ∧ C.sample_phi = false ∧ C.sample_eta_star = false ∧
    C.sample_sigma2 = false ∧ C.sample_tau2 = false ∧ C.sample_xi = false ∧
    C.sample_X = false

end Switches

section Proposals

variable {α : Type} [LinearOrderedField α] {N_obs N_lat K d B : Nat}

/-- The proposal part of the update of `phi`, lines 659-686, 1026-1053 and
1390-1417: the state that the domain test of line 660 and the acceptance test
of line 676 leave. -/
def phi_propose (L : Lib α K d B) (P : Prims α) (C : Cfg α N_obs N_lat K d B) (ph : Phase)
    (dr : Draws α N_lat K d B) (s : State α N_obs N_lat K d B) : State α N_obs N_lat K d B :=
  if phi_star L dr s > C.phi_L ∧ phi_star L dr s < C.phi_U then
    if phi_mh L P C dr s > dr.phi_u then phi_assign L P C ph dr s else s
  else s

/-- The proposal part of the update of `sigma2`, lines 743-758, 1110-1125 and
1462-1477: the state that the domain test of line 744 and the acceptance test
of line 753 leave. -/
def sigma2_propose (L : Lib α K d B) (P : Prims α) (C : Cfg α N_obs N_lat K d B) (ph : Phase)
    (dr : Draws α N_lat K d B) (s : State α N_obs N_lat K d B) : State α N_obs N_lat K d B :=
  if sigma2_star L dr s > 0 then
    if sigma2_mh L P C dr s > dr.sigma2_u then sigma2_assign L P C ph dr s else s
  else s

/-- The proposal part of the update of `s2_tau2`, lines 823-838, 1190-1205 and
1531-1546: the state that the test of `pool_s2_tau2`, the domain test of line
825 and the acceptance test of line 833 leave. -/
def s2_tau2_propose (L : Lib α K d B) (P : Prims α) (C : Cfg α N_obs N_lat K d B)
    (ph : Phase) (dr : Draws α N_lat K d B) (s : State α N_obs N_lat K d B) :
    State α N_obs N_lat K d B :=
  if C.pool_s2_tau2 then
    if s2_tau2_star L dr s > 0 ∧ s2_tau2_star L dr s < C.A_s2 then
      if s2_tau2_mh L P dr s > dr.s2_tau2_u then s2_tau2_assign L C ph dr s else s
    else s
  else s

/-- The matrix `A` of the Gibbs update of `mu`, lines 645, 1012 and 1376. -/
def mu_gibbs_A (C : Cfg α N_obs N_lat K d B) (s : State α N_obs N_lat K d B) :
    Matrix (Fin d) (Fin d) α := fun i j =>
  ((N_obs + N_lat : Nat) : α) * (1 : Matrix (Fin d) (Fin d) α) i j / s.sigma2 +
    (1 : Matrix (Fin d) (Fin d) α) i j / C.s2_mu

/-- The vector `b` of the Gibbs update of `mu`, lines 646, 1013 and 1377. -/
def mu_gibbs_b (C : Cfg α N_obs N_lat K d B) (s : State α N_obs N_lat K d B) : Fin d → α :=
  fun j => colSums (C.Y - s.zeta) j / s.sigma2 + C.mu_mu * 1 / C.s2_mu

end Proposals

section ClaimedRatio

variable {α : Type} [LinearOrderedField α] {N_obs N_lat K d B : Nat}

/-- The ratio of the update of `xi` as the specification words it, for
comparison with `xi_mh`: the `log_jacobian` that the factory returns for the
proposal is added to `mh1` and the one held for the current `xi` to `mh2`. -/
def xi_mh_with_log_jacobian (L : Lib α K d B) (P : Prims α) (C : Cfg α N_obs N_lat K d B)
    (dr : Draws α N_lat K d B) (s : State α N_obs N_lat K d B)
    (R_out : Matrix (Fin d) (Fin d) α × α) : α :=
  let R_tau_star := R_out.1 * Matrix.diagonal s.tau
  let zeta_star := s.Z * s.eta_star * R_tau_star
  let mh1 := gauss_loglik C.Y s.mu_mat zeta_star s.sigma2 +
    (∑ b, (P.log (xi_tilde_star L dr s b) + P.log (1 - xi_tilde_star L dr s b))) +
    (∑ b, L.dbeta (1 / 2 * (xi_star L dr s b + 1)) (C.eta_vec b) (C.eta_vec b)) + R_out.2
  let mh2 := gauss_loglik C.Y s.mu_mat s.zeta s.sigma2 +
    (∑ b, (P.log (s.xi_tilde b) + P.log (1 - s.xi_tilde b))) +
    (∑ b, L.dbeta (1 / 2 * (s.xi b + 1)) (C.eta_vec b) (C.eta_vec b)) + s.log_jacobian
  P.exp (mh1 - mh2)

end ClaimedRatio

section Bracket

variable {α : Type} [LinearOrderedField α]

/-- The bracket of a slice-sampling loop lies within the bracket `[lo, hi]` and
holds the angle that the next pass tries. -/
def InBracket (lo hi : α) (s : SliceState α) : Prop :=
  lo ≤ s.phi_angle_min ∧ s.phi_angle_min ≤ s.phi_angle ∧ s.phi_angle ≤ s.phi_angle_max ∧
    s.phi_angle_max ≤ hi

end Bracket

section Factory

variable {α : Type} [LinearOrderedField α]

/-- Modelled from the spec: the place of the pair `(i, j)`, `i < j < d`, in the
vector of the `d(d-1)/2` partial correlations handed to the correlation factory
`makeRLKJ` of `myFunctionsHeader.h`, whose code is not part of the source file.
The vector lists the pairs row by row, as the loops of lines 486-492 do. -/
def xi_index (d i j : Nat) : Nat := i * d - i * (i + 1) / 2 + (j - i - 1)

/-- Modelled from the spec: the partial correlation of the pair `(i, j)` that
the factory `makeRLKJ` reads; a pair that has no entry in `xi` has the partial
correlation `0`. -/
def xi_at {B : Nat} (xi : Fin B → α) (d i j : Nat) : α :=
  if h : xi_index d i j < B then xi ⟨xi_index d i j, h⟩ else 0

/-- Modelled from the spec: the recursion of the factory `makeRLKJ` along one
row of the Cholesky factor with the partial correlations `z`, "row by row":
what is left of the unit squared length of the row once its first `n` entries
`z i * sqrt(rest i)` are set. -/
def factor_rest (P : Prims α) (z : Nat → α) : Nat → α
  | 0 => 1
  | n + 1 => factor_rest P z n - (z n * P.sqrt (factor_rest P z n)) ^ 2

/-- Modelled from the spec: entry `(i, j)` of the matrix `R` of the factory
`makeRLKJ`, the transpose of the Cholesky factor: row `j` of the factor, built
from the partial correlations `z` of the pairs `(i, j)`, `i < j`, is column `j`
of `R`, with the rest of the unit length on the diagonal. -/
def factor_entry (P : Prims α) (z : Nat → α) (i j : Nat) : α :=
  if i < j then z i * P.sqrt (factor_rest P z i)
  else if i = j then P.sqrt (factor_rest P z j)
  else 0

/-- Modelled from the spec: the entry `R` of the result of the correlation
factory `makeRLKJ(xi, d, true, true)` of `myFunctionsHeader.h`, whose code is
not part of the source file: "a recursive partial-correlation parameterization
(Cholesky-factor construction row by row from the B = d(d-1)/2 partial
correlations)" that "fails if any entry of `xi` is outside (-1, 1)". The entry
`log_jacobian` of the result is not modelled. -/
def makeRLKJ_R (P : Prims α) (d : Nat) {B : Nat} (xi : Fin B → α) :
    Option (Matrix (Fin d) (Fin d) α) :=
  if ∀ b, -1 < xi b ∧ xi b < 1 then
    some (fun i j => factor_entry P (fun r => xi_at xi d r j.val) i.val j.val)
  else none

end Factory

section Steps

variable {α : Type} [LinearOrderedField α] {N_obs N_lat K d B : Nat}

/-- The assignments that the update blocks make, one constructor per place of
the source where model variables are assigned, each with the test that guards
it; `bookkeeping` stands for the statements that assign no model variable
(acceptance counters, batches, tuning calls, the draws of `lambda_sigma2` and
`lambda_tau2`, diagnostic lines). -/
inductive AStep (L : Lib α K d B) (P : Prims α) (C : Cfg α N_obs N_lat K d B) :
    State α N_obs N_lat K d B → State α N_obs N_lat K d B → Prop where
  | bookkeeping (s t : State α N_obs N_lat K d B) (h : t.model = s.model) : AStep L P C s t
  | mu_mh (ph : Phase) (dr : Draws α N_lat K d B) (s : State α N_obs N_lat K d B) :
      AStep L P C s (mu_assign L C ph dr s)
  | mu_gibbs (dr : Draws α N_lat K d B) (s : State α N_obs N_lat K d B) :
      AStep L P C s (mu_gibbs L C dr s)
  | phi (ph : Phase) (dr : Draws α N_lat K d B) (s : State α N_obs N_lat K d B)
      (hdom : phi_star L dr s > C.phi_L ∧ phi_star L dr s < C.phi_U) :
      AStep L P C s (phi_assign L P C ph dr s)
  | eta_star_mh (ph : Phase) (dr : Draws α N_lat K d B) (s : State α N_obs N_lat K d B)
      (j : Fin d) : AStep L P C s (eta_star_assign L C ph dr s j)
  | eta_star_ess (s : State α N_obs N_lat K d B) (j : Fin d) (eta_star_prior : Fin K → α)
      (theta : α) (b : Nat) :
      AStep L P C s (eta_star_ess_assign
        (ess_eta_star_proposal P s.eta_star eta_star_prior s.R_tau s.Z j theta, b) s)
  | sigma2 (ph : Phase) (dr : Draws α N_lat K d B) (s : State α N_obs N_lat K d B)
      (hdom : sigma2_star L dr s > 0) : AStep L P C s (sigma2_assign L P C ph dr s)
  | tau2 (ph : Phase) (dr : Draws α N_lat K d B) (s : State α N_obs N_lat K d B)
      (hdom : ∀ j, tau2_star L P dr s j > 0) : AStep L P C s (tau2_assign L P C ph dr s)
  | s2_tau2 (ph : Phase) (dr : Draws α N_lat K d B) (s : State α N_obs N_lat K d B)
      (hdom : s2_tau2_star L dr s > 0 ∧ s2_tau2_star L dr s < C.A_s2)
      (hpool : C.pool_s2_tau2 = true) : AStep L P C s (s2_tau2_assign L C ph dr s)
  | xi (ph : Phase) (dr : Draws α N_lat K d B) (s : State α N_obs N_lat K d B)
      (R_out : Matrix (Fin d) (Fin d) α × α)
      (hdom : (∀ b, xi_star L dr s b > -1) ∧ (∀ b, xi_star L dr s b < 1))
      (hR : L.makeRLKJ (xi_star L dr s) = some R_out) :
      AStep L P C s (xi_assign L C ph dr s R_out)
  | X_mh (dr : Draws α N_lat K d B) (s : State α N_obs N_lat K d B) (l : Fin N_lat) :
      AStep L P C s (X_assign L P C dr s l)
  | X_ess (s : State α N_obs N_lat K d B) (l : Fin N_lat) (X_prior theta : α) (b : Nat) :
      AStep L P C s (X_ess_assign l
        (ess_X_proposal P C.corr_function (s.X (Fin.natAdd N_obs l)) X_prior C.mu_X C.X_knots
          s.eta_star s.R_tau s.phi s.C_inv theta, b) s)

/-- A sequence of assignments of the update blocks. -/
def ASteps (L : Lib α K d B) (P : Prims α) (C : Cfg α N_obs N_lat K d B) :
    State α N_obs N_lat K d B → State α N_obs N_lat K d B → Prop :=
  Relation.ReflTransGen (AStep L P C)

/-- Every cached quantity equals its definition from the current parameters:
`C = exp(-D_knots/phi)`, `C_chol = chol(C)`, `C_inv = inv_sympd(C)`,
`c = exp(-D/phi)`, `Z = c * C_inv`, `R_tau = R * diag(tau)`, `tau = sqrt(tau2)`,
`sigma = sqrt(sigma2)`, and every row of `mu_mat` is `mu`. -/
def CacheOk (L : Lib α K d B) (P : Prims α) (C : Cfg α N_obs N_lat K d B)
    (m : Model α N_obs N_lat K d B) : Prop :=
  m.C = exp_corr P C.D_knots m.phi ∧ m.C_chol = L.chol m.C ∧ m.C_inv = L.inv_sympd m.C ∧
    m.c = exp_corr P m.D m.phi ∧ m.Z = m.c * m.C_inv ∧
    m.R_tau = m.R * Matrix.diagonal m.tau ∧ m.tau = (fun j => P.sqrt (m.tau2 j)) ∧
    m.sigma = P.sqrt m.sigma2 ∧ m.mu_mat = rows_of m.mu

/-- Every row of `D` holds the distances of that row's covariate to the knots,
raw or squared as the kernel asks: the row that the set-up computed with
`makeDistARMA` (kept in `D0`, for the covariate `X0` of the set-up), or the row
that a covariate update computed from the re-centred covariate `X(i) + mu_X`. -/
def DistOk (P : Prims α) (C : Cfg α N_obs N_lat K d B) (X0 : Fin (N_obs + N_lat) → α)
    (D0 : Matrix (Fin (N_obs + N_lat)) (Fin K) α) (m : Model α N_obs N_lat K d B) : Prop :=
  ∀ i, (m.X i = X0 i ∧ m.D i = D0 i) ∨
    m.D i = dist_row P C.corr_function C.X_knots (m.X i + C.mu_X)

end Steps

section EtaVec

end EtaVec

section JacobianTerms

variable {α : Type} [LinearOrderedField α]

/-- The term `sum(log(tau2))` that the update of `tau2` adds to `mh2` (lines
786, 1153 and 1501); `mh1` holds `sum(log_tau2_star)`, the same term at the
proposal `tau2_star = exp(log_tau2_star)` (lines 784, 1151 and 1499). -/
def tau2_jacobian_term {d : Nat} (P : Prims α) (tau2 : Fin d → α) : α :=
  ∑ j, P.log (tau2 j)

/-- The term `sum(log(xi_tilde) + log(ones_B - xi_tilde))` that the update of
`xi` adds to `mh2`, and at `xi_tilde_star` to `mh1` (lines 860-865, 1227-1232
and 1564-1569). -/
def xi_jacobian_term {B : Nat} (P : Prims α) (xi_tilde : Fin B → α) : α :=
  ∑ b, (P.log (xi_tilde b) + P.log (1 - xi_tilde b))

end JacobianTerms

section Rounding

variable {α : Type} [LinearOrderedField α] [FloorRing α]

/-- The integer nearest to `x`, and the even one of the two nearest when `x`
lies half way between them: the rule "round to nearest, ties to even" of
IEEE 754 arithmetic. -/
def round_ties_even (x : α) : ℤ :=
  if 2 * Int.fract x < 1 then ⌊x⌋
  else if 1 < 2 * Int.fract x then ⌊x⌋ + 1
  else if Even ⌊x⌋ then ⌊x⌋
  else ⌊x⌋ + 1

/-- The `double` nearest to `x`: with `2 ^ e <= |x| < 2 ^ (e + 1)`, the multiple
of `2 ^ (e - 52)` nearest to `x` (a significand of 53 bits). Overflow and the
subnormal range are left out. -/
def round_double (x : α) : α :=
  if x = 0 then 0
  else (round_ties_even (x / (2 : α) ^ (Int.log 2 |x| - 52)) : α) *
    (2 : α) ^ (Int.log 2 |x| - 52)

/-- The math library `P` with the sum of doubles of IEEE 754: the exact sum
rounded to the nearest `double`. -/
def ieeePrims (P : Prims α) : Prims α :=
  { P with fadd := fun x y => round_double (x + y) }

end Rounding

/-! ## Lemmas and theorems -/

section EssTheorems

variable {α : Type} [LinearOrderedField α]

theorem slice_entry_shift (u : Nat → α) (s0 : SliceState α) (n : Nat) :
    slice_entry u s0 (n + 1) = slice_entry (fun m => u (m + 1)) (slice_shrink (u 0) s0) n := by
  induction n with
  | zero => rfl
  | succ n ih =>
    show slice_shrink (u (n + 1)) (slice_entry u s0 (n + 1)) = _
    rw [ih]
    rfl

theorem slice_loop_accept {β : Type} (propose : α → β) (loglik : β → α) (hh : α)
    (u : Nat → α) (fuel n : Nat) (s : SliceState α)
    (h : loglik (propose s.phi_angle) > hh) :
    slice_loop propose loglik hh u (fuel + 1) n s = some (propose s.phi_angle, s.bug_lines) := by
  simp [slice_loop, slice_pass, h]

theorem slice_loop_reject {β : Type} (propose : α → β) (loglik : β → α) (hh : α)
    (u : Nat → α) (fuel n : Nat) (s : SliceState α)
    (h : ¬ loglik (propose s.phi_angle) > hh) :
    slice_loop propose loglik hh u (fuel + 1) n s =
      slice_loop propose loglik hh u fuel (n + 1) (slice_shrink (u n) s) := by
  simp [slice_loop, slice_pass, h]

theorem slice_entry_shift_from (u : Nat → α) (n : Nat) (s : SliceState α) (i : Nat) :
    slice_entry (fun t => u (n + 1 + t)) (slice_shrink (u n) s) i =
      slice_entry (fun t => u (n + t)) s (i + 1) := by
  rw [slice_entry_shift]
  simp [Nat.add_assoc, Nat.add_comm 1]

theorem slice_loop_eq_some_iff {β : Type} (propose : α → β) (loglik : β → α) (hh : α)
    (u : Nat → α) (fuel n : Nat) (s : SliceState α) (out : β) (b : Nat) :
    slice_loop propose loglik hh u fuel n s = some (out, b) ↔
      ∃ m, m < fuel ∧
        (∀ i, i < m →
          ¬ loglik (propose (slice_entry (fun t => u (n + t)) s i).phi_angle) > hh) ∧
        loglik (propose (slice_entry (fun t => u (n + t)) s m).phi_angle) > hh ∧
        out = propose (slice_entry (fun t => u (n + t)) s m).phi_angle ∧
        b = (slice_entry (fun t => u (n + t)) s m).bug_lines := by
  induction fuel generalizing n s with
  | zero => simp [slice_loop]
  | succ fuel ih =>
    by_cases h : loglik (propose s.phi_angle) > hh
    · rw [slice_loop_accept _ _ _ _ _ _ _ h]
      constructor
      · intro e
        simp only [Option.some.injEq, Prod.mk.injEq] at e
        exact ⟨0, Nat.succ_pos _, fun i hi => absurd hi (Nat.not_lt_zero i), h, e.1.symm, e.2.symm⟩
      · rintro ⟨m, _, hrej, _, ho, hb⟩
        have hm : m = 0 := by
          by_contra hne
          exact hrej 0 (Nat.pos_of_ne_zero hne) h
        subst hm
        simp [slice_entry] at ho hb
        simp [ho, hb]
    · rw [slice_loop_reject _ _ _ _ _ _ _ h, ih]
      have hshift := slice_entry_shift_from u n s
      constructor
      · rintro ⟨m, hm, hrej, hacc, ho, hb⟩
        refine ⟨m + 1, Nat.succ_lt_succ hm, ?_, ?_, ?_, ?_⟩
        · intro i hi
          cases i with
          | zero => exact h
          | succ i => rw [← hshift]; exact hrej i (Nat.lt_of_succ_lt_succ hi)
        · rw [← hshift]; exact hacc
        · rw [← hshift]; exact ho
        · rw [← hshift]; exact hb
      · rintro ⟨m, hm, hrej, hacc, ho, hb⟩
        cases m with
        | zero => exact absurd hacc h
        | succ m =>
          refine ⟨m, Nat.lt_of_succ_lt_succ hm, ?_, ?_, ?_, ?_⟩
          · intro i hi
            rw [hshift]; exact hrej (i + 1) (Nat.succ_lt_succ hi)
          · rw [hshift]; exact hacc
          · rw [hshift]; exact ho
          · rw [hshift]; exact hb

theorem slice_loop_eq_none_iff {β : Type} (propose : α → β) (loglik : β → α) (hh : α)
    (u : Nat → α) (fuel n : Nat) (s : SliceState α) :
    slice_loop propose loglik hh u fuel n s = none ↔
      ∀ i, i < fuel →
        ¬ loglik (propose (slice_entry (fun t => u (n + t)) s i).phi_angle) > hh := by
  induction fuel generalizing n s with
  | zero => simp [slice_loop]
  | succ fuel ih =>
    by_cases h : loglik (propose s.phi_angle) > hh
    · rw [slice_loop_accept _ _ _ _ _ _ _ h]
      simp only [reduceCtorEq, false_iff, not_forall]
      exact ⟨0, Nat.succ_pos _, fun hn => hn h⟩
    · rw [slice_loop_reject _ _ _ _ _ _ _ h, ih]
      have hshift := slice_entry_shift_from u n s
      constructor
      · intro hall i hi
        cases i with
        | zero => exact h
        | succ i => rw [← hshift]; exact hall i (Nat.lt_of_succ_lt_succ hi)
      · intro hall i hi
        rw [hshift]; exact hall (i + 1) (Nat.succ_lt_succ hi)

end EssTheorems

section EssClaims

variable {α : Type} [LinearOrderedField α]

theorem ess_eta_star_eq_none_iff {N K d : Nat} (P : Prims α) (u : Nat → α)
    (eta_star_current : Matrix (Fin K) (Fin d) α) (eta_star_prior : Fin K → α)
    (y_current mu_mat_current zeta_current : Matrix (Fin N) (Fin d) α)
    (R_tau_current : Matrix (Fin d) (Fin d) α) (Z_current : Matrix (Fin N) (Fin K) α)
    (sigma2_current : α) (j : Fin d) (fuel : Nat) :
    ess_eta_star P fuel u eta_star_current eta_star_prior y_current mu_mat_current
        zeta_current R_tau_current Z_current sigma2_current j = none ↔
      ∀ i, i < fuel → ¬ ess_eta_star_on_slice P u eta_star_current eta_star_prior y_current
        mu_mat_current zeta_current R_tau_current Z_current sigma2_current j i := by
  unfold ess_eta_star ess_eta_star_on_slice ess_entry
  rw [slice_loop_eq_none_iff]
  simp only [Nat.zero_add]

theorem ess_eta_star_eq_some_iff {N K d : Nat} (P : Prims α) (u : Nat → α)
    (eta_star_current : Matrix (Fin K) (Fin d) α) (eta_star_prior : Fin K → α)
    (y_current mu_mat_current zeta_current : Matrix (Fin N) (Fin d) α)
    (R_tau_current : Matrix (Fin d) (Fin d) α) (Z_current : Matrix (Fin N) (Fin K) α)
    (sigma2_current : α) (j : Fin d) (fuel : Nat) (out : EssEtaStarOut α N K d) (b : Nat) :
    ess_eta_star P fuel u eta_star_current eta_star_prior y_current mu_mat_current
        zeta_current R_tau_current Z_current sigma2_current j = some (out, b) ↔
      ∃ m, m < fuel ∧
        (∀ i, i < m → ¬ ess_eta_star_on_slice P u eta_star_current eta_star_prior y_current
          mu_mat_current zeta_current R_tau_current Z_current sigma2_current j i) ∧
        ess_eta_star_on_slice P u eta_star_current eta_star_prior y_current
          mu_mat_current zeta_current R_tau_current Z_current sigma2_current j m ∧
        out = ess_eta_star_proposal P eta_star_current eta_star_prior R_tau_current Z_current j
          (ess_entry P u m).phi_angle ∧
        b = (ess_entry P u m).bug_lines := by
  unfold ess_eta_star ess_eta_star_on_slice ess_entry
  rw [slice_loop_eq_some_iff]
  simp only [Nat.zero_add]

theorem ess_X_eq_none_iff {K d : Nat} (P : Prims α) (u : Nat → α) (corr_function : String)
    (X_current X_prior mu_X : α) (X_knots : Fin K → α) (y_current mu_current : Fin d → α)
    (eta_star_current : Matrix (Fin K) (Fin d) α) (zeta_current : Fin d → α)
    (R_tau_current : Matrix (Fin d) (Fin d) α) (phi_current sigma_current : α)
    (C_inv_current : Matrix (Fin K) (Fin K) α) (fuel : Nat) :
    ess_X P fuel u corr_function X_current X_prior mu_X X_knots y_current mu_current
        eta_star_current zeta_current R_tau_current phi_current sigma_current
        C_inv_current = none ↔
      ∀ i, i < fuel → ¬ ess_X_on_slice P u corr_function X_current X_prior mu_X X_knots
        y_current mu_current eta_star_current zeta_current R_tau_current phi_current
        sigma_current C_inv_current i := by
  unfold ess_X ess_X_on_slice ess_entry
  rw [slice_loop_eq_none_iff]
  simp only [Nat.zero_add]

theorem ess_X_eq_some_iff {K d : Nat} (P : Prims α) (u : Nat → α) (corr_function : String)
    (X_current X_prior mu_X : α) (X_knots : Fin K → α) (y_current mu_current : Fin d → α)
    (eta_star_current : Matrix (Fin K) (Fin d) α) (zeta_current : Fin d → α)
    (R_tau_current : Matrix (Fin d) (Fin d) α) (phi_current sigma_current : α)
    (C_inv_current : Matrix (Fin K) (Fin K) α) (fuel : Nat) (out : EssXOut α K d) (b : Nat) :
    ess_X P fuel u corr_function X_current X_prior mu_X X_knots y_current mu_current
        eta_star_current zeta_current R_tau_current phi_current sigma_current
        C_inv_current = some (out, b) ↔
      ∃ m, m < fuel ∧
        (∀ i, i < m → ¬ ess_X_on_slice P u corr_function X_current X_prior mu_X X_knots
          y_current mu_current eta_star_current zeta_current R_tau_current phi_current
          sigma_current C_inv_current i) ∧
        ess_X_on_slice P u corr_function X_current X_prior mu_X X_knots
          y_current mu_current eta_star_current zeta_current R_tau_current phi_current
          sigma_current C_inv_current m ∧
        out = ess_X_proposal P corr_function X_current X_prior mu_X X_knots eta_star_current
          R_tau_current phi_current C_inv_current (ess_entry P u m).phi_angle ∧
        b = (ess_entry P u m).bug_lines := by
  unfold ess_X ess_X_on_slice ess_entry
  rw [slice_loop_eq_some_iff]
  simp only [Nat.zero_add]

end EssClaims

section EssRuns

theorem real_log_two_le_one : Real.log 2 ≤ 1 := by
  have h := Real.log_le_sub_one_of_pos (show (0 : ℝ) < 2 by norm_num)
  linarith

theorem real_exp_neg_two_le : Real.exp (-2) ≤ 1 / 3 := by
  have h := Real.add_one_le_exp (2 : ℝ)
  rw [Real.exp_neg, inv_eq_one_div]
  apply div_le_div_of_nonneg_left <;> linarith

theorem real_sqrt_four : Real.sqrt 4 = 2 := by
  rw [show (4 : ℝ) = 2 ^ 2 by norm_num]
  exact Real.sqrt_sq (by norm_num)

theorem ess_entry_zero {α : Type} [LinearOrderedField α] (P : Prims α) (u : Nat → α) :
    ess_entry P u 0 = ess_init P (u 1) := rfl

theorem ess_entry_succ {α : Type} [LinearOrderedField α] (P : Prims α) (u : Nat → α) (i : Nat) :
    ess_entry P u (i + 1) = slice_shrink (u (i + 2)) (ess_entry P u i) := rfl

/-- With the draws `1/2, 1/2, 1/2, 3/4` the first pass tries the angle `pi`. -/
theorem collapse_run_entry_zero :
    ess_entry (stdPrims Real.exp Real.log Real.sqrt Real.cos Real.sin Real.pi)
      (fun n => if n = 3 then 3 / 4 else 1 / 2) 0 = ⟨Real.pi, -Real.pi, Real.pi, 0⟩ := by
  simp [ess_entry_zero, ess_init, stdPrims]
  ring

/-- With the draws `1/2, 1/2, 1/2, 3/4` the second pass tries the angle `0`. -/
theorem collapse_run_entry_one :
    ess_entry (stdPrims Real.exp Real.log Real.sqrt Real.cos Real.sin Real.pi)
      (fun n => if n = 3 then 3 / 4 else 1 / 2) 1 = ⟨0, -Real.pi, Real.pi, 0⟩ := by
  rw [ess_entry_succ, collapse_run_entry_zero]
  simp [slice_shrink, Real.pi_pos]
  ring

/-- With the draws `1/2, 1/2, 1/2, 3/4` the third pass tries the angle `pi / 2`,
after one diagnostic line. -/
theorem collapse_run_entry_two :
    ess_entry (stdPrims Real.exp Real.log Real.sqrt Real.cos Real.sin Real.pi)
      (fun n => if n = 3 then 3 / 4 else 1 / 2) 2 = ⟨Real.pi / 2, -Real.pi, Real.pi, 1⟩ := by
  rw [ess_entry_succ, collapse_run_entry_one]
  simp [slice_shrink]
  ring

end EssRuns

section EssClaimTheorems

/-- C1, counterexample: there is no maximum number of bracket shrinks. With
real arithmetic, all uniform draws equal to `1/2`, a current column and a prior
draw equal to zero (so that every candidate is the same) and a cached fitted
effect `zeta_current` that fits `y` better than any candidate, `ess_eta_star`
has not stopped after any number of passes, and neither has `ess_X` on the
analogous input. -/
theorem ess_never_stops_counterexample :
    (∀ fuel : Nat,
      ess_eta_star (stdPrims Real.exp Real.log Real.sqrt Real.cos Real.sin Real.pi) fuel
        (fun _ => 1 / 2) (0 : Matrix (Fin 1) (Fin 1) ℝ) (0 : Fin 1 → ℝ)
        (fun _ _ => 10 : Matrix (Fin 1) (Fin 1) ℝ) 0 (fun _ _ => 10) 1 1 1 0 = none) ∧
    (∀ fuel : Nat,
      ess_X (stdPrims Real.exp Real.log Real.sqrt Real.cos Real.sin Real.pi) fuel
        (fun _ => 1 / 2) "exponential" 0 0 0 (fun _ => 0 : Fin 1 → ℝ)
        (fun _ => 10 : Fin 1 → ℝ) (fun _ => 0) (0 : Matrix (Fin 1) (Fin 1) ℝ)
        (fun _ => 10) 1 1 1 1 = none) := by
  have hlog := real_log_two_le_one
  constructor
  · intro fuel
    rw [ess_eta_star_eq_none_iff]
    intro i _
    simp only [ess_eta_star_on_slice, ess_eta_star_hh, gauss_loglik, ess_eta_star_proposal,
      stdPrims]
    simp
    norm_num
    linarith
  · intro fuel
    rw [ess_X_eq_none_iff]
    intro i _
    simp only [ess_X_on_slice, row_loglik, ess_X_proposal, stdPrims]
    simp
    norm_num
    linarith

/-- C1, amended: `ess_eta_star` and `ess_X` have no maximum number of bracket
shrinks. For every number `fuel` of passes, the call has not stopped within
`fuel` passes exactly when none of its first `fuel` candidates is on the slice,
and it returns within `fuel` passes exactly when one of them is; it then
returns the first candidate that is on the slice. The degeneracy diagnostic
never ends the loop. -/
theorem ess_stops_exactly_at_first_acceptance {α : Type} [LinearOrderedField α]
    {N K d Kx dx : Nat} (P : Prims α) (u : Nat → α)
    (eta_star_current : Matrix (Fin K) (Fin d) α) (eta_star_prior : Fin K → α)
    (y_current mu_mat_current zeta_current : Matrix (Fin N) (Fin d) α)
    (R_tau_current : Matrix (Fin d) (Fin d) α) (Z_current : Matrix (Fin N) (Fin K) α)
    (sigma2_current : α) (j : Fin d) (corr_function : String)
    (X_current X_prior mu_X : α) (X_knots : Fin Kx → α) (y_row mu_current : Fin dx → α)
    (eta_star_x : Matrix (Fin Kx) (Fin dx) α) (zeta_row : Fin dx → α)
    (R_tau_x : Matrix (Fin dx) (Fin dx) α) (phi_current sigma_current : α)
    (C_inv_current : Matrix (Fin Kx) (Fin Kx) α) (fuel : Nat) :
    (ess_eta_star P fuel u eta_star_current eta_star_prior y_current mu_mat_current
        zeta_current R_tau_current Z_current sigma2_current j = none ↔
      ∀ i, i < fuel → ¬ ess_eta_star_on_slice P u eta_star_current eta_star_prior y_current
        mu_mat_current zeta_current R_tau_current Z_current sigma2_current j i) ∧
    (∀ out b, ess_eta_star P fuel u eta_star_current eta_star_prior y_current mu_mat_current
        zeta_current R_tau_current Z_current sigma2_current j = some (out, b) ↔
      ∃ m, m < fuel ∧
        (∀ i, i < m → ¬ ess_eta_star_on_slice P u eta_star_current eta_star_prior y_current
          mu_mat_current zeta_current R_tau_current Z_current sigma2_current j i) ∧
        ess_eta_star_on_slice P u eta_star_current eta_star_prior y_current
          mu_mat_current zeta_current R_tau_current Z_current sigma2_current j m ∧
        out = ess_eta_star_proposal P eta_star_current eta_star_prior R_tau_current Z_current j
          (ess_entry P u m).phi_angle ∧
        b = (ess_entry P u m).bug_lines) ∧
    (ess_X P fuel u corr_function X_current X_prior mu_X X_knots y_row mu_current
        eta_star_x zeta_row R_tau_x phi_current sigma_current C_inv_current = none ↔
      ∀ i, i < fuel → ¬ ess_X_on_slice P u corr_function X_current X_prior mu_X X_knots
        y_row mu_current eta_star_x zeta_row R_tau_x phi_current sigma_current
        C_inv_current i) ∧
    (∀ out b, ess_X P fuel u corr_function X_current X_prior mu_X X_knots y_row mu_current
        eta_star_x zeta_row R_tau_x phi_current sigma_current C_inv_current = some (out, b) ↔
      ∃ m, m < fuel ∧
        (∀ i, i < m → ¬ ess_X_on_slice P u corr_function X_current X_prior mu_X X_knots
          y_row mu_current eta_star_x zeta_row R_tau_x phi_current sigma_current
          C_inv_current i) ∧
        ess_X_on_slice P u corr_function X_current X_prior mu_X X_knots
          y_row mu_current eta_star_x zeta_row R_tau_x phi_current sigma_current
          C_inv_current m ∧
        out = ess_X_proposal P corr_function X_current X_prior mu_X X_knots eta_star_x
          R_tau_x phi_current C_inv_current (ess_entry P u m).phi_angle ∧
        b = (ess_entry P u m).bug_lines) :=
  ⟨ess_eta_star_eq_none_iff P u eta_star_current eta_star_prior y_current mu_mat_current
      zeta_current R_tau_current Z_current sigma2_current j fuel,
    fun out b => ess_eta_star_eq_some_iff P u eta_star_current eta_star_prior y_current
      mu_mat_current zeta_current R_tau_current Z_current sigma2_current j fuel out b,
    ess_X_eq_none_iff P u corr_function X_current X_prior mu_X X_knots y_row mu_current
      eta_star_x zeta_row R_tau_x phi_current sigma_current C_inv_current fuel,
    fun out b => ess_X_eq_some_iff P u corr_function X_current X_prior mu_X X_knots y_row
      mu_current eta_star_x zeta_row R_tau_x phi_current sigma_current C_inv_current fuel
      out b⟩

end EssClaimTheorems

section EssCollapse

/-- C2, counterexample: a rejected angle of exactly `0` does not end the loop.
With real arithmetic and the uniform draws `1/2, 1/2, 1/2, 3/4`, the second pass
(pass 1) of `ess_eta_star` tries the angle `0` and rejects it, the loop goes on,
and the call returns after the third pass with one diagnostic line written and
with `eta_star = 0`, which is not the current value `2`. The same happens in
`ess_X`, which returns `X = 0` for the current value `2`. -/
theorem ess_continues_after_collapse_counterexample :
    ((ess_entry (stdPrims Real.exp Real.log Real.sqrt Real.cos Real.sin Real.pi)
        (fun n => if n = 3 then 3 / 4 else 1 / 2) 1).phi_angle = 0 ∧
      ¬ ess_eta_star_on_slice (stdPrims Real.exp Real.log Real.sqrt Real.cos Real.sin Real.pi)
        (fun n => if n = 3 then 3 / 4 else 1 / 2) (fun _ _ => 2 : Matrix (Fin 1) (Fin 1) ℝ)
        (0 : Fin 1 → ℝ) (0 : Matrix (Fin 1) (Fin 1) ℝ) 0 0 1 1 1 0 1 ∧
      ess_eta_star (stdPrims Real.exp Real.log Real.sqrt Real.cos Real.sin Real.pi) 3
        (fun n => if n = 3 then 3 / 4 else 1 / 2) (fun _ _ => 2 : Matrix (Fin 1) (Fin 1) ℝ)
        (0 : Fin 1 → ℝ) (0 : Matrix (Fin 1) (Fin 1) ℝ) 0 0 1 1 1 0 =
        some ({ eta_star := 0, zeta := 0 }, 1)) ∧
    (¬ ess_X_on_slice (stdPrims Real.exp Real.log Real.sqrt Real.cos Real.sin Real.pi)
        (fun n => if n = 3 then 3 / 4 else 1 / 2) "exponential" 2 0 0 (fun _ => 0 : Fin 1 → ℝ)
        (fun _ => 10 : Fin 1 → ℝ) (fun _ => 0) (fun _ _ => 10 : Matrix (Fin 1) (Fin 1) ℝ)
        (fun _ => 10) 1 1 1 1 1 ∧
      ess_X (stdPrims Real.exp Real.log Real.sqrt Real.cos Real.sin Real.pi) 3
        (fun n => if n = 3 then 3 / 4 else 1 / 2) "exponential" 2 0 0 (fun _ => 0 : Fin 1 → ℝ)
        (fun _ => 10 : Fin 1 → ℝ) (fun _ => 0) (fun _ _ => 10 : Matrix (Fin 1) (Fin 1) ℝ)
        (fun _ => 10) 1 1 1 1 =
        some ({ X := 0, D := fun _ => 0, c := fun _ => 1, Z := fun _ => 1,
                zeta := fun _ => 10 }, 1)) := by
  have hlog := real_log_two_le_one
  have hlog0 : 0 < Real.log 2 := Real.log_pos (by norm_num)
  have hexp := real_exp_neg_two_le
  have hkey : Real.log 2 ≤ (10 - Real.exp (-2) * 10) ^ 2 / 2 := by
    have h1 : 20 / 3 ≤ 10 - Real.exp (-2) * 10 := by linarith
    have h2 : (20 / 3 : ℝ) ^ 2 ≤ (10 - Real.exp (-2) * 10) ^ 2 :=
      pow_le_pow_left₀ (by norm_num) h1 2
    linarith
  have r1 : ¬ ess_eta_star_on_slice
      (stdPrims Real.exp Real.log Real.sqrt Real.cos Real.sin Real.pi)
      (fun n => if n = 3 then 3 / 4 else 1 / 2) (fun _ _ => 2 : Matrix (Fin 1) (Fin 1) ℝ)
      (0 : Fin 1 → ℝ) (0 : Matrix (Fin 1) (Fin 1) ℝ) 0 0 1 1 1 0 1 := by
    unfold ess_eta_star_on_slice
    rw [collapse_run_entry_one]
    simp only [ess_eta_star_hh, gauss_loglik, ess_eta_star_proposal, stdPrims]
    simp
    norm_num
    linarith
  have x1 : ¬ ess_X_on_slice (stdPrims Real.exp Real.log Real.sqrt Real.cos Real.sin Real.pi)
      (fun n => if n = 3 then 3 / 4 else 1 / 2) "exponential" 2 0 0 (fun _ => 0 : Fin 1 → ℝ)
      (fun _ => 10 : Fin 1 → ℝ) (fun _ => 0) (fun _ _ => 10 : Matrix (Fin 1) (Fin 1) ℝ)
      (fun _ => 10) 1 1 1 1 1 := by
    unfold ess_X_on_slice
    rw [collapse_run_entry_one]
    simp only [row_loglik, ess_X_proposal, dist_row, stdPrims]
    simp [Matrix.vecMul, Matrix.dotProduct, real_sqrt_four]
    exact hkey
  refine ⟨⟨by rw [collapse_run_entry_one], r1, ?_⟩, x1, ?_⟩
  · rw [ess_eta_star_eq_some_iff]
    refine ⟨2, by norm_num, ?_, ?_, ?_, ?_⟩
    · intro i hi
      interval_cases i
      · unfold ess_eta_star_on_slice
        rw [collapse_run_entry_zero]
        simp only [ess_eta_star_hh, gauss_loglik, ess_eta_star_proposal, stdPrims]
        simp
        norm_num
        linarith
      · exact r1
    · unfold ess_eta_star_on_slice
      rw [collapse_run_entry_two]
      simp only [ess_eta_star_hh, gauss_loglik, ess_eta_star_proposal, stdPrims]
      simp
      exact hlog0
    · rw [collapse_run_entry_two]
      simp only [ess_eta_star_proposal, stdPrims]
      simp
      ext a b
      simp [Matrix.updateColumn_apply, Subsingleton.elim b 0]
    · rw [collapse_run_entry_two]
  · rw [ess_X_eq_some_iff]
    refine ⟨2, by norm_num, ?_, ?_, ?_, ?_⟩
    · intro i hi
      interval_cases i
      · unfold ess_X_on_slice
        rw [collapse_run_entry_zero]
        simp only [row_loglik, ess_X_proposal, dist_row, stdPrims]
        simp [Matrix.vecMul, Matrix.dotProduct, real_sqrt_four]
        exact hkey
      · exact x1
    · unfold ess_X_on_slice
      rw [collapse_run_entry_two]
      simp only [row_loglik, ess_X_proposal, dist_row, stdPrims]
      simp [Matrix.vecMul, Matrix.dotProduct]
      exact hlog0
    · rw [collapse_run_entry_two]
      simp only [ess_X_proposal, dist_row, stdPrims]
      simp [Matrix.vecMul, Matrix.dotProduct]
      funext a
      simp [Matrix.vecMul, Matrix.dotProduct]
    · rw [collapse_run_entry_two]

/-- C2, amended: when the angle tried by pass `i` of `ess_eta_star` or `ess_X`
is exactly `0` and its candidate is rejected, the loop does not stop: it writes
one diagnostic line, leaves both ends of the bracket as they are, draws the
next angle `min + u * (max - min)` in that bracket and goes on to pass `i + 1`;
if no earlier pass accepted, the call has neither returned nor failed after
pass `i`. -/
theorem ess_collapse_keeps_looping {α : Type} [LinearOrderedField α] (P : Prims α)
    (u : Nat → α) (i : Nat) (h0 : (ess_entry P u i).phi_angle = 0) :
    ess_entry P u (i + 1) =
      { phi_angle := u (i + 2) *
          ((ess_entry P u i).phi_angle_max - (ess_entry P u i).phi_angle_min) +
          (ess_entry P u i).phi_angle_min
        phi_angle_min := (ess_entry P u i).phi_angle_min
        phi_angle_max := (ess_entry P u i).phi_angle_max
        bug_lines := (ess_entry P u i).bug_lines + 1 } ∧
    (∀ {N K d : Nat} (eta_star_current : Matrix (Fin K) (Fin d) α) (eta_star_prior : Fin K → α)
      (y_current mu_mat_current zeta_current : Matrix (Fin N) (Fin d) α)
      (R_tau_current : Matrix (Fin d) (Fin d) α) (Z_current : Matrix (Fin N) (Fin K) α)
      (sigma2_current : α) (j : Fin d),
      (∀ k, k ≤ i → ¬ ess_eta_star_on_slice P u eta_star_current eta_star_prior y_current
        mu_mat_current zeta_current R_tau_current Z_current sigma2_current j k) →
      ess_eta_star P (i + 1) u eta_star_current eta_star_prior y_current mu_mat_current
        zeta_current R_tau_current Z_current sigma2_current j = none) ∧
    (∀ {K d : Nat} (corr_function : String) (X_current X_prior mu_X : α) (X_knots : Fin K → α)
      (y_current mu_current : Fin d → α) (eta_star_current : Matrix (Fin K) (Fin d) α)
      (zeta_current : Fin d → α) (R_tau_current : Matrix (Fin d) (Fin d) α)
      (phi_current sigma_current : α) (C_inv_current : Matrix (Fin K) (Fin K) α),
      (∀ k, k ≤ i → ¬ ess_X_on_slice P u corr_function X_current X_prior mu_X X_knots
        y_current mu_current eta_star_current zeta_current R_tau_current phi_current
        sigma_current C_inv_current k) →
      ess_X P (i + 1) u corr_function X_current X_prior mu_X X_knots y_current mu_current
        eta_star_current zeta_current R_tau_current phi_current sigma_current
        C_inv_current = none) := by
  refine ⟨?_, ?_, ?_⟩
  · rw [ess_entry_succ]
    simp [slice_shrink, h0]
  · intro N K d eta_star_current eta_star_prior y_current mu_mat_current zeta_current
      R_tau_current Z_current sigma2_current j hrej
    rw [ess_eta_star_eq_none_iff]
    exact fun k hk => hrej k (Nat.le_of_lt_succ hk)
  · intro K d corr_function X_current X_prior mu_X X_knots y_current mu_current
      eta_star_current zeta_current R_tau_current phi_current sigma_current C_inv_current hrej
    rw [ess_X_eq_none_iff]
    exact fun k hk => hrej k (Nat.le_of_lt_succ hk)

/-- C2, witness: the hypothesis of `ess_collapse_keeps_looping` holds at pass 1
of the run with the draws `1/2, 1/2, 1/2, 3/4`. -/
theorem ess_collapse_keeps_looping_witness :
    (ess_entry (stdPrims Real.exp Real.log Real.sqrt Real.cos Real.sin Real.pi)
        (fun n => if n = 3 then 3 / 4 else 1 / 2) 1).phi_angle = 0 ∧
      (ess_entry (stdPrims Real.exp Real.log Real.sqrt Real.cos Real.sin Real.pi)
        (fun n => if n = 3 then 3 / 4 else 1 / 2) 2).bug_lines =
      (ess_entry (stdPrims Real.exp Real.log Real.sqrt Real.cos Real.sin Real.pi)
        (fun n => if n = 3 then 3 / 4 else 1 / 2) 1).bug_lines + 1 :=
  have h0 : (ess_entry (stdPrims Real.exp Real.log Real.sqrt Real.cos Real.sin Real.pi)
      (fun n => if n = 3 then 3 / 4 else 1 / 2) 1).phi_angle = 0 := by
    rw [collapse_run_entry_one]
  ⟨h0, congrArg SliceState.bug_lines (ess_collapse_keeps_looping _ _ 1 h0).1⟩

end EssCollapse

section DensityTheorems
open Matrix

variable {α : Type} [LinearOrderedField α]

theorem trimatu_of_upper {k : Nat} (U : Matrix (Fin k) (Fin k) α)
    (hU : ∀ i j, j < i → U i j = 0) : trimatu U = U := by
  ext i j
  unfold trimatu
  split_ifs with h
  · rfl
  · exact (hU i j (not_le.mp h)).symm

theorem log_one_of_mul (log : α → α)
    (hmul : ∀ a b, 0 < a → 0 < b → log (a * b) = log a + log b) : log 1 = 0 := by
  have h := hmul 1 1 one_pos one_pos
  rw [mul_one] at h
  linarith

theorem log_inv_of_mul (log : α → α)
    (hmul : ∀ a b, 0 < a → 0 < b → log (a * b) = log a + log b) (a : α) (ha : 0 < a) :
    log a⁻¹ = - log a := by
  have h := hmul a a⁻¹ ha (inv_pos.mpr ha)
  rw [mul_inv_cancel₀ (ne_of_gt ha), log_one_of_mul log hmul] at h
  linarith

theorem log_prod_of_mul {ι : Type} (log : α → α)
    (hmul : ∀ a b, 0 < a → 0 < b → log (a * b) = log a + log b) (s : Finset ι) (f : ι → α)
    (hf : ∀ i, 0 < f i) : log (∏ i in s, f i) = ∑ i in s, log (f i) := by
  classical
  induction s using Finset.induction_on with
  | empty => simp [log_one_of_mul log hmul]
  | insert hi ih =>
    rw [Finset.prod_insert hi, Finset.sum_insert hi, hmul _ _ (hf _) (Finset.prod_pos fun i _ => hf i), ih]

theorem inv_upper_diag {k : Nat} (U V : Matrix (Fin k) (Fin k) α)
    (hU : ∀ i j, j < i → U i j = 0) (hVU : V * U = 1) (i : Fin k) : V i i * U i i = 1 := by
  have hUV : U * V = 1 := Matrix.mul_eq_one_comm.mp hVU
  haveI : Invertible U := Matrix.invertibleOfRightInverse U V hUV
  have hVinv : U⁻¹ = V := Matrix.inv_eq_left_inv hVU
  have hUtri : U.BlockTriangular id := fun a b hab => hU a b hab
  have hVtri : V.BlockTriangular id := by
    rw [← hVinv]
    exact Matrix.blockTriangular_inv_of_blockTriangular hUtri
  have h := congrFun (congrFun hVU i) i
  rw [Matrix.mul_apply, Matrix.one_apply_eq] at h
  rw [← h]
  symm
  apply Finset.sum_eq_single i
  · intro b _ hb
    rcases lt_or_gt_of_ne hb with hlt | hgt
    · rw [hVtri hlt, zero_mul]
    · rw [hU b i hgt, mul_zero]
  · intro h; exact absurd (Finset.mem_univ i) h



theorem dMVNChol_log_eq {k : Nat} (P : Prims α)
    (inv : Matrix (Fin k) (Fin k) α → Matrix (Fin k) (Fin k) α) (y mu : Fin k → α)
    (U : Matrix (Fin k) (Fin k) α) (hU : ∀ i j, j < i → U i j = 0) (hpos : ∀ i, 0 < U i i)
    (hinv : inv (trimatu U) * trimatu U = 1)
    (hmul : ∀ a b, 0 < a → 0 < b → P.log (a * b) = P.log a + P.log b)
    (h2pi : P.log2pi = P.log (2 * P.pi)) :
    dMVNChol P inv y mu U true =
      -((k : α) / 2) * P.log (2 * P.pi) - 1 / 2 * P.log (Uᵀ * U).det -
        1 / 2 * ((y - mu) ⬝ᵥ ((Uᵀ * U)⁻¹ *ᵥ (y - mu))) := by
  rw [trimatu_of_upper U hU] at hinv
  have hUV : U * inv U = 1 := Matrix.mul_eq_one_comm.mp hinv
  haveI : Invertible U := Matrix.invertibleOfRightInverse U (inv U) hUV
  have hVinv : U⁻¹ = inv U := Matrix.inv_eq_left_inv hinv
  have hdiag : ∀ i, inv U i i = (U i i)⁻¹ := fun i =>
    eq_inv_of_mul_eq_one_left (inv_upper_diag U (inv U) hU hinv i)
  have hdet : (Uᵀ * U).det = (∏ i, U i i) * (∏ i, U i i) := by
    rw [Matrix.det_mul, Matrix.det_transpose,
      Matrix.det_of_upperTriangular (fun a b hab => hU a b hab)]
  have hprod : 0 < ∏ i, U i i := Finset.prod_pos fun i _ => hpos i
  have hlogdet : P.log (Uᵀ * U).det = 2 * ∑ i, P.log (U i i) := by
    rw [hdet, hmul _ _ hprod hprod, log_prod_of_mul P.log hmul Finset.univ _ hpos]
    ring
  have hroot : ∑ i, P.log ((inv U)ᵀ i i) = - ∑ i, P.log (U i i) := by
    rw [← Finset.sum_neg_distrib]
    apply Finset.sum_congr rfl
    intro i _
    rw [Matrix.transpose_apply, hdiag, log_inv_of_mul P.log hmul _ (hpos i)]
  have hquad : (y - mu) ⬝ᵥ ((Uᵀ * U)⁻¹ *ᵥ (y - mu)) =
      ∑ i, ((inv U)ᵀ *ᵥ (y - mu)) i * ((inv U)ᵀ *ᵥ (y - mu)) i := by
    rw [Matrix.mul_inv_rev, ← Matrix.transpose_nonsing_inv, hVinv, ← Matrix.mulVec_mulVec,
      Matrix.dotProduct_mulVec, ← Matrix.mulVec_transpose]
    rfl
  unfold dMVNChol
  simp only [if_true, trimatu_of_upper U hU]
  rw [hroot, hlogdet, hquad, h2pi]
  ring



/-- C9: for an upper-triangular `Sigma_chol` with positive diagonal,
`dMVNChol(y, mu, Sigma_chol, true)` is the Gaussian log-density with the dense
covariance `Sigma = Sigma_chol^T * Sigma_chol`, namely
`-(k/2) log(2 pi) - (1/2) log det Sigma - (1/2) (y - mu)^T Sigma^{-1} (y - mu)`,
and with `logd = false` it is the exponential of that value. Arithmetic is
exact; `inv` returns a left inverse of the triangular factor, `log` turns
products of positive numbers into sums and `log2pi` is `log(2 pi)`. -/
theorem dMVNChol_matches_dense_gaussian {k : Nat} (P : Prims α)
    (inv : Matrix (Fin k) (Fin k) α → Matrix (Fin k) (Fin k) α) (y mu : Fin k → α)
    (Sigma_chol : Matrix (Fin k) (Fin k) α)
    (hupper : ∀ i j, j < i → Sigma_chol i j = 0) (hpos : ∀ i, 0 < Sigma_chol i i)
    (hinv : inv (trimatu Sigma_chol) * trimatu Sigma_chol = 1)
    (hmul : ∀ a b, 0 < a → 0 < b → P.log (a * b) = P.log a + P.log b)
    (h2pi : P.log2pi = P.log (2 * P.pi)) :
    dMVNChol P inv y mu Sigma_chol true =
        -((k : α) / 2) * P.log (2 * P.pi) - 1 / 2 * P.log (Sigma_cholᵀ * Sigma_chol).det -
          1 / 2 * ((y - mu) ⬝ᵥ ((Sigma_cholᵀ * Sigma_chol)⁻¹ *ᵥ (y - mu))) ∧
      dMVNChol P inv y mu Sigma_chol false =
        P.exp (-((k : α) / 2) * P.log (2 * P.pi) -
          1 / 2 * P.log (Sigma_cholᵀ * Sigma_chol).det -
          1 / 2 * ((y - mu) ⬝ᵥ ((Sigma_cholᵀ * Sigma_chol)⁻¹ *ᵥ (y - mu)))) := by
  have h := dMVNChol_log_eq P inv y mu Sigma_chol hupper hpos hinv hmul h2pi
  refine ⟨h, ?_⟩
  rw [← h]
  simp [dMVNChol]

/-- C9, witness: the theorem applied over the reals to the factor
`[[2, 1], [0, 3]]`, whose inverse is `[[1/2, -1/6], [0, 1/3]]`. -/
theorem dMVNChol_matches_dense_gaussian_witness :
    dMVNChol (stdPrims Real.exp Real.log Real.sqrt Real.cos Real.sin Real.pi)
        (fun _ => !![1 / 2, -1 / 6; 0, 1 / 3]) ![1, 2] ![0, 0] !![2, 1; 0, 3] true =
      -((2 : ℕ) / 2 : ℝ) * Real.log (2 * Real.pi) -
        1 / 2 * Real.log ((!![2, 1; 0, 3] : Matrix (Fin 2) (Fin 2) ℝ)ᵀ * !![2, 1; 0, 3]).det -
        1 / 2 * ((![1, 2] - ![0, 0]) ⬝ᵥ
          (((!![2, 1; 0, 3] : Matrix (Fin 2) (Fin 2) ℝ)ᵀ * !![2, 1; 0, 3])⁻¹ *ᵥ
            (![1, 2] - ![0, 0]))) :=
  (dMVNChol_matches_dense_gaussian
    (stdPrims Real.exp Real.log Real.sqrt Real.cos Real.sin Real.pi)
    (fun _ => !![1 / 2, -1 / 6; 0, 1 / 3]) ![1, 2] ![0, 0] !![2, 1; 0, 3]
    (by
      intro i j hij
      fin_cases i <;> fin_cases j <;> simp at hij ⊢)
    (by
      intro i
      fin_cases i <;> simp)
    (by
      ext i j
      fin_cases i <;> fin_cases j <;>
        simp [trimatu, Matrix.mul_apply, Fin.sum_univ_two] <;> norm_num)
    (fun a b ha hb => Real.log_mul (ne_of_gt ha) (ne_of_gt hb))
    rfl).1

end DensityTheorems

section DriverLemmas

variable {α : Type} [LinearOrderedField α] {N_obs N_lat K d B : Nat}

theorem foldl_invariant {σ ι : Type} (Inv : σ → Prop) (f : σ → ι → σ)
    (hf : ∀ s i, Inv s → Inv (f s i)) (l : List ι) (s : σ) (hs : Inv s) :
    Inv (l.foldl f s) := by
  induction l generalizing s with
  | nil => exact hs
  | cons a l ih => exact ih (f s a) (hf s a hs)

theorem Run.bind_eq_done {β γ : Type} (r : Run β) (f : β → Run γ) (c : γ)
    (h : r.bind f = Run.done c) : ∃ b, r = Run.done b ∧ f b = Run.done c := by
  cases r with
  | done b => exact ⟨b, rfl, h⟩
  | stop msg => simp [Run.bind] at h
  | hang => simp [Run.bind] at h

theorem run_foldl_invariant {σ ι : Type} (Inv : σ → Prop) (f : σ → ι → Run σ)
    (hf : ∀ s i t, Inv s → f s i = Run.done t → Inv t) (l : List ι) (r : Run σ)
    (hr : ∀ s, r = Run.done s → Inv s) (t : σ)
    (h : l.foldl (fun r i => r.bind (fun s => f s i)) r = Run.done t) : Inv t := by
  induction l generalizing r with
  | nil => exact hr t h
  | cons a l ih =>
    refine ih (r.bind (fun s => f s a)) ?_ h
    intro s hs
    obtain ⟨b, hb, hfb⟩ := Run.bind_eq_done _ _ _ hs
    exact hf b a s (hr b hb) hfb

theorem phase_loop_invariant {β : Type} (Inv : β → Prop) (iter : Nat → β → Run β)
    (hiter : ∀ k b c, Inv b → iter k b = Run.done c → Inv c) (n : Nat) (b c : β)
    (hb : Inv b) (h : phase_loop iter n b = Run.done c) : Inv c := by
  induction n generalizing c with
  | zero =>
    simp only [phase_loop, Run.done.injEq] at h
    exact h ▸ hb
  | succ n ih =>
    obtain ⟨m, hm, hmc⟩ := Run.bind_eq_done _ _ _ h
    exact hiter n m c (ih m hm) hmc

theorem updateRow_mul_mul {n k d : Nat} (Z : Matrix (Fin n) (Fin k) α)
    (E : Matrix (Fin k) (Fin d) α) (R : Matrix (Fin d) (Fin d) α) (i : Fin n) (z : Fin k → α) :
    Matrix.updateRow (Z * E * R) i (Matrix.vecMul (Matrix.vecMul z E) R) =
      Matrix.updateRow Z i z * E * R := by
  ext a b
  by_cases h : a = i
  · subst h
    rw [Matrix.updateRow_self, Matrix.vecMul_vecMul, Matrix.mul_assoc]
    simp [Matrix.mul_apply, Matrix.vecMul, Matrix.dotProduct]
  · simp [Matrix.updateRow_ne h, Matrix.mul_apply]

theorem mstep_zeta (C : Cfg α N_obs N_lat K d B) (m m1 : Model α N_obs N_lat K d B)
    (h : MStep C m m1) (hz : m.zeta = m.Z * m.eta_star * m.R_tau) :
    m1.zeta = m1.Z * m1.eta_star * m1.R_tau := by
  cases h with
  | mu => exact hz
  | phi => rfl
  | eta_star => rfl
  | sigma2 => exact hz
  | tau2 => rfl
  | s2_tau2 => exact hz
  | xi => rfl
  | X l x D c Z =>
    show Matrix.updateRow m.zeta _ _ = Matrix.updateRow m.Z _ _ * m.eta_star * m.R_tau
    rw [hz, updateRow_mul_mul]

theorem mstep_phi (C : Cfg α N_obs N_lat K d B) (m m1 : Model α N_obs N_lat K d B)
    (h : MStep C m m1) (hp : C.phi_L ≤ m.phi ∧ m.phi ≤ C.phi_U) :
    C.phi_L ≤ m1.phi ∧ m1.phi ≤ C.phi_U := by
  cases h with
  | phi phi hL hU => exact ⟨le_of_lt hL, le_of_lt hU⟩
  | _ => exact hp

theorem mstep_xi (C : Cfg α N_obs N_lat K d B) (m m1 : Model α N_obs N_lat K d B)
    (h : MStep C m m1) (hx : ∀ b, -1 < m.xi b ∧ m.xi b < 1) :
    ∀ b, -1 < m1.xi b ∧ m1.xi b < 1 := by
  cases h with
  | xi xi hxi => exact hxi
  | _ => exact hx

theorem msteps_invariant (C : Cfg α N_obs N_lat K d B) (Q : Model α N_obs N_lat K d B → Prop)
    (hQ : ∀ m m1, MStep C m m1 → Q m → Q m1) (m m1 : Model α N_obs N_lat K d B)
    (h : MSteps C m m1) (hm : Q m) : Q m1 := by
  induction h with
  | refl => exact hm
  | tail _ hstep ih => exact hQ _ _ hstep ih

theorem msteps_refl (C : Cfg α N_obs N_lat K d B) (m : Model α N_obs N_lat K d B) :
    MSteps C m m := Relation.ReflTransGen.refl

theorem msteps_of_eq (C : Cfg α N_obs N_lat K d B) (m m1 : Model α N_obs N_lat K d B)
    (h : m1 = m) : MSteps C m m1 := h ▸ Relation.ReflTransGen.refl

theorem msteps_single (C : Cfg α N_obs N_lat K d B) (m m1 : Model α N_obs N_lat K d B)
    (h : MStep C m m1) : MSteps C m m1 := Relation.ReflTransGen.single h

theorem msteps_trans (C : Cfg α N_obs N_lat K d B) (m m1 m2 : Model α N_obs N_lat K d B)
    (h1 : MSteps C m m1) (h2 : MSteps C m1 m2) : MSteps C m m2 :=
  Relation.ReflTransGen.trans h1 h2

end DriverLemmas
section BlockLemmas

variable {α : Type} [LinearOrderedField α] {N_obs N_lat K d B : Nat}

theorem model_mu_tuning (L : Lib α K d B) (k : Nat) (s : State α N_obs N_lat K d B) :
    (mu_tuning L k s).model = s.model := by
  unfold mu_tuning
  split_ifs <;> rfl

theorem model_phi_tuning (L : Lib α K d B) (ph : Phase) (k : Nat)
    (s : State α N_obs N_lat K d B) : (phi_tuning L ph k s).model = s.model := by
  cases ph <;> simp only [phi_tuning] <;> split_ifs <;> rfl

theorem model_eta_star_tuning (L : Lib α K d B) (ph : Phase) (k : Nat)
    (s : State α N_obs N_lat K d B) : (eta_star_tuning L ph k s).model = s.model := by
  cases ph <;> simp only [eta_star_tuning] <;> split_ifs <;> rfl

theorem model_sigma2_tuning (L : Lib α K d B) (ph : Phase) (k : Nat)
    (s : State α N_obs N_lat K d B) : (sigma2_tuning L ph k s).model = s.model := by
  cases ph <;> simp only [sigma2_tuning] <;> split_ifs <;> rfl

theorem model_tau2_tuning (L : Lib α K d B) (P : Prims α) (ph : Phase) (k : Nat)
    (s : State α N_obs N_lat K d B) : (tau2_tuning L P ph k s).model = s.model := by
  cases ph <;> simp only [tau2_tuning] <;> split_ifs <;> rfl

theorem model_s2_tau2_tuning (L : Lib α K d B) (ph : Phase) (k : Nat)
    (s : State α N_obs N_lat K d B) : (s2_tau2_tuning L ph k s).model = s.model := by
  cases ph <;> simp only [s2_tau2_tuning] <;> split_ifs <;> rfl

theorem model_xi_tuning (L : Lib α K d B) (ph : Phase) (k : Nat)
    (s : State α N_obs N_lat K d B) : (xi_tuning L ph k s).model = s.model := by
  cases ph <;> simp only [xi_tuning] <;> split_ifs <;> rfl

theorem model_X_tuning (L : Lib α K d B) (k : Nat) (s : State α N_obs N_lat K d B) :
    (X_tuning L k s).model = s.model := by
  unfold X_tuning
  split_ifs <;> rfl

theorem mstep_mu_assign (L : Lib α K d B) (C : Cfg α N_obs N_lat K d B) (ph : Phase)
    (dr : Draws α N_lat K d B) (s : State α N_obs N_lat K d B) :
    MStep C s.model (mu_assign L C ph dr s).model := by
  cases ph <;> exact MStep.mu s.model _ _

theorem mstep_phi_assign (L : Lib α K d B) (P : Prims α) (C : Cfg α N_obs N_lat K d B)
    (ph : Phase) (dr : Draws α N_lat K d B) (s : State α N_obs N_lat K d B)
    (hL : C.phi_L < phi_star L dr s) (hU : phi_star L dr s < C.phi_U) :
    MStep C s.model (phi_assign L P C ph dr s).model := by
  cases ph <;> exact MStep.phi s.model _ hL hU _ _ _ _ _

theorem mstep_eta_star_assign (L : Lib α K d B) (C : Cfg α N_obs N_lat K d B) (ph : Phase)
    (dr : Draws α N_lat K d B) (s : State α N_obs N_lat K d B) (j : Fin d) :
    MStep C s.model (eta_star_assign L C ph dr s j).model := by
  cases ph <;> exact MStep.eta_star s.model _

theorem mstep_sigma2_assign (L : Lib α K d B) (P : Prims α) (C : Cfg α N_obs N_lat K d B)
    (ph : Phase) (dr : Draws α N_lat K d B) (s : State α N_obs N_lat K d B) :
    MStep C s.model (sigma2_assign L P C ph dr s).model := by
  cases ph <;> exact MStep.sigma2 s.model _ _

theorem mstep_tau2_assign (L : Lib α K d B) (P : Prims α) (C : Cfg α N_obs N_lat K d B)
    (ph : Phase) (dr : Draws α N_lat K d B) (s : State α N_obs N_lat K d B) :
    MStep C s.model (tau2_assign L P C ph dr s).model := by
  cases ph <;> exact MStep.tau2 s.model _ _ _

theorem mstep_s2_tau2_assign (L : Lib α K d B) (C : Cfg α N_obs N_lat K d B)
    (ph : Phase) (dr : Draws α N_lat K d B) (s : State α N_obs N_lat K d B) :
    MStep C s.model (s2_tau2_assign L C ph dr s).model := by
  cases ph <;> exact MStep.s2_tau2 s.model _

theorem mstep_xi_assign (L : Lib α K d B) (C : Cfg α N_obs N_lat K d B)
    (ph : Phase) (dr : Draws α N_lat K d B) (s : State α N_obs N_lat K d B)
    (R_out : Matrix (Fin d) (Fin d) α × α)
    (hxi : ∀ b, -1 < xi_star L dr s b ∧ xi_star L dr s b < 1) :
    MStep C s.model (xi_assign L C ph dr s R_out).model := by
  cases ph <;> exact MStep.xi s.model _ hxi _ _ _

theorem mstep_X_assign (L : Lib α K d B) (P : Prims α) (C : Cfg α N_obs N_lat K d B)
    (dr : Draws α N_lat K d B) (s : State α N_obs N_lat K d B) (l : Fin N_lat) :
    MStep C s.model (X_assign L P C dr s l).model :=
  MStep.X s.model l _ _ _ _

end BlockLemmas
section BlockSteps

variable {α : Type} [LinearOrderedField α] {N_obs N_lat K d B : Nat}

theorem msteps_mu_block (L : Lib α K d B) (P : Prims α) (C : Cfg α N_obs N_lat K d B)
    (ph : Phase) (k : Nat) (dr : Draws α N_lat K d B) (s : State α N_obs N_lat K d B) :
    MSteps C s.model (mu_block L P C ph k dr s).model := by
  unfold mu_block
  split_ifs
  · rw [model_mu_tuning]; exact msteps_single _ _ _ (mstep_mu_assign L C ph dr s)
  · rw [model_mu_tuning]; exact msteps_refl _ _
  · exact msteps_single _ _ _ (MStep.mu s.model _ _)
  · exact msteps_refl _ _

theorem msteps_phi_block (L : Lib α K d B) (P : Prims α) (C : Cfg α N_obs N_lat K d B)
    (ph : Phase) (k : Nat) (dr : Draws α N_lat K d B) (s : State α N_obs N_lat K d B) :
    MSteps C s.model (phi_block L P C ph k dr s).model := by
  unfold phi_block
  split_ifs with h1 h2 h3
  · rw [model_phi_tuning]
    exact msteps_single _ _ _ (mstep_phi_assign L P C ph dr s h2.1 h2.2)
  · rw [model_phi_tuning]; exact msteps_refl _ _
  · rw [model_phi_tuning]; exact msteps_refl _ _
  · exact msteps_refl _ _

theorem msteps_eta_star_mh_col (L : Lib α K d B) (P : Prims α) (C : Cfg α N_obs N_lat K d B)
    (ph : Phase) (dr : Draws α N_lat K d B) (s : State α N_obs N_lat K d B) (j : Fin d) :
    MSteps C s.model (eta_star_mh_col L P C ph dr s j).model := by
  unfold eta_star_mh_col
  split_ifs
  · exact msteps_single _ _ _ (mstep_eta_star_assign L C ph dr s j)
  · exact msteps_refl _ _

theorem msteps_eta_star_mh_block (L : Lib α K d B) (P : Prims α)
    (C : Cfg α N_obs N_lat K d B) (ph : Phase) (k : Nat) (dr : Draws α N_lat K d B)
    (s : State α N_obs N_lat K d B) :
    MSteps C s.model (eta_star_mh_block L P C ph k dr s).model := by
  unfold eta_star_mh_block
  rw [model_eta_star_tuning]
  exact foldl_invariant (fun t => MSteps C s.model t.model) _
    (fun t j ht => msteps_trans _ _ _ _ ht (msteps_eta_star_mh_col L P C ph dr t j))
    _ s (msteps_refl _ _)

theorem eta_star_ess_col_eq_done (L : Lib α K d B) (P : Prims α)
    (C : Cfg α N_obs N_lat K d B) (fuel : Nat) (dr : Draws α N_lat K d B)
    (s t : State α N_obs N_lat K d B) (j : Fin d)
    (h : eta_star_ess_col L P C fuel dr s j = Run.done t) :
    ∃ out, ess_eta_star P fuel (dr.eta_ess_u j) s.eta_star
        (L.mvrnormArmaVecChol 0 s.C_chol (dr.eta_prior_z j)) C.Y s.mu_mat s.zeta s.R_tau s.Z
        s.sigma2 j = some out ∧ t = eta_star_ess_assign out s := by
  unfold eta_star_ess_col at h
  dsimp only at h
  split at h
  · exact absurd h (by simp)
  · next out hout =>
    simp only [Run.done.injEq] at h
    exact ⟨out, hout, h.symm⟩

theorem msteps_eta_star_ess_col (L : Lib α K d B) (P : Prims α)
    (C : Cfg α N_obs N_lat K d B) (fuel : Nat) (dr : Draws α N_lat K d B)
    (s t : State α N_obs N_lat K d B) (j : Fin d)
    (h : eta_star_ess_col L P C fuel dr s j = Run.done t) : MSteps C s.model t.model := by
  obtain ⟨⟨out, b⟩, hout, rfl⟩ := eta_star_ess_col_eq_done L P C fuel dr s t j h
  rw [ess_eta_star_eq_some_iff] at hout
  obtain ⟨m, _, _, _, ho, _⟩ := hout
  subst ho
  exact msteps_single _ _ _ (MStep.eta_star s.model _)

theorem X_ess_col_eq_done (L : Lib α K d B) (P : Prims α)
    (C : Cfg α N_obs N_lat K d B) (fuel : Nat) (dr : Draws α N_lat K d B)
    (s t : State α N_obs N_lat K d B) (l : Fin N_lat)
    (h : X_ess_col L P C fuel dr s l = Run.done t) :
    ∃ out, ess_X P fuel (dr.X_ess_u l) C.corr_function (s.X (Fin.natAdd N_obs l))
        (L.rnorm 0 C.s_X (dr.X_prior_z l)) C.mu_X C.X_knots
        (fun j => C.Y (Fin.natAdd N_obs l) j) s.mu s.eta_star
        (fun j => s.zeta (Fin.natAdd N_obs l) j) s.R_tau s.phi s.sigma s.C_inv = some out ∧
      t = X_ess_assign l out s := by
  unfold X_ess_col at h
  dsimp only at h
  split at h
  · exact absurd h (by simp)
  · next out hout =>
    simp only [Run.done.injEq] at h
    exact ⟨out, hout, h.symm⟩

theorem msteps_X_ess_col (L : Lib α K d B) (P : Prims α)
    (C : Cfg α N_obs N_lat K d B) (fuel : Nat) (dr : Draws α N_lat K d B)
    (s t : State α N_obs N_lat K d B) (l : Fin N_lat)
    (h : X_ess_col L P C fuel dr s l = Run.done t) : MSteps C s.model t.model := by
  obtain ⟨⟨out, b⟩, hout, rfl⟩ := X_ess_col_eq_done L P C fuel dr s t l h
  rw [ess_X_eq_some_iff] at hout
  obtain ⟨m, _, _, _, ho, _⟩ := hout
  subst ho
  exact msteps_single _ _ _ (MStep.X s.model l _ _ _ _)

theorem msteps_eta_star_block (L : Lib α K d B) (P : Prims α) (C : Cfg α N_obs N_lat K d B)
    (ph : Phase) (fuel k : Nat) (dr : Draws α N_lat K d B) (s t : State α N_obs N_lat K d B)
    (h : eta_star_block L P C ph fuel k dr s = Run.done t) : MSteps C s.model t.model := by
  have hmh : ∀ u, Run.done (eta_star_mh_block L P C ph k dr s) = Run.done u →
      MSteps C s.model u.model := by
    intro u hu
    simp only [Run.done.injEq] at hu
    exact hu ▸ msteps_eta_star_mh_block L P C ph k dr s
  have hess : ∀ u, (List.finRange d).foldl
      (fun r j => r.bind (fun s1 => eta_star_ess_col L P C fuel dr s1 j)) (Run.done s) =
        Run.done u → MSteps C s.model u.model := by
    intro u hu
    refine run_foldl_invariant (fun v => MSteps C s.model v.model) _ ?_ _ _ ?_ u hu
    · intro v j w hv hw
      exact msteps_trans _ _ _ _ hv (msteps_eta_star_ess_col L P C fuel dr v w j hw)
    · intro v hv
      simp only [Run.done.injEq] at hv
      exact hv ▸ msteps_refl _ _
  unfold eta_star_block at h
  cases ph <;> simp only at h <;> split_ifs at h <;>
    first
    | exact hmh t h
    | exact hess t h
    | (simp only [Run.done.injEq] at h; exact h ▸ msteps_refl _ _)

end BlockSteps
section BlockSteps2

variable {α : Type} [LinearOrderedField α] {N_obs N_lat K d B : Nat}

theorem msteps_sigma2_block (L : Lib α K d B) (P : Prims α) (C : Cfg α N_obs N_lat K d B)
    (ph : Phase) (k : Nat) (dr : Draws α N_lat K d B) (s : State α N_obs N_lat K d B) :
    MSteps C s.model (sigma2_block L P C ph k dr s).model := by
  unfold sigma2_block
  split_ifs
  · rw [model_sigma2_tuning]
    exact msteps_single _ _ _ (mstep_sigma2_assign L P C ph dr s)
  · rw [model_sigma2_tuning]; exact msteps_refl _ _
  · rw [model_sigma2_tuning]; exact msteps_refl _ _
  · exact msteps_refl _ _

theorem msteps_tau2_block (L : Lib α K d B) (P : Prims α) (C : Cfg α N_obs N_lat K d B)
    (ph : Phase) (k : Nat) (dr : Draws α N_lat K d B) (s : State α N_obs N_lat K d B) :
    MSteps C s.model (tau2_block L P C ph k dr s).model := by
  unfold tau2_block
  split_ifs
  · rw [model_tau2_tuning]
    exact msteps_single _ _ _ (mstep_tau2_assign L P C ph dr s)
  · rw [model_tau2_tuning]; exact msteps_refl _ _
  · rw [model_tau2_tuning]; exact msteps_refl _ _
  · exact msteps_refl _ _

theorem msteps_s2_tau2_block (L : Lib α K d B) (P : Prims α) (C : Cfg α N_obs N_lat K d B)
    (ph : Phase) (k : Nat) (dr : Draws α N_lat K d B) (s : State α N_obs N_lat K d B) :
    MSteps C s.model (s2_tau2_block L P C ph k dr s).model := by
  unfold s2_tau2_block
  rw [model_s2_tau2_tuning]
  split_ifs
  · exact msteps_single _ _ _ (mstep_s2_tau2_assign L C ph dr s)
  · exact msteps_refl _ _
  · exact msteps_refl _ _
  · exact msteps_refl _ _

theorem msteps_xi_propose (L : Lib α K d B) (P : Prims α) (C : Cfg α N_obs N_lat K d B)
    (ph : Phase) (dr : Draws α N_lat K d B) (s t : State α N_obs N_lat K d B)
    (h : xi_propose L P C ph dr s = Run.done t) : MSteps C s.model t.model := by
  unfold xi_propose at h
  split_ifs at h with hdom
  · split at h
    · exact absurd h (by simp)
    · next R_out _ =>
      simp only [Run.done.injEq] at h
      subst h
      split_ifs
      · exact msteps_single _ _ _
          (mstep_xi_assign L C ph dr s R_out (fun b => ⟨hdom.1 b, hdom.2 b⟩))
      · exact msteps_refl _ _
  · simp only [Run.done.injEq] at h
    exact h ▸ msteps_refl _ _

theorem msteps_xi_block (L : Lib α K d B) (P : Prims α) (C : Cfg α N_obs N_lat K d B)
    (ph : Phase) (k : Nat) (dr : Draws α N_lat K d B) (s t : State α N_obs N_lat K d B)
    (h : xi_block L P C ph k dr s = Run.done t) : MSteps C s.model t.model := by
  unfold xi_block at h
  split_ifs at h
  · obtain ⟨s1, hs1, hdone⟩ := Run.bind_eq_done _ _ _ h
    simp only [Run.done.injEq] at hdone
    subst hdone
    rw [model_xi_tuning]
    exact msteps_xi_propose L P C ph dr s s1 hs1
  · simp only [Run.done.injEq] at h
    exact h ▸ msteps_refl _ _

theorem msteps_X_mh_col (L : Lib α K d B) (P : Prims α) (C : Cfg α N_obs N_lat K d B)
    (dr : Draws α N_lat K d B) (s : State α N_obs N_lat K d B) (l : Fin N_lat) :
    MSteps C s.model (X_mh_col L P C dr s l).model := by
  unfold X_mh_col
  split_ifs
  · exact msteps_single _ _ _ (mstep_X_assign L P C dr s l)
  · exact msteps_refl _ _

theorem msteps_X_mh_block (L : Lib α K d B) (P : Prims α)
    (C : Cfg α N_obs N_lat K d B) (k : Nat) (dr : Draws α N_lat K d B)
    (s : State α N_obs N_lat K d B) :
    MSteps C s.model (X_mh_block L P C k dr s).model := by
  unfold X_mh_block
  rw [model_X_tuning]
  exact foldl_invariant (fun t => MSteps C s.model t.model) _
    (fun t l ht => msteps_trans _ _ _ _ ht (msteps_X_mh_col L P C dr t l))
    _ s (msteps_refl _ _)

theorem msteps_X_block (L : Lib α K d B) (P : Prims α) (C : Cfg α N_obs N_lat K d B)
    (ph : Phase) (fuel k : Nat) (dr : Draws α N_lat K d B) (s t : State α N_obs N_lat K d B)
    (h : X_block L P C ph fuel k dr s = Run.done t) : MSteps C s.model t.model := by
  have hmh : ∀ u, Run.done (X_mh_block L P C k dr s) = Run.done u →
      MSteps C s.model u.model := by
    intro u hu
    simp only [Run.done.injEq] at hu
    exact hu ▸ msteps_X_mh_block L P C k dr s
  have hess : ∀ u, (List.finRange N_lat).foldl
      (fun r l => r.bind (fun s1 => X_ess_col L P C fuel dr s1 l)) (Run.done s) =
        Run.done u → MSteps C s.model u.model := by
    intro u hu
    refine run_foldl_invariant (fun v => MSteps C s.model v.model) _ ?_ _ _ ?_ u hu
    · intro v l w hv hw
      exact msteps_trans _ _ _ _ hv (msteps_X_ess_col L P C fuel dr v w l hw)
    · intro v hv
      simp only [Run.done.injEq] at hv
      exact hv ▸ msteps_refl _ _
  unfold X_block at h
  cases ph <;> simp only at h <;> split_ifs at h <;>
    first
    | exact hmh t h
    | exact hess t h
    | (simp only [Run.done.injEq] at h; exact h ▸ msteps_refl _ _)

theorem msteps_iteration (L : Lib α K d B) (P : Prims α) (C : Cfg α N_obs N_lat K d B)
    (ph : Phase) (fuel k : Nat) (dr : Draws α N_lat K d B) (s t : State α N_obs N_lat K d B)
    (h : iteration L P C ph fuel k dr s = Run.done t) : MSteps C s.model t.model := by
  unfold iteration at h
  dsimp only at h
  obtain ⟨s3, h3, h⟩ := Run.bind_eq_done _ _ _ h
  obtain ⟨s9, h9, h⟩ := Run.bind_eq_done _ _ _ h
  have e1 := msteps_mu_block L P C ph k dr s
  have e2 := msteps_phi_block L P C ph k dr (mu_block L P C ph k dr s)
  have e3 := msteps_eta_star_block L P C ph fuel k dr _ s3 h3
  have e4 := msteps_sigma2_block L P C ph k dr s3
  have e5 : (lambda_sigma2_block L C dr (sigma2_block L P C ph k dr s3)).model =
      (sigma2_block L P C ph k dr s3).model := rfl
  have e6 := msteps_tau2_block L P C ph k dr
    (lambda_sigma2_block L C dr (sigma2_block L P C ph k dr s3))
  have e7 : (lambda_tau2_block L dr (tau2_block L P C ph k dr
      (lambda_sigma2_block L C dr (sigma2_block L P C ph k dr s3)))).model =
      (tau2_block L P C ph k dr
        (lambda_sigma2_block L C dr (sigma2_block L P C ph k dr s3))).model := rfl
  have e8 := msteps_s2_tau2_block L P C ph k dr (lambda_tau2_block L dr
    (tau2_block L P C ph k dr (lambda_sigma2_block L C dr (sigma2_block L P C ph k dr s3))))
  have e9 := msteps_xi_block L P C ph k dr _ s9 h9
  have e10 := msteps_X_block L P C ph fuel k dr s9 t h
  rw [e7] at e8
  rw [e5] at e6
  exact msteps_trans _ _ _ _ (msteps_trans _ _ _ _ (msteps_trans _ _ _ _
    (msteps_trans _ _ _ _ (msteps_trans _ _ _ _ (msteps_trans _ _ _ _
      (msteps_trans _ _ _ _ e1 e2) e3) e4) e6) e8) e9) e10

end BlockSteps2

section RunLemmas

variable {α : Type} [LinearOrderedField α] {N_obs N_lat K d B : Nat}

theorem msteps_phase_loop (L : Lib α K d B) (P : Prims α) (C : Cfg α N_obs N_lat K d B)
    (ph : Phase) (fuel : Nat) (dr : Nat → Draws α N_lat K d B) (n : Nat)
    (s t : State α N_obs N_lat K d B)
    (h : phase_loop (fun k s => iteration L P C ph fuel k (dr k) s) n s = Run.done t) :
    MSteps C s.model t.model :=
  phase_loop_invariant (fun u => MSteps C s.model u.model) _
    (fun k b c hb hbc => msteps_trans _ _ _ _ hb (msteps_iteration L P C ph fuel k (dr k) b c hbc))
    n s t (msteps_refl _ _) h

theorem mcmc_init_eq_done (L : Lib α K d B) (P : Prims α)
    (Y : Matrix (Fin (N_obs + N_lat)) (Fin d) α) (X_input : Fin (N_obs + N_lat) → α)
    (params : Params α K d B) (pool_s2_tau2 : Bool) (corr_function : String)
    (idr : InitDraws α N_lat K d B) (C : Cfg α N_obs N_lat K d B)
    (s0 : State α N_obs N_lat K d B)
    (h : mcmc_init L P Y X_input params pool_s2_tau2 corr_function idr = Run.done (C, s0)) :
    ∃ X D D_knots R_out,
      init_dist L corr_function X params.X_knots = Run.done (D, D_knots) ∧
      C = init_cfg P Y X_input params pool_s2_tau2 corr_function D_knots ∧
      L.makeRLKJ (init_xi L C params idr) = some R_out ∧
      s0 = init_state L P C params idr X D (init_xi L C params idr) R_out := by
  unfold mcmc_init at h
  dsimp only at h
  obtain ⟨DD, hDD, h⟩ := Run.bind_eq_done _ _ _ h
  split at h
  · exact absurd h (by simp)
  · next R_out hR =>
    simp only [Run.done.injEq, Prod.mk.injEq] at h
    obtain ⟨hC, hs⟩ := h
    refine ⟨_, DD.1, DD.2, R_out, hDD, hC.symm, ?_, ?_⟩
    · rw [← hC]; exact hR
    · rw [← hs, ← hC]

theorem save_step_eq_done (C : Cfg α N_obs N_lat K d B) (k : Nat)
    (s : State α N_obs N_lat K d B) (sink sink1 : Sink α N_obs N_lat K d B)
    (h : save_step C k s sink = Run.done sink1) :
    sink1 = sink ∨ ∃ i, sink1.n_save = sink.n_save ∧
      sink1.rows = Function.update sink.rows i (sink.rows i ++ [save_record C s]) := by
  unfold save_step at h
  dsimp only at h
  split_ifs at h
  · simp only [Run.done.injEq] at h
    subst h
    exact Or.inr ⟨_, rfl, rfl⟩
  · simp only [Run.done.injEq] at h
    exact Or.inl h.symm

theorem sample_loop_records (L : Lib α K d B) (P : Prims α) (C : Cfg α N_obs N_lat K d B)
    (fuel : Nat) (dr : Nat → Draws α N_lat K d B) (Q : Model α N_obs N_lat K d B → Prop)
    (hQ : ∀ m m1, MStep C m m1 → Q m → Q m1) (n : Nat)
    (x y : State α N_obs N_lat K d B × Sink α N_obs N_lat K d B)
    (hx : Q x.1.model) (hrows : ∀ m r, r ∈ x.2.rows m → ∃ s, Q s.model ∧ r = save_record C s)
    (h : phase_loop (sample_step L P C fuel dr) n x = Run.done y) :
    Q y.1.model ∧ ∀ m r, r ∈ y.2.rows m → ∃ s, Q s.model ∧ r = save_record C s := by
  refine phase_loop_invariant
    (fun z => Q z.1.model ∧ ∀ m r, r ∈ z.2.rows m → ∃ s, Q s.model ∧ r = save_record C s)
    _ ?_ n x y ⟨hx, hrows⟩ h
  intro k b c hb hbc
  unfold sample_step at hbc
  obtain ⟨s1, hs1, hbc⟩ := Run.bind_eq_done _ _ _ hbc
  obtain ⟨sink1, hsink1, hbc⟩ := Run.bind_eq_done _ _ _ hbc
  simp only [Run.done.injEq] at hbc
  subst hbc
  have hQ1 : Q s1.model :=
    msteps_invariant C Q hQ _ _ (msteps_iteration L P C Phase.sample fuel k (dr k) b.1 s1 hs1)
      hb.1
  refine ⟨hQ1, ?_⟩
  rcases save_step_eq_done C k s1 b.2 sink1 hsink1 with e | ⟨i, _, e⟩
  · rw [e]; exact hb.2
  · intro m r hr
    dsimp only at hr
    rw [e] at hr
    by_cases hmi : m = i
    · subst hmi
      rw [Function.update_same, List.mem_append] at hr
      rcases hr with hr | hr
      · exact hb.2 m r hr
      · exact ⟨s1, hQ1, by simpa using hr⟩
    · rw [Function.update_noteq hmi] at hr
      exact hb.2 m r hr

theorem mcmcRcpp_records (L : Lib α K d B) (P : Prims α)
    (Y : Matrix (Fin (N_obs + N_lat)) (Fin d) α) (X_input : Fin (N_obs + N_lat) → α)
    (params : Params α K d B) (pool_s2_tau2 : Bool) (corr_function : String)
    (idr : InitDraws α N_lat K d B) (wdr adr sdr : Nat → Draws α N_lat K d B) (fuel : Nat)
    (sink : Sink α N_obs N_lat K d B)
    (h : mcmcRcpp L P Y X_input params pool_s2_tau2 corr_function idr wdr adr sdr fuel =
      Run.done sink) :
    ∃ C s0, mcmc_init L P Y X_input params pool_s2_tau2 corr_function idr = Run.done (C, s0) ∧
      ∀ Q : Model α N_obs N_lat K d B → Prop, (∀ m m1, MStep C m m1 → Q m → Q m1) →
        Q s0.model → ∀ m r, r ∈ sink.rows m → ∃ s, Q s.model ∧ r = save_record C s := by
  unfold mcmcRcpp at h
  obtain ⟨CS, hinit, h⟩ := Run.bind_eq_done _ _ _ h
  obtain ⟨s1, hs1, h⟩ := Run.bind_eq_done _ _ _ h
  obtain ⟨s2, hs2, h⟩ := Run.bind_eq_done _ _ _ h
  obtain ⟨x, hx, h⟩ := Run.bind_eq_done _ _ _ h
  simp only [Run.done.injEq] at h
  subst h
  refine ⟨CS.1, CS.2, hinit, ?_⟩
  intro Q hQ h0
  have h1 : Q s1.model :=
    msteps_invariant CS.1 Q hQ _ _ (msteps_phase_loop L P CS.1 Phase.warmup fuel wdr _ _ _ hs1) h0
  have h2 : Q s2.model :=
    msteps_invariant CS.1 Q hQ _ _ (msteps_phase_loop L P CS.1 Phase.adapt fuel adr _ _ _ hs2) h1
  exact (sample_loop_records L P CS.1 fuel sdr Q hQ _ _ x h2
    (fun m r hr => absurd hr (List.not_mem_nil r)) hx).2

end RunLemmas

section SinkLemmas

variable {α : Type} [LinearOrderedField α] {N_obs N_lat K d B : Nat}

theorem save_step_write (C : Cfg α N_obs N_lat K d B) (k total : Nat)
    (s : State α N_obs N_lat K d B) (rows : Nat → List (Record α N_obs N_lat K d B))
    (hk : k + 1 ≤ total) (hmod : (k + 1) % C.n_thin = 0) :
    save_step C k s { n_save := total / C.n_thin, rows := rows } =
      Run.done { n_save := total / C.n_thin,
                 rows := Function.update rows (k / C.n_thin)
                   (rows (k / C.n_thin) ++ [save_record C s]) } ∧
      (k + 1) / C.n_thin = k / C.n_thin + 1 := by
  have hdvd : C.n_thin ∣ k + 1 := Nat.dvd_of_mod_eq_zero hmod
  have hdiv : (k + 1) / C.n_thin = k / C.n_thin + 1 := by
    rw [Nat.succ_div, if_pos hdvd]
  have hle : (k + 1) / C.n_thin ≤ total / C.n_thin := Nat.div_le_div_right hk
  have hidx : (((k + 1) / C.n_thin : Nat) : Int) - 1 = ((k / C.n_thin : Nat) : Int) := by
    rw [hdiv]; push_cast; ring
  refine ⟨?_, hdiv⟩
  unfold save_step
  dsimp only
  rw [if_pos hmod, hidx, Int.toNat_ofNat]
  rw [if_pos]
  constructor
  · exact Int.ofNat_nonneg _
  · have : k / C.n_thin < total / C.n_thin := by omega
    exact_mod_cast this

theorem save_step_skip (C : Cfg α N_obs N_lat K d B) (k : Nat)
    (s : State α N_obs N_lat K d B) (sink : Sink α N_obs N_lat K d B)
    (hmod : (k + 1) % C.n_thin ≠ 0) :
    save_step C k s sink = Run.done sink ∧ (k + 1) / C.n_thin = k / C.n_thin := by
  constructor
  · unfold save_step
    rw [if_neg hmod]
  · rw [Nat.succ_div, if_neg (fun h => hmod (Nat.mod_eq_zero_of_dvd h))]
    rfl

theorem Run.done_bind {β γ : Type} (b : β) (f : β → Run γ) : (Run.done b).bind f = f b := rfl

theorem sample_step_eq_done (L : Lib α K d B) (P : Prims α) (C : Cfg α N_obs N_lat K d B)
    (fuel : Nat) (dr : Nat → Draws α N_lat K d B) (k : Nat)
    (s s1 : State α N_obs N_lat K d B) (sink sink1 : Sink α N_obs N_lat K d B)
    (h1 : iteration L P C Phase.sample fuel k (dr k) s = Run.done s1)
    (h2 : save_step C k s1 sink = Run.done sink1) :
    sample_step L P C fuel dr k (s, sink) = Run.done (s1, sink1) := by
  unfold sample_step
  rw [h1, Run.done_bind, h2, Run.done_bind]

theorem sample_loop_sink (L : Lib α K d B) (P : Prims α) (C : Cfg α N_obs N_lat K d B)
    (fuel : Nat) (dr : Nat → Draws α N_lat K d B) (total : Nat)
    (s0 : State α N_obs N_lat K d B) (n : Nat) (hn : n ≤ total)
    (sN : State α N_obs N_lat K d B)
    (hrun : phase_loop (fun k s => iteration L P C Phase.sample fuel k (dr k) s) n s0 =
      Run.done sN) :
    ∃ rows, phase_loop (sample_step L P C fuel dr) n
        (s0, { n_save := total / C.n_thin, rows := fun _ => [] }) =
        Run.done (sN, { n_save := total / C.n_thin, rows := rows }) ∧
      (∀ m, m < n / C.n_thin → ∃ sm,
        phase_loop (fun k s => iteration L P C Phase.sample fuel k (dr k) s)
          ((m + 1) * C.n_thin) s0 = Run.done sm ∧ rows m = [save_record C sm]) ∧
      (∀ m, n / C.n_thin ≤ m → rows m = []) := by
  induction n generalizing sN with
  | zero =>
    simp only [phase_loop, Run.done.injEq] at hrun
    subst hrun
    exact ⟨fun _ => [], rfl, fun m hm => absurd hm (by simp), fun _ _ => rfl⟩
  | succ n ih =>
    obtain ⟨sn, hsn, hstep⟩ := Run.bind_eq_done _ _ _ hrun
    obtain ⟨rows, hloop, hrec, hempty⟩ := ih (Nat.le_of_succ_le hn) sn hsn
    by_cases hmod : (n + 1) % C.n_thin = 0
    · obtain ⟨hsave, hdiv⟩ := save_step_write C n total sN rows hn hmod
      refine ⟨Function.update rows (n / C.n_thin)
        (rows (n / C.n_thin) ++ [save_record C sN]), ?_, ?_, ?_⟩
      · show (phase_loop (sample_step L P C fuel dr) n _).bind _ = _
        rw [hloop, Run.done_bind]
        exact sample_step_eq_done L P C fuel dr n sn sN _ _ hstep hsave
      · intro m hm
        rw [hdiv] at hm
        by_cases hmn : m = n / C.n_thin
        · subst hmn
          refine ⟨sN, ?_, ?_⟩
          · have e : (n / C.n_thin + 1) * C.n_thin = n + 1 := by
              rw [← hdiv]
              exact Nat.div_mul_cancel (Nat.dvd_of_mod_eq_zero hmod)
            rw [e]
            exact hrun
          · rw [Function.update_same, hempty _ (le_refl _)]
            rfl
        · rw [Function.update_noteq hmn]
          exact hrec m (by omega)
      · intro m hm
        rw [hdiv] at hm
        rw [Function.update_noteq (by omega)]
        exact hempty m (by omega)
    · obtain ⟨hsave, hdiv⟩ := save_step_skip C n sN
        { n_save := total / C.n_thin, rows := rows } hmod
      refine ⟨rows, ?_, ?_, ?_⟩
      · show (phase_loop (sample_step L P C fuel dr) n _).bind _ = _
        rw [hloop, Run.done_bind]
        exact sample_step_eq_done L P C fuel dr n sn sN _ _ hstep hsave
      · intro m hm
        rw [hdiv] at hm
        exact hrec m hm
      · intro m hm
        rw [hdiv] at hm
        exact hempty m hm

end SinkLemmas

section ZetaClaim

variable {α : Type} [LinearOrderedField α] {N_obs N_lat K d B : Nat}

theorem zetaOk_of_msteps (C : Cfg α N_obs N_lat K d B) (s t : State α N_obs N_lat K d B)
    (h : MSteps C s.model t.model) (hs : ZetaOk s) : ZetaOk t :=
  msteps_invariant C (fun m => m.zeta = m.Z * m.eta_star * m.R_tau) (mstep_zeta C) _ _ h hs

theorem zetaOk_init (L : Lib α K d B) (P : Prims α)
    (Y : Matrix (Fin (N_obs + N_lat)) (Fin d) α) (X_input : Fin (N_obs + N_lat) → α)
    (params : Params α K d B) (pool_s2_tau2 : Bool) (corr_function : String)
    (idr : InitDraws α N_lat K d B) (C : Cfg α N_obs N_lat K d B)
    (s0 : State α N_obs N_lat K d B)
    (h : mcmc_init L P Y X_input params pool_s2_tau2 corr_function idr = Run.done (C, s0)) :
    ZetaOk s0 := by
  obtain ⟨X, D, D_knots, R_out, _, _, _, hs⟩ :=
    mcmc_init_eq_done L P Y X_input params pool_s2_tau2 corr_function idr C s0 h
  rw [hs]
  rfl

/-- C3: `zeta = Z * eta_star * R_tau` holds for the state that the set-up
returns, and every update block keeps it, in each of the three phases and
whether the block accepts or rejects: the blocks of `mu`, `phi`, each column of
`eta_star` (Metropolis-Hastings or slice sampling), `sigma2`, `lambda_sigma2`,
`tau2`, `lambda_tau2`, `s2_tau2`, `xi`, each latent covariate
(Metropolis-Hastings or slice sampling), and hence a whole iteration. A block
that contains a slice-sampling loop is covered whenever it returns. -/
theorem zeta_invariant (L : Lib α K d B) (P : Prims α) (C : Cfg α N_obs N_lat K d B)
    (ph : Phase) (fuel k : Nat) (dr : Draws α N_lat K d B) (s : State α N_obs N_lat K d B)
    (hs : ZetaOk s) :
    (∀ (Y : Matrix (Fin (N_obs + N_lat)) (Fin d) α) (X_input : Fin (N_obs + N_lat) → α)
      (params : Params α K d B) (pool_s2_tau2 : Bool) (corr_function : String)
      (idr : InitDraws α N_lat K d B) (C0 : Cfg α N_obs N_lat K d B)
      (s0 : State α N_obs N_lat K d B),
      mcmc_init L P Y X_input params pool_s2_tau2 corr_function idr = Run.done (C0, s0) →
        ZetaOk s0) ∧
    ZetaOk (mu_block L P C ph k dr s) ∧
    ZetaOk (phi_block L P C ph k dr s) ∧
    (∀ j, ZetaOk (eta_star_mh_col L P C ph dr s j)) ∧
    (∀ j t, eta_star_ess_col L P C fuel dr s j = Run.done t → ZetaOk t) ∧
    (∀ t, eta_star_block L P C ph fuel k dr s = Run.done t → ZetaOk t) ∧
    ZetaOk (sigma2_block L P C ph k dr s) ∧
    ZetaOk (lambda_sigma2_block L C dr s) ∧
    ZetaOk (tau2_block L P C ph k dr s) ∧
    ZetaOk (lambda_tau2_block L dr s) ∧
    ZetaOk (s2_tau2_block L P C ph k dr s) ∧
    (∀ t, xi_block L P C ph k dr s = Run.done t → ZetaOk t) ∧
    (∀ l, ZetaOk (X_mh_col L P C dr s l)) ∧
    (∀ l t, X_ess_col L P C fuel dr s l = Run.done t → ZetaOk t) ∧
    (∀ t, X_block L P C ph fuel k dr s = Run.done t → ZetaOk t) ∧
    (∀ t, iteration L P C ph fuel k dr s = Run.done t → ZetaOk t) :=
  ⟨fun Y X_input params pool_s2_tau2 corr_function idr C0 s0 h =>
      zetaOk_init L P Y X_input params pool_s2_tau2 corr_function idr C0 s0 h,
    zetaOk_of_msteps C _ _ (msteps_mu_block L P C ph k dr s) hs,
    zetaOk_of_msteps C _ _ (msteps_phi_block L P C ph k dr s) hs,
    fun j => zetaOk_of_msteps C _ _ (msteps_eta_star_mh_col L P C ph dr s j) hs,
    fun j t h => zetaOk_of_msteps C _ _ (msteps_eta_star_ess_col L P C fuel dr s t j h) hs,
    fun t h => zetaOk_of_msteps C _ _ (msteps_eta_star_block L P C ph fuel k dr s t h) hs,
    zetaOk_of_msteps C _ _ (msteps_sigma2_block L P C ph k dr s) hs,
    hs,
    zetaOk_of_msteps C _ _ (msteps_tau2_block L P C ph k dr s) hs,
    hs,
    zetaOk_of_msteps C _ _ (msteps_s2_tau2_block L P C ph k dr s) hs,
    fun t h => zetaOk_of_msteps C _ _ (msteps_xi_block L P C ph k dr s t h) hs,
    fun l => zetaOk_of_msteps C _ _ (msteps_X_mh_col L P C dr s l) hs,
    fun l t h => zetaOk_of_msteps C _ _ (msteps_X_ess_col L P C fuel dr s t l h) hs,
    fun t h => zetaOk_of_msteps C _ _ (msteps_X_block L P C ph fuel k dr s t h) hs,
    fun t h => zetaOk_of_msteps C _ _ (msteps_iteration L P C ph fuel k dr s t h) hs⟩

/-- C3, witness: the invariant holds for the initial state of the run with all
switches on, and the update of `phi` at adaptation iteration 49 keeps it. -/
theorem zeta_invariant_witness :
    ZetaOk (demoState mhParams) ∧
      ZetaOk (phi_block (ratLib 1 2 1) ratPrims (demoCfg mhParams) Phase.adapt 49 zeroDraws
        (demoState mhParams)) :=
  ⟨rfl, (zeta_invariant (ratLib 1 2 1) ratPrims (demoCfg mhParams) Phase.adapt 0 49 zeroDraws
    (demoState mhParams) rfl).2.2.1⟩

end ZetaClaim

section RejectionClaim

variable {α : Type} [LinearOrderedField α] {N_obs N_lat K d B : Nat}

/-- C4: a rejected Metropolis-Hastings proposal (`mh <= U`) leaves every model
parameter and every derived quantity (`mu, mu_mat, phi, C, C_chol, C_inv, D, c,
Z, eta_star, zeta, sigma2, sigma, tau2, tau, s2_tau2, xi, xi_tilde, R, R_tau,
X`) as it was before the block, in each of the three phases: for the blocks of
`mu`, `phi`, `sigma2`, `tau2`, `s2_tau2` and `xi`, and for each column of
`eta_star` and each latent covariate, whose pass leaves the whole state as it
was. -/
theorem rejection_is_noop (L : Lib α K d B) (P : Prims α) (C : Cfg α N_obs N_lat K d B)
    (ph : Phase) (k : Nat) (dr : Draws α N_lat K d B) (s : State α N_obs N_lat K d B) :
    (C.sample_mu_mh = true → mu_mh L P C dr s ≤ dr.mu_u →
      (mu_block L P C ph k dr s).model = s.model) ∧
    (phi_mh L P C dr s ≤ dr.phi_u → (phi_block L P C ph k dr s).model = s.model) ∧
    (∀ j, eta_star_mh L P C dr s j ≤ dr.eta_u j → eta_star_mh_col L P C ph dr s j = s) ∧
    (sigma2_mh L P C dr s ≤ dr.sigma2_u → (sigma2_block L P C ph k dr s).model = s.model) ∧
    (tau2_mh L P C dr s ≤ dr.tau2_u → (tau2_block L P C ph k dr s).model = s.model) ∧
    (s2_tau2_mh L P dr s ≤ dr.s2_tau2_u →
      (s2_tau2_block L P C ph k dr s).model = s.model) ∧
    (∀ R_out, L.makeRLKJ (xi_star L dr s) = some R_out → xi_mh L P C dr s R_out ≤ dr.xi_u →
      ∃ t, xi_block L P C ph k dr s = Run.done t ∧ t.model = s.model) ∧
    (∀ l, X_mh L P C dr s l ≤ dr.X_u l → X_mh_col L P C dr s l = s) := by
  refine ⟨?_, ?_, ?_, ?_, ?_, ?_, ?_, ?_⟩
  · intro hmh hrej
    unfold mu_block
    rw [hmh, if_neg (not_lt.mpr hrej)]
    simp only [if_true]
    split_ifs
    · exact model_mu_tuning L k s
    · rfl
  · intro hrej
    unfold phi_block
    rw [if_neg (not_lt.mpr hrej)]
    split_ifs
    · exact model_phi_tuning L ph k s
    · exact model_phi_tuning L ph k s
    · rfl
  · intro j hrej
    unfold eta_star_mh_col
    rw [if_neg (not_lt.mpr hrej)]
  · intro hrej
    unfold sigma2_block
    rw [if_neg (not_lt.mpr hrej)]
    split_ifs
    · exact model_sigma2_tuning L ph k s
    · exact model_sigma2_tuning L ph k s
    · rfl
  · intro hrej
    unfold tau2_block
    rw [if_neg (not_lt.mpr hrej)]
    split_ifs
    · exact model_tau2_tuning L P ph k s
    · exact model_tau2_tuning L P ph k s
    · rfl
  · intro hrej
    unfold s2_tau2_block
    rw [if_neg (not_lt.mpr hrej), model_s2_tau2_tuning]
    split_ifs <;> rfl
  · intro R_out hR hrej
    unfold xi_block xi_propose
    rw [hR]
    dsimp only
    rw [if_neg (not_lt.mpr hrej)]
    split_ifs
    · exact ⟨_, rfl, model_xi_tuning L ph k s⟩
    · exact ⟨_, rfl, model_xi_tuning L ph k s⟩
    · exact ⟨_, rfl, rfl⟩
  · intro l hrej
    unfold X_mh_col
    rw [if_neg (not_lt.mpr hrej)]

end RejectionClaim

section RejectionWitness

theorem demo_mu_mh_eq_one :
    mu_mh (ratLib 1 2 1) ratPrims (demoCfg mhParams) rejectDraws (demoState mhParams) = 1 := by
  have h : mu_star (ratLib 1 2 1) rejectDraws (demoState mhParams) =
      (demoState mhParams).mu := by
    funext j
    simp [mu_star, ratLib, rejectDraws, zeroDraws]
  unfold mu_mh
  rw [h]
  have h2 : (rows_of (demoState mhParams).mu : Matrix (Fin (2 + 1)) (Fin 2) ℚ) =
      (demoState mhParams).mu_mat := rfl
  rw [h2]
  simp [ratPrims, stdPrims]

/-- C4, witness: at the initial state of the run with all switches on and an
acceptance uniform of `2`, the proposal of `mu` has the ratio `mh = 1`, is
rejected, and the block leaves the model part of the state as it was. -/
theorem rejection_is_noop_witness :
    mu_mh (ratLib 1 2 1) ratPrims (demoCfg mhParams) rejectDraws (demoState mhParams) ≤
        rejectDraws.mu_u ∧
      (mu_block (ratLib 1 2 1) ratPrims (demoCfg mhParams) Phase.adapt 0 rejectDraws
        (demoState mhParams)).model = (demoState mhParams).model :=
  have h : mu_mh (ratLib 1 2 1) ratPrims (demoCfg mhParams) rejectDraws
      (demoState mhParams) ≤ rejectDraws.mu_u := by
    rw [demo_mu_mh_eq_one]
    show (1 : ℚ) ≤ 2
    norm_num
  ⟨h, (rejection_is_noop (ratLib 1 2 1) ratPrims (demoCfg mhParams) Phase.adapt 0
    rejectDraws (demoState mhParams)).1 rfl h⟩

end RejectionWitness

section TuningClaim

variable {α : Type} [LinearOrderedField α] {N_obs N_lat K d B : Nat}

theorem X_mh_cols_X_tune (L : Lib α K d B) (P : Prims α) (C : Cfg α N_obs N_lat K d B)
    (dr : Draws α N_lat K d B) (s : State α N_obs N_lat K d B) :
    ((List.finRange N_lat).foldl (X_mh_col L P C dr) s).X_tune = s.X_tune := by
  refine foldl_invariant (fun t => t.X_tune = s.X_tune) _ ?_ _ s rfl
  intro t l ht
  unfold X_mh_col
  split_ifs
  · exact ht
  · exact ht

/-- C5, the code at the failing input: in the production phase (`Phase.sample`)
at an iteration `k` with `(k + 1) % 50 = 0`, the Metropolis-Hastings update of
`mu` hands `lambda_mu_tune`, `Sigma_mu_tune` and its Cholesky factor to
`updateTuningMV` and stores what the controller returns, and the
Metropolis-Hastings update of the latent covariates does the same with
`X_tune` and `updateTuningVec`. -/
theorem production_phase_calls_tuning (L : Lib α K d B) (P : Prims α)
    (C : Cfg α N_obs N_lat K d B) (fuel k : Nat) (dr : Draws α N_lat K d B)
    (s : State α N_obs N_lat K d B) (hk : (k + 1) % 50 = 0) :
    (C.sample_mu = true → C.sample_mu_mh = true →
      ∃ t : TuneMV α d, t.lambda = s.lambda_mu_tune ∧ t.Sigma = s.Sigma_mu_tune ∧
        t.Sigma_chol = s.Sigma_mu_tune_chol ∧
        (mu_block L P C Phase.sample k dr s).lambda_mu_tune = (L.updateTuningMV k t).lambda ∧
        (mu_block L P C Phase.sample k dr s).Sigma_mu_tune = (L.updateTuningMV k t).Sigma ∧
        (mu_block L P C Phase.sample k dr s).Sigma_mu_tune_chol =
          (L.updateTuningMV k t).Sigma_chol) ∧
    (C.sample_X = true → C.sample_X_mh = true →
      ∃ accept_batch : Fin N_lat → α,
        X_block L P C Phase.sample fuel k dr s = Run.done (X_mh_block L P C k dr s) ∧
        (X_mh_block L P C k dr s).X_tune = (L.updateTuningVec k accept_batch s.X_tune).2) := by
  constructor
  · intro h1 h2
    unfold mu_block
    rw [h1, h2]
    simp only [if_true]
    unfold mu_tuning
    rw [if_pos hk]
    split_ifs
    · exact ⟨_, rfl, rfl, rfl, rfl, rfl, rfl⟩
    · exact ⟨_, rfl, rfl, rfl, rfl, rfl, rfl⟩
  · intro h1 h2
    refine ⟨((List.finRange N_lat).foldl (X_mh_col L P C dr) s).X_accept_batch, ?_, ?_⟩
    · unfold X_block
      rw [h1, h2]
      rfl
    · unfold X_mh_block X_tuning
      rw [if_pos hk]
      show (L.updateTuningVec k _ _).2 = _
      rw [X_mh_cols_X_tune]

/-- C5, witness: with the stand-in controller that doubles the proposal scale,
production iteration `k = 49` of the run with the Metropolis-Hastings update of
`mu` changes `lambda_mu_tune` from its initial value to twice that value. -/
theorem production_phase_calls_tuning_witness :
    (49 + 1) % 50 = 0 ∧ (demoCfg mhParams).sample_mu = true ∧
      (demoCfg mhParams).sample_mu_mh = true ∧
      (mu_block (ratLib 1 2 1) ratPrims (demoCfg mhParams) Phase.sample 49 rejectDraws
        (demoState mhParams)).lambda_mu_tune = 2 * (demoState mhParams).lambda_mu_tune ∧
      (demoState mhParams).lambda_mu_tune ≠ 0 := by
  refine ⟨rfl, rfl, rfl, ?_, ?_⟩
  · obtain ⟨t, ht, _, _, hl, _, _⟩ :=
      (production_phase_calls_tuning (ratLib 1 2 1) ratPrims (demoCfg mhParams) 0 49
        rejectDraws (demoState mhParams) rfl).1 rfl rfl
    rw [hl, ← ht]
    rfl
  · simp [demoState, init_state, mhParams, offParams, ratPrims, stdPrims]
    norm_num

end TuningClaim

section FlagsOffLemmas

variable {α : Type} [LinearOrderedField α] {N_obs N_lat K d B : Nat}

theorem iteration_flags_off (L : Lib α K d B) (P : Prims α) (C : Cfg α N_obs N_lat K d B)
    (ph : Phase) (fuel k : Nat) (dr : Draws α N_lat K d B) (s : State α N_obs N_lat K d B)
    (hoff : FlagsOff C) :
    iteration L P C ph fuel k dr s =
      Run.done (s2_tau2_block L P C ph k dr
        (lambda_tau2_block L dr (lambda_sigma2_block L C dr s))) := by
  obtain ⟨h1, h2, h3, h4, h5, h6, h7⟩ := hoff
  unfold iteration mu_block phi_block eta_star_block sigma2_block tau2_block xi_block X_block
  simp [h1, h2, h3, h4, h5, h6, h7, Run.bind]

theorem iteration_flags_off_model (L : Lib α K d B) (P : Prims α)
    (C : Cfg α N_obs N_lat K d B) (ph : Phase) (fuel k : Nat) (dr : Draws α N_lat K d B)
    (s : State α N_obs N_lat K d B) (hoff : FlagsOff C) (hpool : C.pool_s2_tau2 = false) :
    ∃ t, iteration L P C ph fuel k dr s = Run.done t ∧ t.model = s.model := by
  refine ⟨_, iteration_flags_off L P C ph fuel k dr s hoff, ?_⟩
  unfold s2_tau2_block
  rw [model_s2_tau2_tuning, hpool]
  rfl

theorem phase_loop_flags_off (L : Lib α K d B) (P : Prims α) (C : Cfg α N_obs N_lat K d B)
    (ph : Phase) (fuel : Nat) (dr : Nat → Draws α N_lat K d B) (hoff : FlagsOff C)
    (hpool : C.pool_s2_tau2 = false) (n : Nat) (s : State α N_obs N_lat K d B) :
    ∃ t, phase_loop (fun k s => iteration L P C ph fuel k (dr k) s) n s = Run.done t ∧
      t.model = s.model := by
  induction n with
  | zero => exact ⟨s, rfl, rfl⟩
  | succ n ih =>
    obtain ⟨t, ht, hm⟩ := ih
    obtain ⟨u, hu, hum⟩ := iteration_flags_off_model L P C ph fuel n (dr n) t hoff hpool
    refine ⟨u, ?_, hum.trans hm⟩
    show (phase_loop _ n s).bind _ = _
    rw [ht, Run.done_bind]
    exact hu

theorem save_record_congr (C : Cfg α N_obs N_lat K d B) (s t : State α N_obs N_lat K d B)
    (h : s.model = t.model) : save_record C s = save_record C t := by
  have h1 : s.mu = t.mu := congrArg Model.mu h
  have h2 : s.eta_star = t.eta_star := congrArg Model.eta_star h
  have h3 : s.zeta = t.zeta := congrArg Model.zeta h
  have h4 : s.R = t.R := congrArg Model.R h
  have h5 : s.phi = t.phi := congrArg Model.phi h
  have h6 : s.sigma2 = t.sigma2 := congrArg Model.sigma2 h
  have h7 : s.tau2 = t.tau2 := congrArg Model.tau2 h
  have h8 : s.X = t.X := congrArg Model.X h
  have h9 : s.R_tau = t.R_tau := congrArg Model.R_tau h
  have h10 : s.xi = t.xi := congrArg Model.xi h
  unfold save_record
  rw [h1, h2, h3, h4, h5, h6, h7, h8, h9, h10]

theorem init_dist_exponential (L : Lib α K d B) (X : Fin (N_obs + N_lat) → α)
    (X_knots : Fin K → α) :
    init_dist L "exponential" X X_knots =
      Run.done (L.makeDistARMA X X_knots, L.makeDistARMA X_knots X_knots) := by
  unfold init_dist
  simp

theorem init_dist_gaussian (L : Lib α K d B) (X : Fin (N_obs + N_lat) → α)
    (X_knots : Fin K → α) :
    init_dist L "gaussian" X X_knots =
      Run.done ((L.makeDistARMA X X_knots).map (fun x => x ^ 2),
        (L.makeDistARMA X_knots X_knots).map (fun x => x ^ 2)) := by
  unfold init_dist
  simp

theorem init_dist_invalid (L : Lib α K d B) (corr_function : String)
    (X : Fin (N_obs + N_lat) → α) (X_knots : Fin K → α)
    (h1 : corr_function ≠ "exponential") (h2 : corr_function ≠ "gaussian") :
    init_dist L corr_function X X_knots = Run.stop kernel_error := by
  unfold init_dist
  simp [h1, h2]

theorem mcmc_init_exponential (L : Lib α K d B) (P : Prims α)
    (Y : Matrix (Fin (N_obs + N_lat)) (Fin d) α) (X_input : Fin (N_obs + N_lat) → α)
    (params : Params α K d B) (pool_s2_tau2 : Bool) (idr : InitDraws α N_lat K d B)
    (R_out : Matrix (Fin d) (Fin d) α × α)
    (hR : L.makeRLKJ (init_xi L
      (init_cfg P Y X_input params pool_s2_tau2 "exponential"
        (L.makeDistARMA params.X_knots params.X_knots) : Cfg α N_obs N_lat K d B)
      params idr) = some R_out) :
    mcmc_init L P Y X_input params pool_s2_tau2 "exponential" idr =
      Run.done (init_cfg P Y X_input params pool_s2_tau2 "exponential"
          (L.makeDistARMA params.X_knots params.X_knots),
        init_state L P (init_cfg P Y X_input params pool_s2_tau2 "exponential"
            (L.makeDistARMA params.X_knots params.X_knots)) params idr
          (init_X L (params.sample_X.getD true) (P.sqrt (var_obs X_input)) X_input idr.X_z)
          (L.makeDistARMA
            (init_X L (params.sample_X.getD true) (P.sqrt (var_obs X_input)) X_input idr.X_z)
            params.X_knots)
          (init_xi L (init_cfg P Y X_input params pool_s2_tau2 "exponential"
            (L.makeDistARMA params.X_knots params.X_knots)) params idr) R_out) := by
  unfold mcmc_init
  dsimp only
  rw [init_dist_exponential, Run.done_bind]
  dsimp only
  rw [hR]

theorem mcmcRcpp_flags_off (L : Lib α K d B) (P : Prims α)
    (Y : Matrix (Fin (N_obs + N_lat)) (Fin d) α) (X_input : Fin (N_obs + N_lat) → α)
    (params : Params α K d B) (pool_s2_tau2 : Bool) (corr_function : String)
    (idr : InitDraws α N_lat K d B) (wdr adr sdr : Nat → Draws α N_lat K d B) (fuel : Nat)
    (C : Cfg α N_obs N_lat K d B) (s0 : State α N_obs N_lat K d B)
    (hinit : mcmc_init L P Y X_input params pool_s2_tau2 corr_function idr = Run.done (C, s0))
    (hoff : FlagsOff C) (hpool : C.pool_s2_tau2 = false) :
    ∃ rows, mcmcRcpp L P Y X_input params pool_s2_tau2 corr_function idr wdr adr sdr fuel =
        Run.done { n_save := params.n_mcmc / params.n_thin, rows := rows } ∧
      (∀ m, m < params.n_mcmc / params.n_thin → rows m = [save_record C s0]) ∧
      (∀ m, params.n_mcmc / params.n_thin ≤ m → rows m = []) := by
  obtain ⟨X, D, D_knots, R_out, _, hC, _, _⟩ :=
    mcmc_init_eq_done L P Y X_input params pool_s2_tau2 corr_function idr C s0 hinit
  have hthin : C.n_thin = params.n_thin := by rw [hC]; rfl
  obtain ⟨s1, hs1, hm1⟩ := phase_loop_flags_off L P C Phase.warmup fuel wdr hoff hpool
    (params.n_warmup.getD 500) s0
  obtain ⟨s2, hs2, hm2⟩ := phase_loop_flags_off L P C Phase.adapt fuel adr hoff hpool
    params.n_adapt s1
  obtain ⟨s3, hs3, _⟩ := phase_loop_flags_off L P C Phase.sample fuel sdr hoff hpool
    params.n_mcmc s2
  obtain ⟨rows, hloop, hrec, hempty⟩ := sample_loop_sink L P C fuel sdr params.n_mcmc s2
    params.n_mcmc (le_refl _) s3 hs3
  rw [hthin] at hloop hrec hempty
  refine ⟨rows, ?_, ?_, hempty⟩
  · unfold mcmcRcpp
    rw [hinit, Run.done_bind]
    dsimp only
    rw [hs1, Run.done_bind, hs2, Run.done_bind, hloop, Run.done_bind]
  · intro m hm
    obtain ⟨sm, hsm, hrow⟩ := hrec m hm
    obtain ⟨sm1, hsm1, hmodel⟩ := phase_loop_flags_off L P C Phase.sample fuel sdr hoff hpool
      ((m + 1) * params.n_thin) s2
    rw [hsm] at hsm1
    simp only [Run.done.injEq] at hsm1
    subst hsm1
    rw [hrow, save_record_congr C sm s0 (hmodel.trans (hm2.trans hm1))]

end FlagsOffLemmas

section DemoLemmas

theorem demo_makeRLKJ (params : Params ℚ 1 2 1) (h : params.xi = none)
    (C : Cfg ℚ 2 1 1 2 1) :
    (ratLib 1 2 1).makeRLKJ (init_xi (ratLib 1 2 1) C params zeroInit) = some (1, 0) := by
  unfold init_xi
  rw [h]
  simp [ratLib, zeroInit]

theorem demo_mcmc_init (params : Params ℚ 1 2 1) (h : params.xi = none) :
    ∃ C s0, mcmc_init (ratLib 1 2 1) ratPrims demoY demoX params false "exponential" zeroInit =
        Run.done (C, s0) ∧
      C = init_cfg ratPrims demoY demoX params false "exponential"
        ((ratLib 1 2 1).makeDistARMA params.X_knots params.X_knots) ∧
      s0.phi = params.phi.getD
        (min ((ratLib 1 2 1).runif (params.phi_L.getD (1 / 10000)) (params.phi_U.getD 1000) 0)
          5) :=
  ⟨_, _, mcmc_init_exponential (ratLib 1 2 1) ratPrims demoY demoX params false zeroInit (1, 0)
    (demo_makeRLKJ params h _), rfl, rfl⟩

theorem ratLib_factory : FactoryFailsOutside (ratLib 1 2 1) := by
  intro xi R_out h
  by_contra hb
  simp [ratLib, hb] at h

end DemoLemmas

section RunClaims

variable {α : Type} [LinearOrderedField α] {N_obs N_lat K d B : Nat}

/-- C6: for `n_thin >= 1`, when the set-up, the warmup and adaptation loops and
the `n_mcmc` production iterations complete, `mcmcRcpp` returns, without any
access outside the `n_save = n_mcmc / n_thin` allocated rows, and the list it
returns holds exactly one record in each row `m < n_save`, namely the state
after production iteration `(m + 1) * n_thin`, and nothing anywhere else: only
the production loop writes, and it writes `n_mcmc / n_thin` records; 1000
iterations at thin 2 give 500 rows. -/
theorem production_writes_every_thin_th (L : Lib α K d B) (P : Prims α)
    (Y : Matrix (Fin (N_obs + N_lat)) (Fin d) α) (X_input : Fin (N_obs + N_lat) → α)
    (params : Params α K d B) (pool_s2_tau2 : Bool) (corr_function : String)
    (idr : InitDraws α N_lat K d B) (wdr adr sdr : Nat → Draws α N_lat K d B) (fuel : Nat)
    (C : Cfg α N_obs N_lat K d B) (s0 s1 s2 sN : State α N_obs N_lat K d B)
    (_hthin : 1 ≤ params.n_thin)
    (hinit : mcmc_init L P Y X_input params pool_s2_tau2 corr_function idr = Run.done (C, s0))
    (hwarm : phase_loop (fun k s => iteration L P C Phase.warmup fuel k (wdr k) s)
      (params.n_warmup.getD 500) s0 = Run.done s1)
    (hadapt : phase_loop (fun k s => iteration L P C Phase.adapt fuel k (adr k) s)
      params.n_adapt s1 = Run.done s2)
    (hrun : phase_loop (fun k s => iteration L P C Phase.sample fuel k (sdr k) s)
      params.n_mcmc s2 = Run.done sN) :
    ∃ rows, mcmcRcpp L P Y X_input params pool_s2_tau2 corr_function idr wdr adr sdr fuel =
        Run.done { n_save := params.n_mcmc / params.n_thin, rows := rows } ∧
      (∀ m, m < params.n_mcmc / params.n_thin → ∃ sm,
        phase_loop (fun k s => iteration L P C Phase.sample fuel k (sdr k) s)
          ((m + 1) * params.n_thin) s2 = Run.done sm ∧ rows m = [save_record C sm]) ∧
      (∀ m, params.n_mcmc / params.n_thin ≤ m → rows m = []) ∧
      (params.n_mcmc = 1000 → params.n_thin = 2 → params.n_mcmc / params.n_thin = 500) := by
  obtain ⟨X, D, D_knots, R_out, _, hC, _, _⟩ :=
    mcmc_init_eq_done L P Y X_input params pool_s2_tau2 corr_function idr C s0 hinit
  have hn : C.n_thin = params.n_thin := by rw [hC]; rfl
  obtain ⟨rows, hloop, hrec, hempty⟩ := sample_loop_sink L P C fuel sdr params.n_mcmc s2
    params.n_mcmc (le_refl _) sN hrun
  rw [hn] at hloop hrec hempty
  refine ⟨rows, ?_, hrec, hempty, fun a b => by rw [a, b]⟩
  unfold mcmcRcpp
  rw [hinit, Run.done_bind]
  dsimp only
  rw [hwarm, Run.done_bind, hadapt, Run.done_bind, hloop, Run.done_bind]

/-- C6, witness: the run with all switches off, no warmup, no adaptation,
`n_mcmc = 2` and `n_thin = 1` returns two rows with one record each. -/
theorem production_writes_every_thin_th_witness :
    ∃ rows, mcmcRcpp (ratLib 1 2 1) ratPrims demoY demoX offParams false "exponential"
        zeroInit (fun _ => zeroDraws) (fun _ => zeroDraws) (fun _ => zeroDraws) 0 =
        Run.done { n_save := 2, rows := rows } ∧
      (rows 0).length = 1 ∧ (rows 1).length = 1 ∧ rows 2 = [] := by
  obtain ⟨C, s0, hinit, hC, _⟩ := demo_mcmc_init offParams rfl
  have hoff : FlagsOff C := by rw [hC]; exact ⟨rfl, rfl, rfl, rfl, rfl, rfl, rfl⟩
  have hpool : C.pool_s2_tau2 = false := by rw [hC]; rfl
  obtain ⟨s1, hs1, _⟩ := phase_loop_flags_off (ratLib 1 2 1) ratPrims C Phase.warmup 0
    (fun _ => zeroDraws) hoff hpool (offParams.n_warmup.getD 500) s0
  obtain ⟨s2, hs2, _⟩ := phase_loop_flags_off (ratLib 1 2 1) ratPrims C Phase.adapt 0
    (fun _ => zeroDraws) hoff hpool offParams.n_adapt s1
  obtain ⟨sN, hsN, _⟩ := phase_loop_flags_off (ratLib 1 2 1) ratPrims C Phase.sample 0
    (fun _ => zeroDraws) hoff hpool offParams.n_mcmc s2
  obtain ⟨rows, h1, h2, h3, _⟩ := production_writes_every_thin_th (ratLib 1 2 1) ratPrims
    demoY demoX offParams false "exponential" zeroInit (fun _ => zeroDraws)
    (fun _ => zeroDraws) (fun _ => zeroDraws) 0 C s0 s1 s2 sN (le_refl 1) hinit hs1 hs2 hsN
  refine ⟨rows, h1, ?_, ?_, h3 2 (le_refl 2)⟩
  · obtain ⟨sm, _, hrow⟩ := h2 0 (by decide)
    rw [hrow]; rfl
  · obtain ⟨sm, _, hrow⟩ := h2 1 (by decide)
    rw [hrow]; rfl

/-- C10: for a kernel name other than "exponential" and "gaussian" the set-up
of `mcmcRcpp` stops with the error of line 369, so that `mcmcRcpp` returns that
error and no result, whatever the phase lengths and the random draws; for
"exponential" and for "gaussian" the check of lines 363-370 passes and yields
the distance matrices (squared for "gaussian"). -/
theorem kernel_name_check (L : Lib α K d B) (P : Prims α)
    (Y : Matrix (Fin (N_obs + N_lat)) (Fin d) α) (X_input : Fin (N_obs + N_lat) → α)
    (params : Params α K d B) (pool_s2_tau2 : Bool) (corr_function : String)
    (idr : InitDraws α N_lat K d B) (wdr adr sdr : Nat → Draws α N_lat K d B) (fuel : Nat) :
    (corr_function ≠ "exponential" → corr_function ≠ "gaussian" →
      mcmc_init L P Y X_input params pool_s2_tau2 corr_function idr =
          Run.stop kernel_error ∧
        mcmcRcpp L P Y X_input params pool_s2_tau2 corr_function idr wdr adr sdr fuel =
          Run.stop kernel_error) ∧
    (∀ (X : Fin (N_obs + N_lat) → α) (X_knots : Fin K → α),
      init_dist L "exponential" X X_knots =
          Run.done (L.makeDistARMA X X_knots, L.makeDistARMA X_knots X_knots) ∧
        init_dist L "gaussian" X X_knots =
          Run.done ((L.makeDistARMA X X_knots).map (fun x => x ^ 2),
            (L.makeDistARMA X_knots X_knots).map (fun x => x ^ 2))) := by
  constructor
  · intro h1 h2
    have hinit : mcmc_init L P Y X_input params pool_s2_tau2 corr_function idr =
        Run.stop kernel_error := by
      unfold mcmc_init
      dsimp only
      rw [init_dist_invalid L corr_function _ _ h1 h2]
      rfl
    refine ⟨hinit, ?_⟩
    unfold mcmcRcpp
    rw [hinit]
    rfl
  · intro X X_knots
    exact ⟨init_dist_exponential L X X_knots, init_dist_gaussian L X X_knots⟩

/-- C10, witness: the kernel name "matern" makes the run stop with the error
of line 369. -/
theorem kernel_name_check_witness :
    mcmcRcpp (ratLib 1 2 1) ratPrims demoY demoX offParams false "matern" zeroInit
      (fun _ => zeroDraws) (fun _ => zeroDraws) (fun _ => zeroDraws) 0 =
      Run.stop kernel_error :=
  ((kernel_name_check (ratLib 1 2 1) ratPrims demoY demoX offParams false "matern" zeroInit
    (fun _ => zeroDraws) (fun _ => zeroDraws) (fun _ => zeroDraws) 0).1
    (by decide) (by decide)).2

end RunClaims

section BoundsClaims

variable {α : Type} [LinearOrderedField α] {N_obs N_lat K d B : Nat}

/-- C7, counterexample: with `phi = 2000` supplied in `params`, the bounds
`phi_L = 1/10000` and `phi_U = 1000`, every switch off, no warmup and no
adaptation, `n_mcmc = 2` and `n_thin = 1`, the run returns two rows, and the
record of row 0 holds `phi = 2000`, above `phi_U`. -/
theorem phi_record_above_upper_bound_counterexample :
    ∃ C s0 rows,
      mcmc_init (ratLib 1 2 1) ratPrims demoY demoX phiParams false "exponential" zeroInit =
        Run.done (C, s0) ∧
      C.phi_L = 1 / 10000 ∧ C.phi_U = 1000 ∧
      mcmcRcpp (ratLib 1 2 1) ratPrims demoY demoX phiParams false "exponential" zeroInit
        (fun _ => zeroDraws) (fun _ => zeroDraws) (fun _ => zeroDraws) 0 =
        Run.done { n_save := 2, rows := rows } ∧
      ∃ r, r ∈ rows 0 ∧ r.phi = 2000 ∧ ¬ (C.phi_L ≤ r.phi ∧ r.phi ≤ C.phi_U) := by
  obtain ⟨C, s0, hinit, hC, hphi⟩ := demo_mcmc_init phiParams rfl
  have hoff : FlagsOff C := by rw [hC]; exact ⟨rfl, rfl, rfl, rfl, rfl, rfl, rfl⟩
  have hpool : C.pool_s2_tau2 = false := by rw [hC]; rfl
  have hU : C.phi_U = 1000 := by rw [hC]; rfl
  obtain ⟨rows, hrun, hrows, _⟩ := mcmcRcpp_flags_off (ratLib 1 2 1) ratPrims demoY demoX
    phiParams false "exponential" zeroInit (fun _ => zeroDraws) (fun _ => zeroDraws)
    (fun _ => zeroDraws) 0 C s0 hinit hoff hpool
  have h2000 : (save_record C s0).phi = 2000 := hphi
  refine ⟨C, s0, rows, hinit, by rw [hC]; rfl, hU, hrun, save_record C s0, ?_, h2000, ?_⟩
  · rw [hrows 0 (by decide)]
    exact List.mem_singleton.mpr rfl
  · rw [h2000, hU]
    norm_num

/-- C7, amended: `mcmcRcpp` does not check the initial `phi`, which is
`params["phi"]` when supplied and `min(runif(phi_L, phi_U), 5)` otherwise. When
that initial value lies within `[phi_L, phi_U]`, the `phi` stored in every
record of a run that returns lies within `[phi_L, phi_U]`. -/
theorem phi_records_within_bounds (L : Lib α K d B) (P : Prims α)
    (Y : Matrix (Fin (N_obs + N_lat)) (Fin d) α) (X_input : Fin (N_obs + N_lat) → α)
    (params : Params α K d B) (pool_s2_tau2 : Bool) (corr_function : String)
    (idr : InitDraws α N_lat K d B) (wdr adr sdr : Nat → Draws α N_lat K d B) (fuel : Nat)
    (C : Cfg α N_obs N_lat K d B) (s0 : State α N_obs N_lat K d B)
    (sink : Sink α N_obs N_lat K d B)
    (hinit : mcmc_init L P Y X_input params pool_s2_tau2 corr_function idr = Run.done (C, s0))
    (h0 : C.phi_L ≤ s0.phi ∧ s0.phi ≤ C.phi_U)
    (hrun : mcmcRcpp L P Y X_input params pool_s2_tau2 corr_function idr wdr adr sdr fuel =
      Run.done sink) :
    s0.phi = params.phi.getD (min (L.runif C.phi_L C.phi_U idr.phi_u) 5) ∧
      ∀ m r, r ∈ sink.rows m → C.phi_L ≤ r.phi ∧ r.phi ≤ C.phi_U := by
  constructor
  · obtain ⟨X, D, D_knots, R_out, _, _, _, hs⟩ :=
      mcmc_init_eq_done L P Y X_input params pool_s2_tau2 corr_function idr C s0 hinit
    rw [hs]
    rfl
  · obtain ⟨C1, s1, hinit1, hrec⟩ := mcmcRcpp_records L P Y X_input params pool_s2_tau2
      corr_function idr wdr adr sdr fuel sink hrun
    rw [hinit] at hinit1
    simp only [Run.done.injEq, Prod.mk.injEq] at hinit1
    obtain ⟨hC, hs⟩ := hinit1
    subst hC
    subst hs
    intro m r hr
    obtain ⟨s, hs, hrs⟩ := hrec (fun m => C.phi_L ≤ m.phi ∧ m.phi ≤ C.phi_U)
      (mstep_phi C) h0 m r hr
    rw [hrs]
    exact hs

/-- C7, witness: the run with every switch off and the default bounds starts
from `phi = 1/10000` and returns records whose `phi` lies within the bounds. -/
theorem phi_records_within_bounds_witness :
    ∃ (C : Cfg ℚ 2 1 1 2 1) (sink : Sink ℚ 2 1 1 2 1),
      mcmcRcpp (ratLib 1 2 1) ratPrims demoY demoX offParams false "exponential" zeroInit
        (fun _ => zeroDraws) (fun _ => zeroDraws) (fun _ => zeroDraws) 0 = Run.done sink ∧
      C.phi_L = 1 / 10000 ∧ C.phi_U = 1000 ∧ sink.rows 0 ≠ [] ∧
      ∀ m r, r ∈ sink.rows m → C.phi_L ≤ r.phi ∧ r.phi ≤ C.phi_U := by
  obtain ⟨C, s0, hinit, hC, hphi⟩ := demo_mcmc_init offParams rfl
  have hoff : FlagsOff C := by rw [hC]; exact ⟨rfl, rfl, rfl, rfl, rfl, rfl, rfl⟩
  have hpool : C.pool_s2_tau2 = false := by rw [hC]; rfl
  have hL : C.phi_L = 1 / 10000 := by rw [hC]; rfl
  have hU : C.phi_U = 1000 := by rw [hC]; rfl
  obtain ⟨rows, hrun, hrows, _⟩ := mcmcRcpp_flags_off (ratLib 1 2 1) ratPrims demoY demoX
    offParams false "exponential" zeroInit (fun _ => zeroDraws) (fun _ => zeroDraws)
    (fun _ => zeroDraws) 0 C s0 hinit hoff hpool
  have h0 : C.phi_L ≤ s0.phi ∧ s0.phi ≤ C.phi_U := by
    rw [hphi, hL, hU]
    simp [offParams, ratLib]
    norm_num
  refine ⟨C, _, hrun, hL, hU, ?_, (phi_records_within_bounds (ratLib 1 2 1) ratPrims demoY
    demoX offParams false "exponential" zeroInit (fun _ => zeroDraws) (fun _ => zeroDraws)
    (fun _ => zeroDraws) 0 C s0 _ hinit h0 hrun).2⟩
  show rows 0 ≠ []
  rw [hrows 0 (by decide)]
  exact List.cons_ne_nil _ _

/-- C8: when the correlation factory `makeRLKJ` fails for a vector with an
entry outside `(-1, 1)`, every entry of the `xi` stored in every record of a
run of `mcmcRcpp` that returns lies strictly between `-1` and `1`: the initial
`xi` has passed the factory call of line 509 and an accepted proposal has
passed the test of line 1558. -/
theorem xi_records_within_bounds (L : Lib α K d B) (P : Prims α)
    (Y : Matrix (Fin (N_obs + N_lat)) (Fin d) α) (X_input : Fin (N_obs + N_lat) → α)
    (params : Params α K d B) (pool_s2_tau2 : Bool) (corr_function : String)
    (idr : InitDraws α N_lat K d B) (wdr adr sdr : Nat → Draws α N_lat K d B) (fuel : Nat)
    (sink : Sink α N_obs N_lat K d B) (hfac : FactoryFailsOutside L)
    (hrun : mcmcRcpp L P Y X_input params pool_s2_tau2 corr_function idr wdr adr sdr fuel =
      Run.done sink) :
    ∀ m r, r ∈ sink.rows m → ∀ b, -1 < r.xi b ∧ r.xi b < 1 := by
  obtain ⟨C, s0, hinit, hrec⟩ := mcmcRcpp_records L P Y X_input params pool_s2_tau2
    corr_function idr wdr adr sdr fuel sink hrun
  obtain ⟨X, D, D_knots, R_out, _, _, hR, hs⟩ :=
    mcmc_init_eq_done L P Y X_input params pool_s2_tau2 corr_function idr C s0 hinit
  have h0 : ∀ b, -1 < s0.xi b ∧ s0.xi b < 1 := by
    rw [hs]
    exact hfac _ _ hR
  intro m r hr
  obtain ⟨s, hs1, hrs⟩ := hrec (fun m => ∀ b, -1 < m.xi b ∧ m.xi b < 1) (mstep_xi C) h0 m r hr
  rw [hrs]
  exact hs1

/-- C8, witness: the run with every switch off returns records whose `xi`
lies strictly between `-1` and `1`. -/
theorem xi_records_within_bounds_witness :
    ∃ sink,
      mcmcRcpp (ratLib 1 2 1) ratPrims demoY demoX offParams false "exponential" zeroInit
        (fun _ => zeroDraws) (fun _ => zeroDraws) (fun _ => zeroDraws) 0 = Run.done sink ∧
      sink.rows 0 ≠ [] ∧ ∀ m r, r ∈ sink.rows m → ∀ b, -1 < r.xi b ∧ r.xi b < 1 := by
  obtain ⟨C, s0, hinit, hC, _⟩ := demo_mcmc_init offParams rfl
  have hoff : FlagsOff C := by rw [hC]; exact ⟨rfl, rfl, rfl, rfl, rfl, rfl, rfl⟩
  have hpool : C.pool_s2_tau2 = false := by rw [hC]; rfl
  obtain ⟨rows, hrun, hrows, _⟩ := mcmcRcpp_flags_off (ratLib 1 2 1) ratPrims demoY demoX
    offParams false "exponential" zeroInit (fun _ => zeroDraws) (fun _ => zeroDraws)
    (fun _ => zeroDraws) 0 C s0 hinit hoff hpool
  refine ⟨_, hrun, ?_, xi_records_within_bounds (ratLib 1 2 1) ratPrims demoY demoX offParams
    false "exponential" zeroInit (fun _ => zeroDraws) (fun _ => zeroDraws)
    (fun _ => zeroDraws) 0 _ ratLib_factory hrun⟩
  show rows 0 ≠ []
  rw [hrows 0 (by decide)]
  exact List.cons_ne_nil _ _

end BoundsClaims

section JacobianClaim

variable {α : Type} [LinearOrderedField α] {N_obs N_lat K d B : Nat}

/-- C12, counterexample: at the initial state of the run with all switches on,
a factory result with `log_jacobian = 5` and one with `log_jacobian = 0` (same
`R`) give the same ratio `mh` and the same outcome of the acceptance test, and
so does a change of the `log_jacobian` held for the current `xi` from its
value `0` to `7`: the acceptance decision does not depend on either value.
The ratio with the two values added, `xi_mh_with_log_jacobian`, differs. -/
theorem xi_ratio_ignores_log_jacobian_counterexample :
    xi_mh (ratLib 1 2 1) ratPrims (demoCfg mhParams) zeroDraws (demoState mhParams) (1, 5) =
        xi_mh (ratLib 1 2 1) ratPrims (demoCfg mhParams) zeroDraws (demoState mhParams) (1, 0) ∧
      (demoState mhParams).log_jacobian = 0 ∧
      xi_mh (ratLib 1 2 1) ratPrims (demoCfg mhParams) zeroDraws
          { demoState mhParams with log_jacobian := 7 } (1, 5) =
        xi_mh (ratLib 1 2 1) ratPrims (demoCfg mhParams) zeroDraws (demoState mhParams) (1, 5) ∧
      (xi_assign (ratLib 1 2 1) (demoCfg mhParams) Phase.adapt zeroDraws (demoState mhParams)
        (1, 5)).log_jacobian = 5 ∧
      xi_mh_with_log_jacobian (ratLib 1 2 1) ratPrims (demoCfg mhParams) zeroDraws
          (demoState mhParams) (1, 5) ≠
        xi_mh (ratLib 1 2 1) ratPrims (demoCfg mhParams) zeroDraws (demoState mhParams) (1, 5) := by
  refine ⟨rfl, rfl, rfl, rfl, ?_⟩
  have h0 : (demoState mhParams).log_jacobian = 0 := rfl
  unfold xi_mh_with_log_jacobian xi_mh
  simp only [h0, ratPrims, stdPrims]
  intro h
  linarith

/-- C12, amended: in every `xi` update the log-ratio is
`mh1 - mh2` with `mh1` the Gaussian log-likelihood at the proposed `zeta_star`
plus `sum(log(xi_tilde_star) + log(1 - xi_tilde_star))` plus the beta
log-densities of the proposal, and `mh2` the same three terms at the current
values. The `log_jacobian` that the factory returns for the proposal and the
one held for the current `xi` enter neither: the ratio is the same for every
value of either, and an accepted proposal only stores the returned value. -/
theorem xi_ratio_uses_logit_jacobian (L : Lib α K d B) (P : Prims α)
    (C : Cfg α N_obs N_lat K d B) (ph : Phase) (dr : Draws α N_lat K d B)
    (s : State α N_obs N_lat K d B) (R_star : Matrix (Fin d) (Fin d) α) (a b x : α) :
    xi_mh L P C dr s (R_star, a) =
        P.exp ((gauss_loglik C.Y s.mu_mat (s.Z * s.eta_star * (R_star * Matrix.diagonal s.tau))
              s.sigma2 +
            (∑ i, (P.log (xi_tilde_star L dr s i) + P.log (1 - xi_tilde_star L dr s i))) +
            ∑ i, L.dbeta (1 / 2 * (xi_star L dr s i + 1)) (C.eta_vec i) (C.eta_vec i)) -
          (gauss_loglik C.Y s.mu_mat s.zeta s.sigma2 +
            (∑ i, (P.log (s.xi_tilde i) + P.log (1 - s.xi_tilde i))) +
            ∑ i, L.dbeta (1 / 2 * (s.xi i + 1)) (C.eta_vec i) (C.eta_vec i))) ∧
      xi_mh L P C dr s (R_star, a) = xi_mh L P C dr s (R_star, b) ∧
      xi_mh L P C dr { s with log_jacobian := x } (R_star, a) = xi_mh L P C dr s (R_star, a) ∧
      (xi_assign L C ph dr s (R_star, a)).log_jacobian = a := by
  refine ⟨rfl, rfl, rfl, ?_⟩
  cases ph <;> rfl

end JacobianClaim

section DomainClaim

variable {α : Type} [LinearOrderedField α] {N_obs N_lat K d B : Nat}

theorem hang_foldl_bind {σ ι : Type} (f : σ → ι → Run σ) (l : List ι) :
    l.foldl (fun r i => r.bind (fun s => f s i)) Run.hang = Run.hang := by
  induction l with
  | nil => rfl
  | cons a l ih => exact ih

/-- C13: a proposal outside its parameter's domain is rejected without an
acceptance test. When `phi_star <= phi_L` or `phi_star >= phi_U`, when
`sigma2_star <= 0`, and when `s2_tau2_star <= 0` or `s2_tau2_star >= A_s2`, the
proposal part of the block returns the state it received, whole (the parameter,
every derived quantity and both acceptance counters included), whatever the
acceptance uniform and whatever `chol` and `inv_sympd` would return, so that
neither is consulted; the block then makes its tuning call on that state as in
every iteration, which leaves the model part as it was, and returns: no error
is raised. -/
theorem out_of_domain_proposal_is_rejected (L : Lib α K d B) (P : Prims α)
    (C : Cfg α N_obs N_lat K d B) (ph : Phase) (k : Nat) (dr : Draws α N_lat K d B)
    (s : State α N_obs N_lat K d B) :
    (phi_star L dr s ≤ C.phi_L ∨ C.phi_U ≤ phi_star L dr s →
      (∀ (u : α) (chol1 inv1 : {n : Nat} → Matrix (Fin n) (Fin n) α → Matrix (Fin n) (Fin n) α),
        phi_propose { L with chol := chol1, inv_sympd := inv1 } P C ph
          { dr with phi_u := u } s = s) ∧
      phi_propose L P C ph dr s = s ∧
      phi_block L P C ph k dr s = (if C.sample_phi then phi_tuning L ph k s else s) ∧
      (phi_block L P C ph k dr s).model = s.model ∧
      (phi_block L P C ph k dr s).phi_accept = s.phi_accept ∧
      ((k + 1) % 50 ≠ 0 → phi_block L P C ph k dr s = s)) ∧
    (sigma2_star L dr s ≤ 0 →
      (∀ u : α, sigma2_propose L P C ph { dr with sigma2_u := u } s = s) ∧
      sigma2_propose L P C ph dr s = s ∧
      sigma2_block L P C ph k dr s = (if C.sample_sigma2 then sigma2_tuning L ph k s else s) ∧
      (sigma2_block L P C ph k dr s).model = s.model ∧
      (sigma2_block L P C ph k dr s).sigma2_accept = s.sigma2_accept ∧
      ((k + 1) % 50 ≠ 0 → sigma2_block L P C ph k dr s = s)) ∧
    (s2_tau2_star L dr s ≤ 0 ∨ C.A_s2 ≤ s2_tau2_star L dr s →
      (∀ u : α, s2_tau2_propose L P C ph { dr with s2_tau2_u := u } s = s) ∧
      s2_tau2_propose L P C ph dr s = s ∧
      s2_tau2_block L P C ph k dr s = s2_tau2_tuning L ph k s ∧
      (s2_tau2_block L P C ph k dr s).model = s.model ∧
      (s2_tau2_block L P C ph k dr s).s2_tau2_accept = s.s2_tau2_accept ∧
      ((k + 1) % 50 ≠ 0 → s2_tau2_block L P C ph k dr s = s)) := by
  refine ⟨?_, ?_, ?_⟩
  · intro h
    have hg : ¬ (phi_star L dr s > C.phi_L ∧ phi_star L dr s < C.phi_U) := by
      rintro ⟨h1, h2⟩
      rcases h with h | h
      · exact absurd h1 (not_lt.mpr h)
      · exact absurd h2 (not_lt.mpr h)
    have hb : phi_block L P C ph k dr s = (if C.sample_phi then phi_tuning L ph k s else s) := by
      unfold phi_block
      rw [if_neg hg]
    refine ⟨?_, ?_, hb, ?_, ?_, ?_⟩
    · intro u chol1 inv1
      unfold phi_propose
      exact if_neg hg
    · unfold phi_propose
      exact if_neg hg
    · rw [hb]
      split_ifs
      · exact model_phi_tuning L ph k s
      · rfl
    · rw [hb]
      split_ifs
      · cases ph <;> simp only [phi_tuning] <;> split_ifs <;> rfl
      · rfl
    · intro hk
      rw [hb]
      split_ifs
      · cases ph <;> simp only [phi_tuning] <;> rw [if_neg hk]
      · rfl
  · intro h
    have hg : ¬ sigma2_star L dr s > 0 := not_lt.mpr h
    have hb : sigma2_block L P C ph k dr s =
        (if C.sample_sigma2 then sigma2_tuning L ph k s else s) := by
      unfold sigma2_block
      rw [if_neg hg]
    refine ⟨?_, ?_, hb, ?_, ?_, ?_⟩
    · intro u
      unfold sigma2_propose
      exact if_neg hg
    · unfold sigma2_propose
      exact if_neg hg
    · rw [hb]
      split_ifs
      · exact model_sigma2_tuning L ph k s
      · rfl
    · rw [hb]
      split_ifs
      · cases ph <;> simp only [sigma2_tuning] <;> split_ifs <;> rfl
      · rfl
    · intro hk
      rw [hb]
      split_ifs
      · cases ph <;> simp only [sigma2_tuning] <;> rw [if_neg hk]
      · rfl
  · intro h
    have hg : ¬ (s2_tau2_star L dr s > 0 ∧ s2_tau2_star L dr s < C.A_s2) := by
      rintro ⟨h1, h2⟩
      rcases h with h | h
      · exact absurd h1 (not_lt.mpr h)
      · exact absurd h2 (not_lt.mpr h)
    have hb : s2_tau2_block L P C ph k dr s = s2_tau2_tuning L ph k s := by
      unfold s2_tau2_block
      rw [if_neg hg]
      simp only [ite_self]
    refine ⟨?_, ?_, hb, ?_, ?_, ?_⟩
    · intro u
      unfold s2_tau2_propose
      by_cases hp : C.pool_s2_tau2 = true
      · rw [if_pos hp]
        exact if_neg hg
      · rw [if_neg hp]
    · unfold s2_tau2_propose
      rw [if_neg hg]
      simp only [ite_self]
    · rw [hb]
      exact model_s2_tau2_tuning L ph k s
    · rw [hb]
      cases ph <;> simp only [s2_tau2_tuning] <;> split_ifs <;> rfl
    · intro hk
      rw [hb]
      cases ph <;> simp only [s2_tau2_tuning] <;> rw [if_neg hk]

theorem demo_phi_star :
    phi_star (ratLib 1 2 1) zeroDraws (demoState mhParams) = 1 / 10000 := by
  simp [phi_star, ratLib, zeroDraws, demoState, init_state, demoCfg, init_cfg, mhParams,
    offParams, zeroInit]
  norm_num

/-- C13, witness: at the initial state of the run with all switches on, the
proposal of `phi` with a zero increment sits on the lower bound `1/10000`; it is
rejected and the block at iteration 0 of the adaptation phase returns the
state it received. -/
theorem out_of_domain_proposal_is_rejected_witness :
    phi_star (ratLib 1 2 1) zeroDraws (demoState mhParams) ≤ (demoCfg mhParams).phi_L ∧
      phi_block (ratLib 1 2 1) ratPrims (demoCfg mhParams) Phase.adapt 0 zeroDraws
        (demoState mhParams) = demoState mhParams :=
  have h : phi_star (ratLib 1 2 1) zeroDraws (demoState mhParams) ≤ (demoCfg mhParams).phi_L := by
    rw [demo_phi_star]
    exact le_of_eq rfl
  ⟨h, ((out_of_domain_proposal_is_rejected (ratLib 1 2 1) ratPrims (demoCfg mhParams)
    Phase.adapt 0 zeroDraws (demoState mhParams)).1 (Or.inl h)).2.2.2.2.2 (by decide)⟩

end DomainClaim

section VariantClaim

variable {α : Type} [LinearOrderedField α] {N_obs N_lat K d B : Nat}

theorem eta_star_ess_col_no_fuel (L : Lib α K d B) (P : Prims α)
    (C : Cfg α N_obs N_lat K d B) (dr : Draws α N_lat K d B) (s : State α N_obs N_lat K d B)
    (j : Fin d) : eta_star_ess_col L P C 0 dr s j = Run.hang := rfl

/-- C14: in a warmup iteration the update of `eta_star` is the
Metropolis-Hastings update for both values of `sample_eta_star_mh`, and it
returns whatever the fuel of the slice sampler, also with none, so that
`ess_eta_star` is not called. In the adaptation and production phases the
update is the Metropolis-Hastings update when `sample_eta_star_mh` is true and
the loop of calls of `ess_eta_star` when it is false; with no fuel that loop
does not return when `d > 0`, so that `ess_eta_star` is called. -/
theorem eta_star_update_variant (L : Lib α K d B) (P : Prims α)
    (C : Cfg α N_obs N_lat K d B) (ph : Phase) (fuel k : Nat) (dr : Draws α N_lat K d B)
    (s : State α N_obs N_lat K d B) :
    eta_star_block L P C Phase.warmup fuel k dr s =
        Run.done (if C.sample_eta_star then eta_star_mh_block L P C Phase.warmup k dr s
          else s) ∧
      (∀ flag : Bool,
        eta_star_block L P { C with sample_eta_star_mh := flag } Phase.warmup fuel k dr s =
          eta_star_block L P C Phase.warmup 0 k dr s) ∧
      (ph ≠ Phase.warmup → C.sample_eta_star = true → C.sample_eta_star_mh = true →
        eta_star_block L P C ph fuel k dr s = Run.done (eta_star_mh_block L P C ph k dr s)) ∧
      (ph ≠ Phase.warmup → C.sample_eta_star = true → C.sample_eta_star_mh = false →
        eta_star_block L P C ph fuel k dr s =
          (List.finRange d).foldl
            (fun r j => r.bind (fun s1 => eta_star_ess_col L P C fuel dr s1 j)) (Run.done s)) ∧
      (ph ≠ Phase.warmup → C.sample_eta_star = true → C.sample_eta_star_mh = false → 0 < d →
        eta_star_block L P C ph 0 k dr s = Run.hang) := by
  refine ⟨?_, ?_, ?_, ?_, ?_⟩
  · unfold eta_star_block
    split_ifs <;> rfl
  · intro flag
    unfold eta_star_block
    rfl
  · intro hph h1 h2
    unfold eta_star_block
    rw [if_pos h1]
    cases ph with
    | warmup => exact absurd rfl hph
    | adapt => simp only [h2, if_true]
    | sample => simp only [h2, if_true]
  · intro hph h1 h2
    unfold eta_star_block
    rw [if_pos h1]
    cases ph with
    | warmup => exact absurd rfl hph
    | adapt => simp [h2]
    | sample => simp [h2]
  · intro hph h1 h2 hd
    have hfold : (List.finRange d).foldl
        (fun r j => r.bind (fun s1 => eta_star_ess_col L P C 0 dr s1 j)) (Run.done s) =
        Run.hang := by
      obtain ⟨n, rfl⟩ : ∃ n, d = n + 1 := ⟨d - 1, by omega⟩
      rw [List.finRange_succ_eq_map, List.foldl_cons]
      exact hang_foldl_bind _ _
    unfold eta_star_block
    rw [if_pos h1]
    cases ph with
    | warmup => exact absurd rfl hph
    | adapt => simpa [h2] using hfold
    | sample => simpa [h2] using hfold

/-- C14, witness: in the run with the slice-sampling variant selected
(`sample_eta_star_mh = false`), the update of `eta_star` at adaptation
iteration 0 with no fuel does not return, while the warmup update returns. -/
theorem eta_star_update_variant_witness :
    eta_star_block (ratLib 1 2 1) ratPrims
        { demoCfg mhParams with sample_eta_star_mh := false } Phase.adapt 0 0 zeroDraws
        (demoState mhParams) = Run.hang ∧
      ∃ t, eta_star_block (ratLib 1 2 1) ratPrims
        { demoCfg mhParams with sample_eta_star_mh := false } Phase.warmup 0 0 zeroDraws
        (demoState mhParams) = Run.done t :=
  ⟨(eta_star_update_variant (ratLib 1 2 1) ratPrims
      { demoCfg mhParams with sample_eta_star_mh := false } Phase.adapt 0 0 zeroDraws
      (demoState mhParams)).2.2.2.2 (by decide) rfl rfl (by decide),
    _, (eta_star_update_variant (ratLib 1 2 1) ratPrims
      { demoCfg mhParams with sample_eta_star_mh := false } Phase.adapt 0 0 zeroDraws
      (demoState mhParams)).1⟩

/-- C15: in each of the three phases an iteration applies the blocks in the
order `mu`, `phi`, `eta_star`, `sigma2`, `lambda_sigma2`, `tau2`, `lambda_tau2`,
`s2_tau2`, `xi`, `X`, each block starting from the state that the block before
it left: the iteration returns `t` exactly when there are states `s1 .. s9`
linked in that way with `t` the result of the `X` block on `s9`. -/
theorem iteration_block_order (L : Lib α K d B) (P : Prims α) (C : Cfg α N_obs N_lat K d B)
    (ph : Phase) (fuel k : Nat) (dr : Draws α N_lat K d B) (s t : State α N_obs N_lat K d B) :
    iteration L P C ph fuel k dr s = Run.done t ↔
      ∃ s1 s2 s3 s4 s5 s6 s7 s8 s9,
        s1 = mu_block L P C ph k dr s ∧
        s2 = phi_block L P C ph k dr s1 ∧
        eta_star_block L P C ph fuel k dr s2 = Run.done s3 ∧
        s4 = sigma2_block L P C ph k dr s3 ∧
        s5 = lambda_sigma2_block L C dr s4 ∧
        s6 = tau2_block L P C ph k dr s5 ∧
        s7 = lambda_tau2_block L dr s6 ∧
        s8 = s2_tau2_block L P C ph k dr s7 ∧
        xi_block L P C ph k dr s8 = Run.done s9 ∧
        X_block L P C ph fuel k dr s9 = Run.done t := by
  constructor
  · intro h
    unfold iteration at h
    dsimp only at h
    obtain ⟨s3, h3, h⟩ := Run.bind_eq_done _ _ _ h
    obtain ⟨s9, h9, h⟩ := Run.bind_eq_done _ _ _ h
    exact ⟨_, _, s3, _, _, _, _, _, s9, rfl, rfl, h3, rfl, rfl, rfl, rfl, rfl, h9, h⟩
  · rintro ⟨s1, s2, s3, s4, s5, s6, s7, s8, s9, e1, e2, h3, e4, e5, e6, e7, e8, h9, h10⟩
    subst e1 e2 e4 e5 e6 e7 e8
    unfold iteration
    dsimp only
    rw [h3, Run.done_bind, h9, Run.done_bind]
    exact h10

end VariantClaim

section BracketClaim

variable {α : Type} [LinearOrderedField α]

theorem slice_shrink_inBracket (lo hi u : α) (s : SliceState α) (hu0 : 0 ≤ u) (hu1 : u ≤ 1)
    (h : InBracket lo hi s) : InBracket lo hi (slice_shrink u s) := by
  obtain ⟨h1, h2, h3, h4⟩ := h
  unfold slice_shrink InBracket
  by_cases hpos : s.phi_angle > 0
  · simp only [hpos, if_true]
    have hw : 0 ≤ s.phi_angle - s.phi_angle_min := sub_nonneg.mpr h2
    refine ⟨h1, ?_, ?_, le_trans h3 h4⟩
    · nlinarith [mul_nonneg hu0 hw]
    · nlinarith [mul_le_mul_of_nonneg_right hu1 hw]
  · by_cases hneg : s.phi_angle < 0
    · simp only [hpos, hneg, if_true, if_false]
      have hw : 0 ≤ s.phi_angle_max - s.phi_angle := sub_nonneg.mpr h3
      refine ⟨le_trans h1 h2, ?_, ?_, h4⟩
      · nlinarith [mul_nonneg hu0 hw]
      · nlinarith [mul_le_mul_of_nonneg_right hu1 hw]
    · simp only [hpos, hneg, if_false]
      have hw : 0 ≤ s.phi_angle_max - s.phi_angle_min := sub_nonneg.mpr (le_trans h2 h3)
      refine ⟨h1, ?_, ?_, h4⟩
      · nlinarith [mul_nonneg hu0 hw]
      · nlinarith [mul_le_mul_of_nonneg_right hu1 hw]

theorem ess_entry_inBracket (P : Prims α) (u : Nat → α) (hpi : 0 ≤ P.pi)
    (hu : ∀ n, 0 ≤ u (n + 2) ∧ u (n + 2) ≤ 1) (i : Nat) :
    InBracket (u 1 * 2 * P.pi - 2 * P.pi) (u 1 * 2 * P.pi) (ess_entry P u i) := by
  induction i with
  | zero =>
    refine ⟨le_refl _, ?_, le_refl _, le_refl _⟩
    show u 1 * 2 * P.pi - 2 * P.pi ≤ u 1 * 2 * P.pi
    linarith
  | succ i ih =>
    rw [ess_entry_succ]
    exact slice_shrink_inBracket _ _ _ _ (hu i).1 (hu i).2 ih


/-- C16: with `pi >= 0` and every shrink draw `u` in `[0, 1]`, whenever
`ess_eta_star` or `ess_X` returns, there is an angle `theta` in the initial
bracket `[theta0 - 2*pi, theta0]`, `theta0 = u1 * 2 * pi`, such that the value
returned is `cos(theta) * current + sin(theta) * prior_draw` (column `j` of
`eta_star`, the other columns as they were; the scalar `X`), the dependents
returned are those of that value, and its log-likelihood is strictly greater
than the slice level `hh = log(u0) + loglik(current)` of the start of the call,
the sum being the one the processor returns. -/
theorem ess_returns_point_on_slice {N K d : Nat} (P : Prims α) (fuel : Nat) (u : Nat → α)
    (eta_star_current : Matrix (Fin K) (Fin d) α) (eta_star_prior : Fin K → α)
    (y_current mu_mat_current zeta_current : Matrix (Fin N) (Fin d) α)
    (R_tau_current : Matrix (Fin d) (Fin d) α) (Z_current : Matrix (Fin N) (Fin K) α)
    (sigma2_current : α) (j : Fin d) (corr_function : String) (X_current X_prior mu_X : α)
    (X_knots : Fin K → α) (y_row mu_current zeta_row : Fin d → α)
    (phi_current sigma_current : α) (C_inv_current : Matrix (Fin K) (Fin K) α)
    (hpi : 0 ≤ P.pi) (hu : ∀ n, 0 ≤ u (n + 2) ∧ u (n + 2) ≤ 1) :
    (∀ out b, ess_eta_star P fuel u eta_star_current eta_star_prior y_current mu_mat_current
        zeta_current R_tau_current Z_current sigma2_current j = some (out, b) →
      ∃ theta, u 1 * 2 * P.pi - 2 * P.pi ≤ theta ∧ theta ≤ u 1 * 2 * P.pi ∧
        out.eta_star = Matrix.updateColumn eta_star_current j
          (fun k => eta_star_current k j * P.cos theta + eta_star_prior k * P.sin theta) ∧
        out.zeta = Z_current * out.eta_star * R_tau_current ∧
        gauss_loglik y_current mu_mat_current out.zeta sigma2_current >
          P.fadd (P.log (u 0))
            (gauss_loglik y_current mu_mat_current zeta_current sigma2_current)) ∧
    (∀ out b, ess_X P fuel u corr_function X_current X_prior mu_X X_knots y_row mu_current
        eta_star_current zeta_row R_tau_current phi_current sigma_current C_inv_current =
        some (out, b) →
      ∃ theta, u 1 * 2 * P.pi - 2 * P.pi ≤ theta ∧ theta ≤ u 1 * 2 * P.pi ∧
        out.X = X_current * P.cos theta + X_prior * P.sin theta ∧
        out.D = dist_row P corr_function X_knots (out.X + mu_X) ∧
        out.c = (fun k => P.exp (-(out.D k) / phi_current)) ∧
        out.Z = Matrix.vecMul out.c C_inv_current ∧
        out.zeta = Matrix.vecMul (Matrix.vecMul out.Z eta_star_current) R_tau_current ∧
        row_loglik P y_row mu_current out.zeta sigma_current >
          P.fadd (P.log (u 0)) (row_loglik P y_row mu_current zeta_row sigma_current)) := by
  constructor
  · intro out b h
    rw [ess_eta_star_eq_some_iff] at h
    obtain ⟨m, _, _, hacc, hout, _⟩ := h
    obtain ⟨h1, h2, h3, h4⟩ := ess_entry_inBracket P u hpi hu m
    refine ⟨(ess_entry P u m).phi_angle, le_trans h1 h2, le_trans h3 h4, ?_, ?_, ?_⟩
    · rw [hout]; rfl
    · rw [hout]; rfl
    · rw [hout]; exact hacc
  · intro out b h
    rw [ess_X_eq_some_iff] at h
    obtain ⟨m, _, _, hacc, hout, _⟩ := h
    obtain ⟨h1, h2, h3, h4⟩ := ess_entry_inBracket P u hpi hu m
    refine ⟨(ess_entry P u m).phi_angle, le_trans h1 h2, le_trans h3 h4, ?_, ?_, ?_, ?_, ?_, ?_⟩
    · rw [hout]; rfl
    · rw [hout]; rfl
    · rw [hout]; rfl
    · rw [hout]; rfl
    · rw [hout]; rfl
    · rw [hout]; exact hacc

end BracketClaim

section BracketWitness

theorem demo_ess_eta_star_returns :
    ess_eta_star ratPrims 1 (fun _ => 1 / 2) (0 : Matrix (Fin 1) (Fin 1) ℚ) 0
        (0 : Matrix (Fin 1) (Fin 1) ℚ) 0 0 1 (0 : Matrix (Fin 1) (Fin 1) ℚ) 1 0 =
      some (ess_eta_star_proposal ratPrims 0 0 1 0 0 3, 0) := by
  rw [ess_eta_star_eq_some_iff]
  refine ⟨0, by decide, fun i hi => absurd hi (Nat.not_lt_zero i), ?_, ?_, rfl⟩
  · unfold ess_eta_star_on_slice
    rw [ess_entry_zero]
    simp [ess_init, ess_eta_star_proposal, ess_eta_star_hh, gauss_loglik, ratPrims, stdPrims]
    norm_num
  · rw [ess_entry_zero]
    simp [ess_init, ratPrims, stdPrims]

/-- C16, witness: with every draw `1/2` and `pi = 3`, the call of
`ess_eta_star` on zero matrices returns at its first pass, at the angle
`theta0 = 3`, which lies in the bracket `[-3, 3]`. -/
theorem ess_returns_point_on_slice_witness :
    ∃ theta : ℚ, 1 / 2 * 2 * 3 - 2 * 3 ≤ theta ∧ theta ≤ 1 / 2 * 2 * 3 ∧
      (ess_eta_star_proposal ratPrims (0 : Matrix (Fin 1) (Fin 1) ℚ) 0 1
          (0 : Matrix (Fin 1) (Fin 1) ℚ) 0 3).eta_star =
        Matrix.updateColumn (0 : Matrix (Fin 1) (Fin 1) ℚ) 0
          (fun k => (0 : Matrix (Fin 1) (Fin 1) ℚ) k 0 * ratPrims.cos theta +
            (0 : Fin 1 → ℚ) k * ratPrims.sin theta) := by
  obtain ⟨theta, h1, h2, h3, _⟩ :=
    (ess_returns_point_on_slice ratPrims 1 (fun _ => 1 / 2) (0 : Matrix (Fin 1) (Fin 1) ℚ) 0
      (0 : Matrix (Fin 1) (Fin 1) ℚ) 0 0 1 (0 : Matrix (Fin 1) (Fin 1) ℚ) 1 0 "exponential"
      0 0 0 0 0 0 0 1 1 0 (by show (0 : ℚ) ≤ 3; norm_num)
      (fun _ => ⟨by norm_num, by norm_num⟩)).1 _ _ demo_ess_eta_star_returns
  exact ⟨theta, h1, h2, h3⟩

end BracketWitness

section ObservedClaim

variable {α : Type} [LinearOrderedField α] {N_obs N_lat K d B : Nat}

theorem natAdd_ne_castAdd (l : Fin N_lat) (i : Fin N_obs) :
    Fin.castAdd N_lat i ≠ Fin.natAdd N_obs l := by
  intro h
  have hv := congrArg Fin.val h
  simp only [Fin.coe_castAdd, Fin.coe_natAdd] at hv
  have hi := i.isLt
  omega

theorem init_X_observed (L : Lib α K d B) (sample_X : Bool) (s_X : α)
    (X_input : Fin (N_obs + N_lat) → α) (X_z : Fin N_lat → α) (i : Fin N_obs) :
    init_X L sample_X s_X X_input X_z (Fin.castAdd N_lat i) = X_input (Fin.castAdd N_lat i) := by
  unfold init_X
  split_ifs
  · refine foldl_invariant
      (fun X : Fin (N_obs + N_lat) → α =>
        X (Fin.castAdd N_lat i) = X_input (Fin.castAdd N_lat i)) _ ?_ _ _ rfl
    intro X l hX
    rw [Function.update_noteq (natAdd_ne_castAdd l i)]
    exact hX
  · rfl

theorem mstep_X_observed (C : Cfg α N_obs N_lat K d B) (i : Fin N_obs) (x : α)
    (m m1 : Model α N_obs N_lat K d B) (h : MStep C m m1)
    (hm : m.X (Fin.castAdd N_lat i) = x) : m1.X (Fin.castAdd N_lat i) = x := by
  cases h with
  | X l x1 D c Z =>
    show Function.update m.X _ _ _ = x
    rw [Function.update_noteq (natAdd_ne_castAdd l i)]
    exact hm
  | _ => exact hm

/-- C17: the observed prefix of the covariate is fixed. After the set-up,
`X(i) = X_input(i)` for every `i < N_obs`; an iteration of any phase that
returns, with the Metropolis-Hastings or the slice-sampling update of the
covariate, leaves `X(i)` as it was for every `i < N_obs`; hence `X(i) =
X_input(i)` for `i < N_obs` after any number of iterations of the warmup loop,
then of the adaptation loop, then of the production loop. -/
theorem observed_covariates_fixed (L : Lib α K d B) (P : Prims α)
    (Y : Matrix (Fin (N_obs + N_lat)) (Fin d) α) (X_input : Fin (N_obs + N_lat) → α)
    (params : Params α K d B) (pool_s2_tau2 : Bool) (corr_function : String)
    (idr : InitDraws α N_lat K d B) (C : Cfg α N_obs N_lat K d B)
    (s0 : State α N_obs N_lat K d B)
    (hinit : mcmc_init L P Y X_input params pool_s2_tau2 corr_function idr = Run.done (C, s0)) :
    (∀ i : Fin N_obs, s0.X (Fin.castAdd N_lat i) = X_input (Fin.castAdd N_lat i)) ∧
    (∀ (ph : Phase) (fuel k : Nat) (dr : Draws α N_lat K d B) (s t : State α N_obs N_lat K d B),
      iteration L P C ph fuel k dr s = Run.done t →
        ∀ i : Fin N_obs, t.X (Fin.castAdd N_lat i) = s.X (Fin.castAdd N_lat i)) ∧
    (∀ (wdr adr sdr : Nat → Draws α N_lat K d B) (fuel n1 n2 n3 : Nat)
      (s1 s2 s3 : State α N_obs N_lat K d B),
      phase_loop (fun k s => iteration L P C Phase.warmup fuel k (wdr k) s) n1 s0 =
          Run.done s1 →
        phase_loop (fun k s => iteration L P C Phase.adapt fuel k (adr k) s) n2 s1 =
          Run.done s2 →
        phase_loop (fun k s => iteration L P C Phase.sample fuel k (sdr k) s) n3 s2 =
          Run.done s3 →
        ∀ i : Fin N_obs, s1.X (Fin.castAdd N_lat i) = X_input (Fin.castAdd N_lat i) ∧
          s2.X (Fin.castAdd N_lat i) = X_input (Fin.castAdd N_lat i) ∧
          s3.X (Fin.castAdd N_lat i) = X_input (Fin.castAdd N_lat i)) := by
  have h0 : ∀ i : Fin N_obs, s0.X (Fin.castAdd N_lat i) = X_input (Fin.castAdd N_lat i) := by
    intro i
    unfold mcmc_init at hinit
    dsimp only at hinit
    obtain ⟨DD, _, hinit⟩ := Run.bind_eq_done _ _ _ hinit
    split at hinit
    · exact absurd hinit (by simp)
    · simp only [Run.done.injEq, Prod.mk.injEq] at hinit
      rw [← hinit.2]
      exact init_X_observed L _ _ X_input idr.X_z i
  refine ⟨h0, ?_, ?_⟩
  · intro ph fuel k dr s t h i
    exact msteps_invariant C (fun m => m.X (Fin.castAdd N_lat i) = s.X (Fin.castAdd N_lat i))
      (mstep_X_observed C i _) _ _ (msteps_iteration L P C ph fuel k dr s t h) rfl
  · intro wdr adr sdr fuel n1 n2 n3 s1 s2 s3 h1 h2 h3 i
    have e1 := msteps_invariant C
      (fun m => m.X (Fin.castAdd N_lat i) = X_input (Fin.castAdd N_lat i))
      (mstep_X_observed C i _) _ _ (msteps_phase_loop L P C Phase.warmup fuel wdr n1 s0 s1 h1)
      (h0 i)
    have e2 := msteps_invariant C
      (fun m => m.X (Fin.castAdd N_lat i) = X_input (Fin.castAdd N_lat i))
      (mstep_X_observed C i _) _ _ (msteps_phase_loop L P C Phase.adapt fuel adr n2 s1 s2 h2) e1
    have e3 := msteps_invariant C
      (fun m => m.X (Fin.castAdd N_lat i) = X_input (Fin.castAdd N_lat i))
      (mstep_X_observed C i _) _ _ (msteps_phase_loop L P C Phase.sample fuel sdr n3 s2 s3 h3) e2
    exact ⟨e1, e2, e3⟩

/-- C17, witness: in the run with all switches on, whose latent covariate is
drawn at the set-up, the initial state holds the two observed covariates. -/
theorem observed_covariates_fixed_witness :
    ∃ (C : Cfg ℚ 2 1 1 2 1) (s0 : State ℚ 2 1 1 2 1),
      mcmc_init (ratLib 1 2 1) ratPrims demoY demoX mhParams false "exponential" zeroInit =
        Run.done (C, s0) ∧
      C.sample_X = true ∧
      ∀ i : Fin 2, s0.X (Fin.castAdd 1 i) = demoX (Fin.castAdd 1 i) := by
  obtain ⟨C, s0, hinit, hC, _⟩ := demo_mcmc_init mhParams rfl
  exact ⟨C, s0, hinit, by rw [hC]; rfl,
    (observed_covariates_fixed (ratLib 1 2 1) ratPrims demoY demoX mhParams false
      "exponential" zeroInit C s0 hinit).1⟩

end ObservedClaim

section GibbsClaim

variable {α : Type} [LinearOrderedField α] {N_obs N_lat K d B : Nat}

theorem mu_gibbs_A_eq (C : Cfg α N_obs N_lat K d B) (s : State α N_obs N_lat K d B) :
    mu_gibbs_A C s =
      (((N_obs + N_lat : Nat) : α) / s.sigma2 + 1 / C.s2_mu) • (1 : Matrix (Fin d) (Fin d) α) := by
  ext i j
  simp only [mu_gibbs_A, Matrix.smul_apply, smul_eq_mul]
  ring

theorem mu_gibbs_A_inv (C : Cfg α N_obs N_lat K d B) (s : State α N_obs N_lat K d B)
    (h : ((N_obs + N_lat : Nat) : α) / s.sigma2 + 1 / C.s2_mu ≠ 0) :
    (mu_gibbs_A C s)⁻¹ =
      (1 / (((N_obs + N_lat : Nat) : α) / s.sigma2 + 1 / C.s2_mu)) •
        (1 : Matrix (Fin d) (Fin d) α) := by
  apply Matrix.inv_eq_right_inv
  rw [mu_gibbs_A_eq, Matrix.smul_mul, Matrix.mul_smul, Matrix.one_mul, smul_smul,
    mul_one_div_cancel h, one_smul]

/-- C19: the Gibbs update of `mu` hands to `rMVNArma` the precision
`A = (N/sigma2 + 1/s2_mu) * I_d` and the vector `b` with entries
`sum_i (Y(i,j) - zeta(i,j)) / sigma2 + mu_mu / s2_mu`, and stores the draw in
`mu` and in every row of `mu_mat`. When `N/sigma2 + 1/s2_mu` is not zero,
`A^{-1} = 1/(N/sigma2 + 1/s2_mu) * I_d` and `A^{-1} b` has the entries
`(sum_i (Y(i,j) - zeta(i,j)) / sigma2 + mu_mu/s2_mu) / (N/sigma2 + 1/s2_mu)`;
with `zeta = 0` these are `(sum_i Y(i,j)/sigma2 + mu_mu/s2_mu) / (N/sigma2 +
1/s2_mu)`, for `d = 1` the mean and the variance of the Normal-Normal
conjugate posterior. -/
theorem mu_gibbs_is_conjugate (L : Lib α K d B) (C : Cfg α N_obs N_lat K d B)
    (dr : Draws α N_lat K d B) (s : State α N_obs N_lat K d B)
    (h : ((N_obs + N_lat : Nat) : α) / s.sigma2 + 1 / C.s2_mu ≠ 0) :
    mu_gibbs L C dr s =
        { s with mu := L.rMVNArma (mu_gibbs_A C s) (mu_gibbs_b C s) dr.mu_z,
                 mu_mat := rows_of (L.rMVNArma (mu_gibbs_A C s) (mu_gibbs_b C s) dr.mu_z) } ∧
      mu_gibbs_A C s =
        (((N_obs + N_lat : Nat) : α) / s.sigma2 + 1 / C.s2_mu) •
          (1 : Matrix (Fin d) (Fin d) α) ∧
      (∀ j, mu_gibbs_b C s j = (∑ i, (C.Y i j - s.zeta i j)) / s.sigma2 + C.mu_mu / C.s2_mu) ∧
      (∀ i j, (mu_gibbs_A C s)⁻¹ i j =
        if i = j then 1 / (((N_obs + N_lat : Nat) : α) / s.sigma2 + 1 / C.s2_mu) else 0) ∧
      (∀ j, (mu_gibbs_A C s)⁻¹.mulVec (mu_gibbs_b C s) j =
        ((∑ i, (C.Y i j - s.zeta i j)) / s.sigma2 + C.mu_mu / C.s2_mu) /
          (((N_obs + N_lat : Nat) : α) / s.sigma2 + 1 / C.s2_mu)) ∧
      (s.zeta = 0 → ∀ j, (mu_gibbs_A C s)⁻¹.mulVec (mu_gibbs_b C s) j =
        ((∑ i, C.Y i j / s.sigma2) + C.mu_mu / C.s2_mu) /
          (((N_obs + N_lat : Nat) : α) / s.sigma2 + 1 / C.s2_mu)) := by
  have hb : ∀ j, mu_gibbs_b C s j =
      (∑ i, (C.Y i j - s.zeta i j)) / s.sigma2 + C.mu_mu / C.s2_mu := by
    intro j
    simp only [mu_gibbs_b, colSums, Matrix.sub_apply, mul_one]
  have hmul : ∀ j, (mu_gibbs_A C s)⁻¹.mulVec (mu_gibbs_b C s) j =
      ((∑ i, (C.Y i j - s.zeta i j)) / s.sigma2 + C.mu_mu / C.s2_mu) /
        (((N_obs + N_lat : Nat) : α) / s.sigma2 + 1 / C.s2_mu) := by
    intro j
    rw [mu_gibbs_A_inv C s h, Matrix.smul_mulVec_assoc, Matrix.one_mulVec, Pi.smul_apply,
      smul_eq_mul, hb j]
    ring
  refine ⟨rfl, mu_gibbs_A_eq C s, hb, ?_, hmul, ?_⟩
  · intro i j
    rw [mu_gibbs_A_inv C s h, Matrix.smul_apply, Matrix.one_apply, smul_eq_mul]
    split_ifs <;> simp
  · intro hz j
    rw [hmul j, hz, Finset.sum_div]
    simp only [Matrix.zero_apply, sub_zero]

/-- C19, witness: with `N = 3`, `sigma2 = 1`, `s2_mu = 100` and `mu_mu = 0`,
`A^{-1}` has the diagonal entries `1 / (3 + 1/100)`. -/
theorem mu_gibbs_is_conjugate_witness :
    (mu_gibbs_A (demoCfg offParams) { demoState offParams with sigma2 := 1 })⁻¹ 0 0 =
      1 / (((2 + 1 : Nat) : ℚ) / 1 + 1 / 100) :=
  (mu_gibbs_is_conjugate (ratLib 1 2 1) (demoCfg offParams) zeroDraws
    { demoState offParams with sigma2 := 1 }
    (by
      show ((2 + 1 : Nat) : ℚ) / 1 + 1 / 100 ≠ 0
      norm_num)).2.2.2.1 0 0

end GibbsClaim

section FactoryClaim

variable {α : Type} [LinearOrderedField α]

theorem xi_at_range {B : Nat} (xi : Fin B → α) (h : ∀ b, -1 < xi b ∧ xi b < 1) (d i j : Nat) :
    -1 < xi_at xi d i j ∧ xi_at xi d i j < 1 := by
  unfold xi_at
  split_ifs
  · exact h _
  · constructor <;> norm_num

theorem factor_rest_pos (P : Prims α) (z : Nat → α)
    (hsqrt : ∀ x, 0 ≤ x → 0 ≤ P.sqrt x ∧ P.sqrt x * P.sqrt x = x)
    (hz : ∀ i, -1 < z i ∧ z i < 1) (n : Nat) : 0 < factor_rest P z n := by
  induction n with
  | zero => exact one_pos
  | succ n ih =>
    have hs := (hsqrt _ (le_of_lt ih)).2
    have hz2 : z n ^ 2 < 1 := by
      have h1 := (hz n).1
      have h2 := (hz n).2
      nlinarith
    have e : factor_rest P z (n + 1) = factor_rest P z n * (1 - z n ^ 2) := by
      show factor_rest P z n - (z n * P.sqrt (factor_rest P z n)) ^ 2 = _
      rw [mul_pow, sq (P.sqrt _), hs]
      ring
    rw [e]
    exact mul_pos ih (by linarith)

theorem factor_rest_sum (P : Prims α) (z : Nat → α) (n : Nat) :
    ∑ i in Finset.range n, (z i * P.sqrt (factor_rest P z i)) ^ 2 = 1 - factor_rest P z n := by
  induction n with
  | zero => simp [factor_rest]
  | succ n ih =>
    rw [Finset.sum_range_succ, ih]
    show _ = 1 - (factor_rest P z n - (z n * P.sqrt (factor_rest P z n)) ^ 2)
    ring

theorem factor_column_norm (P : Prims α) (z : Nat → α)
    (hsqrt : ∀ x, 0 ≤ x → 0 ≤ P.sqrt x ∧ P.sqrt x * P.sqrt x = x)
    (hz : ∀ i, -1 < z i ∧ z i < 1) (j n : Nat) (hn : j < n) :
    ∑ i in Finset.range n, factor_entry P z i j * factor_entry P z i j = 1 := by
  induction n with
  | zero => exact absurd hn (Nat.not_lt_zero j)
  | succ n ih =>
    rw [Finset.sum_range_succ]
    by_cases hjn : j < n
    · rw [ih hjn]
      have h0 : factor_entry P z n j = 0 := by
        unfold factor_entry
        rw [if_neg (by omega), if_neg (by omega)]
      rw [h0]
      ring
    · have hj : j = n := by omega
      subst hj
      have hsum : ∑ i in Finset.range j, factor_entry P z i j * factor_entry P z i j =
          ∑ i in Finset.range j, (z i * P.sqrt (factor_rest P z i)) ^ 2 := by
        refine Finset.sum_congr rfl ?_
        intro i hi
        unfold factor_entry
        rw [if_pos (Finset.mem_range.mp hi)]
        ring
      have hd : factor_entry P z j j = P.sqrt (factor_rest P z j) := by
        unfold factor_entry
        rw [if_neg (lt_irrefl j), if_pos rfl]
      rw [hsum, factor_rest_sum, hd,
        (hsqrt _ (le_of_lt (factor_rest_pos P z hsqrt hz j))).2]
      ring

theorem factor_diag_pos (P : Prims α) (z : Nat → α)
    (hsqrt : ∀ x, 0 ≤ x → 0 ≤ P.sqrt x ∧ P.sqrt x * P.sqrt x = x)
    (hz : ∀ i, -1 < z i ∧ z i < 1) (j : Nat) : 0 < factor_entry P z j j := by
  have hd : factor_entry P z j j = P.sqrt (factor_rest P z j) := by
    unfold factor_entry
    rw [if_neg (lt_irrefl j), if_pos rfl]
  have hpos := factor_rest_pos P z hsqrt hz j
  obtain ⟨h1, h2⟩ := hsqrt _ (le_of_lt hpos)
  rw [hd]
  rcases eq_or_lt_of_le h1 with h | h
  · rw [← h, mul_zero] at h2
    exact absurd h2 (ne_of_lt hpos)
  · exact h


/-- C11, for the factory as the specification describes it, with a square
root that satisfies `sqrt(x) >= 0` and `sqrt(x) * sqrt(x) = x` for `x >= 0`: for
every `d` and every `xi` whose entries all lie strictly between `-1` and `1`,
the factory returns a matrix `R` such that `R^T * R` has unit diagonal and is
positive-definite (symmetric, with `v^T (R^T R) v > 0` for every `v != 0`);
for an `xi` with an entry outside `(-1, 1)` the factory fails. -/
theorem makeRLKJ_R_is_correlation_root (P : Prims α) (d B : Nat) (xi : Fin B → α)
    (hsqrt : ∀ x, 0 ≤ x → 0 ≤ P.sqrt x ∧ P.sqrt x * P.sqrt x = x) :
    ((∀ b, -1 < xi b ∧ xi b < 1) →
      ∃ R : Matrix (Fin d) (Fin d) α, makeRLKJ_R P d xi = some R ∧
        (∀ j, (R.transpose * R) j j = 1) ∧
        (R.transpose * R).transpose = R.transpose * R ∧
        ∀ v : Fin d → α, v ≠ 0 →
          0 < Matrix.dotProduct v ((R.transpose * R).mulVec v)) ∧
    ((∃ b, xi b ≤ -1 ∨ 1 ≤ xi b) → makeRLKJ_R P d xi = none) := by
  constructor
  · intro hxi
    refine ⟨fun i j => factor_entry P (fun r => xi_at xi d r j.val) i.val j.val, ?_, ?_, ?_, ?_⟩
    · unfold makeRLKJ_R
      rw [if_pos hxi]
    · intro j
      rw [Matrix.mul_apply]
      simp only [Matrix.transpose_apply]
      rw [Fin.sum_univ_eq_sum_range
        (fun i => factor_entry P (fun r => xi_at xi d r j.val) i j.val *
          factor_entry P (fun r => xi_at xi d r j.val) i j.val) d]
      exact factor_column_norm P _ hsqrt (fun i => xi_at_range xi hxi d i j.val) j.val d j.isLt
    · rw [Matrix.transpose_mul, Matrix.transpose_transpose]
    · intro v hv
      have hdet : (Matrix.of fun (i j : Fin d) =>
          factor_entry P (fun r => xi_at xi d r j.val) i.val j.val).det ≠ 0 := by
        rw [Matrix.det_of_upperTriangular]
        · refine Finset.prod_ne_zero_iff.mpr ?_
          intro j _
          exact ne_of_gt
            (factor_diag_pos P _ hsqrt (fun i => xi_at_range xi hxi d i j.val) j.val)
        · intro i j hij
          show factor_entry P _ i.val j.val = 0
          have hlt : j.val < i.val := hij
          unfold factor_entry
          rw [if_neg (by omega), if_neg (by omega)]
      rw [← Matrix.mulVec_mulVec, Matrix.dotProduct_mulVec, Matrix.vecMul_transpose]
      have hne : (Matrix.of fun (i j : Fin d) =>
          factor_entry P (fun r => xi_at xi d r j.val) i.val j.val).mulVec v ≠ 0 :=
        fun h0 => hv (Matrix.eq_zero_of_mulVec_eq_zero hdet h0)
      have hnn : 0 ≤ Matrix.dotProduct
          ((Matrix.of fun (i j : Fin d) =>
            factor_entry P (fun r => xi_at xi d r j.val) i.val j.val).mulVec v)
          ((Matrix.of fun (i j : Fin d) =>
            factor_entry P (fun r => xi_at xi d r j.val) i.val j.val).mulVec v) :=
        Finset.sum_nonneg (fun i _ => mul_self_nonneg _)
      rcases eq_or_lt_of_le hnn with h | h
      · exact absurd (Matrix.dotProduct_self_eq_zero.mp h.symm) hne
      · exact h
  · rintro ⟨b, hb⟩
    unfold makeRLKJ_R
    rw [if_neg]
    intro hall
    rcases hb with hb | hb
    · exact absurd (hall b).1 (not_lt.mpr hb)
    · exact absurd (hall b).2 (not_lt.mpr hb)

/-- C11, witness: over the real numbers with the real square root, the factory
returns, for `d = 2` and the partial correlation `1/2`, a matrix `R` such that
`R^T * R` has unit diagonal. -/
theorem makeRLKJ_R_is_correlation_root_witness :
    ∃ R : Matrix (Fin 2) (Fin 2) ℝ,
      makeRLKJ_R (stdPrims Real.exp Real.log Real.sqrt Real.cos Real.sin Real.pi) 2
        (fun _ : Fin 1 => (1 / 2 : ℝ)) = some R ∧
      ∀ j, (R.transpose * R) j j = 1 := by
  obtain ⟨R, h1, h2, _⟩ :=
    (makeRLKJ_R_is_correlation_root
      (stdPrims Real.exp Real.log Real.sqrt Real.cos Real.sin Real.pi) 2 1
      (fun _ : Fin 1 => (1 / 2 : ℝ))
      (fun x hx => ⟨Real.sqrt_nonneg x, Real.mul_self_sqrt hx⟩)).1
      (fun _ => ⟨by norm_num, by norm_num⟩)
  exact ⟨R, h1, h2⟩

end FactoryClaim

section StepLemmas

variable {α : Type} [LinearOrderedField α] {N_obs N_lat K d B : Nat}

theorem asteps_refl (L : Lib α K d B) (P : Prims α) (C : Cfg α N_obs N_lat K d B)
    (s : State α N_obs N_lat K d B) : ASteps L P C s s := Relation.ReflTransGen.refl

theorem asteps_single (L : Lib α K d B) (P : Prims α) (C : Cfg α N_obs N_lat K d B)
    (s t : State α N_obs N_lat K d B) (h : AStep L P C s t) : ASteps L P C s t :=
  Relation.ReflTransGen.single h

theorem asteps_trans (L : Lib α K d B) (P : Prims α) (C : Cfg α N_obs N_lat K d B)
    (s t u : State α N_obs N_lat K d B) (h1 : ASteps L P C s t) (h2 : ASteps L P C t u) :
    ASteps L P C s u := Relation.ReflTransGen.trans h1 h2

theorem asteps_book (L : Lib α K d B) (P : Prims α) (C : Cfg α N_obs N_lat K d B)
    (s t u : State α N_obs N_lat K d B) (h1 : ASteps L P C s t) (h2 : u.model = t.model) :
    ASteps L P C s u :=
  Relation.ReflTransGen.tail h1 (AStep.bookkeeping t u h2)

theorem asteps_of_eq (L : Lib α K d B) (P : Prims α) (C : Cfg α N_obs N_lat K d B)
    (s t u : State α N_obs N_lat K d B) (h1 : ASteps L P C s t) (h2 : Run.done t = Run.done u) :
    ASteps L P C s u := by
  simp only [Run.done.injEq] at h2
  exact h2 ▸ h1

theorem asteps_invariant (L : Lib α K d B) (P : Prims α) (C : Cfg α N_obs N_lat K d B)
    (Q : Model α N_obs N_lat K d B → Prop)
    (hQ : ∀ s t, AStep L P C s t → Q s.model → Q t.model) (s t : State α N_obs N_lat K d B)
    (h : ASteps L P C s t) (hs : Q s.model) : Q t.model := by
  induction h with
  | refl => exact hs
  | tail _ hstep ih => exact hQ _ _ hstep ih

theorem asteps_mu_block (L : Lib α K d B) (P : Prims α) (C : Cfg α N_obs N_lat K d B)
    (ph : Phase) (k : Nat) (dr : Draws α N_lat K d B) (s : State α N_obs N_lat K d B) :
    ASteps L P C s (mu_block L P C ph k dr s) := by
  unfold mu_block
  split_ifs
  · exact asteps_book L P C _ _ _ (asteps_single L P C _ _ (AStep.mu_mh ph dr s))
      (model_mu_tuning L k _)
  · exact asteps_book L P C _ _ _ (asteps_refl L P C s) (model_mu_tuning L k s)
  · exact asteps_single L P C _ _ (AStep.mu_gibbs dr s)
  · exact asteps_refl L P C s

theorem asteps_phi_block (L : Lib α K d B) (P : Prims α) (C : Cfg α N_obs N_lat K d B)
    (ph : Phase) (k : Nat) (dr : Draws α N_lat K d B) (s : State α N_obs N_lat K d B) :
    ASteps L P C s (phi_block L P C ph k dr s) := by
  unfold phi_block
  split_ifs with h1 h2 h3
  · exact asteps_book L P C _ _ _ (asteps_single L P C _ _ (AStep.phi ph dr s h2))
      (model_phi_tuning L ph k _)
  · exact asteps_book L P C _ _ _ (asteps_refl L P C s) (model_phi_tuning L ph k s)
  · exact asteps_book L P C _ _ _ (asteps_refl L P C s) (model_phi_tuning L ph k s)
  · exact asteps_refl L P C s

theorem asteps_eta_star_mh_col (L : Lib α K d B) (P : Prims α) (C : Cfg α N_obs N_lat K d B)
    (ph : Phase) (dr : Draws α N_lat K d B) (s : State α N_obs N_lat K d B) (j : Fin d) :
    ASteps L P C s (eta_star_mh_col L P C ph dr s j) := by
  unfold eta_star_mh_col
  split_ifs
  · exact asteps_single L P C _ _ (AStep.eta_star_mh ph dr s j)
  · exact asteps_refl L P C s

theorem asteps_eta_star_mh_block (L : Lib α K d B) (P : Prims α)
    (C : Cfg α N_obs N_lat K d B) (ph : Phase) (k : Nat) (dr : Draws α N_lat K d B)
    (s : State α N_obs N_lat K d B) :
    ASteps L P C s (eta_star_mh_block L P C ph k dr s) := by
  unfold eta_star_mh_block
  refine asteps_book L P C _ _ _ ?_ (model_eta_star_tuning L ph k _)
  exact foldl_invariant (fun t => ASteps L P C s t) _
    (fun t j ht => asteps_trans L P C _ _ _ ht (asteps_eta_star_mh_col L P C ph dr t j))
    _ s (asteps_refl L P C s)

theorem asteps_eta_star_ess_col (L : Lib α K d B) (P : Prims α)
    (C : Cfg α N_obs N_lat K d B) (fuel : Nat) (dr : Draws α N_lat K d B)
    (s t : State α N_obs N_lat K d B) (j : Fin d)
    (h : eta_star_ess_col L P C fuel dr s j = Run.done t) : ASteps L P C s t := by
  obtain ⟨⟨out, b⟩, hout, rfl⟩ := eta_star_ess_col_eq_done L P C fuel dr s t j h
  rw [ess_eta_star_eq_some_iff] at hout
  obtain ⟨m, _, _, _, ho, _⟩ := hout
  subst ho
  exact asteps_single L P C _ _ (AStep.eta_star_ess s j _ _ b)

theorem asteps_X_ess_col (L : Lib α K d B) (P : Prims α)
    (C : Cfg α N_obs N_lat K d B) (fuel : Nat) (dr : Draws α N_lat K d B)
    (s t : State α N_obs N_lat K d B) (l : Fin N_lat)
    (h : X_ess_col L P C fuel dr s l = Run.done t) : ASteps L P C s t := by
  obtain ⟨⟨out, b⟩, hout, rfl⟩ := X_ess_col_eq_done L P C fuel dr s t l h
  rw [ess_X_eq_some_iff] at hout
  obtain ⟨m, _, _, _, ho, _⟩ := hout
  subst ho
  exact asteps_single L P C _ _ (AStep.X_ess s l _ _ b)

theorem asteps_eta_star_block (L : Lib α K d B) (P : Prims α) (C : Cfg α N_obs N_lat K d B)
    (ph : Phase) (fuel k : Nat) (dr : Draws α N_lat K d B) (s t : State α N_obs N_lat K d B)
    (h : eta_star_block L P C ph fuel k dr s = Run.done t) : ASteps L P C s t := by
  have hmh : ∀ u, Run.done (eta_star_mh_block L P C ph k dr s) = Run.done u →
      ASteps L P C s u :=
    fun u hu => asteps_of_eq L P C _ _ _ (asteps_eta_star_mh_block L P C ph k dr s) hu
  have hess : ∀ u, (List.finRange d).foldl
      (fun r j => r.bind (fun s1 => eta_star_ess_col L P C fuel dr s1 j)) (Run.done s) =
        Run.done u → ASteps L P C s u := by
    intro u hu
    refine run_foldl_invariant (fun v => ASteps L P C s v) _ ?_ _ _ ?_ u hu
    · intro v j w hv hw
      exact asteps_trans L P C _ _ _ hv (asteps_eta_star_ess_col L P C fuel dr v w j hw)
    · intro v hv
      exact asteps_of_eq L P C _ _ _ (asteps_refl L P C s) hv
  unfold eta_star_block at h
  cases ph <;> simp only at h <;> split_ifs at h <;>
    first
    | exact hmh t h
    | exact hess t h
    | exact asteps_of_eq L P C _ _ _ (asteps_refl L P C s) h

end StepLemmas
section StepLemmas2

variable {α : Type} [LinearOrderedField α] {N_obs N_lat K d B : Nat}

theorem asteps_sigma2_block (L : Lib α K d B) (P : Prims α) (C : Cfg α N_obs N_lat K d B)
    (ph : Phase) (k : Nat) (dr : Draws α N_lat K d B) (s : State α N_obs N_lat K d B) :
    ASteps L P C s (sigma2_block L P C ph k dr s) := by
  unfold sigma2_block
  split_ifs with h1 h2 h3
  · exact asteps_book L P C _ _ _ (asteps_single L P C _ _ (AStep.sigma2 ph dr s h2))
      (model_sigma2_tuning L ph k _)
  · exact asteps_book L P C _ _ _ (asteps_refl L P C s) (model_sigma2_tuning L ph k s)
  · exact asteps_book L P C _ _ _ (asteps_refl L P C s) (model_sigma2_tuning L ph k s)
  · exact asteps_refl L P C s

theorem asteps_tau2_block (L : Lib α K d B) (P : Prims α) (C : Cfg α N_obs N_lat K d B)
    (ph : Phase) (k : Nat) (dr : Draws α N_lat K d B) (s : State α N_obs N_lat K d B) :
    ASteps L P C s (tau2_block L P C ph k dr s) := by
  unfold tau2_block
  split_ifs with h1 h2 h3
  · exact asteps_book L P C _ _ _ (asteps_single L P C _ _ (AStep.tau2 ph dr s h2))
      (model_tau2_tuning L P ph k _)
  · exact asteps_book L P C _ _ _ (asteps_refl L P C s) (model_tau2_tuning L P ph k s)
  · exact asteps_book L P C _ _ _ (asteps_refl L P C s) (model_tau2_tuning L P ph k s)
  · exact asteps_refl L P C s

theorem asteps_s2_tau2_block (L : Lib α K d B) (P : Prims α) (C : Cfg α N_obs N_lat K d B)
    (ph : Phase) (k : Nat) (dr : Draws α N_lat K d B) (s : State α N_obs N_lat K d B) :
    ASteps L P C s (s2_tau2_block L P C ph k dr s) := by
  unfold s2_tau2_block
  refine asteps_book L P C _ _ _ ?_ (model_s2_tau2_tuning L ph k _)
  split_ifs with h1 h2 h3
  · exact asteps_single L P C _ _ (AStep.s2_tau2 ph dr s h2 h1)
  · exact asteps_refl L P C s
  · exact asteps_refl L P C s
  · exact asteps_refl L P C s

theorem asteps_xi_propose (L : Lib α K d B) (P : Prims α) (C : Cfg α N_obs N_lat K d B)
    (ph : Phase) (dr : Draws α N_lat K d B) (s t : State α N_obs N_lat K d B)
    (h : xi_propose L P C ph dr s = Run.done t) : ASteps L P C s t := by
  unfold xi_propose at h
  split_ifs at h with hdom
  · split at h
    · exact absurd h (by simp)
    · next R_out hR =>
      simp only [Run.done.injEq] at h
      subst h
      split_ifs
      · exact asteps_single L P C _ _ (AStep.xi ph dr s R_out hdom hR)
      · exact asteps_refl L P C s
  · exact asteps_of_eq L P C _ _ _ (asteps_refl L P C s) h

theorem asteps_xi_block (L : Lib α K d B) (P : Prims α) (C : Cfg α N_obs N_lat K d B)
    (ph : Phase) (k : Nat) (dr : Draws α N_lat K d B) (s t : State α N_obs N_lat K d B)
    (h : xi_block L P C ph k dr s = Run.done t) : ASteps L P C s t := by
  unfold xi_block at h
  split_ifs at h
  · obtain ⟨s1, hs1, hdone⟩ := Run.bind_eq_done _ _ _ h
    simp only [Run.done.injEq] at hdone
    subst hdone
    exact asteps_book L P C _ _ _ (asteps_xi_propose L P C ph dr s s1 hs1)
      (model_xi_tuning L ph k s1)
  · exact asteps_of_eq L P C _ _ _ (asteps_refl L P C s) h

theorem asteps_X_mh_col (L : Lib α K d B) (P : Prims α) (C : Cfg α N_obs N_lat K d B)
    (dr : Draws α N_lat K d B) (s : State α N_obs N_lat K d B) (l : Fin N_lat) :
    ASteps L P C s (X_mh_col L P C dr s l) := by
  unfold X_mh_col
  split_ifs
  · exact asteps_single L P C _ _ (AStep.X_mh dr s l)
  · exact asteps_refl L P C s

theorem asteps_X_mh_block (L : Lib α K d B) (P : Prims α)
    (C : Cfg α N_obs N_lat K d B) (k : Nat) (dr : Draws α N_lat K d B)
    (s : State α N_obs N_lat K d B) : ASteps L P C s (X_mh_block L P C k dr s) := by
  unfold X_mh_block
  refine asteps_book L P C _ _ _ ?_ (model_X_tuning L k _)
  exact foldl_invariant (fun t => ASteps L P C s t) _
    (fun t l ht => asteps_trans L P C _ _ _ ht (asteps_X_mh_col L P C dr t l))
    _ s (asteps_refl L P C s)

theorem asteps_X_block (L : Lib α K d B) (P : Prims α) (C : Cfg α N_obs N_lat K d B)
    (ph : Phase) (fuel k : Nat) (dr : Draws α N_lat K d B) (s t : State α N_obs N_lat K d B)
    (h : X_block L P C ph fuel k dr s = Run.done t) : ASteps L P C s t := by
  have hmh : ∀ u, Run.done (X_mh_block L P C k dr s) = Run.done u → ASteps L P C s u :=
    fun u hu => asteps_of_eq L P C _ _ _ (asteps_X_mh_block L P C k dr s) hu
  have hess : ∀ u, (List.finRange N_lat).foldl
      (fun r l => r.bind (fun s1 => X_ess_col L P C fuel dr s1 l)) (Run.done s) =
        Run.done u → ASteps L P C s u := by
    intro u hu
    refine run_foldl_invariant (fun v => ASteps L P C s v) _ ?_ _ _ ?_ u hu
    · intro v l w hv hw
      exact asteps_trans L P C _ _ _ hv (asteps_X_ess_col L P C fuel dr v w l hw)
    · intro v hv
      exact asteps_of_eq L P C _ _ _ (asteps_refl L P C s) hv
  unfold X_block at h
  cases ph <;> simp only at h <;> split_ifs at h <;>
    first
    | exact hmh t h
    | exact hess t h
    | exact asteps_of_eq L P C _ _ _ (asteps_refl L P C s) h

theorem asteps_iteration (L : Lib α K d B) (P : Prims α) (C : Cfg α N_obs N_lat K d B)
    (ph : Phase) (fuel k : Nat) (dr : Draws α N_lat K d B) (s t : State α N_obs N_lat K d B)
    (h : iteration L P C ph fuel k dr s = Run.done t) : ASteps L P C s t := by
  unfold iteration at h
  dsimp only at h
  obtain ⟨s3, h3, h⟩ := Run.bind_eq_done _ _ _ h
  obtain ⟨s9, h9, h⟩ := Run.bind_eq_done _ _ _ h
  have e1 := asteps_mu_block L P C ph k dr s
  have e2 := asteps_phi_block L P C ph k dr (mu_block L P C ph k dr s)
  have e3 := asteps_eta_star_block L P C ph fuel k dr _ s3 h3
  have e4 := asteps_sigma2_block L P C ph k dr s3
  have e5 : ASteps L P C s (lambda_sigma2_block L C dr (sigma2_block L P C ph k dr s3)) :=
    asteps_book L P C _ _ _
      (asteps_trans L P C _ _ _ (asteps_trans L P C _ _ _ (asteps_trans L P C _ _ _ e1 e2) e3)
        e4) rfl
  have e6 := asteps_tau2_block L P C ph k dr
    (lambda_sigma2_block L C dr (sigma2_block L P C ph k dr s3))
  have e7 : ASteps L P C s (lambda_tau2_block L dr (tau2_block L P C ph k dr
      (lambda_sigma2_block L C dr (sigma2_block L P C ph k dr s3)))) :=
    asteps_book L P C _ _ _ (asteps_trans L P C _ _ _ e5 e6) rfl
  have e8 := asteps_s2_tau2_block L P C ph k dr (lambda_tau2_block L dr
    (tau2_block L P C ph k dr (lambda_sigma2_block L C dr (sigma2_block L P C ph k dr s3))))
  have e9 := asteps_xi_block L P C ph k dr _ s9 h9
  have e10 := asteps_X_block L P C ph fuel k dr s9 t h
  exact asteps_trans L P C _ _ _ (asteps_trans L P C _ _ _
    (asteps_trans L P C _ _ _ e7 e8) e9) e10

theorem asteps_phase_loop (L : Lib α K d B) (P : Prims α) (C : Cfg α N_obs N_lat K d B)
    (ph : Phase) (fuel : Nat) (dr : Nat → Draws α N_lat K d B) (n : Nat)
    (s t : State α N_obs N_lat K d B)
    (h : phase_loop (fun k s => iteration L P C ph fuel k (dr k) s) n s = Run.done t) :
    ASteps L P C s t :=
  phase_loop_invariant (fun u => ASteps L P C s u) _
    (fun k b c hb hbc =>
      asteps_trans L P C _ _ _ hb (asteps_iteration L P C ph fuel k (dr k) b c hbc))
    n s t (asteps_refl L P C s) h

end StepLemmas2
section CacheLemmas

variable {α : Type} [LinearOrderedField α] {N_obs N_lat K d B : Nat}

theorem exp_corr_updateRow {n k : Nat} (P : Prims α) (D : Matrix (Fin n) (Fin k) α) (phi : α)
    (i : Fin n) (D1 : Fin k → α) :
    Matrix.updateRow (exp_corr P D phi) i (fun j => P.exp (-(D1 j) / phi)) =
      exp_corr P (Matrix.updateRow D i D1) phi := by
  ext a b
  by_cases h : a = i
  · subst h
    simp [exp_corr]
  · simp [exp_corr, Matrix.updateRow_ne h]

theorem updateRow_mul_right {n k m : Nat} (A : Matrix (Fin n) (Fin k) α)
    (M : Matrix (Fin k) (Fin m) α) (i : Fin n) (v : Fin k → α) :
    Matrix.updateRow (A * M) i (Matrix.vecMul v M) = Matrix.updateRow A i v * M := by
  ext a b
  by_cases h : a = i
  · subst h
    simp [Matrix.mul_apply, Matrix.vecMul, Matrix.dotProduct]
  · simp [Matrix.updateRow_ne h, Matrix.mul_apply]

theorem astep_cacheOk (L : Lib α K d B) (P : Prims α) (C : Cfg α N_obs N_lat K d B)
    (s t : State α N_obs N_lat K d B) (h : AStep L P C s t) (hc : CacheOk L P C s.model) :
    CacheOk L P C t.model := by
  obtain ⟨h1, h2, h3, h4, h5, h6, h7, h8, h9⟩ := hc
  cases h with
  | bookkeeping _ _ hm => rw [hm]; exact ⟨h1, h2, h3, h4, h5, h6, h7, h8, h9⟩
  | mu_mh ph dr => cases ph <;> exact ⟨h1, h2, h3, h4, h5, h6, h7, h8, rfl⟩
  | mu_gibbs dr => exact ⟨h1, h2, h3, h4, h5, h6, h7, h8, rfl⟩
  | phi ph dr _ hdom => cases ph <;> exact ⟨rfl, rfl, rfl, rfl, rfl, h6, h7, h8, h9⟩
  | eta_star_mh ph dr _ j => cases ph <;> exact ⟨h1, h2, h3, h4, h5, h6, h7, h8, h9⟩
  | eta_star_ess _ j prior theta b => exact ⟨h1, h2, h3, h4, h5, h6, h7, h8, h9⟩
  | sigma2 ph dr _ hdom => cases ph <;> exact ⟨h1, h2, h3, h4, h5, h6, h7, rfl, h9⟩
  | tau2 ph dr _ hdom => cases ph <;> exact ⟨h1, h2, h3, h4, h5, rfl, rfl, h8, h9⟩
  | s2_tau2 ph dr _ hdom => cases ph <;> exact ⟨h1, h2, h3, h4, h5, h6, h7, h8, h9⟩
  | xi ph dr _ R_out hdom hR => cases ph <;> exact ⟨h1, h2, h3, h4, h5, rfl, h7, h8, h9⟩
  | X_mh dr _ l =>
    refine ⟨h1, h2, h3, ?_, ?_, h6, h7, h8, h9⟩
    · show Matrix.updateRow s.c _ _ = exp_corr P (Matrix.updateRow s.D _ _) s.phi
      rw [← exp_corr_updateRow]
      exact congrArg (fun M => Matrix.updateRow M _ _) h4
    · show Matrix.updateRow s.Z _ _ = Matrix.updateRow s.c _ _ * s.C_inv
      rw [← updateRow_mul_right]
      exact congrArg (fun M => Matrix.updateRow M _ _) h5
  | X_ess _ l X_prior theta b =>
    refine ⟨h1, h2, h3, ?_, ?_, h6, h7, h8, h9⟩
    · show Matrix.updateRow s.c _ _ = exp_corr P (Matrix.updateRow s.D _ _) s.phi
      rw [← exp_corr_updateRow]
      exact congrArg (fun M => Matrix.updateRow M _ _) h4
    · show Matrix.updateRow s.Z _ _ = Matrix.updateRow s.c _ _ * s.C_inv
      rw [← updateRow_mul_right]
      exact congrArg (fun M => Matrix.updateRow M _ _) h5

theorem astep_distOk (L : Lib α K d B) (P : Prims α) (C : Cfg α N_obs N_lat K d B)
    (X0 : Fin (N_obs + N_lat) → α) (D0 : Matrix (Fin (N_obs + N_lat)) (Fin K) α)
    (s t : State α N_obs N_lat K d B) (h : AStep L P C s t) (hd : DistOk P C X0 D0 s.model) :
    DistOk P C X0 D0 t.model := by
  cases h with
  | bookkeeping _ _ hm => rw [hm]; exact hd
  | mu_mh ph dr => cases ph <;> exact hd
  | mu_gibbs dr => exact hd
  | phi ph dr _ hdom => cases ph <;> exact hd
  | eta_star_mh ph dr _ j => cases ph <;> exact hd
  | eta_star_ess _ j prior theta b => exact hd
  | sigma2 ph dr _ hdom => cases ph <;> exact hd
  | tau2 ph dr _ hdom => cases ph <;> exact hd
  | s2_tau2 ph dr _ hdom => cases ph <;> exact hd
  | xi ph dr _ R_out hdom hR => cases ph <;> exact hd
  | X_mh dr _ l =>
    intro i
    by_cases hi : i = Fin.natAdd N_obs l
    · subst hi
      right
      show Matrix.updateRow s.D _ _ _ = dist_row P _ _ (Function.update s.X _ _ _ + C.mu_X)
      rw [Matrix.updateRow_self, Function.update_same]
      rfl
    · rcases hd i with h0 | h0
      · left
        show Function.update s.X _ _ i = X0 i ∧ Matrix.updateRow s.D _ _ i = D0 i
        rw [Function.update_noteq hi, Matrix.updateRow_ne hi]
        exact h0
      · right
        show Matrix.updateRow s.D _ _ i = dist_row P _ _ (Function.update s.X _ _ i + C.mu_X)
        rw [Function.update_noteq hi, Matrix.updateRow_ne hi]
        exact h0
  | X_ess _ l X_prior theta b =>
    intro i
    by_cases hi : i = Fin.natAdd N_obs l
    · subst hi
      right
      show Matrix.updateRow s.D _ _ _ = dist_row P _ _ (Function.update s.X _ _ _ + C.mu_X)
      rw [Matrix.updateRow_self, Function.update_same]
      rfl
    · rcases hd i with h0 | h0
      · left
        show Function.update s.X _ _ i = X0 i ∧ Matrix.updateRow s.D _ _ i = D0 i
        rw [Function.update_noteq hi, Matrix.updateRow_ne hi]
        exact h0
      · right
        show Matrix.updateRow s.D _ _ i = dist_row P _ _ (Function.update s.X _ _ i + C.mu_X)
        rw [Function.update_noteq hi, Matrix.updateRow_ne hi]
        exact h0

end CacheLemmas

section RecordLemmas

variable {α : Type} [LinearOrderedField α] {N_obs N_lat K d B : Nat}

theorem sample_loop_states (L : Lib α K d B) (P : Prims α) (C : Cfg α N_obs N_lat K d B)
    (fuel : Nat) (dr : Nat → Draws α N_lat K d B) (Q : Model α N_obs N_lat K d B → Prop)
    (hQ : ∀ s t, AStep L P C s t → Q s.model → Q t.model) (n : Nat)
    (x y : State α N_obs N_lat K d B × Sink α N_obs N_lat K d B)
    (hx : Q x.1.model) (hrows : ∀ m r, r ∈ x.2.rows m → ∃ s, Q s.model ∧ r = save_record C s)
    (h : phase_loop (sample_step L P C fuel dr) n x = Run.done y) :
    Q y.1.model ∧ ∀ m r, r ∈ y.2.rows m → ∃ s, Q s.model ∧ r = save_record C s := by
  refine phase_loop_invariant
    (fun z => Q z.1.model ∧ ∀ m r, r ∈ z.2.rows m → ∃ s, Q s.model ∧ r = save_record C s)
    _ ?_ n x y ⟨hx, hrows⟩ h
  intro k b c hb hbc
  unfold sample_step at hbc
  obtain ⟨s1, hs1, hbc⟩ := Run.bind_eq_done _ _ _ hbc
  obtain ⟨sink1, hsink1, hbc⟩ := Run.bind_eq_done _ _ _ hbc
  simp only [Run.done.injEq] at hbc
  subst hbc
  have hQ1 : Q s1.model :=
    asteps_invariant L P C Q hQ _ _ (asteps_iteration L P C Phase.sample fuel k (dr k) b.1 s1 hs1)
      hb.1
  refine ⟨hQ1, ?_⟩
  rcases save_step_eq_done C k s1 b.2 sink1 hsink1 with e | ⟨i, _, e⟩
  · rw [e]; exact hb.2
  · intro m r hr
    dsimp only at hr
    rw [e] at hr
    by_cases hmi : m = i
    · subst hmi
      rw [Function.update_same, List.mem_append] at hr
      rcases hr with hr | hr
      · exact hb.2 m r hr
      · exact ⟨s1, hQ1, by simpa using hr⟩
    · rw [Function.update_noteq hmi] at hr
      exact hb.2 m r hr

theorem mcmcRcpp_record_states (L : Lib α K d B) (P : Prims α)
    (Y : Matrix (Fin (N_obs + N_lat)) (Fin d) α) (X_input : Fin (N_obs + N_lat) → α)
    (params : Params α K d B) (pool_s2_tau2 : Bool) (corr_function : String)
    (idr : InitDraws α N_lat K d B) (wdr adr sdr : Nat → Draws α N_lat K d B) (fuel : Nat)
    (sink : Sink α N_obs N_lat K d B)
    (h : mcmcRcpp L P Y X_input params pool_s2_tau2 corr_function idr wdr adr sdr fuel =
      Run.done sink) :
    ∃ C s0, mcmc_init L P Y X_input params pool_s2_tau2 corr_function idr = Run.done (C, s0) ∧
      ∀ Q : Model α N_obs N_lat K d B → Prop,
        (∀ s t, AStep L P C s t → Q s.model → Q t.model) →
        Q s0.model → ∀ m r, r ∈ sink.rows m → ∃ s, Q s.model ∧ r = save_record C s := by
  unfold mcmcRcpp at h
  obtain ⟨CS, hinit, h⟩ := Run.bind_eq_done _ _ _ h
  obtain ⟨s1, hs1, h⟩ := Run.bind_eq_done _ _ _ h
  obtain ⟨s2, hs2, h⟩ := Run.bind_eq_done _ _ _ h
  obtain ⟨x, hx, h⟩ := Run.bind_eq_done _ _ _ h
  simp only [Run.done.injEq] at h
  subst h
  refine ⟨CS.1, CS.2, hinit, ?_⟩
  intro Q hQ h0
  have h1 : Q s1.model :=
    asteps_invariant L P CS.1 Q hQ _ _
      (asteps_phase_loop L P CS.1 Phase.warmup fuel wdr _ _ _ hs1) h0
  have h2 : Q s2.model :=
    asteps_invariant L P CS.1 Q hQ _ _
      (asteps_phase_loop L P CS.1 Phase.adapt fuel adr _ _ _ hs2) h1
  exact (sample_loop_states L P CS.1 fuel sdr Q hQ _ _ x h2
    (fun m r hr => absurd hr (List.not_mem_nil r)) hx).2

theorem cacheOk_init (L : Lib α K d B) (P : Prims α)
    (Y : Matrix (Fin (N_obs + N_lat)) (Fin d) α) (X_input : Fin (N_obs + N_lat) → α)
    (params : Params α K d B) (pool_s2_tau2 : Bool) (corr_function : String)
    (idr : InitDraws α N_lat K d B) (C : Cfg α N_obs N_lat K d B)
    (s0 : State α N_obs N_lat K d B)
    (h : mcmc_init L P Y X_input params pool_s2_tau2 corr_function idr = Run.done (C, s0)) :
    CacheOk L P C s0.model := by
  obtain ⟨X, D, D_knots, R_out, _, _, _, hs⟩ :=
    mcmc_init_eq_done L P Y X_input params pool_s2_tau2 corr_function idr C s0 h
  rw [hs]
  exact ⟨rfl, rfl, rfl, rfl, rfl, rfl, rfl, rfl, rfl⟩

theorem sample_loop_fst (L : Lib α K d B) (P : Prims α) (C : Cfg α N_obs N_lat K d B)
    (fuel : Nat) (dr : Nat → Draws α N_lat K d B) (n : Nat)
    (x y : State α N_obs N_lat K d B × Sink α N_obs N_lat K d B)
    (h : phase_loop (sample_step L P C fuel dr) n x = Run.done y) :
    phase_loop (fun k s => iteration L P C Phase.sample fuel k (dr k) s) n x.1 =
      Run.done y.1 := by
  induction n generalizing y with
  | zero =>
    simp only [phase_loop, Run.done.injEq] at h
    subst h
    rfl
  | succ n ih =>
    obtain ⟨z, hz, hzy⟩ := Run.bind_eq_done _ _ _ h
    unfold sample_step at hzy
    obtain ⟨s1, hs1, hzy⟩ := Run.bind_eq_done _ _ _ hzy
    obtain ⟨sink1, _, hzy⟩ := Run.bind_eq_done _ _ _ hzy
    simp only [Run.done.injEq] at hzy
    subst hzy
    show (phase_loop _ n x.1).bind _ = _
    rw [ih z hz, Run.done_bind]
    exact hs1

end RecordLemmas


section RecordClaim

variable {α : Type} [LinearOrderedField α] {N_obs N_lat K d B : Nat}

/-- C18: when `mcmcRcpp` returns, every record in row `m` of its result is the
record of the state `sm` after production iteration `(m + 1) * n_thin`, and in
it the stored `Omega` equals `R^T * R` for the stored `R`, the stored `R_tau`
equals the stored `R` times `diag(sqrt(tau2))` for the stored `tau2`, and the
stored covariate tail equals the latent entries `X(N_obs .. N-1)` of `sm` plus
the mean of the observed prefix of `X_input`. -/
theorem record_derived_entries (L : Lib α K d B) (P : Prims α)
    (Y : Matrix (Fin (N_obs + N_lat)) (Fin d) α) (X_input : Fin (N_obs + N_lat) → α)
    (params : Params α K d B) (pool_s2_tau2 : Bool) (corr_function : String)
    (idr : InitDraws α N_lat K d B) (wdr adr sdr : Nat → Draws α N_lat K d B) (fuel : Nat)
    (sink : Sink α N_obs N_lat K d B)
    (hrun : mcmcRcpp L P Y X_input params pool_s2_tau2 corr_function idr wdr adr sdr fuel =
      Run.done sink) :
    ∃ (C : Cfg α N_obs N_lat K d B) (s0 s1 s2 : State α N_obs N_lat K d B),
      mcmc_init L P Y X_input params pool_s2_tau2 corr_function idr = Run.done (C, s0) ∧
      phase_loop (fun k s => iteration L P C Phase.warmup fuel k (wdr k) s)
        (params.n_warmup.getD 500) s0 = Run.done s1 ∧
      phase_loop (fun k s => iteration L P C Phase.adapt fuel k (adr k) s)
        params.n_adapt s1 = Run.done s2 ∧
      ∀ m r, r ∈ sink.rows m → ∃ sm,
        phase_loop (fun k s => iteration L P C Phase.sample fuel k (sdr k) s)
          ((m + 1) * params.n_thin) s2 = Run.done sm ∧
        r.R = sm.R ∧ r.tau2 = sm.tau2 ∧
        r.Omega = r.R.transpose * r.R ∧
        r.R_tau = r.R * Matrix.diagonal (fun j => P.sqrt (r.tau2 j)) ∧
        r.X = fun l => sm.X (Fin.natAdd N_obs l) +
          (∑ i : Fin N_obs, X_input (Fin.castAdd N_lat i)) / (N_obs : α) := by
  unfold mcmcRcpp at hrun
  obtain ⟨CS, hinit, hrun⟩ := Run.bind_eq_done _ _ _ hrun
  obtain ⟨s1, hs1, hrun⟩ := Run.bind_eq_done _ _ _ hrun
  obtain ⟨s2, hs2, hrun⟩ := Run.bind_eq_done _ _ _ hrun
  obtain ⟨x, hx, hrun⟩ := Run.bind_eq_done _ _ _ hrun
  simp only [Run.done.injEq] at hrun
  subst hrun
  obtain ⟨C, s0⟩ := CS
  obtain ⟨X, D, D_knots, R_out, _, hC, _, _⟩ :=
    mcmc_init_eq_done L P Y X_input params pool_s2_tau2 corr_function idr C s0 hinit
  have hmu : C.mu_X = (∑ i : Fin N_obs, X_input (Fin.castAdd N_lat i)) / (N_obs : α) := by
    rw [hC]
    rfl
  have hthin : C.n_thin = params.n_thin := by
    rw [hC]
    rfl
  have hprod := sample_loop_fst L P C fuel sdr params.n_mcmc _ x hx
  obtain ⟨rows, hloop, hrec, hempty⟩ := sample_loop_sink L P C fuel sdr params.n_mcmc s2
    params.n_mcmc (le_refl _) x.1 hprod
  rw [hthin] at hloop hrec hempty
  have hx2 : x.2.rows = rows := by
    have e := hx.symm.trans hloop
    simp only [Run.done.injEq] at e
    rw [e]
  refine ⟨C, s0, s1, s2, hinit, hs1, hs2, ?_⟩
  intro m r hr
  rw [hx2] at hr
  by_cases hm : m < params.n_mcmc / params.n_thin
  · obtain ⟨sm, hsm, hrow⟩ := hrec m hm
    rw [hrow, List.mem_singleton] at hr
    subst hr
    have hc0 := cacheOk_init L P Y X_input params pool_s2_tau2 corr_function idr C s0 hinit
    have hc1 := asteps_invariant L P C _ (astep_cacheOk L P C) _ _
      (asteps_phase_loop L P C Phase.warmup fuel wdr _ _ _ hs1) hc0
    have hc2 := asteps_invariant L P C _ (astep_cacheOk L P C) _ _
      (asteps_phase_loop L P C Phase.adapt fuel adr _ _ _ hs2) hc1
    have hcm := asteps_invariant L P C _ (astep_cacheOk L P C) _ _
      (asteps_phase_loop L P C Phase.sample fuel sdr _ _ _ hsm) hc2
    obtain ⟨_, _, _, _, _, h6, h7, _, _⟩ := hcm
    have h6a : sm.R_tau = sm.R * Matrix.diagonal sm.tau := h6
    have h7a : sm.tau = fun j => P.sqrt (sm.tau2 j) := h7
    refine ⟨sm, hsm, rfl, rfl, rfl, ?_, ?_⟩
    · show sm.R_tau = sm.R * Matrix.diagonal (fun j => P.sqrt (sm.tau2 j))
      rw [h6a, h7a]
    · show (fun l => sm.X (Fin.natAdd N_obs l) + C.mu_X) = _
      rw [hmu]
  · rw [hempty m (not_lt.mp hm)] at hr
    exact absurd hr (List.not_mem_nil r)

/-- C18, witness: the run with every switch off returns records with
`Omega = R^T * R` and `R_tau = R * diag(sqrt(tau2))`. -/
theorem record_derived_entries_witness :
    ∃ sink : Sink ℚ 2 1 1 2 1,
      mcmcRcpp (ratLib 1 2 1) ratPrims demoY demoX offParams false "exponential" zeroInit
        (fun _ => zeroDraws) (fun _ => zeroDraws) (fun _ => zeroDraws) 0 = Run.done sink ∧
      sink.rows 0 ≠ [] ∧
      ∀ m r, r ∈ sink.rows m → r.Omega = r.R.transpose * r.R ∧
        r.R_tau = r.R * Matrix.diagonal (fun j => ratPrims.sqrt (r.tau2 j)) := by
  obtain ⟨C, s0, hinit, hC, _⟩ := demo_mcmc_init offParams rfl
  have hoff : FlagsOff C := by rw [hC]; exact ⟨rfl, rfl, rfl, rfl, rfl, rfl, rfl⟩
  have hpool : C.pool_s2_tau2 = false := by rw [hC]; rfl
  obtain ⟨rows, hrun, hrows, _⟩ := mcmcRcpp_flags_off (ratLib 1 2 1) ratPrims demoY demoX
    offParams false "exponential" zeroInit (fun _ => zeroDraws) (fun _ => zeroDraws)
    (fun _ => zeroDraws) 0 C s0 hinit hoff hpool
  refine ⟨_, hrun, ?_, ?_⟩
  · show rows 0 ≠ []
    rw [hrows 0 (by decide)]
    exact List.cons_ne_nil _ _
  · intro m r hr
    obtain ⟨_, _, _, _, _, _, _, hall⟩ := record_derived_entries (ratLib 1 2 1) ratPrims demoY
      demoX offParams false "exponential" zeroInit (fun _ => zeroDraws) (fun _ => zeroDraws)
      (fun _ => zeroDraws) 0 _ hrun
    obtain ⟨sm, _, _, _, h1, h2, _⟩ := hall m r hr
    exact ⟨h1, h2⟩

end RecordClaim

section CacheClaim

variable {α : Type} [LinearOrderedField α] {N_obs N_lat K d B : Nat}

theorem cacheOk_of_asteps (L : Lib α K d B) (P : Prims α) (C : Cfg α N_obs N_lat K d B)
    (s t : State α N_obs N_lat K d B) (h : ASteps L P C s t) (hs : CacheOk L P C s.model) :
    CacheOk L P C t.model :=
  asteps_invariant L P C (CacheOk L P C) (astep_cacheOk L P C) s t h hs

theorem distOk_of_asteps (L : Lib α K d B) (P : Prims α) (C : Cfg α N_obs N_lat K d B)
    (X0 : Fin (N_obs + N_lat) → α) (D0 : Matrix (Fin (N_obs + N_lat)) (Fin K) α)
    (s t : State α N_obs N_lat K d B) (h : ASteps L P C s t)
    (hs : DistOk P C X0 D0 s.model) : DistOk P C X0 D0 t.model :=
  asteps_invariant L P C (DistOk P C X0 D0) (astep_distOk L P C X0 D0) s t h hs

theorem init_distances (L : Lib α K d B) (P : Prims α)
    (Y : Matrix (Fin (N_obs + N_lat)) (Fin d) α) (X_input : Fin (N_obs + N_lat) → α)
    (params : Params α K d B) (pool_s2_tau2 : Bool) (corr_function : String)
    (idr : InitDraws α N_lat K d B) (C : Cfg α N_obs N_lat K d B)
    (s0 : State α N_obs N_lat K d B)
    (h : mcmc_init L P Y X_input params pool_s2_tau2 corr_function idr = Run.done (C, s0)) :
    (corr_function = "gaussian" ∧
        C.D_knots = (L.makeDistARMA params.X_knots params.X_knots).map (fun x => x ^ 2) ∧
        s0.D = (L.makeDistARMA s0.X params.X_knots).map (fun x => x ^ 2)) ∨
      (corr_function = "exponential" ∧
        C.D_knots = L.makeDistARMA params.X_knots params.X_knots ∧
        s0.D = L.makeDistARMA s0.X params.X_knots) := by
  obtain ⟨X, D, D_knots, R_out, hD, hC, _, hs⟩ :=
    mcmc_init_eq_done L P Y X_input params pool_s2_tau2 corr_function idr C s0 h
  have hX : s0.X = X := by rw [hs]; rfl
  have hD0 : s0.D = D := by rw [hs]; rfl
  have hK : C.D_knots = D_knots := by rw [hC]; rfl
  rw [hX, hD0, hK]
  unfold init_dist at hD
  dsimp only at hD
  by_cases h1 : corr_function = "gaussian"
  · rw [if_pos h1] at hD
    simp only [Run.done.injEq, Prod.mk.injEq] at hD
    exact Or.inl ⟨h1, hD.2.symm, hD.1.symm⟩
  · rw [if_neg h1] at hD
    by_cases h2 : corr_function = "exponential"
    · rw [if_neg (not_not.mpr h2)] at hD
      simp only [Run.done.injEq, Prod.mk.injEq] at hD
      exact Or.inr ⟨h2, hD.2.symm, hD.1.symm⟩
    · rw [if_pos h2] at hD
      exact absurd hD (by simp)


/-- C20: every cached quantity equals its definition from the current
parameters (`C = exp(-D_knots/phi)`, `C_chol = chol(C)`, `C_inv = inv_sympd(C)`,
`c = exp(-D/phi)`, `Z = c * C_inv`, `R_tau = R * diag(tau)`, `tau = sqrt(tau2)`,
`sigma = sqrt(sigma2)`, every row of `mu_mat` equal to `mu`) in the state that
the set-up returns, and every update block keeps it so, in each of the three
phases: the blocks of `mu`, `phi`, each column of `eta_star`, `sigma2`,
`lambda_sigma2`, `tau2`, `lambda_tau2`, `s2_tau2`, `xi`, each latent covariate,
and a whole iteration (a block with a slice-sampling loop whenever it returns).
After the set-up `D_knots` and `D` hold the distances that `makeDistARMA`
returns, squared for the kernel "gaussian" and raw for "exponential"; an
iteration leaves in every row of `D` either that row, for an unchanged
covariate, or the distances `sqrt((X(i) + mu_X - knot)^2)` of the row's
re-centred covariate to the knots, squared for "gaussian". -/
theorem cached_quantities_invariant (L : Lib α K d B) (P : Prims α)
    (C : Cfg α N_obs N_lat K d B) (ph : Phase) (fuel k : Nat) (dr : Draws α N_lat K d B)
    (s : State α N_obs N_lat K d B) (hs : CacheOk L P C s.model) :
    (∀ (Y : Matrix (Fin (N_obs + N_lat)) (Fin d) α) (X_input : Fin (N_obs + N_lat) → α)
      (params : Params α K d B) (pool_s2_tau2 : Bool) (corr_function : String)
      (idr : InitDraws α N_lat K d B) (C0 : Cfg α N_obs N_lat K d B)
      (s0 : State α N_obs N_lat K d B),
      mcmc_init L P Y X_input params pool_s2_tau2 corr_function idr = Run.done (C0, s0) →
        CacheOk L P C0 s0.model ∧
        ((corr_function = "gaussian" ∧
            C0.D_knots = (L.makeDistARMA params.X_knots params.X_knots).map (fun x => x ^ 2) ∧
            s0.D = (L.makeDistARMA s0.X params.X_knots).map (fun x => x ^ 2)) ∨
          (corr_function = "exponential" ∧
            C0.D_knots = L.makeDistARMA params.X_knots params.X_knots ∧
            s0.D = L.makeDistARMA s0.X params.X_knots))) ∧
    CacheOk L P C (mu_block L P C ph k dr s).model ∧
    CacheOk L P C (phi_block L P C ph k dr s).model ∧
    (∀ j, CacheOk L P C (eta_star_mh_col L P C ph dr s j).model) ∧
    (∀ j t, eta_star_ess_col L P C fuel dr s j = Run.done t → CacheOk L P C t.model) ∧
    (∀ t, eta_star_block L P C ph fuel k dr s = Run.done t → CacheOk L P C t.model) ∧
    CacheOk L P C (sigma2_block L P C ph k dr s).model ∧
    CacheOk L P C (lambda_sigma2_block L C dr s).model ∧
    CacheOk L P C (tau2_block L P C ph k dr s).model ∧
    CacheOk L P C (lambda_tau2_block L dr s).model ∧
    CacheOk L P C (s2_tau2_block L P C ph k dr s).model ∧
    (∀ t, xi_block L P C ph k dr s = Run.done t → CacheOk L P C t.model) ∧
    (∀ l, CacheOk L P C (X_mh_col L P C dr s l).model) ∧
    (∀ l t, X_ess_col L P C fuel dr s l = Run.done t → CacheOk L P C t.model) ∧
    (∀ t, X_block L P C ph fuel k dr s = Run.done t → CacheOk L P C t.model) ∧
    (∀ t, iteration L P C ph fuel k dr s = Run.done t → CacheOk L P C t.model) ∧
    (∀ t X0 D0, iteration L P C ph fuel k dr s = Run.done t → DistOk P C X0 D0 s.model →
      DistOk P C X0 D0 t.model) ∧
    (∀ (x : α) (j : Fin K), dist_row P C.corr_function C.X_knots x j =
      if C.corr_function = "gaussian" then P.sqrt ((x - C.X_knots j) ^ 2) ^ 2
      else P.sqrt ((x - C.X_knots j) ^ 2)) :=
  ⟨fun Y X_input params pool_s2_tau2 corr_function idr C0 s0 h =>
      ⟨cacheOk_init L P Y X_input params pool_s2_tau2 corr_function idr C0 s0 h,
        init_distances L P Y X_input params pool_s2_tau2 corr_function idr C0 s0 h⟩,
    cacheOk_of_asteps L P C _ _ (asteps_mu_block L P C ph k dr s) hs,
    cacheOk_of_asteps L P C _ _ (asteps_phi_block L P C ph k dr s) hs,
    fun j => cacheOk_of_asteps L P C _ _ (asteps_eta_star_mh_col L P C ph dr s j) hs,
    fun j t h => cacheOk_of_asteps L P C _ _ (asteps_eta_star_ess_col L P C fuel dr s t j h) hs,
    fun t h => cacheOk_of_asteps L P C _ _ (asteps_eta_star_block L P C ph fuel k dr s t h) hs,
    cacheOk_of_asteps L P C _ _ (asteps_sigma2_block L P C ph k dr s) hs,
    hs,
    cacheOk_of_asteps L P C _ _ (asteps_tau2_block L P C ph k dr s) hs,
    hs,
    cacheOk_of_asteps L P C _ _ (asteps_s2_tau2_block L P C ph k dr s) hs,
    fun t h => cacheOk_of_asteps L P C _ _ (asteps_xi_block L P C ph k dr s t h) hs,
    fun l => cacheOk_of_asteps L P C _ _ (asteps_X_mh_col L P C dr s l) hs,
    fun l t h => cacheOk_of_asteps L P C _ _ (asteps_X_ess_col L P C fuel dr s t l h) hs,
    fun t h => cacheOk_of_asteps L P C _ _ (asteps_X_block L P C ph fuel k dr s t h) hs,
    fun t h => cacheOk_of_asteps L P C _ _ (asteps_iteration L P C ph fuel k dr s t h) hs,
    fun t X0 D0 h hd =>
      distOk_of_asteps L P C X0 D0 _ _ (asteps_iteration L P C ph fuel k dr s t h) hd,
    fun x j => by
      unfold dist_row
      split_ifs <;> rfl⟩

/-- C20, witness: the cached quantities of the initial state of the run with
all switches on equal their definitions, and the update of `phi` at adaptation
iteration 49 keeps them so. -/
theorem cached_quantities_invariant_witness :
    CacheOk (ratLib 1 2 1) ratPrims (demoCfg mhParams) (demoState mhParams).model ∧
      CacheOk (ratLib 1 2 1) ratPrims (demoCfg mhParams)
        (phi_block (ratLib 1 2 1) ratPrims (demoCfg mhParams) Phase.adapt 49 zeroDraws
          (demoState mhParams)).model :=
  have h : CacheOk (ratLib 1 2 1) ratPrims (demoCfg mhParams) (demoState mhParams).model :=
    ⟨rfl, rfl, rfl, rfl, rfl, rfl, rfl, rfl, rfl⟩
  ⟨h, (cached_quantities_invariant (ratLib 1 2 1) ratPrims (demoCfg mhParams) Phase.adapt 0 49
    zeroDraws (demoState mhParams) h).2.2.1⟩

end CacheClaim

section ShrinkClaim

variable {α : Type} [LinearOrderedField α]

theorem slice_shrink_ends (u : α) (s : SliceState α) :
    (s.phi_angle > 0 → (slice_shrink u s).phi_angle_max = s.phi_angle ∧
        (slice_shrink u s).phi_angle_min = s.phi_angle_min) ∧
      (s.phi_angle < 0 → (slice_shrink u s).phi_angle_min = s.phi_angle ∧
        (slice_shrink u s).phi_angle_max = s.phi_angle_max) ∧
      (s.phi_angle = 0 → (slice_shrink u s).phi_angle_min = s.phi_angle_min ∧
        (slice_shrink u s).phi_angle_max = s.phi_angle_max) ∧
      (slice_shrink u s).phi_angle =
        (slice_shrink u s).phi_angle_min +
          u * ((slice_shrink u s).phi_angle_max - (slice_shrink u s).phi_angle_min) := by
  unfold slice_shrink
  refine ⟨?_, ?_, ?_, ?_⟩
  · intro h
    simp only [h, if_true, and_self]
  · intro h
    simp only [not_lt.mpr (le_of_lt h), h, if_true, if_false, and_self]
  · intro h
    simp only [h, lt_irrefl, gt_iff_lt, if_false, and_self]
  · dsimp only
    ring

/-- C21: in `ess_eta_star` and `ess_X`, with `pi >= 0` and shrink draws in
`(0, 1)`, a pass `i` whose candidate is rejected leaves the loop in the state
of entry to pass `i + 1`, in which: if the rejected angle `theta` is positive,
the upper end of the bracket is `theta` and the lower end is as before; if
`theta` is negative, the lower end is `theta` and the upper end is as before;
the next angle is `lower + u * (upper - lower)` for the fresh draw `u`, and it
lies inside the new bracket. -/
theorem shrink_narrows_bracket {β : Type} (P : Prims α) (u : Nat → α) (i : Nat)
    (propose : α → β) (loglik : β → α) (hh : α)
    (hpi : 0 ≤ P.pi) (hu : ∀ n, 0 < u (n + 2) ∧ u (n + 2) < 1) :
    (¬ loglik (propose (ess_entry P u i).phi_angle) > hh →
      slice_pass propose loglik hh (u (i + 2)) (ess_entry P u i) =
        Sum.inr (ess_entry P u (i + 1))) ∧
    ((ess_entry P u i).phi_angle > 0 →
      (ess_entry P u (i + 1)).phi_angle_max = (ess_entry P u i).phi_angle ∧
        (ess_entry P u (i + 1)).phi_angle_min = (ess_entry P u i).phi_angle_min) ∧
    ((ess_entry P u i).phi_angle < 0 →
      (ess_entry P u (i + 1)).phi_angle_min = (ess_entry P u i).phi_angle ∧
        (ess_entry P u (i + 1)).phi_angle_max = (ess_entry P u i).phi_angle_max) ∧
    (ess_entry P u (i + 1)).phi_angle =
      (ess_entry P u (i + 1)).phi_angle_min +
        u (i + 2) * ((ess_entry P u (i + 1)).phi_angle_max -
          (ess_entry P u (i + 1)).phi_angle_min) ∧
    (ess_entry P u (i + 1)).phi_angle_min ≤ (ess_entry P u (i + 1)).phi_angle ∧
    (ess_entry P u (i + 1)).phi_angle ≤ (ess_entry P u (i + 1)).phi_angle_max := by
  obtain ⟨h1, h2, _, h4⟩ := slice_shrink_ends (u (i + 2)) (ess_entry P u i)
  obtain ⟨_, b2, b3, _⟩ := ess_entry_inBracket P u hpi
    (fun n => ⟨le_of_lt (hu n).1, le_of_lt (hu n).2⟩) (i + 1)
  refine ⟨?_, h1, h2, h4, b2, b3⟩
  intro hrej
  unfold slice_pass
  rw [if_neg hrej]
  rfl

/-- C21, witness: with `pi = 3` and every draw `1/2`, the first pass tries the
angle `3`; once it is rejected the bracket is `[-3, 3]` with the upper end at
the rejected angle, and the next angle is `-3 + 1/2 * 6 = 0`. -/
theorem shrink_narrows_bracket_witness :
    (ess_entry ratPrims (fun _ => 1 / 2) 0).phi_angle = 3 ∧
      (ess_entry ratPrims (fun _ => 1 / 2) 1).phi_angle_max = 3 ∧
      (ess_entry ratPrims (fun _ => 1 / 2) 1).phi_angle_min = -3 ∧
      (ess_entry ratPrims (fun _ => 1 / 2) 1).phi_angle = 0 := by
  have h0 : (ess_entry ratPrims (fun _ => 1 / 2) 0).phi_angle = 3 := by
    simp [ess_entry_zero, ess_init, ratPrims, stdPrims]
  have hmin : (ess_entry ratPrims (fun _ => 1 / 2) 0).phi_angle_min = -3 := by
    simp [ess_entry_zero, ess_init, ratPrims, stdPrims]
    norm_num
  obtain ⟨_, h1, _, h3, _, _⟩ := shrink_narrows_bracket ratPrims (fun _ => (1 / 2 : ℚ)) 0
    (fun x : ℚ => x) (fun x => x) 0 (by show (0 : ℚ) ≤ 3; norm_num)
    (fun _ => ⟨by norm_num, by norm_num⟩)
  obtain ⟨e1, e2⟩ := h1 (by rw [h0]; norm_num)
  rw [h0] at e1
  rw [hmin] at e2
  refine ⟨h0, e1, e2, ?_⟩
  rw [h3, e1, e2]
  norm_num

end ShrinkClaim

section BracketInvariantClaim

variable {α : Type} [LinearOrderedField α]

theorem slice_shrink_monotone (u : α) (s : SliceState α)
    (h : s.phi_angle_min ≤ s.phi_angle ∧ s.phi_angle ≤ s.phi_angle_max) :
    s.phi_angle_min ≤ (slice_shrink u s).phi_angle_min ∧
      (slice_shrink u s).phi_angle_max ≤ s.phi_angle_max ∧
      (s.phi_angle_min < 0 → (slice_shrink u s).phi_angle_min < 0) ∧
      (0 < s.phi_angle_max → 0 < (slice_shrink u s).phi_angle_max) := by
  obtain ⟨h1, h2, h3, _⟩ := slice_shrink_ends u s
  rcases lt_trichotomy s.phi_angle 0 with hneg | hzero | hpos
  · obtain ⟨e1, e2⟩ := h2 hneg
    rw [e1, e2]
    exact ⟨h.1, le_refl _, fun _ => hneg, fun hm => hm⟩
  · obtain ⟨e1, e2⟩ := h3 hzero
    rw [e1, e2]
    exact ⟨le_refl _, le_refl _, fun hm => hm, fun hm => hm⟩
  · obtain ⟨e1, e2⟩ := h1 hpos
    rw [e1, e2]
    exact ⟨le_refl _, h.2, fun hm => hm, fun _ => hpos⟩

/-- C25: in `ess_eta_star` and `ess_X`, with `pi > 0`, the initial draw and
every shrink draw in `(0, 1)`, on entry to every pass of the slice loop the
bracket strictly contains the angle `0` of the current position
(`phi_angle_min < 0 < phi_angle_max`) and contains the angle to be tried
(`phi_angle_min <= phi_angle <= phi_angle_max`); from one pass to the next the
lower end does not decrease and the upper end does not increase, so that the
width `phi_angle_max - phi_angle_min` never increases, and it never exceeds
`2 * pi`. -/
theorem bracket_contains_zero (P : Prims α) (u : Nat → α) (hpi : 0 < P.pi)
    (hu1 : 0 < u 1 ∧ u 1 < 1) (hu : ∀ n, 0 < u (n + 2) ∧ u (n + 2) < 1) (i : Nat) :
    (ess_entry P u i).phi_angle_min < 0 ∧ 0 < (ess_entry P u i).phi_angle_max ∧
      (ess_entry P u i).phi_angle_min ≤ (ess_entry P u i).phi_angle ∧
      (ess_entry P u i).phi_angle ≤ (ess_entry P u i).phi_angle_max ∧
      (ess_entry P u i).phi_angle_min ≤ (ess_entry P u (i + 1)).phi_angle_min ∧
      (ess_entry P u (i + 1)).phi_angle_max ≤ (ess_entry P u i).phi_angle_max ∧
      (ess_entry P u (i + 1)).phi_angle_max - (ess_entry P u (i + 1)).phi_angle_min ≤
        (ess_entry P u i).phi_angle_max - (ess_entry P u i).phi_angle_min ∧
      (ess_entry P u i).phi_angle_max - (ess_entry P u i).phi_angle_min ≤ 2 * P.pi := by
  have hbr := ess_entry_inBracket P u (le_of_lt hpi)
    (fun n => ⟨le_of_lt (hu n).1, le_of_lt (hu n).2⟩)
  have hzero : ∀ n, (ess_entry P u n).phi_angle_min < 0 ∧ 0 < (ess_entry P u n).phi_angle_max := by
    intro n
    induction n with
    | zero =>
      rw [ess_entry_zero]
      constructor
      · show u 1 * 2 * P.pi - 2 * P.pi < 0
        have : (u 1 - 1) * (2 * P.pi) < 0 :=
          mul_neg_of_neg_of_pos (by linarith [hu1.2]) (by linarith)
        linarith
      · show 0 < u 1 * 2 * P.pi
        exact mul_pos (mul_pos hu1.1 (by norm_num)) hpi
    | succ n ih =>
      rw [ess_entry_succ]
      obtain ⟨_, _, m3, m4⟩ := slice_shrink_monotone (u (n + 2)) (ess_entry P u n)
        ⟨(hbr n).2.1, (hbr n).2.2.1⟩
      exact ⟨m3 ih.1, m4 ih.2⟩
  obtain ⟨b1, b2, b3, b4⟩ := hbr i
  obtain ⟨m1, m2, _, _⟩ := slice_shrink_monotone (u (i + 2)) (ess_entry P u i) ⟨b2, b3⟩
  rw [← ess_entry_succ] at m1 m2
  refine ⟨(hzero i).1, (hzero i).2, b2, b3, m1, m2, by linarith, by linarith⟩

/-- C25, witness: with `pi = 3` and every draw `1/2`, the bracket on entry to
the second pass contains `0` strictly and is at most `6` wide. -/
theorem bracket_contains_zero_witness :
    (ess_entry ratPrims (fun _ => 1 / 2) 1).phi_angle_min < 0 ∧
      0 < (ess_entry ratPrims (fun _ => 1 / 2) 1).phi_angle_max ∧
      (ess_entry ratPrims (fun _ => 1 / 2) 1).phi_angle_max -
        (ess_entry ratPrims (fun _ => 1 / 2) 1).phi_angle_min ≤ 2 * 3 := by
  obtain ⟨h1, h2, _, _, _, _, _, h8⟩ := bracket_contains_zero ratPrims (fun _ => (1 / 2 : ℚ))
    (by show (0 : ℚ) < 3; norm_num) ⟨by norm_num, by norm_num⟩
    (fun _ => ⟨by norm_num, by norm_num⟩) 1
  exact ⟨h1, h2, h8⟩

end BracketInvariantClaim

section EssOutputClaims

variable {α : Type} [LinearOrderedField α]

/-- C22: whenever `ess_eta_star` returns for the column index `j`, every column
of the returned `eta_star` other than `j` equals the same column of
`eta_star_current`, and the returned `zeta` equals `Z_current * eta_star *
R_tau_current` for the returned `eta_star`. -/
theorem ess_eta_star_changes_one_column {N K d : Nat} (P : Prims α) (fuel : Nat)
    (u : Nat → α) (eta_star_current : Matrix (Fin K) (Fin d) α) (eta_star_prior : Fin K → α)
    (y_current mu_mat_current zeta_current : Matrix (Fin N) (Fin d) α)
    (R_tau_current : Matrix (Fin d) (Fin d) α) (Z_current : Matrix (Fin N) (Fin K) α)
    (sigma2_current : α) (j : Fin d) (out : EssEtaStarOut α N K d) (b : Nat)
    (h : ess_eta_star P fuel u eta_star_current eta_star_prior y_current mu_mat_current
      zeta_current R_tau_current Z_current sigma2_current j = some (out, b)) :
    (∀ j1, j1 ≠ j → ∀ k, out.eta_star k j1 = eta_star_current k j1) ∧
      out.zeta = Z_current * out.eta_star * R_tau_current := by
  rw [ess_eta_star_eq_some_iff] at h
  obtain ⟨m, _, _, _, hout, _⟩ := h
  subst hout
  refine ⟨?_, rfl⟩
  intro j1 hj k
  show Matrix.updateColumn eta_star_current j _ k j1 = _
  rw [Matrix.updateColumn_ne hj]

theorem demo_ess_eta_star_two_columns :
    ess_eta_star ratPrims 1 (fun _ => 1 / 2) (1 : Matrix (Fin 2) (Fin 2) ℚ) 0
        (0 : Matrix (Fin 1) (Fin 2) ℚ) 0 0 1 (0 : Matrix (Fin 1) (Fin 2) ℚ) 1 0 =
      some (ess_eta_star_proposal ratPrims 1 0 1 0 0 3, 0) := by
  rw [ess_eta_star_eq_some_iff]
  refine ⟨0, by decide, fun i hi => absurd hi (Nat.not_lt_zero i), ?_, ?_, rfl⟩
  · unfold ess_eta_star_on_slice
    rw [ess_entry_zero]
    simp [ess_init, ess_eta_star_proposal, ess_eta_star_hh, gauss_loglik, ratPrims, stdPrims]
    norm_num
  · rw [ess_entry_zero]
    simp [ess_init, ratPrims, stdPrims]

/-- C22, witness: the call of `ess_eta_star` for column 0 of the 2 x 2
identity returns a matrix whose column 1 is column 1 of the identity. -/
theorem ess_eta_star_changes_one_column_witness :
    (ess_eta_star_proposal ratPrims (1 : Matrix (Fin 2) (Fin 2) ℚ) 0 1
        (0 : Matrix (Fin 1) (Fin 2) ℚ) 0 3).eta_star 0 1 = (1 : Matrix (Fin 2) (Fin 2) ℚ) 0 1 ∧
      (ess_eta_star_proposal ratPrims (1 : Matrix (Fin 2) (Fin 2) ℚ) 0 1
        (0 : Matrix (Fin 1) (Fin 2) ℚ) 0 3).eta_star 1 1 = (1 : Matrix (Fin 2) (Fin 2) ℚ) 1 1 :=
  have h := (ess_eta_star_changes_one_column ratPrims 1 (fun _ => 1 / 2)
    (1 : Matrix (Fin 2) (Fin 2) ℚ) 0 (0 : Matrix (Fin 1) (Fin 2) ℚ) 0 0 1
    (0 : Matrix (Fin 1) (Fin 2) ℚ) 1 0 _ _ demo_ess_eta_star_two_columns).1 1 (by decide)
  ⟨h 0, h 1⟩

/-- C23: for a square root with `sqrt(x^2) = |x|`, whenever `ess_X` returns,
its outputs belong to the returned `X`: `D(k) = |X + mu_X - X_knots(k)|`,
squared when `corr_function` is "gaussian", `c = exp(-D / phi_current)`
elementwise, `Z = c * C_inv_current` and `zeta = Z * eta_star_current *
R_tau_current`. -/
theorem ess_X_outputs_consistent {K d : Nat} (P : Prims α) (fuel : Nat) (u : Nat → α)
    (corr_function : String) (X_current X_prior mu_X : α) (X_knots : Fin K → α)
    (y_current mu_current : Fin d → α) (eta_star_current : Matrix (Fin K) (Fin d) α)
    (zeta_current : Fin d → α) (R_tau_current : Matrix (Fin d) (Fin d) α)
    (phi_current sigma_current : α) (C_inv_current : Matrix (Fin K) (Fin K) α)
    (out : EssXOut α K d) (b : Nat) (hsqrt : ∀ x, P.sqrt (x ^ 2) = |x|)
    (h : ess_X P fuel u corr_function X_current X_prior mu_X X_knots y_current mu_current
      eta_star_current zeta_current R_tau_current phi_current sigma_current C_inv_current =
      some (out, b)) :
    (∀ k, out.D k =
      if corr_function = "gaussian" then |out.X + mu_X - X_knots k| ^ 2
      else |out.X + mu_X - X_knots k|) ∧
      (∀ k, out.c k = P.exp (-(out.D k) / phi_current)) ∧
      out.Z = Matrix.vecMul out.c C_inv_current ∧
      out.zeta = Matrix.vecMul (Matrix.vecMul out.Z eta_star_current) R_tau_current := by
  rw [ess_X_eq_some_iff] at h
  obtain ⟨m, _, _, _, hout, _⟩ := h
  subst hout
  refine ⟨?_, fun k => rfl, rfl, rfl⟩
  intro k
  show dist_row P corr_function X_knots _ k = _
  unfold dist_row
  dsimp only
  split_ifs
  · show P.sqrt (_ ^ 2) ^ 2 = _
    rw [hsqrt]
    rfl
  · show P.sqrt (_ ^ 2) = _
    rw [hsqrt]
    rfl

end EssOutputClaims

section EssOutputWitness

theorem real_ess_X_returns :
    ess_X (stdPrims Real.exp Real.log Real.sqrt Real.cos Real.sin Real.pi) 1
        (fun _ => 1 / 2) "gaussian" 1 0 2 (0 : Fin 1 → ℝ) (0 : Fin 1 → ℝ) 0
        (0 : Matrix (Fin 1) (Fin 1) ℝ) 0 1 1 1 (1 : Matrix (Fin 1) (Fin 1) ℝ) =
      some (ess_X_proposal (stdPrims Real.exp Real.log Real.sqrt Real.cos Real.sin Real.pi)
        "gaussian" 1 0 2 (0 : Fin 1 → ℝ) (0 : Matrix (Fin 1) (Fin 1) ℝ) 1 1
        (1 : Matrix (Fin 1) (Fin 1) ℝ) (1 / 2 * 2 * Real.pi), 0) := by
  rw [ess_X_eq_some_iff]
  refine ⟨0, by decide, fun i hi => absurd hi (Nat.not_lt_zero i), ?_, rfl, rfl⟩
  unfold ess_X_on_slice
  have hz : ∀ theta : ℝ, (ess_X_proposal
      (stdPrims Real.exp Real.log Real.sqrt Real.cos Real.sin Real.pi) "gaussian" 1 0 2
      (0 : Fin 1 → ℝ) (0 : Matrix (Fin 1) (Fin 1) ℝ) 1 1
      (1 : Matrix (Fin 1) (Fin 1) ℝ) theta).zeta = 0 := by
    intro theta
    simp [ess_X_proposal]
  rw [hz]
  have hlog : Real.log (1 / 2) < 0 := Real.log_neg (by norm_num) (by norm_num)
  show _ > Real.log (1 / 2) + _
  linarith

/-- C23, witness: over the real numbers, a call of `ess_X` with the kernel
"gaussian", `mu_X = 2` and one knot at `0` returns `D(0) = |X + 2|^2` for the
returned `X`. -/
theorem ess_X_outputs_consistent_witness :
    (ess_X_proposal (stdPrims Real.exp Real.log Real.sqrt Real.cos Real.sin Real.pi)
        "gaussian" 1 0 2 (0 : Fin 1 → ℝ) (0 : Matrix (Fin 1) (Fin 1) ℝ) 1 1
        (1 : Matrix (Fin 1) (Fin 1) ℝ) (1 / 2 * 2 * Real.pi)).D 0 =
      |(ess_X_proposal (stdPrims Real.exp Real.log Real.sqrt Real.cos Real.sin Real.pi)
        "gaussian" 1 0 2 (0 : Fin 1 → ℝ) (0 : Matrix (Fin 1) (Fin 1) ℝ) 1 1
        (1 : Matrix (Fin 1) (Fin 1) ℝ) (1 / 2 * 2 * Real.pi)).X + 2 - 0| ^ 2 := by
  have h := (ess_X_outputs_consistent
    (stdPrims Real.exp Real.log Real.sqrt Real.cos Real.sin Real.pi) 1
    (fun _ => 1 / 2) "gaussian" 1 0 2 (0 : Fin 1 → ℝ) (0 : Fin 1 → ℝ) 0
    (0 : Matrix (Fin 1) (Fin 1) ℝ) 0 1 1 1 (1 : Matrix (Fin 1) (Fin 1) ℝ) _ _
    (fun x => Real.sqrt_sq_eq_abs x) real_ess_X_returns).1 0
  rw [if_pos rfl] at h
  exact h

end EssOutputWitness

section DegeneracyClaim

variable {α : Type} [LinearOrderedField α]

theorem ess_entry_bug_lines (P : Prims α) (u : Nat → α) (m : Nat)
    (h : ∀ i, i < m → (ess_entry P u i).phi_angle ≠ 0) : (ess_entry P u m).bug_lines = 0 := by
  induction m with
  | zero => rfl
  | succ m ih =>
    have hm := h m (Nat.lt_succ_self m)
    have ih1 := ih (fun i hi => h i (Nat.lt_succ_of_lt hi))
    rw [ess_entry_succ]
    unfold slice_shrink
    rcases lt_or_gt_of_ne hm with hneg | hpos
    · simp only [not_lt.mpr (le_of_lt hneg), hneg, gt_iff_lt, if_true, if_false]
      exact ih1
    · simp only [hpos, gt_iff_lt, if_true]
      exact ih1

/-- The sum of doubles absorbs a term in `(-1, 0)` added to `-2^55`: the
doubles next to `-2^55` are `8` apart below it. -/
theorem round_double_absorbs (c : ℝ) (h0 : -1 < c) (h1 : c < 0) :
    round_double (c + -36028797018963968) = (-36028797018963968 : ℝ) := by
  have hneg : c + -36028797018963968 < 0 := by linarith
  have habs : |c + -36028797018963968| = 36028797018963968 - c := by
    rw [abs_of_neg hneg]
    ring
  have hpos : (0 : ℝ) < 36028797018963968 - c := by linarith
  have hlog : Int.log 2 (36028797018963968 - c) = 55 := by
    apply le_antisymm
    · have h : Int.log 2 (36028797018963968 - c) < 56 := by
        rw [← Int.lt_zpow_iff_log_lt (by norm_num) hpos]
        norm_num
        linarith
      omega
    · rw [← Int.zpow_le_iff_le_log (by norm_num) hpos]
      norm_num
      linarith
  unfold round_double
  rw [if_neg (ne_of_lt hneg), habs, hlog]
  have h8 : (2 : ℝ) ^ ((55 : ℤ) - 52) = 8 := by norm_num
  rw [h8]
  have hfloor : ⌊(c + -36028797018963968) / 8⌋ = -4503599627370497 := by
    rw [Int.floor_eq_iff]
    constructor
    · push_cast
      linarith
    · push_cast
      linarith
  have hfract : Int.fract ((c + -36028797018963968) / 8) = c / 8 + 1 := by
    rw [Int.fract, hfloor]
    push_cast
    ring
  have hr : round_ties_even ((c + -36028797018963968) / 8) = -4503599627370496 := by
    unfold round_ties_even
    rw [hfract, hfloor, if_neg (by linarith), if_pos (by linarith)]
    norm_num
  rw [hr]
  push_cast
  norm_num

theorem real_log_half_bounds : -1 < Real.log (1 / 2) ∧ Real.log (1 / 2) < 0 := by
  have h : Real.log (1 / 2) = -Real.log 2 := by
    rw [one_div, Real.log_inv]
  have h0 : 0 < Real.log 2 := Real.log_pos (by norm_num)
  have h1 : Real.log 2 < 1 := by
    have h2 := Real.add_one_lt_exp (show (Real.log 2 : ℝ) ≠ 0 from ne_of_gt h0)
    rw [Real.exp_log (by norm_num)] at h2
    linarith
  rw [h]
  constructor <;> linarith

/-- With the draws `1/2, 1/2, 1/2, 3/4` the bracket of the run with the sum of
doubles is that of the run with the exact sum. -/
theorem ieee_run_entry (i : Nat) :
    ess_entry (ieeePrims (stdPrims Real.exp Real.log Real.sqrt Real.cos Real.sin Real.pi))
        (fun n => if n = 3 then 3 / 4 else 1 / 2) i =
      ess_entry (stdPrims Real.exp Real.log Real.sqrt Real.cos Real.sin Real.pi)
        (fun n => if n = 3 then 3 / 4 else 1 / 2) i := rfl

/-- The slice level of the run with `y_current = 2^28 + 2` and
`zeta_current = 2`: the sum of doubles of `log(1/2)` and
`current_log_like = -2^55` is `-2^55`. -/
theorem ieee_run_hh :
    ess_eta_star_hh
        (ieeePrims (stdPrims Real.exp Real.log Real.sqrt Real.cos Real.sin Real.pi))
        (fun _ _ => 268435458 : Matrix (Fin 1) (Fin 1) ℝ) 0 (fun _ _ => 2) 1 (1 / 2) =
      -36028797018963968 := by
  have hc : gauss_loglik (fun _ _ => 268435458 : Matrix (Fin 1) (Fin 1) ℝ) 0 (fun _ _ => 2) 1 =
      -36028797018963968 := by
    simp [gauss_loglik]
    norm_num
  unfold ess_eta_star_hh
  rw [hc]
  exact round_double_absorbs _ real_log_half_bounds.1 real_log_half_bounds.2

/-- C26, counterexample: a consistent cache does not keep the sampler out of
the branch "shrunk to current position". In `ess_eta_star` with the sum of
doubles, take `eta_star_current = 2`, the prior draw `4`, `Z_current = 1`,
`R_tau_current = 1`, `zeta_current = 1 * 2 * 1 = 2`, `y_current = 2^28 + 2`,
`mu_mat_current = 0`, `sigma2_current = 1` and the uniform draws
`1/2, 1/2, 1/2, 3/4`. Then `current_log_like = -(2^28)^2 / 2 = -2^55`, the slice
uniform is `U = 1/2`, and `hh = log(1/2) + (-2^55)` is `-2^55` again, the
nearest double. The second pass tries the angle `0`; its candidate is the
current value, with `proposal_log_like = -2^55`, and the test
`proposal_log_like > hh` fails, so the last `else` branch runs. The call
returns after the third pass with one diagnostic line written. -/
theorem absorbed_slice_level_counterexample :
    ((0 : ℝ) < 1 / 2 ∧ (1 / 2 : ℝ) < 1) ∧
    (Matrix.of (fun _ _ => 2) : Matrix (Fin 1) (Fin 1) ℝ) =
      (1 : Matrix (Fin 1) (Fin 1) ℝ) * Matrix.of (fun _ _ => 2) * 1 ∧
    gauss_loglik (fun _ _ => 268435458 : Matrix (Fin 1) (Fin 1) ℝ) 0 (fun _ _ => 2) 1 =
      -36028797018963968 ∧
    ess_eta_star_hh (ieeePrims (stdPrims Real.exp Real.log Real.sqrt Real.cos Real.sin Real.pi))
        (fun _ _ => 268435458 : Matrix (Fin 1) (Fin 1) ℝ) 0 (fun _ _ => 2) 1 (1 / 2) =
      -36028797018963968 ∧
    (ess_entry (ieeePrims (stdPrims Real.exp Real.log Real.sqrt Real.cos Real.sin Real.pi))
      (fun n => if n = 3 then 3 / 4 else 1 / 2) 1).phi_angle = 0 ∧
    ess_eta_star_proposal (ieeePrims (stdPrims Real.exp Real.log Real.sqrt Real.cos Real.sin Real.pi))
        (fun _ _ => 2 : Matrix (Fin 1) (Fin 1) ℝ) (fun _ => 4 : Fin 1 → ℝ)
        (1 : Matrix (Fin 1) (Fin 1) ℝ) (1 : Matrix (Fin 1) (Fin 1) ℝ) 0 0 =
      { eta_star := fun _ _ => 2, zeta := fun _ _ => 2 } ∧
    ¬ ess_eta_star_on_slice (ieeePrims (stdPrims Real.exp Real.log Real.sqrt Real.cos Real.sin Real.pi))
        (fun n => if n = 3 then 3 / 4 else 1 / 2)
        (fun _ _ => 2 : Matrix (Fin 1) (Fin 1) ℝ) (fun _ => 4 : Fin 1 → ℝ)
        (fun _ _ => 268435458 : Matrix (Fin 1) (Fin 1) ℝ) 0 (fun _ _ => 2) 1 1 1 0 1 ∧
    (ess_entry (ieeePrims (stdPrims Real.exp Real.log Real.sqrt Real.cos Real.sin Real.pi))
      (fun n => if n = 3 then 3 / 4 else 1 / 2) 2).bug_lines = 1 ∧
    ess_eta_star (ieeePrims (stdPrims Real.exp Real.log Real.sqrt Real.cos Real.sin Real.pi)) 3
        (fun n => if n = 3 then 3 / 4 else 1 / 2)
        (fun _ _ => 2 : Matrix (Fin 1) (Fin 1) ℝ) (fun _ => 4 : Fin 1 → ℝ)
        (fun _ _ => 268435458 : Matrix (Fin 1) (Fin 1) ℝ) 0 (fun _ _ => 2) 1 1 1 0 =
      some ({ eta_star := fun _ _ => 4, zeta := fun _ _ => 4 }, 1) := by
  have hc : gauss_loglik (fun _ _ => 268435458 : Matrix (Fin 1) (Fin 1) ℝ) 0
      (fun _ _ => 2) 1 = -36028797018963968 := by
    simp [gauss_loglik]
    norm_num
  have hp0 : ess_eta_star_proposal (ieeePrims (stdPrims Real.exp Real.log Real.sqrt Real.cos Real.sin Real.pi))
      (fun _ _ => 2 : Matrix (Fin 1) (Fin 1) ℝ) (fun _ => 4 : Fin 1 → ℝ)
      (1 : Matrix (Fin 1) (Fin 1) ℝ) (1 : Matrix (Fin 1) (Fin 1) ℝ) 0 0 =
      { eta_star := fun _ _ => 2, zeta := fun _ _ => 2 } := by
    simp only [ess_eta_star_proposal, ieeePrims, stdPrims]
    simp
  have r1 : ¬ ess_eta_star_on_slice (ieeePrims (stdPrims Real.exp Real.log Real.sqrt Real.cos Real.sin Real.pi))
      (fun n => if n = 3 then 3 / 4 else 1 / 2)
      (fun _ _ => 2 : Matrix (Fin 1) (Fin 1) ℝ) (fun _ => 4 : Fin 1 → ℝ)
        (fun _ _ => 268435458 : Matrix (Fin 1) (Fin 1) ℝ) 0 (fun _ _ => 2) 1 1 1 0 1 := by
    unfold ess_eta_star_on_slice
    rw [ieee_run_entry, collapse_run_entry_one]
    show ¬ gauss_loglik _ 0 (ess_eta_star_proposal (ieeePrims (stdPrims Real.exp Real.log Real.sqrt Real.cos Real.sin Real.pi))
      (fun _ _ => 2 : Matrix (Fin 1) (Fin 1) ℝ) (fun _ => 4 : Fin 1 → ℝ)
      (1 : Matrix (Fin 1) (Fin 1) ℝ) (1 : Matrix (Fin 1) (Fin 1) ℝ) 0 0).zeta 1 >
      ess_eta_star_hh (ieeePrims (stdPrims Real.exp Real.log Real.sqrt Real.cos Real.sin Real.pi))
        (fun _ _ => 268435458 : Matrix (Fin 1) (Fin 1) ℝ) 0 (fun _ _ => 2) 1 (1 / 2)
    rw [hp0, ieee_run_hh]
    show ¬ gauss_loglik (fun _ _ => 268435458 : Matrix (Fin 1) (Fin 1) ℝ) 0
      (fun _ _ => 2) 1 > _
    rw [hc]
    exact lt_irrefl _
  have r0 : ¬ ess_eta_star_on_slice (ieeePrims (stdPrims Real.exp Real.log Real.sqrt Real.cos Real.sin Real.pi))
      (fun n => if n = 3 then 3 / 4 else 1 / 2)
      (fun _ _ => 2 : Matrix (Fin 1) (Fin 1) ℝ) (fun _ => 4 : Fin 1 → ℝ)
        (fun _ _ => 268435458 : Matrix (Fin 1) (Fin 1) ℝ) 0 (fun _ _ => 2) 1 1 1 0 0 := by
    unfold ess_eta_star_on_slice
    rw [ieee_run_entry, collapse_run_entry_zero]
    show ¬ gauss_loglik _ 0 _ 1 > ess_eta_star_hh (ieeePrims (stdPrims Real.exp Real.log Real.sqrt Real.cos Real.sin Real.pi))
        (fun _ _ => 268435458 : Matrix (Fin 1) (Fin 1) ℝ) 0 (fun _ _ => 2) 1 (1 / 2)
    rw [ieee_run_hh]
    simp only [gauss_loglik, ess_eta_star_proposal, ieeePrims, stdPrims]
    simp
    norm_num
  have a2 : ess_eta_star_on_slice (ieeePrims (stdPrims Real.exp Real.log Real.sqrt Real.cos Real.sin Real.pi))
      (fun n => if n = 3 then 3 / 4 else 1 / 2)
      (fun _ _ => 2 : Matrix (Fin 1) (Fin 1) ℝ) (fun _ => 4 : Fin 1 → ℝ)
        (fun _ _ => 268435458 : Matrix (Fin 1) (Fin 1) ℝ) 0 (fun _ _ => 2) 1 1 1 0 2 := by
    unfold ess_eta_star_on_slice
    rw [ieee_run_entry, collapse_run_entry_two]
    show gauss_loglik _ 0 _ 1 > ess_eta_star_hh (ieeePrims (stdPrims Real.exp Real.log Real.sqrt Real.cos Real.sin Real.pi))
        (fun _ _ => 268435458 : Matrix (Fin 1) (Fin 1) ℝ) 0 (fun _ _ => 2) 1 (1 / 2)
    rw [ieee_run_hh]
    simp only [gauss_loglik, ess_eta_star_proposal, ieeePrims, stdPrims]
    simp
    norm_num
  refine ⟨⟨by norm_num, by norm_num⟩, by simp, hc, ieee_run_hh, ?_, hp0, r1, ?_, ?_⟩
  · rw [ieee_run_entry, collapse_run_entry_one]
  · rw [ieee_run_entry, collapse_run_entry_two]
  · rw [ess_eta_star_eq_some_iff]
    refine ⟨2, by norm_num, ?_, a2, ?_, ?_⟩
    · intro i hi
      interval_cases i
      · exact r0
      · exact r1
    · rw [ieee_run_entry, collapse_run_entry_two]
      simp only [ess_eta_star_proposal, ieeePrims, stdPrims]
      simp
      ext a b
      simp [Matrix.updateColumn_apply, Subsingleton.elim b 0]
    · rw [ieee_run_entry, collapse_run_entry_two]

/-- C26, amended: let `cos(0) = 1`, `sin(0) = 0` and let `zeta_current` be the
fitted effect of the current value (`Z_current * eta_star_current *
R_tau_current` for `ess_eta_star`; the row rebuilt from `X_current + mu_X` for
`ess_X`). Then the candidate at the angle `0` is the current value with
`zeta_current`, and a pass that tries the angle `0` accepts exactly when the
slice level `hh`, the sum `log(U) + current_log_like` as the processor returns
it, is strictly below `current_log_like`. When it is, a call that returns has
written no diagnostic line. An exact sum with `log(U) < 0` is strictly below
`current_log_like`. -/
theorem angle_zero_accepts_iff_level_below {N K d : Nat} (P : Prims α) (fuel : Nat)
    (u : Nat → α) (eta_star_current : Matrix (Fin K) (Fin d) α) (eta_star_prior : Fin K → α)
    (y_current mu_mat_current zeta_current : Matrix (Fin N) (Fin d) α)
    (R_tau_current : Matrix (Fin d) (Fin d) α) (Z_current : Matrix (Fin N) (Fin K) α)
    (sigma2_current : α) (j : Fin d) (corr_function : String) (X_current X_prior mu_X : α)
    (X_knots : Fin K → α) (y_row mu_current zeta_row : Fin d → α)
    (phi_current sigma_current : α) (C_inv_current : Matrix (Fin K) (Fin K) α)
    (hcos : P.cos 0 = 1) (hsin : P.sin 0 = 0)
    (hzeta : zeta_current = Z_current * eta_star_current * R_tau_current)
    (hrow : zeta_row = Matrix.vecMul (Matrix.vecMul (Matrix.vecMul
      (fun k => P.exp (-(dist_row P corr_function X_knots (X_current + mu_X) k) / phi_current))
      C_inv_current) eta_star_current) R_tau_current) :
    ((ess_eta_star_proposal P eta_star_current eta_star_prior R_tau_current Z_current j
          0).eta_star = eta_star_current ∧
      (ess_eta_star_proposal P eta_star_current eta_star_prior R_tau_current Z_current j
          0).zeta = zeta_current ∧
      (∀ i, (ess_entry P u i).phi_angle = 0 →
        (ess_eta_star_on_slice P u eta_star_current eta_star_prior y_current mu_mat_current
            zeta_current R_tau_current Z_current sigma2_current j i ↔
          P.fadd (P.log (u 0))
              (gauss_loglik y_current mu_mat_current zeta_current sigma2_current) <
            gauss_loglik y_current mu_mat_current zeta_current sigma2_current)) ∧
      (P.fadd (P.log (u 0))
            (gauss_loglik y_current mu_mat_current zeta_current sigma2_current) <
          gauss_loglik y_current mu_mat_current zeta_current sigma2_current →
        ∀ out b, ess_eta_star P fuel u eta_star_current eta_star_prior y_current
          mu_mat_current zeta_current R_tau_current Z_current sigma2_current j =
            some (out, b) → b = 0)) ∧
    ((ess_X_proposal P corr_function X_current X_prior mu_X X_knots eta_star_current
          R_tau_current phi_current C_inv_current 0).X = X_current ∧
      (ess_X_proposal P corr_function X_current X_prior mu_X X_knots eta_star_current
          R_tau_current phi_current C_inv_current 0).zeta = zeta_row ∧
      (∀ i, (ess_entry P u i).phi_angle = 0 →
        (ess_X_on_slice P u corr_function X_current X_prior mu_X X_knots y_row mu_current
            eta_star_current zeta_row R_tau_current phi_current sigma_current
            C_inv_current i ↔
          P.fadd (P.log (u 0)) (row_loglik P y_row mu_current zeta_row sigma_current) <
            row_loglik P y_row mu_current zeta_row sigma_current)) ∧
      (P.fadd (P.log (u 0)) (row_loglik P y_row mu_current zeta_row sigma_current) <
          row_loglik P y_row mu_current zeta_row sigma_current →
        ∀ out b, ess_X P fuel u corr_function X_current X_prior mu_X X_knots y_row
          mu_current eta_star_current zeta_row R_tau_current phi_current sigma_current
          C_inv_current = some (out, b) → b = 0)) ∧
    (∀ c, P.fadd (P.log (u 0)) c = P.log (u 0) + c → P.log (u 0) < 0 →
      P.fadd (P.log (u 0)) c < c) := by
  have he : (ess_eta_star_proposal P eta_star_current eta_star_prior R_tau_current Z_current j
      0).eta_star = eta_star_current := by
    show Matrix.updateColumn eta_star_current j _ = eta_star_current
    rw [hcos, hsin]
    ext k j1
    by_cases hj : j1 = j
    · subst hj
      simp
    · simp [Matrix.updateColumn_ne hj]
  have hz : (ess_eta_star_proposal P eta_star_current eta_star_prior R_tau_current Z_current j
      0).zeta = zeta_current := by
    show Z_current * (ess_eta_star_proposal P eta_star_current eta_star_prior R_tau_current
      Z_current j 0).eta_star * R_tau_current = zeta_current
    rw [he, hzeta]
  have hacc : ∀ i, (ess_entry P u i).phi_angle = 0 →
      (ess_eta_star_on_slice P u eta_star_current eta_star_prior y_current mu_mat_current
          zeta_current R_tau_current Z_current sigma2_current j i ↔
        P.fadd (P.log (u 0))
            (gauss_loglik y_current mu_mat_current zeta_current sigma2_current) <
          gauss_loglik y_current mu_mat_current zeta_current sigma2_current) := by
    intro i hi
    unfold ess_eta_star_on_slice ess_eta_star_hh
    rw [hi, hz]
  have hX : (ess_X_proposal P corr_function X_current X_prior mu_X X_knots eta_star_current
      R_tau_current phi_current C_inv_current 0).X = X_current := by
    show X_current * P.cos 0 + X_prior * P.sin 0 = X_current
    rw [hcos, hsin]
    ring
  have hzX : (ess_X_proposal P corr_function X_current X_prior mu_X X_knots eta_star_current
      R_tau_current phi_current C_inv_current 0).zeta = zeta_row := by
    rw [hrow]
    show Matrix.vecMul (Matrix.vecMul (Matrix.vecMul
      (fun k => P.exp (-(dist_row P corr_function X_knots
        (X_current * P.cos 0 + X_prior * P.sin 0 + mu_X) k) / phi_current))
      C_inv_current) eta_star_current) R_tau_current = _
    rw [hcos, hsin]
    simp only [mul_one, mul_zero, add_zero]
  have haccX : ∀ i, (ess_entry P u i).phi_angle = 0 →
      (ess_X_on_slice P u corr_function X_current X_prior mu_X X_knots y_row mu_current
          eta_star_current zeta_row R_tau_current phi_current sigma_current C_inv_current i ↔
        P.fadd (P.log (u 0)) (row_loglik P y_row mu_current zeta_row sigma_current) <
          row_loglik P y_row mu_current zeta_row sigma_current) := by
    intro i hi
    unfold ess_X_on_slice
    rw [hi, hzX]
  refine ⟨⟨he, hz, hacc, ?_⟩, ⟨hX, hzX, haccX, ?_⟩, ?_⟩
  · intro hlt out b h
    rw [ess_eta_star_eq_some_iff] at h
    obtain ⟨m, _, hrej, _, _, hb⟩ := h
    rw [hb]
    exact ess_entry_bug_lines P u m (fun i hi h0 => hrej i hi ((hacc i h0).mpr hlt))
  · intro hlt out b h
    rw [ess_X_eq_some_iff] at h
    obtain ⟨m, _, hrej, _, _, hb⟩ := h
    rw [hb]
    exact ess_entry_bug_lines P u m (fun i hi h0 => hrej i hi ((haccX i h0).mpr hlt))
  · intro c hc hU
    rw [hc]
    linarith

/-- C26, witness: with `pi = 3`, the exact sum and every draw `1/2`, the second
pass of a call of `ess_eta_star` on zero matrices tries the angle `0`; the
slice level `(1/2 - 1) + 0` is below the current log-likelihood `0`, and the
candidate is on the slice. -/
theorem angle_zero_accepts_iff_level_below_witness :
    (ess_entry ratPrims (fun _ => 1 / 2) 1).phi_angle = 0 ∧
      ess_eta_star_on_slice ratPrims (fun _ => 1 / 2) (0 : Matrix (Fin 1) (Fin 1) ℚ) 0
        (0 : Matrix (Fin 1) (Fin 1) ℚ) 0 0 1 (0 : Matrix (Fin 1) (Fin 1) ℚ) 1 0 1 := by
  have h1 : (ess_entry ratPrims (fun _ => 1 / 2) 1).phi_angle = 0 := by
    rw [ess_entry_succ, ess_entry_zero]
    simp [slice_shrink, ess_init, ratPrims, stdPrims]
    norm_num
  refine ⟨h1, ((angle_zero_accepts_iff_level_below ratPrims 1 (fun _ => 1 / 2)
    (0 : Matrix (Fin 1) (Fin 1) ℚ) 0 (0 : Matrix (Fin 1) (Fin 1) ℚ) 0 0 1
    (0 : Matrix (Fin 1) (Fin 1) ℚ) 1 0 "exponential" 0 0 0 (0 : Fin 1 → ℚ) (0 : Fin 1 → ℚ) 0 0
    1 1 (0 : Matrix (Fin 1) (Fin 1) ℚ) rfl rfl ?_ ?_).1.2.2.1 1 h1).mpr ?_⟩
  · simp
  · simp
  · simp [gauss_loglik, ratPrims, stdPrims]
    norm_num

end DegeneracyClaim

section WarmupLemmas

variable {α : Type} [LinearOrderedField α] {N_obs N_lat K d B : Nat}

theorem warm_mu_mh (L : Lib α K d B) (P : Prims α) (C : Cfg α N_obs N_lat K d B)
    (dr : Draws α N_lat K d B) (s : State α N_obs N_lat K d B) :
    mu_mh L P { C with sample_eta_star_mh := true, sample_X_mh := true } dr s =
      mu_mh L P C dr s := rfl

theorem warm_mu_assign (L : Lib α K d B) (C : Cfg α N_obs N_lat K d B)
    (dr : Draws α N_lat K d B) (s : State α N_obs N_lat K d B) :
    mu_assign L { C with sample_eta_star_mh := true, sample_X_mh := true } Phase.adapt dr s =
      mu_assign L C Phase.warmup dr s := rfl

theorem warm_mu_gibbs (L : Lib α K d B) (C : Cfg α N_obs N_lat K d B)
    (dr : Draws α N_lat K d B) (s : State α N_obs N_lat K d B) :
    mu_gibbs L { C with sample_eta_star_mh := true, sample_X_mh := true } dr s =
      mu_gibbs L C dr s := rfl

theorem warm_mu_block (L : Lib α K d B) (P : Prims α) (C : Cfg α N_obs N_lat K d B)
    (k : Nat) (dr : Draws α N_lat K d B) (s : State α N_obs N_lat K d B) :
    mu_block L P { C with sample_eta_star_mh := true, sample_X_mh := true } Phase.adapt k dr s =
      mu_block L P C Phase.warmup k dr s := by
  unfold mu_block
  rw [warm_mu_mh, warm_mu_assign, warm_mu_gibbs]

theorem warm_phi_mh (L : Lib α K d B) (P : Prims α) (C : Cfg α N_obs N_lat K d B)
    (dr : Draws α N_lat K d B) (s : State α N_obs N_lat K d B) :
    phi_mh L P { C with sample_eta_star_mh := true, sample_X_mh := true } dr s =
      phi_mh L P C dr s := rfl

theorem warm_phi_assign (L : Lib α K d B) (P : Prims α) (C : Cfg α N_obs N_lat K d B)
    (dr : Draws α N_lat K d B) (s : State α N_obs N_lat K d B) :
    phi_assign L P { C with sample_eta_star_mh := true, sample_X_mh := true } Phase.adapt dr s =
      phi_assign L P C Phase.warmup dr s := rfl

theorem warm_phi_block (L : Lib α K d B) (P : Prims α) (C : Cfg α N_obs N_lat K d B)
    (k : Nat) (dr : Draws α N_lat K d B) (s : State α N_obs N_lat K d B) :
    phi_block L P { C with sample_eta_star_mh := true, sample_X_mh := true } Phase.adapt k dr
        s = phi_block L P C Phase.warmup k dr s := by
  unfold phi_block
  rw [warm_phi_mh, warm_phi_assign]
  rfl

theorem warm_eta_star_mh_col (L : Lib α K d B) (P : Prims α) (C : Cfg α N_obs N_lat K d B)
    (dr : Draws α N_lat K d B) (s : State α N_obs N_lat K d B) (j : Fin d) :
    eta_star_mh_col L P { C with sample_eta_star_mh := true, sample_X_mh := true } Phase.adapt
        dr s j = eta_star_mh_col L P C Phase.warmup dr s j := by
  have h1 : eta_star_mh L P { C with sample_eta_star_mh := true, sample_X_mh := true } dr s j =
      eta_star_mh L P C dr s j := rfl
  have h2 : eta_star_assign L { C with sample_eta_star_mh := true, sample_X_mh := true }
      Phase.adapt dr s j = eta_star_assign L C Phase.warmup dr s j := rfl
  unfold eta_star_mh_col
  rw [h1, h2]

theorem warm_eta_star_mh_block (L : Lib α K d B) (P : Prims α) (C : Cfg α N_obs N_lat K d B)
    (k : Nat) (dr : Draws α N_lat K d B) (s : State α N_obs N_lat K d B) :
    eta_star_mh_block L P { C with sample_eta_star_mh := true, sample_X_mh := true }
        Phase.adapt k dr s = eta_star_mh_block L P C Phase.warmup k dr s := by
  have hcol : eta_star_mh_col L P { C with sample_eta_star_mh := true, sample_X_mh := true }
      Phase.adapt dr = eta_star_mh_col L P C Phase.warmup dr := by
    funext t j
    exact warm_eta_star_mh_col L P C dr t j
  unfold eta_star_mh_block
  rw [hcol]
  rfl

theorem warm_eta_star_block (L : Lib α K d B) (P : Prims α) (C : Cfg α N_obs N_lat K d B)
    (fuel k : Nat) (dr : Draws α N_lat K d B) (s : State α N_obs N_lat K d B) :
    eta_star_block L P { C with sample_eta_star_mh := true, sample_X_mh := true } Phase.adapt
        fuel k dr s = eta_star_block L P C Phase.warmup fuel k dr s := by
  unfold eta_star_block
  simp only [if_true]
  rw [warm_eta_star_mh_block]

theorem warm_sigma2_block (L : Lib α K d B) (P : Prims α) (C : Cfg α N_obs N_lat K d B)
    (k : Nat) (dr : Draws α N_lat K d B) (s : State α N_obs N_lat K d B) :
    sigma2_block L P { C with sample_eta_star_mh := true, sample_X_mh := true } Phase.adapt k
        dr s = sigma2_block L P C Phase.warmup k dr s := by
  have h1 : sigma2_mh L P { C with sample_eta_star_mh := true, sample_X_mh := true } dr s =
      sigma2_mh L P C dr s := rfl
  have h2 : sigma2_assign L P { C with sample_eta_star_mh := true, sample_X_mh := true }
      Phase.adapt dr s = sigma2_assign L P C Phase.warmup dr s := rfl
  unfold sigma2_block
  rw [h1, h2]
  rfl

theorem warm_tau2_block (L : Lib α K d B) (P : Prims α) (C : Cfg α N_obs N_lat K d B)
    (k : Nat) (dr : Draws α N_lat K d B) (s : State α N_obs N_lat K d B) :
    tau2_block L P { C with sample_eta_star_mh := true, sample_X_mh := true } Phase.adapt k
        dr s = tau2_block L P C Phase.warmup k dr s := by
  have h1 : tau2_mh L P { C with sample_eta_star_mh := true, sample_X_mh := true } dr s =
      tau2_mh L P C dr s := rfl
  have h2 : tau2_assign L P { C with sample_eta_star_mh := true, sample_X_mh := true }
      Phase.adapt dr s = tau2_assign L P C Phase.warmup dr s := rfl
  unfold tau2_block
  rw [h1, h2]
  rfl

theorem warm_s2_tau2_block (L : Lib α K d B) (P : Prims α) (C : Cfg α N_obs N_lat K d B)
    (k : Nat) (dr : Draws α N_lat K d B) (s : State α N_obs N_lat K d B) :
    s2_tau2_block L P { C with sample_eta_star_mh := true, sample_X_mh := true } Phase.adapt k
        dr s = s2_tau2_block L P C Phase.warmup k dr s := by
  have h2 : s2_tau2_assign L { C with sample_eta_star_mh := true, sample_X_mh := true }
      Phase.adapt dr s = s2_tau2_assign L C Phase.warmup dr s := rfl
  unfold s2_tau2_block
  rw [h2]
  rfl

theorem warm_xi_block (L : Lib α K d B) (P : Prims α) (C : Cfg α N_obs N_lat K d B)
    (k : Nat) (dr : Draws α N_lat K d B) (s : State α N_obs N_lat K d B) :
    xi_block L P { C with sample_eta_star_mh := true, sample_X_mh := true } Phase.adapt k
        dr s = xi_block L P C Phase.warmup k dr s := by
  have h1 : ∀ R_out, xi_mh L P { C with sample_eta_star_mh := true, sample_X_mh := true } dr s
      R_out = xi_mh L P C dr s R_out := fun _ => rfl
  have h2 : ∀ R_out, xi_assign L { C with sample_eta_star_mh := true, sample_X_mh := true }
      Phase.adapt dr s R_out = xi_assign L C Phase.warmup dr s R_out := fun _ => rfl
  have h3 : xi_propose L P { C with sample_eta_star_mh := true, sample_X_mh := true }
      Phase.adapt dr s = xi_propose L P C Phase.warmup dr s := by
    unfold xi_propose
    simp only [h1, h2]
  unfold xi_block
  rw [h3]
  rfl

theorem warm_X_mh_col (L : Lib α K d B) (P : Prims α) (C : Cfg α N_obs N_lat K d B)
    (dr : Draws α N_lat K d B) (s : State α N_obs N_lat K d B) (l : Fin N_lat) :
    X_mh_col L P { C with sample_eta_star_mh := true, sample_X_mh := true } dr s l =
      X_mh_col L P C dr s l := by
  have h1 : X_mh L P { C with sample_eta_star_mh := true, sample_X_mh := true } dr s l =
      X_mh L P C dr s l := rfl
  have h2 : X_assign L P { C with sample_eta_star_mh := true, sample_X_mh := true } dr s l =
      X_assign L P C dr s l := rfl
  unfold X_mh_col
  rw [h1, h2]

theorem warm_X_block (L : Lib α K d B) (P : Prims α) (C : Cfg α N_obs N_lat K d B)
    (fuel k : Nat) (dr : Draws α N_lat K d B) (s : State α N_obs N_lat K d B) :
    X_block L P { C with sample_eta_star_mh := true, sample_X_mh := true } Phase.adapt fuel k
        dr s = X_block L P C Phase.warmup fuel k dr s := by
  have hcol : X_mh_col L P { C with sample_eta_star_mh := true, sample_X_mh := true } dr =
      X_mh_col L P C dr := by
    funext t l
    exact warm_X_mh_col L P C dr t l
  have hb : X_mh_block L P { C with sample_eta_star_mh := true, sample_X_mh := true } k dr s =
      X_mh_block L P C k dr s := by
    unfold X_mh_block
    rw [hcol]
  unfold X_block
  simp only [if_true]
  rw [hb]

end WarmupLemmas

section WarmupClaim

variable {α : Type} [LinearOrderedField α] {N_obs N_lat K d B : Nat}

/-- C28: a warmup iteration is the adaptation iteration of the configuration
with `sample_eta_star_mh = true` and `sample_X_mh = true`: for every state,
iteration index, fuel and random input the two return the same state (every
parameter, derived quantity, batch buffer, acceptance counter and tuning
variable), block by block and as a whole. -/
theorem warmup_is_adapt_with_mh (L : Lib α K d B) (P : Prims α) (C : Cfg α N_obs N_lat K d B)
    (fuel k : Nat) (dr : Draws α N_lat K d B) (s : State α N_obs N_lat K d B) :
    mu_block L P C Phase.warmup k dr s =
        mu_block L P { C with sample_eta_star_mh := true, sample_X_mh := true }
          Phase.adapt k dr s ∧
      phi_block L P C Phase.warmup k dr s =
        phi_block L P { C with sample_eta_star_mh := true, sample_X_mh := true }
          Phase.adapt k dr s ∧
      eta_star_block L P C Phase.warmup fuel k dr s =
        eta_star_block L P { C with sample_eta_star_mh := true, sample_X_mh := true }
          Phase.adapt fuel k dr s ∧
      sigma2_block L P C Phase.warmup k dr s =
        sigma2_block L P { C with sample_eta_star_mh := true, sample_X_mh := true }
          Phase.adapt k dr s ∧
      lambda_sigma2_block L C dr s =
        lambda_sigma2_block L { C with sample_eta_star_mh := true, sample_X_mh := true } dr s ∧
      tau2_block L P C Phase.warmup k dr s =
        tau2_block L P { C with sample_eta_star_mh := true, sample_X_mh := true }
          Phase.adapt k dr s ∧
      s2_tau2_block L P C Phase.warmup k dr s =
        s2_tau2_block L P { C with sample_eta_star_mh := true, sample_X_mh := true }
          Phase.adapt k dr s ∧
      xi_block L P C Phase.warmup k dr s =
        xi_block L P { C with sample_eta_star_mh := true, sample_X_mh := true }
          Phase.adapt k dr s ∧
      X_block L P C Phase.warmup fuel k dr s =
        X_block L P { C with sample_eta_star_mh := true, sample_X_mh := true }
          Phase.adapt fuel k dr s ∧
      iteration L P C Phase.warmup fuel k dr s =
        iteration L P { C with sample_eta_star_mh := true, sample_X_mh := true }
          Phase.adapt fuel k dr s := by
  have hl : ∀ t, lambda_sigma2_block L
      { C with sample_eta_star_mh := true, sample_X_mh := true } dr t =
      lambda_sigma2_block L C dr t := fun _ => rfl
  refine ⟨(warm_mu_block L P C k dr s).symm, (warm_phi_block L P C k dr s).symm,
    (warm_eta_star_block L P C fuel k dr s).symm, (warm_sigma2_block L P C k dr s).symm,
    (hl s).symm, (warm_tau2_block L P C k dr s).symm, (warm_s2_tau2_block L P C k dr s).symm,
    (warm_xi_block L P C k dr s).symm, (warm_X_block L P C fuel k dr s).symm, ?_⟩
  unfold iteration
  simp only [warm_mu_block, warm_phi_block, warm_eta_star_block, warm_sigma2_block, hl,
    warm_tau2_block, warm_s2_tau2_block, warm_xi_block, warm_X_block]

end WarmupClaim

section PoolClaim

variable {α : Type} [LinearOrderedField α] {N_obs N_lat K d B : Nat}

theorem astep_s2_tau2 (L : Lib α K d B) (P : Prims α) (C : Cfg α N_obs N_lat K d B)
    (hpool : C.pool_s2_tau2 = false) (v : α) (s t : State α N_obs N_lat K d B)
    (h : AStep L P C s t) (hs : s.model.s2_tau2 = v) : t.model.s2_tau2 = v := by
  cases h with
  | bookkeeping _ _ hm => rw [hm]; exact hs
  | mu_mh ph dr => cases ph <;> exact hs
  | mu_gibbs dr => exact hs
  | phi ph dr _ hdom => cases ph <;> exact hs
  | eta_star_mh ph dr _ j => cases ph <;> exact hs
  | eta_star_ess _ j prior theta b => exact hs
  | sigma2 ph dr _ hdom => cases ph <;> exact hs
  | tau2 ph dr _ hdom => cases ph <;> exact hs
  | s2_tau2 ph dr _ hdom hp => rw [hpool] at hp; exact absurd hp (by simp)
  | xi ph dr _ R_out hdom hR => cases ph <;> exact hs
  | X_mh dr _ l => exact hs
  | X_ess _ l X_prior theta b => exact hs

/-- C29: when `pool_s2_tau2` is false, the pooled hyper-scale `s2_tau2` has
after the set-up the value `params["s2_tau2"]`, or `1` when that entry is
absent, every iteration of any phase that returns leaves it as it was, and it
still has its initial value after any number of iterations of the warmup loop,
then of the adaptation loop, then of the production loop, whatever the random
inputs. -/
theorem s2_tau2_fixed_without_pooling (L : Lib α K d B) (P : Prims α)
    (Y : Matrix (Fin (N_obs + N_lat)) (Fin d) α) (X_input : Fin (N_obs + N_lat) → α)
    (params : Params α K d B) (pool_s2_tau2 : Bool) (corr_function : String)
    (idr : InitDraws α N_lat K d B) (C : Cfg α N_obs N_lat K d B)
    (s0 : State α N_obs N_lat K d B)
    (hinit : mcmc_init L P Y X_input params pool_s2_tau2 corr_function idr = Run.done (C, s0))
    (hpool : pool_s2_tau2 = false) :
    s0.s2_tau2 = params.s2_tau2.getD 1 ∧
    (∀ (ph : Phase) (fuel k : Nat) (dr : Draws α N_lat K d B) (s t : State α N_obs N_lat K d B),
      iteration L P C ph fuel k dr s = Run.done t → t.s2_tau2 = s.s2_tau2) ∧
    (∀ (wdr adr sdr : Nat → Draws α N_lat K d B) (fuel n1 n2 n3 : Nat)
      (s1 s2 s3 : State α N_obs N_lat K d B),
      phase_loop (fun k s => iteration L P C Phase.warmup fuel k (wdr k) s) n1 s0 =
          Run.done s1 →
        phase_loop (fun k s => iteration L P C Phase.adapt fuel k (adr k) s) n2 s1 =
          Run.done s2 →
        phase_loop (fun k s => iteration L P C Phase.sample fuel k (sdr k) s) n3 s2 =
          Run.done s3 →
        s1.s2_tau2 = s0.s2_tau2 ∧ s2.s2_tau2 = s0.s2_tau2 ∧ s3.s2_tau2 = s0.s2_tau2) := by
  obtain ⟨X, D, D_knots, R_out, _, hC, _, hs⟩ :=
    mcmc_init_eq_done L P Y X_input params pool_s2_tau2 corr_function idr C s0 hinit
  have hp : C.pool_s2_tau2 = false := by
    rw [hC]
    exact hpool
  refine ⟨?_, ?_, ?_⟩
  · rw [hs]
    rfl
  · intro ph fuel k dr s t h
    exact asteps_invariant L P C (fun m => m.s2_tau2 = s.s2_tau2)
      (astep_s2_tau2 L P C hp _) _ _ (asteps_iteration L P C ph fuel k dr s t h) rfl
  · intro wdr adr sdr fuel n1 n2 n3 s1 s2 s3 h1 h2 h3
    have e1 := asteps_invariant L P C (fun m => m.s2_tau2 = s0.s2_tau2)
      (astep_s2_tau2 L P C hp _) _ _ (asteps_phase_loop L P C Phase.warmup fuel wdr n1 s0 s1 h1)
      rfl
    have e2 := asteps_invariant L P C (fun m => m.s2_tau2 = s0.s2_tau2)
      (astep_s2_tau2 L P C hp _) _ _ (asteps_phase_loop L P C Phase.adapt fuel adr n2 s1 s2 h2)
      e1
    have e3 := asteps_invariant L P C (fun m => m.s2_tau2 = s0.s2_tau2)
      (astep_s2_tau2 L P C hp _) _ _ (asteps_phase_loop L P C Phase.sample fuel sdr n3 s2 s3 h3)
      e2
    exact ⟨e1, e2, e3⟩

/-- C29, witness: the run with all switches on and `pool_s2_tau2 = false`
starts with `s2_tau2 = 1`. -/
theorem s2_tau2_fixed_without_pooling_witness :
    ∃ (C : Cfg ℚ 2 1 1 2 1) (s0 : State ℚ 2 1 1 2 1),
      mcmc_init (ratLib 1 2 1) ratPrims demoY demoX mhParams false "exponential" zeroInit =
        Run.done (C, s0) ∧ s0.s2_tau2 = 1 := by
  obtain ⟨C, s0, hinit, _, _⟩ := demo_mcmc_init mhParams rfl
  exact ⟨C, s0, hinit,
    (s2_tau2_fixed_without_pooling (ratLib 1 2 1) ratPrims demoY demoX mhParams false
      "exponential" zeroInit C s0 hinit rfl).1⟩

end PoolClaim

section EtaVecClaim

variable {α : Type} [LinearOrderedField α]

end EtaVecClaim

section JacobianTermLemmas


theorem real_expit_hasDerivAt (y : ℝ) :
    HasDerivAt (fun y : ℝ => 1 / (1 + Real.exp (-y)))
      (1 / (1 + Real.exp (-y)) * (1 - 1 / (1 + Real.exp (-y)))) y := by
  have hpos : 0 < 1 + Real.exp (-y) := by positivity
  have h1 : HasDerivAt (fun y : ℝ => Real.exp (-y)) (Real.exp (-y) * (-1)) y :=
    (Real.hasDerivAt_exp (-y)).comp y (hasDerivAt_neg y)
  have h2 : HasDerivAt (fun y : ℝ => 1 + Real.exp (-y)) (Real.exp (-y) * (-1)) y :=
    h1.const_add 1
  have h3 := h2.inv (ne_of_gt hpos)
  have e : (fun y : ℝ => 1 / (1 + Real.exp (-y))) = fun y : ℝ => (1 + Real.exp (-y))⁻¹ := by
    funext z
    exact one_div _
  rw [e]
  convert h3 using 1
  field_simp
  ring

theorem real_expit_deriv (y : ℝ) :
    deriv (fun y : ℝ => 1 / (1 + Real.exp (-y))) y =
      1 / (1 + Real.exp (-y)) * (1 - 1 / (1 + Real.exp (-y))) :=
  (real_expit_hasDerivAt y).deriv

theorem real_expit_range (y : ℝ) :
    0 < 1 / (1 + Real.exp (-y)) ∧ 1 / (1 + Real.exp (-y)) < 1 := by
  have he : 0 < Real.exp (-y) := Real.exp_pos _
  constructor
  · positivity
  · rw [div_lt_one (by positivity)]
    linarith

theorem real_expit_logit (p : ℝ) (h0 : 0 < p) (h1 : p < 1) :
    1 / (1 + Real.exp (-Real.log (p / (1 - p)))) = p := by
  have hq : 0 < 1 - p := by linarith
  rw [Real.exp_neg, Real.exp_log (div_pos h0 hq)]
  field_simp

theorem real_log_jacobian_logit (p : ℝ) (h0 : 0 < p) (h1 : p < 1) :
    Real.log p + Real.log (1 - p) = Real.log |p * (1 - p)| := by
  have hq : 0 < 1 - p := by linarith
  rw [abs_of_pos (mul_pos h0 hq), Real.log_mul (ne_of_gt h0) (ne_of_gt hq)]

theorem real_log_jacobian_exp (x : ℝ) : x = Real.log |deriv Real.exp x| := by
  rw [Real.deriv_exp, abs_of_pos (Real.exp_pos x), Real.log_exp]

end JacobianTermLemmas

section JacobianTermClaim

/-- C24, over the real numbers with the real `exp` and `log`. The update of
`tau2` adds `sum_j log_tau2_star_j = sum_j log(tau2_star_j)` to `mh1` and
`sum_j log(tau2_j)` to `mh2`, and the update of `xi` adds
`sum_b [log(xi_tilde_b) + log(1 - xi_tilde_b)]` at `xi_tilde_star` to `mh1` and
at `xi_tilde` to `mh2`. For positive `tau2` the first term is the sum over `j`
of `log |d tau2_j / d log tau2_j|`, the derivative of `exp` at `log(tau2_j)`;
for `xi_tilde` in `(0, 1)` the second is the sum over `b` of
`log |d xi_tilde_b / d logit(xi_tilde_b)|`, the derivative of the inverse logit
`y -> 1 / (1 + exp(-y))` at `logit(xi_tilde_b) = log(xi_tilde_b / (1 - xi_tilde_b))`;
`exp` maps `log(tau2_j)` back to `tau2_j` and the inverse logit maps
`logit(xi_tilde_b)` back to `xi_tilde_b`. -/
theorem transformed_scale_jacobians {d B : Nat} (tau2 : Fin d → ℝ) (xi_tilde : Fin B → ℝ)
    (htau : ∀ j, 0 < tau2 j) (hxi : ∀ b, 0 < xi_tilde b ∧ xi_tilde b < 1) :
    (∀ (N_obs N_lat K : Nat) (L : Lib ℝ K d B) (C : Cfg ℝ N_obs N_lat K d B)
      (dr : Draws ℝ N_lat K d B) (s : State ℝ N_obs N_lat K d B)
      (R_out : Matrix (Fin d) (Fin d) ℝ × ℝ),
      tau2_mh L (stdPrims Real.exp Real.log Real.sqrt Real.cos Real.sin Real.pi) C dr s =
          Real.exp ((gauss_loglik C.Y s.mu_mat
                (s.Z * s.eta_star * tau2_R_tau_star L
                  (stdPrims Real.exp Real.log Real.sqrt Real.cos Real.sin Real.pi) dr s)
                s.sigma2 +
              tau2_jacobian_term
                (stdPrims Real.exp Real.log Real.sqrt Real.cos Real.sin Real.pi)
                (tau2_star L
                  (stdPrims Real.exp Real.log Real.sqrt Real.cos Real.sin Real.pi) dr s) +
              ∑ j, L.d_half_cauchy (tau2_star L
                (stdPrims Real.exp Real.log Real.sqrt Real.cos Real.sin Real.pi) dr s j)
                s.s2_tau2) -
            (gauss_loglik C.Y s.mu_mat s.zeta s.sigma2 +
              tau2_jacobian_term
                (stdPrims Real.exp Real.log Real.sqrt Real.cos Real.sin Real.pi) s.tau2 +
              ∑ j, L.d_half_cauchy (s.tau2 j) s.s2_tau2)) ∧
        xi_mh L (stdPrims Real.exp Real.log Real.sqrt Real.cos Real.sin Real.pi) C dr s R_out =
          Real.exp ((gauss_loglik C.Y s.mu_mat
                (s.Z * s.eta_star * (R_out.1 * Matrix.diagonal s.tau)) s.sigma2 +
              xi_jacobian_term
                (stdPrims Real.exp Real.log Real.sqrt Real.cos Real.sin Real.pi)
                (xi_tilde_star L dr s) +
              ∑ b, L.dbeta (1 / 2 * (xi_star L dr s b + 1)) (C.eta_vec b) (C.eta_vec b)) -
            (gauss_loglik C.Y s.mu_mat s.zeta s.sigma2 +
              xi_jacobian_term
                (stdPrims Real.exp Real.log Real.sqrt Real.cos Real.sin Real.pi) s.xi_tilde +
              ∑ b, L.dbeta (1 / 2 * (s.xi b + 1)) (C.eta_vec b) (C.eta_vec b)))) ∧
    tau2_jacobian_term (stdPrims Real.exp Real.log Real.sqrt Real.cos Real.sin Real.pi) tau2 =
      ∑ j, Real.log |deriv Real.exp (Real.log (tau2 j))| ∧
    xi_jacobian_term (stdPrims Real.exp Real.log Real.sqrt Real.cos Real.sin Real.pi)
        xi_tilde =
      ∑ b, Real.log |deriv (fun y : ℝ => 1 / (1 + Real.exp (-y)))
        (Real.log (xi_tilde b / (1 - xi_tilde b)))| ∧
    (∀ j, Real.exp (Real.log (tau2 j)) = tau2 j) ∧
    (∀ b, 1 / (1 + Real.exp (-Real.log (xi_tilde b / (1 - xi_tilde b)))) = xi_tilde b) := by
  refine ⟨?_, ?_, ?_, fun j => Real.exp_log (htau j),
    fun b => real_expit_logit _ (hxi b).1 (hxi b).2⟩
  · intro N_obs N_lat K L C dr s R_out
    refine ⟨?_, rfl⟩
    have hj : tau2_jacobian_term
        (stdPrims Real.exp Real.log Real.sqrt Real.cos Real.sin Real.pi)
        (tau2_star L (stdPrims Real.exp Real.log Real.sqrt Real.cos Real.sin Real.pi) dr s) =
        ∑ j, log_tau2_star L
          (stdPrims Real.exp Real.log Real.sqrt Real.cos Real.sin Real.pi) dr s j := by
      unfold tau2_jacobian_term
      refine Finset.sum_congr rfl ?_
      intro j _
      show Real.log (Real.exp _) = _
      rw [Real.log_exp]
    rw [hj]
    rfl
  · unfold tau2_jacobian_term
    refine Finset.sum_congr rfl ?_
    intro j _
    exact real_log_jacobian_exp (Real.log (tau2 j))
  · unfold xi_jacobian_term
    refine Finset.sum_congr rfl ?_
    intro b _
    obtain ⟨h0, h1⟩ := hxi b
    show Real.log (xi_tilde b) + Real.log (1 - xi_tilde b) = _
    rw [real_expit_deriv, real_expit_logit _ h0 h1]
    exact real_log_jacobian_logit _ h0 h1

/-- C24, witness: for `tau2 = 2` the term `log(2)` is `log |exp'(log 2)|`. -/
theorem transformed_scale_jacobians_witness :
    tau2_jacobian_term (stdPrims Real.exp Real.log Real.sqrt Real.cos Real.sin Real.pi)
        (fun _ : Fin 1 => (2 : ℝ)) =
      ∑ _j : Fin 1, Real.log |deriv Real.exp (Real.log 2)| :=
  (transformed_scale_jacobians (fun _ : Fin 1 => (2 : ℝ)) (fun _ : Fin 1 => (1 / 2 : ℝ))
    (fun _ => by norm_num) (fun _ => ⟨by norm_num, by norm_num⟩)).2.1

end JacobianTermClaim

section InitialDistanceClaim

variable {α : Type} [LinearOrderedField α] {N_obs N_lat K d B : Nat}

theorem foldl_update_at {ι β γ : Type} [DecidableEq ι] [DecidableEq γ] (f : γ → ι)
    (hf : Function.Injective f) (g : γ → β) (l0 : γ) (ls : List γ) (X0 : ι → β) :
    (ls.foldl (fun X l => Function.update X (f l) (g l)) X0) (f l0) =
      if l0 ∈ ls then g l0 else X0 (f l0) := by
  induction ls generalizing X0 with
  | nil => simp
  | cons a ls ih =>
    rw [List.foldl_cons, ih]
    by_cases h1 : l0 ∈ ls
    · rw [if_pos h1, if_pos (List.mem_cons_of_mem a h1)]
    · rw [if_neg h1]
      by_cases h2 : l0 = a
      · subst h2
        rw [Function.update_same, if_pos (List.mem_cons_self _ _)]
      · rw [Function.update_noteq (fun h => h2 (hf h)), if_neg]
        intro h
        rcases List.mem_cons.mp h with h | h
        · exact h2 h
        · exact h1 h

theorem natAdd_injective (n m : Nat) :
    Function.Injective (Fin.natAdd n : Fin m → Fin (n + m)) := by
  intro a b h
  have h1 := congrArg Fin.val h
  simp only [Fin.coe_natAdd] at h1
  exact Fin.ext (by omega)

theorem init_X_latent (L : Lib α K d B) (s_X : α) (X_input : Fin (N_obs + N_lat) → α)
    (X_z : Fin N_lat → α) (l : Fin N_lat) :
    init_X L true s_X X_input X_z (Fin.natAdd N_obs l) = L.rnorm 0 s_X (X_z l) := by
  unfold init_X
  rw [if_pos rfl]
  rw [foldl_update_at (Fin.natAdd N_obs) (natAdd_injective N_obs N_lat)
    (fun l => L.rnorm 0 s_X (X_z l)) l (List.finRange N_lat) X_input,
    if_pos (List.mem_finRange l)]

theorem mcmc_init_X (L : Lib α K d B) (P : Prims α)
    (Y : Matrix (Fin (N_obs + N_lat)) (Fin d) α) (X_input : Fin (N_obs + N_lat) → α)
    (params : Params α K d B) (pool_s2_tau2 : Bool) (corr_function : String)
    (idr : InitDraws α N_lat K d B) (C : Cfg α N_obs N_lat K d B)
    (s0 : State α N_obs N_lat K d B)
    (h : mcmc_init L P Y X_input params pool_s2_tau2 corr_function idr = Run.done (C, s0)) :
    s0.X = init_X L (params.sample_X.getD true) (P.sqrt (var_obs X_input)) X_input
      idr.X_z := by
  unfold mcmc_init at h
  dsimp only at h
  obtain ⟨DD, _, h⟩ := Run.bind_eq_done _ _ _ h
  split at h
  · exact absurd h (by simp)
  · simp only [Run.done.injEq, Prod.mk.injEq] at h
    rw [← h.2]
    rfl

/-- C27, the behaviour of the code. Let `makeDistARMA(x, y)(i, k) = |x(i) - y(k)|`
and let the set-up return the constants `C` and the state `s0`. Then every row
of the initial `D`, the latent rows included, is the distance of `X(i)` itself
to the knots, `|X(i) - X_knots(k)|` (squared for the gaussian kernel), with no
`mu_X` added, although `mu_X` is the mean of the observed covariates and a
latent `X(i)` was drawn around zero. In every state `t` that the updates reach
from `s0`, row `i` of `D` is either still that initial row, with `X(i)`
unchanged, or the row `sqrt((X(i) + mu_X - X_knots(k))^2)` (squared for the
gaussian kernel) that an accepted covariate update wrote. -/
theorem initial_distances_skip_recentring (L : Lib α K d B) (P : Prims α)
    (Y : Matrix (Fin (N_obs + N_lat)) (Fin d) α) (X_input : Fin (N_obs + N_lat) → α)
    (params : Params α K d B) (pool_s2_tau2 : Bool) (corr_function : String)
    (idr : InitDraws α N_lat K d B) (C : Cfg α N_obs N_lat K d B)
    (s0 : State α N_obs N_lat K d B)
    (hdist : ∀ (x : Fin (N_obs + N_lat) → α) (y : Fin K → α) i k,
      L.makeDistARMA x y i k = |x i - y k|)
    (h : mcmc_init L P Y X_input params pool_s2_tau2 corr_function idr = Run.done (C, s0)) :
    C.mu_X = mean_obs X_input ∧
      (∀ l, params.sample_X.getD true = true →
        s0.X (Fin.natAdd N_obs l) = L.rnorm 0 (P.sqrt (var_obs X_input)) (idr.X_z l)) ∧
      (∀ i k, s0.D i k =
        if corr_function = "gaussian" then |s0.X i - C.X_knots k| ^ 2
        else |s0.X i - C.X_knots k|) ∧
      ∀ t, ASteps L P C s0 t → ∀ i,
        (t.X i = s0.X i ∧ t.D i = s0.D i) ∨
          t.D i = dist_row P C.corr_function C.X_knots (t.X i + C.mu_X) := by
  obtain ⟨X, D, D_knots, R_out, hD, hC, _, hs⟩ :=
    mcmc_init_eq_done L P Y X_input params pool_s2_tau2 corr_function idr C s0 h
  have hk : C.X_knots = params.X_knots := by rw [hC]; rfl
  refine ⟨by rw [hC]; rfl, ?_, ?_, ?_⟩
  · intro l hl
    rw [mcmc_init_X L P Y X_input params pool_s2_tau2 corr_function idr C s0 h, hl]
    exact init_X_latent L _ X_input idr.X_z l
  · intro i k
    rcases init_distances L P Y X_input params pool_s2_tau2 corr_function idr C s0 h with
      ⟨hg, _, h0⟩ | ⟨he, _, h0⟩
    · rw [if_pos hg, h0, hk]
      show (L.makeDistARMA s0.X params.X_knots i k) ^ 2 = _
      rw [hdist]
    · have hne : ¬ corr_function = "gaussian" := by
        rw [he]
        decide
      rw [if_neg hne, h0, hk, hdist]
  · intro t ht
    exact distOk_of_asteps L P C s0.X s0.D s0 t ht (fun i => Or.inl ⟨rfl, rfl⟩)

/-- C27, witness: two observed covariates `0` and `1`, so `mu_X = 1/2`, one
latent sample drawn at `0`, one knot at `0`, exponential kernel. The latent
row of the initial `D` holds `|0 - 0| = 0`, while the distance of the
re-centred covariate to the knot is `|0 + 1/2 - 0| = 1/2`. -/
theorem initial_distances_skip_recentring_witness :
    ∃ (C : Cfg ℚ 2 1 1 2 1) (s0 : State ℚ 2 1 1 2 1),
      mcmc_init (ratLib 1 2 1) ratPrims demoY demoX mhParams false "exponential" zeroInit =
          Run.done (C, s0) ∧
        C.mu_X = 1 / 2 ∧ C.X_knots 0 = 0 ∧ s0.X (Fin.natAdd 2 0) = 0 ∧
        s0.D (Fin.natAdd 2 0) 0 = 0 ∧
        |s0.X (Fin.natAdd 2 0) + C.mu_X - C.X_knots 0| = 1 / 2 := by
  have hinit := mcmc_init_exponential (ratLib 1 2 1) ratPrims demoY demoX mhParams false
    zeroInit (1, 0) (demo_makeRLKJ mhParams rfl _)
  obtain ⟨hmu, hX, hDD, _⟩ := initial_distances_skip_recentring (ratLib 1 2 1) ratPrims demoY
    demoX mhParams false "exponential" zeroInit _ _ (fun _ _ _ _ => rfl) hinit
  have hmu1 := hmu.trans (show mean_obs demoX = 1 / 2 by
    simp [mean_obs, demoX, Fin.sum_univ_two])
  have hx := (hX 0 rfl).trans (show (ratLib 1 2 1).rnorm 0 (ratPrims.sqrt (var_obs demoX))
      (zeroInit.X_z 0) = 0 by simp [ratLib, zeroInit])
  have hd := hDD (Fin.natAdd 2 0) 0
  rw [if_neg (by decide), hx] at hd
  refine ⟨_, _, hinit, hmu1, rfl, hx, ?_, ?_⟩
  · rw [hd]
    show |(0 : ℚ) - 0| = 0
    simp
  · rw [hx, hmu1]
    show |(0 : ℚ) + 1 / 2 - 0| = 1 / 2
    norm_num [abs_of_pos]

end InitialDistanceClaim

end MVGP
